import Mathlib

/-!
# PRCMU mailbox driver (drivers/mfd/db5500-prcmu.c)

A shallow embedding of the U5500 PRCMU mailbox driver.  The driver state (the
file-scope `mbN_transfer` structures and the function-local statics) and the
shared TCDM memory are fields of `World`; every hardware access the driver
makes is appended, in program order, to `World.trace`.

Environment:
* `World.cpu_val` lists the values that successive `readl(PRCM_MBOX_CPU_VAL)`
  calls return; a busy-wait loop that uses the list up without seeing its bit
  clear never returns (`none`).
* `World.sem` does the same for `readl(PRCM_SEM)`.
* an `Irq` is one interrupt raised by the firmware: the bytes it stored into
  TCDM beforehand and the value `readl(PRCM_ARM_IT1_VAL)` yields in the handler.
  A blocking wait receives the list of interrupts that arrive while it sleeps.

Concurrency: a schedule is the list of the events of all running calls in the
order they happen, each with the thread it belongs to; a lock is taken only when
free.

Two smaller developments follow the driver's definitions: the power-state
reference count of `drivers/regulator/dbx500-prcmu.c` (namespace
`Dbx500Regulator`) and `tx_policy_build` of `drivers/staging/cw1200/txrx.c`
(namespace `Cw1200`).
-/

namespace Db5500Prcmu

/-! ## Constants -/

def BIT (n : Nat) : Nat := 1 <<< n
def MBOX_BIT (n : Nat) : Nat := BIT n
def NUM_MB : Nat := 8
def ALL_MBOX_BITS : Nat := MBOX_BIT NUM_MB - 1
def U32_MAX : Nat := 0xFFFFFFFF

def EIO : Int := 5
def EINVAL : Int := 22

/-- Offset of the mailbox header bytes from `tcdm_base`. -/
def PRCM_MB_HEADER : Nat := 0xFE8
def PRCM_REQ_MB0_HEADER : Nat := PRCM_MB_HEADER + 0x0
def PRCM_REQ_MB1_HEADER : Nat := PRCM_MB_HEADER + 0x1
def PRCM_REQ_MB2_HEADER : Nat := PRCM_MB_HEADER + 0x2
def PRCM_REQ_MB3_HEADER : Nat := PRCM_MB_HEADER + 0x3
def PRCM_REQ_MB4_HEADER : Nat := PRCM_MB_HEADER + 0x4
def PRCM_REQ_MB5_HEADER : Nat := PRCM_MB_HEADER + 0x5
def PRCM_REQ_MB6_HEADER : Nat := PRCM_MB_HEADER + 0x6
def PRCM_REQ_MB7_HEADER : Nat := PRCM_MB_HEADER + 0x7
def PRCM_ACK_MB0_HEADER : Nat := PRCM_MB_HEADER + 0x8
def PRCM_ACK_MB1_HEADER : Nat := PRCM_MB_HEADER + 0x9
def PRCM_ACK_MB2_HEADER : Nat := PRCM_MB_HEADER + 0xa
def PRCM_ACK_MB3_HEADER : Nat := PRCM_MB_HEADER + 0xb
def PRCM_ACK_MB4_HEADER : Nat := PRCM_MB_HEADER + 0xc
def PRCM_ACK_MB5_HEADER : Nat := PRCM_MB_HEADER + 0xd
def PRCM_ACK_MB6_HEADER : Nat := PRCM_MB_HEADER + 0xe
def PRCM_ACK_MB7_HEADER : Nat := PRCM_MB_HEADER + 0xf

def PRCM_REQ_MB0 : Nat := 0xFD8
def PRCM_REQ_MB1 : Nat := 0xFCC
def PRCM_REQ_MB2 : Nat := 0xFC4
def PRCM_REQ_MB3 : Nat := 0xFC0
def PRCM_REQ_MB4 : Nat := 0xF98
def PRCM_REQ_MB5 : Nat := 0xF90
def PRCM_REQ_MB6 : Nat := 0xF8C
def PRCM_REQ_MB7 : Nat := 0xF84

def PRCM_ACK_MB0 : Nat := 0xF38
def PRCM_ACK_MB1 : Nat := 0xF30
def PRCM_ACK_MB2 : Nat := 0xF24
def PRCM_ACK_MB3 : Nat := 0xF20
def PRCM_ACK_MB4 : Nat := 0xF1C
def PRCM_ACK_MB5 : Nat := 0xF14
def PRCM_ACK_MB6 : Nat := 0xF0C
def PRCM_ACK_MB7 : Nat := 0xF08

def PRCM_REQ_MB0_AP_POWER_STATE : Nat := PRCM_REQ_MB0 + 0x0
def PRCM_REQ_MB0_ULP_CLOCK_STATE : Nat := PRCM_REQ_MB0 + 0x1
def PRCM_REQ_MB0_AP_PLL_STATE : Nat := PRCM_REQ_MB0 + 0x2
def PRCM_REQ_MB0_DDR_STATE : Nat := PRCM_REQ_MB0 + 0x3
def PRCM_REQ_MB0_ESRAM0_STATE : Nat := PRCM_REQ_MB0 + 0x4
def PRCM_REQ_MB0_WAKEUP_DBB : Nat := PRCM_REQ_MB0 + 0x8
def PRCM_REQ_MB0_WAKEUP_ABB : Nat := PRCM_REQ_MB0 + 0xC

def PRCM_ACK_MB0_AP_PWRSTTR_STATUS : Nat := PRCM_ACK_MB0 + 0x0
def PRCM_ACK_MB0_READ_POINTER : Nat := PRCM_ACK_MB0 + 0x1
def PRCM_ACK_MB0_WAKEUP_0_DBB : Nat := PRCM_ACK_MB0 + 0x4
def PRCM_ACK_MB0_WAKEUP_0_ABB : Nat := PRCM_ACK_MB0 + 0x8
def PRCM_ACK_MB0_WAKEUP_1_DBB : Nat := PRCM_ACK_MB0 + 0x28
def PRCM_ACK_MB0_WAKEUP_1_ABB : Nat := PRCM_ACK_MB0 + 0x2C

def PRCM_REQ_MB1_ARM_OPP : Nat := PRCM_REQ_MB1 + 0x0
def PRCM_REQ_MB1_APE_OPP : Nat := PRCM_REQ_MB1 + 0x1

def PRCM_ACK_MB1_CURRENT_ARM_OPP : Nat := PRCM_ACK_MB1 + 0x0
def PRCM_ACK_MB1_CURRENT_APE_OPP : Nat := PRCM_ACK_MB1 + 0x1
def PRCM_ACK_MB1_ARM_VOLT_STATUS : Nat := PRCM_ACK_MB1 + 0x2
def PRCM_ACK_MB1_APE_VOLT_STATUS : Nat := PRCM_ACK_MB1 + 0x3

def PRCM_REQ_MB2_EPOD_CLIENT : Nat := PRCM_REQ_MB2 + 0x0
def PRCM_REQ_MB2_EPOD_STATE : Nat := PRCM_REQ_MB2 + 0x1
def PRCM_REQ_MB2_CLK_CLIENT : Nat := PRCM_REQ_MB2 + 0x2
def PRCM_REQ_MB2_CLK_STATE : Nat := PRCM_REQ_MB2 + 0x3
def PRCM_REQ_MB2_PLL_CLIENT : Nat := PRCM_REQ_MB2 + 0x4
def PRCM_REQ_MB2_PLL_STATE : Nat := PRCM_REQ_MB2 + 0x5

def PRCM_ACK_MB2_EPOD_STATUS : Nat := PRCM_ACK_MB2 + 0x2
def PRCM_ACK_MB2_CLK_STATUS : Nat := PRCM_ACK_MB2 + 0x6
def PRCM_ACK_MB2_PLL_STATUS : Nat := PRCM_ACK_MB2 + 0xA

def PRCM_REQ_MB3_REFCLK_MGT : Nat := PRCM_REQ_MB3 + 0x0
def PRCM_ACK_MB3_REFCLK_REQ : Nat := PRCM_ACK_MB3 + 0x0

def PRCM_REQ_MB5_I2C_SLAVE : Nat := PRCM_REQ_MB5 + 0
def PRCM_REQ_MB5_I2C_REG : Nat := PRCM_REQ_MB5 + 1
def PRCM_REQ_MB5_I2C_SIZE : Nat := PRCM_REQ_MB5 + 2
def PRCM_REQ_MB5_I2C_DATA : Nat := PRCM_REQ_MB5 + 4

def PRCM_ACK_MB5_RETURN_CODE : Nat := PRCM_ACK_MB5 + 0
def PRCM_ACK_MB5_I2C_DATA : Nat := PRCM_ACK_MB5 + 4

/-- The `enum mb_return_code`. -/
def RC_SUCCESS : Nat := 0
def RC_FAIL : Nat := 1

/-- The `enum mb0_header`. -/
def MB0H_WAKE_UP : Nat := 0
def MB0H_PWR_STATE_TRANS : Nat := 1
def MB0H_WAKE_UP_CFG : Nat := 2
def MB0H_RD_WAKE_UP_ACK : Nat := 3

/-- The `enum mb1_header`. -/
def MB1H_ARM_OPP : Nat := 1
def MB1H_APE_OPP : Nat := 2
def MB1H_ARM_APE_OPP : Nat := 3

/-- The `enum mb2_header`. -/
def MB2H_EPOD_REQUEST : Nat := 1
def MB2H_CLK_REQUEST : Nat := 2
def MB2H_PLL_REQUEST : Nat := 3

/-- The `enum mb3_header`. -/
def MB3H_REFCLK_REQUEST : Nat := 1

/-- The `enum sysclk_state`. -/
def SYSCLK_OFF : Nat := 0
def SYSCLK_ON : Nat := 1

/-- The `enum mb5_header`. -/
def MB5H_I2C_WRITE : Nat := 1
def MB5H_I2C_READ : Nat := 2

/-- The `enum db5500_prcmu_pll`. -/
def DB5500_PLL_SOC0 : Nat := 0
def DB5500_PLL_SOC1 : Nat := 1
def DB5500_PLL_DDR : Nat := 2
def DB5500_NUM_PLL_ID : Nat := 3

/-- The `enum on_off_ret`. -/
def OFF_ST : Nat := 0
def RET_ST : Nat := 1
def ON_ST : Nat := 2

/-- The `enum db5500_ap_pwr_state`. -/
def DB5500_AP_SLEEP : Nat := 2
def DB5500_AP_DEEP_SLEEP : Nat := 3
def DB5500_AP_IDLE : Nat := 4

def WAKEUP_BIT_RTC : Nat := BIT 0
def WAKEUP_BIT_RTT0 : Nat := BIT 1
def WAKEUP_BIT_RTT1 : Nat := BIT 2
def WAKEUP_BIT_CD_IRQ : Nat := BIT 3
def WAKEUP_BIT_SRP_TIM : Nat := BIT 4
def WAKEUP_BIT_APE_REQ : Nat := BIT 5
def WAKEUP_BIT_USB : Nat := BIT 6
def WAKEUP_BIT_ABB : Nat := BIT 7
def WAKEUP_BIT_LOW_POWER_AUDIO : Nat := BIT 8
def WAKEUP_BIT_TEMP_SENSOR : Nat := BIT 9
def WAKEUP_BIT_ARM : Nat := BIT 10
def WAKEUP_BIT_AC_WAKE_ACK : Nat := BIT 11
def WAKEUP_BIT_MODEM_SW_RESET_REQ : Nat := BIT 20
def WAKEUP_BIT_GPIO0 : Nat := BIT 23
def WAKEUP_BIT_GPIO1 : Nat := BIT 24
def WAKEUP_BIT_GPIO2 : Nat := BIT 25
def WAKEUP_BIT_GPIO3 : Nat := BIT 26
def WAKEUP_BIT_GPIO4 : Nat := BIT 27
def WAKEUP_BIT_GPIO5 : Nat := BIT 28
def WAKEUP_BIT_GPIO6 : Nat := BIT 29
def WAKEUP_BIT_GPIO7 : Nat := BIT 30
def WAKEUP_BIT_AC_REL_ACK : Nat := BIT 30

/-- Modelled from the spec: `IRQ_INDEX(_name)` is
`IRQ_DB5500_PRCMU_<name> - IRQ_DB5500_PRCMU_BASE`, declared in `mach/irqs.h`,
which is not among the sources.  The table comment says the irq numbers are
contiguous; the virtual lines are numbered in the order the initialiser lists
them, so entry `n` of this list is `prcmu_irq_bit[n]`. -/
def prcmu_irq_bit : List Nat :=
  [ WAKEUP_BIT_RTC, WAKEUP_BIT_RTT0, WAKEUP_BIT_RTT1, WAKEUP_BIT_CD_IRQ,
    WAKEUP_BIT_SRP_TIM, WAKEUP_BIT_APE_REQ, WAKEUP_BIT_USB, WAKEUP_BIT_ABB,
    WAKEUP_BIT_LOW_POWER_AUDIO, WAKEUP_BIT_TEMP_SENSOR, WAKEUP_BIT_ARM,
    WAKEUP_BIT_AC_WAKE_ACK, WAKEUP_BIT_MODEM_SW_RESET_REQ,
    WAKEUP_BIT_GPIO0, WAKEUP_BIT_GPIO1, WAKEUP_BIT_GPIO2, WAKEUP_BIT_GPIO3,
    WAKEUP_BIT_GPIO4, WAKEUP_BIT_GPIO5, WAKEUP_BIT_GPIO6, WAKEUP_BIT_GPIO7,
    WAKEUP_BIT_AC_REL_ACK ]

def NUM_DB5500_PRCMU_WAKEUPS : Nat := prcmu_irq_bit.length

/-- Indices of the virtual lines named in the claims (see `prcmu_irq_bit`). -/
def IRQ_INDEX_RTC : Nat := 0
def IRQ_INDEX_USB : Nat := 6
def IRQ_INDEX_GPIO7 : Nat := 20
def IRQ_INDEX_AC_REL_ACK : Nat := 21

/-- Values declared in headers that are not among the sources
(`linux/mfd/dbx500-prcmu.h`, `dbx500-prcmu-regs.h`): they are parameters of the
functions that use them. -/
structure Headers where
  /-- The table `prcmu_wakeup_bit`, indexed by `PRCMU_WAKEUP_INDEX_*`; its
  length is `NUM_PRCMU_WAKEUP_INDICES`, indices not initialised hold 0. -/
  prcmu_wakeup_bit : List Nat
  /-- The column `offset` of the table `clk_mgt` (`PRCM_<name>_MGT_OFF`), by clock
  id. -/
  clk_mgt_offset : Nat → Nat
  PRCMU_NUM_REG_CLOCKS : Nat
  PRCMU_TIMCLK : Nat
  PRCMU_PLLSOC0 : Nat
  PRCMU_PLLSOC1 : Nat
  PRCMU_PLLDDR : Nat
  PRCMU_SYSCLK : Nat
  PRCM_TCR_DOZE_MODE : Nat
  PRCM_TCR_TENSEL_MASK : Nat
  PRCM_TCR_STOP_TIMERS : Nat
  PRCM_SEM_PRCM_SEM : Nat
  PRCM_CLK_MGT_CLKEN : Nat
  PRCM_CLK_MGT_CLKPLLSW_MASK : Nat
  ESRAM0_DEEP_SLEEP_STATE_OFF : Nat
  ESRAM0_DEEP_SLEEP_STATE_RET : Nat
  PRCMU_AP_SLEEP : Nat
  PRCMU_AP_DEEP_SLEEP : Nat
  PRCMU_AP_IDLE : Nat
  PRCMU_AP_DEEP_IDLE : Nat
  DDR_PWR_STATE_UNCHANGED : Nat

def NUM_PRCMU_WAKEUP_INDICES (H : Headers) : Nat := H.prcmu_wakeup_bit.length
def VALID_WAKEUPS (H : Headers) : Nat := BIT (NUM_PRCMU_WAKEUP_INDICES H) - 1

/-! ## Trace, state and hardware access -/

inductive Lock where
  | mb0
  | dbb_irqs
  | mb1
  | mb2
  | sysclk
  | mb5
  | clk_mgt
  deriving DecidableEq, Repr

/-- The completion objects of the driver. -/
inductive Compl where
  | mb1_work
  | mb2_work
  | sysclk_work
  | mb5_work
  deriving DecidableEq, Repr

/-- PRCMU registers the driver writes. -/
inductive Reg where
  | PRCM_MBOX_CPU_SET
  | PRCM_ARM_IT1_CLR
  | PRCM_SEM
  | PRCM_TCR
  | CLK_MGT (clock : Nat)
  deriving DecidableEq, Repr

inductive Event where
  | lock (l : Lock)
  | unlock (l : Lock)
  | readl_cpu_val (v : Nat)
  | readl_sem (v : Nat)
  | writeb (off : Nat) (v : Nat)
  | writel (off : Nat) (v : Nat)
  | memcpy_toio (off : Nat) (bytes : List Nat)
  | reg_writel (r : Reg) (v : Nat)
  | generic_handle_irq (n : Nat)
  | complete (c : Compl)
  | wait_end (c : Compl) (completed : Bool)
  | schedule_work
  | warn
  | pr_err
  | pr_warning (mb : Nat) (header : Nat)
  deriving DecidableEq, Repr

inductive irqreturn_t where
  | IRQ_NONE
  | IRQ_HANDLED
  | IRQ_WAKE_THREAD
  deriving DecidableEq, Repr

structure World where
  /-- Fields of `mb0_transfer.req`. -/
  dbb_irqs : Nat
  dbb_wakeups : Nat
  abb_events : Nat
  /-- The statics of `config_wakeups`. -/
  last_dbb_events : Nat
  last_abb_events : Nat
  /-- Whether `mb0_transfer.mask_work` is queued. -/
  mask_work_pending : Bool
  mb1_done : Nat
  mb1_ack_header : Nat
  mb1_ack_arm_opp : Nat
  mb1_ack_ape_opp : Nat
  mb1_ack_arm_voltage_st : Nat
  mb1_ack_ape_voltage_st : Nat
  mb2_done : Nat
  mb2_req_pll_st : Nat → Nat
  mb2_ack_header : Nat
  mb2_ack_status : Nat
  mb3_done : Nat
  mb3_req_st : Nat
  mb3_ack_header : Nat
  mb3_ack_status : Nat
  mb5_done : Nat
  mb5_ack_header : Nat
  mb5_ack_status : Nat
  mb5_ack_value : List Nat
  /-- The `pllsw` column of `clk_mgt`. -/
  clk_mgt_pllsw : Nat → Nat
  /-- The clock management registers, by clock id. -/
  clk_mgt_reg : Nat → Nat
  /-- Bytes of the TCDM window, by offset from `tcdm_base`. -/
  tcdm : Nat → Nat
  cpu_val : List Nat
  sem : List Nat
  trace : List Event

/-- The file-scope state as the C runtime zero-initialises it, over a given
memory image and environment. -/
def World.boot (tcdm : Nat → Nat) (cpu_val sem : List Nat) : World :=
  { dbb_irqs := 0, dbb_wakeups := 0, abb_events := 0,
    last_dbb_events := 0, last_abb_events := 0, mask_work_pending := false,
    mb1_done := 0, mb1_ack_header := 0, mb1_ack_arm_opp := 0, mb1_ack_ape_opp := 0,
    mb1_ack_arm_voltage_st := 0, mb1_ack_ape_voltage_st := 0,
    mb2_done := 0, mb2_req_pll_st := fun _ => 0, mb2_ack_header := 0, mb2_ack_status := 0,
    mb3_done := 0, mb3_req_st := 0, mb3_ack_header := 0, mb3_ack_status := 0,
    mb5_done := 0, mb5_ack_header := 0, mb5_ack_status := 0, mb5_ack_value := [0, 0, 0, 0],
    clk_mgt_pllsw := fun _ => 0, clk_mgt_reg := fun _ => 0,
    tcdm := tcdm, cpu_val := cpu_val, sem := sem, trace := [] }

def emit (e : Event) (w : World) : World :=
  { w with trace := w.trace ++ [e] }

def readb (off : Nat) (w : World) : Nat := w.tcdm off % 256

/-- Little-endian 32-bit load. -/
def readl (off : Nat) (w : World) : Nat :=
  readb off w + readb (off + 1) w * 2 ^ 8 + readb (off + 2) w * 2 ^ 16
    + readb (off + 3) w * 2 ^ 24

def store (off v : Nat) (m : Nat → Nat) : Nat → Nat :=
  fun a => if a = off then v % 256 else m a

def writeb (v off : Nat) (w : World) : World :=
  emit (Event.writeb off (v % 256)) { w with tcdm := store off v w.tcdm }

/-- Little-endian 32-bit store. -/
def writel (v off : Nat) (w : World) : World :=
  emit (Event.writel off (v % 2 ^ 32))
    { w with tcdm := store (off + 3) (v / 2 ^ 24) (store (off + 2) (v / 2 ^ 16)
        (store (off + 1) (v / 2 ^ 8) (store off v w.tcdm))) }

def store_bytes : Nat → List Nat → (Nat → Nat) → Nat → Nat
  | _, [], m => m
  | off, b :: bs, m => store_bytes (off + 1) bs (store off b m)

def memcpy_toio (off : Nat) (bytes : List Nat) (w : World) : World :=
  emit (Event.memcpy_toio off (bytes.map (fun b => b % 256)))
    { w with tcdm := store_bytes off bytes w.tcdm }

def memcpy_fromio (off n : Nat) (w : World) : List Nat :=
  (List.range n).map (fun i => readb (off + i) w)

def reg_writel (v : Nat) (r : Reg) (w : World) : World :=
  emit (Event.reg_writel r v) w

/-- The loop `while (readl(PRCM_MBOX_CPU_VAL) & MBOX_BIT(n)) cpu_relax();` over the
values the register will show. -/
def poll_mbox (n : Nat) (w : World) : List Nat → Option World
  | [] => none
  | v :: rest =>
    let w1 := emit (Event.readl_cpu_val v) { w with cpu_val := rest }
    if v &&& MBOX_BIT n ≠ 0 then poll_mbox n w1 rest else some w1

def wait_mbox_clear (n : Nat) (w : World) : Option World :=
  poll_mbox n w w.cpu_val

/-- The loop `while ((readl(PRCM_SEM) & PRCM_SEM_PRCM_SEM) != 0) cpu_relax();`. -/
def poll_sem (H : Headers) (w : World) : List Nat → Option World
  | [] => none
  | v :: rest =>
    let w1 := emit (Event.readl_sem v) { w with sem := rest }
    if v &&& H.PRCM_SEM_PRCM_SEM ≠ 0 then poll_sem H w1 rest else some w1

def Compl.done (c : Compl) (w : World) : Nat :=
  match c with
  | .mb1_work => w.mb1_done
  | .mb2_work => w.mb2_done
  | .sysclk_work => w.mb3_done
  | .mb5_work => w.mb5_done

def Compl.set_done (c : Compl) (d : Nat) (w : World) : World :=
  match c with
  | .mb1_work => { w with mb1_done := d }
  | .mb2_work => { w with mb2_done := d }
  | .sysclk_work => { w with mb3_done := d }
  | .mb5_work => { w with mb5_done := d }

/-- Kernel `init_completion`: the count of pending signals is zeroed. -/
def init_completion (c : Compl) (w : World) : World := c.set_done 0 w

/-- Kernel `complete`: one more pending signal. -/
def complete (c : Compl) (w : World) : World :=
  emit (Event.complete c) (c.set_done (c.done w + 1) w)

/-- Whether lock `l` is held at the end of a trace. -/
def lock_held (l : Lock) (tr : List Event) : Bool :=
  tr.foldl (fun h e => if e = Event.lock l then true else if e = Event.unlock l then false else h)
    false

/-! ## Acknowledge readers and the interrupt handler -/

def print_unknown_header_warning (n header : Nat) (w : World) : World :=
  emit (Event.pr_warning n header) w

/-- The loop `for (n = 0; n < NUM_DB5500_PRCMU_WAKEUPS; n++)` of `read_mailbox_0`,
from line `n` on, over the remaining entries of `prcmu_irq_bit`. -/
def dispatch_wakeups (ev : Nat) : Nat → List Nat → World → World
  | _, [], w => w
  | n, b :: bs, w =>
    dispatch_wakeups ev (n + 1) bs
      (if ev &&& b ≠ 0 then emit (Event.generic_handle_irq n) w else w)

def read_mailbox_0 (w : World) : World × Bool :=
  let header := readb PRCM_ACK_MB0_HEADER w
  let p : World × Bool :=
    if header = MB0H_WAKE_UP then
      let ev :=
        if readb PRCM_ACK_MB0_READ_POINTER w &&& 1 ≠ 0 then readl PRCM_ACK_MB0_WAKEUP_1_DBB w
        else readl PRCM_ACK_MB0_WAKEUP_0_DBB w
      let ev := ev &&& w.dbb_irqs
      (dispatch_wakeups ev 0 prcmu_irq_bit w, true)
    else
      (print_unknown_header_warning 0 header w, false)
  (reg_writel (MBOX_BIT 0) Reg.PRCM_ARM_IT1_CLR p.1, p.2)

def read_mailbox_1 (w : World) : World × Bool :=
  let header := readb PRCM_ACK_MB1_HEADER w
  let w := { w with mb1_ack_header := header }
  let p : World × Bool :=
    if header = MB1H_ARM_OPP then
      ({ w with mb1_ack_arm_opp := readb PRCM_ACK_MB1_CURRENT_ARM_OPP w,
                mb1_ack_arm_voltage_st := readb PRCM_ACK_MB1_ARM_VOLT_STATUS w }, true)
    else if header = MB1H_ARM_APE_OPP then
      ({ w with mb1_ack_ape_opp := readb PRCM_ACK_MB1_CURRENT_APE_OPP w,
                mb1_ack_ape_voltage_st := readb PRCM_ACK_MB1_APE_VOLT_STATUS w }, true)
    else
      (print_unknown_header_warning 1 header w, false)
  let w := reg_writel (MBOX_BIT 1) Reg.PRCM_ARM_IT1_CLR p.1
  let w := if p.2 then complete Compl.mb1_work w else w
  (w, false)

def read_mailbox_2 (w : World) : World × Bool :=
  let header := readb PRCM_ACK_MB2_HEADER w
  let w := { w with mb2_ack_header := header }
  if header = MB2H_EPOD_REQUEST then
    let w := { w with mb2_ack_status := readb PRCM_ACK_MB2_EPOD_STATUS w }
    (complete Compl.mb2_work (reg_writel (MBOX_BIT 2) Reg.PRCM_ARM_IT1_CLR w), false)
  else if header = MB2H_CLK_REQUEST then
    let w := { w with mb2_ack_status := readb PRCM_ACK_MB2_CLK_STATUS w }
    (complete Compl.mb2_work (reg_writel (MBOX_BIT 2) Reg.PRCM_ARM_IT1_CLR w), false)
  else if header = MB2H_PLL_REQUEST then
    let w := { w with mb2_ack_status := readb PRCM_ACK_MB2_PLL_STATUS w }
    (complete Compl.mb2_work (reg_writel (MBOX_BIT 2) Reg.PRCM_ARM_IT1_CLR w), false)
  else
    (emit Event.pr_err (reg_writel (MBOX_BIT 2) Reg.PRCM_ARM_IT1_CLR w), false)

def read_mailbox_3 (w : World) : World × Bool :=
  let header := readb PRCM_ACK_MB3_HEADER w
  let w := { w with mb3_ack_header := header }
  if header = MB3H_REFCLK_REQUEST then
    let w := { w with mb3_ack_status := readb PRCM_ACK_MB3_REFCLK_REQ w }
    (complete Compl.sysclk_work (reg_writel (MBOX_BIT 3) Reg.PRCM_ARM_IT1_CLR w), false)
  else
    (emit Event.pr_err (reg_writel (MBOX_BIT 3) Reg.PRCM_ARM_IT1_CLR w), false)

def read_mailbox_4 (w : World) : World × Bool :=
  (reg_writel (MBOX_BIT 4) Reg.PRCM_ARM_IT1_CLR w, false)

/-- The `MB5H_I2C_READ` case falls through into the `MB5H_I2C_WRITE` case. -/
def read_mailbox_5 (w : World) : World × Bool :=
  let header := readb PRCM_ACK_MB5_HEADER w
  let w1 :=
    if header = MB5H_I2C_READ then
      let w := { w with mb5_ack_value := memcpy_fromio PRCM_ACK_MB5_I2C_DATA 4 w }
      complete Compl.mb5_work
        { w with mb5_ack_header := header, mb5_ack_status := readb PRCM_ACK_MB5_RETURN_CODE w }
    else if header = MB5H_I2C_WRITE then
      complete Compl.mb5_work
        { w with mb5_ack_header := header, mb5_ack_status := readb PRCM_ACK_MB5_RETURN_CODE w }
    else
      print_unknown_header_warning 5 header w
  (reg_writel (MBOX_BIT 5) Reg.PRCM_ARM_IT1_CLR w1, false)

def read_mailbox_6 (w : World) : World × Bool :=
  (reg_writel (MBOX_BIT 6) Reg.PRCM_ARM_IT1_CLR w, false)

def read_mailbox_7 (w : World) : World × Bool :=
  (reg_writel (MBOX_BIT 7) Reg.PRCM_ARM_IT1_CLR w, false)

/-- The table `read_mailbox[NUM_MB]`; an index outside it has no reader. -/
def read_mailbox (n : Nat) (w : World) : Option (World × Bool) :=
  match n with
  | 0 => some (read_mailbox_0 w)
  | 1 => some (read_mailbox_1 w)
  | 2 => some (read_mailbox_2 w)
  | 3 => some (read_mailbox_3 w)
  | 4 => some (read_mailbox_4 w)
  | 5 => some (read_mailbox_5 w)
  | 6 => some (read_mailbox_6 w)
  | 7 => some (read_mailbox_7 w)
  | _ => none

/-- The loop `for (n = 0; bits; n++)` of `prcmu_irq_handler`, with a bound on the
number of iterations; `none` when the bound is reached with bits left or the
index leaves the table. -/
def irq_loop : Nat → Nat → Nat → irqreturn_t → World → Option (World × irqreturn_t)
  | 0, _, bits, r, w => if bits = 0 then some (w, r) else none
  | fuel + 1, n, bits, r, w =>
    if bits = 0 then some (w, r)
    else if bits &&& MBOX_BIT n ≠ 0 then
      match read_mailbox n w with
      | none => none
      | some (w1, wake) =>
        irq_loop fuel (n + 1) (bits - MBOX_BIT n)
          (if wake then irqreturn_t.IRQ_WAKE_THREAD else r) w1
    else irq_loop fuel (n + 1) bits r w

/-- The handler, given the value `readl(PRCM_ARM_IT1_VAL)` yields.  The index `n`
is a `u8`, so the loop is given 256 iterations. -/
def prcmu_irq_handler (it1_val : Nat) (w : World) : Option (World × irqreturn_t) :=
  let bits := it1_val &&& ALL_MBOX_BITS
  if bits = 0 then some (w, irqreturn_t.IRQ_NONE)
  else irq_loop 256 0 bits irqreturn_t.IRQ_HANDLED w

/-- One interrupt from the firmware: the bytes `(offset, value)` it stored into
TCDM before raising it, and the value of `PRCM_ARM_IT1_VAL` the handler reads. -/
structure Irq where
  stores : List (Nat × Nat)
  it1_val : Nat

def apply_stores : List (Nat × Nat) → (Nat → Nat) → Nat → Nat
  | [], m => m
  | (off, v) :: rest, m => apply_stores rest (store off v m)

/-- The firmware stores its acknowledge, raises the interrupt, and the top half
`prcmu_irq_handler` runs in the context it interrupts.  The threaded half
`prcmu_irq_thread_fn` runs later in a kernel thread of its own and is a separate
call. -/
def interrupt (i : Irq) (w : World) : Option (World × irqreturn_t) :=
  prcmu_irq_handler i.it1_val { w with tcdm := apply_stores i.stores w.tcdm }

/-- Kernel `wait_for_completion_timeout`: a pending signal is consumed at once;
otherwise the interrupts that arrive before the timeout are served one by one
until a signal is pending.  The Boolean is whether the result is non-zero. -/
def wait_for_completion_timeout (c : Compl) : List Irq → World → Option (World × Bool)
  | [], w =>
    if 0 < c.done w then some (emit (Event.wait_end c true) (c.set_done (c.done w - 1) w), true)
    else some (emit (Event.wait_end c false) w, false)
  | i :: rest, w =>
    if 0 < c.done w then some (emit (Event.wait_end c true) (c.set_done (c.done w - 1) w), true)
    else
      match interrupt i w with
      | none => none
      | some (w1, _) => wait_for_completion_timeout c rest w1

/-- Kernel `wait_for_completion`: as above without a timeout; `none` when no signal
ever arrives. -/
def wait_for_completion (c : Compl) : List Irq → World → Option World
  | [], w =>
    if 0 < c.done w then some (emit (Event.wait_end c true) (c.set_done (c.done w - 1) w))
    else none
  | i :: rest, w =>
    if 0 < c.done w then some (emit (Event.wait_end c true) (c.set_done (c.done w - 1) w))
    else
      match interrupt i w with
      | none => none
      | some (w1, _) => wait_for_completion c rest w1

/-! ## Request functions -/

/-- Function `request_sysclk`; `irqs` are the interrupts arriving during its wait. -/
def request_sysclk (enable : Bool) (irqs : List Irq) (w : World) : Option (World × Int) :=
  let w := emit (Event.lock Lock.sysclk) w
  match wait_mbox_clear 3 w with
  | none => none
  | some w =>
    let w := { w with mb3_req_st := if enable then SYSCLK_ON else SYSCLK_OFF }
    let w := writeb w.mb3_req_st PRCM_REQ_MB3_REFCLK_MGT w
    let w := writeb MB3H_REFCLK_REQUEST PRCM_REQ_MB3_HEADER w
    let w := reg_writel (MBOX_BIT 3) Reg.PRCM_MBOX_CPU_SET w
    match wait_for_completion_timeout Compl.sysclk_work irqs w with
    | none => none
    | some (w, completed) =>
      if !completed then
        some (emit (Event.unlock Lock.sysclk) (emit Event.warn (emit Event.pr_err w)), - EIO)
      else if w.mb3_ack_header ≠ MB3H_REFCLK_REQUEST ∨ w.mb3_ack_status ≠ w.mb3_req_st then
        some (emit (Event.unlock Lock.sysclk) w, - EIO)
      else
        some (emit (Event.unlock Lock.sysclk) w, 0)

def request_timclk (H : Headers) (enable : Bool) (w : World) : World × Int :=
  let val := H.PRCM_TCR_DOZE_MODE ||| H.PRCM_TCR_TENSEL_MASK
  let val := if !enable then val ||| H.PRCM_TCR_STOP_TIMERS else val
  (reg_writel val Reg.PRCM_TCR w, 0)

/-- Function `request_reg_clock`.  The register of clock `clock` stands for
`_PRCMU_BASE + clk_mgt[clock].offset`; `~x` on a `u32` is `U32_MAX ^^^ x`. -/
def request_reg_clock (H : Headers) (clock : Nat) (enable : Bool) (w : World) :
    Option (World × Int) :=
  let w := if H.clk_mgt_offset clock = 0 then emit Event.warn w else w
  let w := emit (Event.lock Lock.clk_mgt) w
  match poll_sem H w w.sem with
  | none => none
  | some w =>
    let val := w.clk_mgt_reg clock
    let p : World × Nat :=
      if enable then
        (w, val ||| (H.PRCM_CLK_MGT_CLKEN ||| w.clk_mgt_pllsw clock))
      else
        ({ w with clk_mgt_pllsw := Function.update w.clk_mgt_pllsw clock
                    (val &&& H.PRCM_CLK_MGT_CLKPLLSW_MASK) },
          val &&& (U32_MAX ^^^ (H.PRCM_CLK_MGT_CLKEN ||| H.PRCM_CLK_MGT_CLKPLLSW_MASK)))
    let w := reg_writel p.2 (Reg.CLK_MGT clock)
      { p.1 with clk_mgt_reg := Function.update p.1.clk_mgt_reg clock p.2 }
    let w := reg_writel 0 Reg.PRCM_SEM w
    some (emit (Event.unlock Lock.clk_mgt) w, 0)

/-- Function `request_pll`; `BUG_ON` does not return.  `irqs` are the interrupts arriving
during its wait. -/
def request_pll (pll : Nat) (enable : Bool) (irqs : List Irq) (w : World) :
    Option (World × Int) :=
  if pll ≥ DB5500_NUM_PLL_ID then none
  else
    let w := emit (Event.lock Lock.mb2) w
    match wait_mbox_clear 2 w with
    | none => none
    | some w =>
      let w := { w with mb2_req_pll_st := Function.update w.mb2_req_pll_st pll
                          (if enable then 1 else 0) }
      let w := writeb pll PRCM_REQ_MB2_PLL_CLIENT w
      let w := writeb (w.mb2_req_pll_st pll) PRCM_REQ_MB2_PLL_STATE w
      let w := writeb MB2H_PLL_REQUEST PRCM_REQ_MB2_HEADER w
      let w := reg_writel (MBOX_BIT 2) Reg.PRCM_MBOX_CPU_SET w
      match wait_for_completion_timeout Compl.mb2_work irqs w with
      | none => none
      | some (w, completed) =>
        if !completed then
          some (emit (Event.unlock Lock.mb2) (emit Event.warn (emit Event.pr_err w)), - EIO)
        else if w.mb2_ack_status ≠ RC_SUCCESS ∨ w.mb2_ack_header ≠ MB2H_PLL_REQUEST then
          some (emit (Event.unlock Lock.mb2) w, - EIO)
        else
          some (emit (Event.unlock Lock.mb2) w, 0)

def db5500_prcmu_request_clock (H : Headers) (clock : Nat) (enable : Bool)
    (irqs : List Irq) (w : World) : Option (World × Int) :=
  if clock < H.PRCMU_NUM_REG_CLOCKS then request_reg_clock H clock enable w
  else if clock = H.PRCMU_TIMCLK then some (request_timclk H enable w)
  else if clock = H.PRCMU_PLLSOC0 then request_pll DB5500_PLL_SOC0 enable irqs w
  else if clock = H.PRCMU_PLLSOC1 then request_pll DB5500_PLL_SOC1 enable irqs w
  else if clock = H.PRCMU_PLLDDR then request_pll DB5500_PLL_DDR enable irqs w
  else if clock = H.PRCMU_SYSCLK then request_sysclk enable irqs w
  else some (w, - EINVAL)

/-- Function `config_wakeups`; the caller holds `mb0_transfer.lock`. -/
def config_wakeups (w : World) : Option World :=
  let dbb_events := w.dbb_irqs ||| w.dbb_wakeups
  let abb_events := w.abb_events
  if dbb_events = w.last_dbb_events ∧ abb_events = w.last_abb_events then some w
  else
    match wait_mbox_clear 0 w with
    | none => none
    | some w =>
      let w := writel dbb_events PRCM_REQ_MB0_WAKEUP_DBB w
      let w := writel abb_events PRCM_REQ_MB0_WAKEUP_ABB w
      let w := writeb MB0H_WAKE_UP_CFG PRCM_REQ_MB0_HEADER w
      let w := reg_writel (MBOX_BIT 0) Reg.PRCM_MBOX_CPU_SET w
      some { w with last_dbb_events := dbb_events, last_abb_events := abb_events }

def db5500_prcmu_config_esram0_deep_sleep (H : Headers) (state : Nat) (w : World) :
    World × Int :=
  if state > H.ESRAM0_DEEP_SLEEP_STATE_RET ∨ state < H.ESRAM0_DEEP_SLEEP_STATE_OFF then
    (w, - EINVAL)
  else
    let w := emit (Event.lock Lock.mb0) w
    let w :=
      if state = H.ESRAM0_DEEP_SLEEP_STATE_RET then writeb RET_ST PRCM_REQ_MB0_ESRAM0_STATE w
      else writeb OFF_ST PRCM_REQ_MB0_ESRAM0_STATE w
    (emit (Event.unlock Lock.mb0) w, 0)

/-- Function `db5500_prcmu_set_power_state`; `BUG_ON` does not return. -/
def db5500_prcmu_set_power_state (H : Headers) (state : Nat) (keep_ulp_clk keep_ap_pll : Bool)
    (w : World) : Option (World × Int) :=
  if state < H.PRCMU_AP_SLEEP ∨ state ≥ H.PRCMU_AP_DEEP_IDLE then none
  else
    let w := emit (Event.lock Lock.mb0) w
    match wait_mbox_clear 0 w with
    | none => none
    | some w =>
      let body : Option World :=
        if state = H.PRCMU_AP_IDLE then
          some (writeb H.DDR_PWR_STATE_UNCHANGED PRCM_REQ_MB0_DDR_STATE
            (writeb DB5500_AP_IDLE PRCM_REQ_MB0_AP_POWER_STATE w))
        else if state = H.PRCMU_AP_SLEEP then
          some (writeb DB5500_AP_SLEEP PRCM_REQ_MB0_AP_POWER_STATE w)
        else if state = H.PRCMU_AP_DEEP_SLEEP then
          some (writeb DB5500_AP_DEEP_SLEEP PRCM_REQ_MB0_AP_POWER_STATE w)
        else none
      match body with
      | none => some (emit (Event.unlock Lock.mb0) w, - EINVAL)
      | some w =>
        let w := writeb (if keep_ap_pll then 1 else 0) PRCM_REQ_MB0_AP_PLL_STATE w
        let w := writeb (if keep_ulp_clk then 1 else 0) PRCM_REQ_MB0_ULP_CLOCK_STATE w
        let w := writeb MB0H_PWR_STATE_TRANS PRCM_REQ_MB0_HEADER w
        let w := reg_writel (MBOX_BIT 0) Reg.PRCM_MBOX_CPU_SET w
        some (emit (Event.unlock Lock.mb0) w, 0)

/-- The loop of `db5500_prcmu_enable_wakeups` from index `i` on, over the
remaining entries of `prcmu_wakeup_bit`; returns the accumulated `bits`. -/
def wakeup_bits (wakeups : Nat) : Nat → List Nat → Nat → World → Nat × World
  | _, [], bits, w => (bits, w)
  | i, b :: bs, bits, w =>
    if wakeups &&& BIT i ≠ 0 then
      if b = 0 then wakeup_bits wakeups (i + 1) bs bits (emit Event.warn w)
      else wakeup_bits wakeups (i + 1) bs (bits ||| b) w
    else wakeup_bits wakeups (i + 1) bs bits w

/-- Function `db5500_prcmu_enable_wakeups`; `BUG_ON` does not return. -/
def db5500_prcmu_enable_wakeups (H : Headers) (wakeups : Nat) (w : World) : Option World :=
  if wakeups ≠ wakeups &&& VALID_WAKEUPS H then none
  else
    let p := wakeup_bits wakeups 0 H.prcmu_wakeup_bit 0 w
    let w := emit (Event.lock Lock.mb0) p.2
    let w := { w with dbb_wakeups := p.1 }
    match config_wakeups w with
    | none => none
    | some w => some (emit (Event.unlock Lock.mb0) w)

def db5500_prcmu_config_abb_event_readout (abb_events : Nat) (w : World) : Option World :=
  let w := emit (Event.lock Lock.mb0) w
  let w := { w with abb_events := abb_events }
  match config_wakeups w with
  | none => none
  | some w => some (emit (Event.unlock Lock.mb0) w)

/-- Kernel `memcpy(dst, src, n)` on byte buffers held as lists. -/
def memcpy (dst src : List Nat) (n : Nat) : List Nat :=
  src.take n ++ dst.drop n

/-- Function `db5500_prcmu_abb_read`: returns the code and the caller's buffer `value`
as the call leaves it. -/
def db5500_prcmu_abb_read (slave reg : Nat) (value : List Nat) (size : Nat)
    (irqs : List Irq) (w : World) : Option (World × Int × List Nat) :=
  if size < 1 ∨ 4 < size then some (w, - EINVAL, value)
  else
    let w := emit (Event.lock Lock.mb5) w
    match wait_mbox_clear 5 w with
    | none => none
    | some w =>
      let w := writeb slave PRCM_REQ_MB5_I2C_SLAVE w
      let w := writeb reg PRCM_REQ_MB5_I2C_REG w
      let w := writeb size PRCM_REQ_MB5_I2C_SIZE w
      let w := writeb MB5H_I2C_READ PRCM_REQ_MB5_HEADER w
      let w := reg_writel (MBOX_BIT 5) Reg.PRCM_MBOX_CPU_SET w
      match wait_for_completion Compl.mb5_work irqs w with
      | none => none
      | some w =>
        if w.mb5_ack_header = MB5H_I2C_READ ∧ w.mb5_ack_status = RC_SUCCESS then
          some (emit (Event.unlock Lock.mb5) w, 0, memcpy value w.mb5_ack_value size)
        else
          some (emit (Event.unlock Lock.mb5) w, - EIO, value)

def db5500_prcmu_abb_write (slave reg : Nat) (value : List Nat) (size : Nat)
    (irqs : List Irq) (w : World) : Option (World × Int) :=
  if size < 1 ∨ 4 < size then some (w, - EINVAL)
  else
    let w := emit (Event.lock Lock.mb5) w
    match wait_mbox_clear 5 w with
    | none => none
    | some w =>
      let w := writeb slave PRCM_REQ_MB5_I2C_SLAVE w
      let w := writeb reg PRCM_REQ_MB5_I2C_REG w
      let w := writeb size PRCM_REQ_MB5_I2C_SIZE w
      let w := memcpy_toio PRCM_REQ_MB5_I2C_DATA (value.take size) w
      let w := writeb MB5H_I2C_WRITE PRCM_REQ_MB5_HEADER w
      let w := reg_writel (MBOX_BIT 5) Reg.PRCM_MBOX_CPU_SET w
      match wait_for_completion Compl.mb5_work irqs w with
      | none => none
      | some w =>
        if w.mb5_ack_header = MB5H_I2C_WRITE ∧ w.mb5_ack_status = RC_SUCCESS then
          some (emit (Event.unlock Lock.mb5) w, 0)
        else
          some (emit (Event.unlock Lock.mb5) w, - EIO)

def ack_dbb_wakeup (w : World) : Option World :=
  let w := emit (Event.lock Lock.mb0) w
  match wait_mbox_clear 0 w with
  | none => none
  | some w =>
    let w := writeb MB0H_RD_WAKE_UP_ACK PRCM_REQ_MB0_HEADER w
    let w := reg_writel (MBOX_BIT 0) Reg.PRCM_MBOX_CPU_SET w
    some (emit (Event.unlock Lock.mb0) w)

def prcmu_irq_thread_fn (w : World) : Option (World × irqreturn_t) :=
  match ack_dbb_wakeup w with
  | none => none
  | some w => some (w, irqreturn_t.IRQ_HANDLED)

/-! ## Virtual wakeup interrupt controller -/

def prcmu_mask_work (w : World) : Option World :=
  let w := emit (Event.lock Lock.mb0) w
  match config_wakeups w with
  | none => none
  | some w => some (emit (Event.unlock Lock.mb0) w)

/-- Kernel `schedule_work(&mb0_transfer.mask_work)`: queueing a queued item does nothing. -/
def schedule_work (w : World) : World :=
  if w.mask_work_pending then w
  else emit Event.schedule_work { w with mask_work_pending := true }

/-- The workqueue runs the item if it is queued, clearing the mark first. -/
def run_mask_work (w : World) : Option World :=
  if w.mask_work_pending then prcmu_mask_work { w with mask_work_pending := false }
  else some w

/-- Function `prcmu_irq_mask` for the line `n = d->irq - IRQ_DB5500_PRCMU_BASE`; there is no
table entry for a line outside the table. -/
def prcmu_irq_mask (n : Nat) (w : World) : Option World :=
  match prcmu_irq_bit[n]? with
  | none => none
  | some b =>
    let w := emit (Event.lock Lock.dbb_irqs) w
    let w := { w with dbb_irqs := w.dbb_irqs &&& (U32_MAX ^^^ b) }
    let w := emit (Event.unlock Lock.dbb_irqs) w
    some (schedule_work w)

def prcmu_irq_unmask (n : Nat) (w : World) : Option World :=
  match prcmu_irq_bit[n]? with
  | none => none
  | some b =>
    let w := emit (Event.lock Lock.dbb_irqs) w
    let w := { w with dbb_irqs := w.dbb_irqs ||| b }
    let w := emit (Event.unlock Lock.dbb_irqs) w
    some (schedule_work w)

/-- Function `db5500_prcmu_early_init`: the part that touches driver state. -/
def db5500_prcmu_early_init (w : World) : World :=
  let w := init_completion Compl.mb1_work w
  let w := init_completion Compl.mb2_work w
  let w := init_completion Compl.sysclk_work w
  let w := init_completion Compl.mb5_work w
  { w with mask_work_pending := false }

/-! ## Trace observations -/

/-- A store into the TCDM window or a write to `PRCM_MBOX_CPU_SET`. -/
def is_mailbox_write : Event → Bool
  | Event.writeb _ _ => true
  | Event.writel _ _ => true
  | Event.memcpy_toio _ _ => true
  | Event.reg_writel Reg.PRCM_MBOX_CPU_SET _ => true
  | _ => false

/-- The mailbox writes of a trace, in order. -/
def mailbox_writes (tr : List Event) : List Event := tr.filter is_mailbox_write

/-- The transaction `config_wakeups` issues for the pair `(dbb, abb)`. -/
def wakeup_cfg_push (dbb abb : Nat) : List Event :=
  [ Event.writel PRCM_REQ_MB0_WAKEUP_DBB (dbb % 2 ^ 32),
    Event.writel PRCM_REQ_MB0_WAKEUP_ABB (abb % 2 ^ 32),
    Event.writeb PRCM_REQ_MB0_HEADER MB0H_WAKE_UP_CFG,
    Event.reg_writel Reg.PRCM_MBOX_CPU_SET (MBOX_BIT 0) ]

/-- The lines `read_mailbox_0` dispatches for the masked event word `ev`: the
lines `n + j` with `ev & l[j] != 0`, in increasing order. -/
def dispatched (ev : Nat) : Nat → List Nat → List Nat
  | _, [] => []
  | n, b :: bs => if ev &&& b ≠ 0 then n :: dispatched ev (n + 1) bs else dispatched ev (n + 1) bs

/-- The virtual interrupts dispatched in a trace, in order. -/
def dispatches : List Event → List Nat
  | [] => []
  | Event.generic_handle_irq n :: es => n :: dispatches es
  | _ :: es => dispatches es

/-- The mailbox-2 completion count and staged acknowledge. -/
def mb2_view (w : World) : Nat × Nat × Nat :=
  (w.mb2_done, w.mb2_ack_header, w.mb2_ack_status)

/-- The mailbox-3 completion count and staged acknowledge. -/
def mb3_view (w : World) : Nat × Nat × Nat :=
  (w.mb3_done, w.mb3_ack_header, w.mb3_ack_status)

/-- The mailbox-5 completion count and staged acknowledge. -/
def mb5_view (w : World) : Nat × Nat × Nat × List Nat :=
  (w.mb5_done, w.mb5_ack_header, w.mb5_ack_status, w.mb5_ack_value)

/-- The events the interrupt top half can add to a trace. -/
def is_irq_event : Event → Bool
  | Event.reg_writel Reg.PRCM_ARM_IT1_CLR _ => true
  | Event.complete _ => true
  | Event.generic_handle_irq _ => true
  | Event.pr_err => true
  | Event.pr_warning _ _ => true
  | _ => false

/-- The events a call appended to the trace: what follows the trace it started
from. -/
def new_events (w w1 : World) : List Event := w1.trace.drop w.trace.length

/-- The state `request_pll` waits in: the state after its busy-wait, with the
request recorded, written and flagged. -/
def pll_issue (pll : Nat) (enable : Bool) (w : World) : World :=
  reg_writel (MBOX_BIT 2) Reg.PRCM_MBOX_CPU_SET
    (writeb MB2H_PLL_REQUEST PRCM_REQ_MB2_HEADER
      (writeb (if enable then 1 else 0) PRCM_REQ_MB2_PLL_STATE
        (writeb pll PRCM_REQ_MB2_PLL_CLIENT
          { w with mb2_req_pll_st := Function.update w.mb2_req_pll_st pll
                     (if enable then 1 else 0) })))

/-- What `request_pll` does once its wait has ended in state `p.1` with outcome
`p.2`. -/
def pll_finish (p : World × Bool) : World × Int :=
  if !p.2 then
    (emit (Event.unlock Lock.mb2) (emit Event.warn (emit Event.pr_err p.1)), - EIO)
  else if p.1.mb2_ack_status ≠ RC_SUCCESS ∨ p.1.mb2_ack_header ≠ MB2H_PLL_REQUEST then
    (emit (Event.unlock Lock.mb2) p.1, - EIO)
  else
    (emit (Event.unlock Lock.mb2) p.1, 0)

/-- The mailbox writes of `request_pll(pll, enable)`, in program order. -/
def pll_writes (pll : Nat) (enable : Bool) : List Event :=
  [ Event.writeb PRCM_REQ_MB2_PLL_CLIENT (pll % 256),
    Event.writeb PRCM_REQ_MB2_PLL_STATE (if enable then 1 else 0),
    Event.writeb PRCM_REQ_MB2_HEADER MB2H_PLL_REQUEST,
    Event.reg_writel Reg.PRCM_MBOX_CPU_SET (MBOX_BIT 2) ]

/-- The mailbox writes of `request_sysclk(enable)`, in program order. -/
def sysclk_writes (enable : Bool) : List Event :=
  [ Event.writeb PRCM_REQ_MB3_REFCLK_MGT (if enable then SYSCLK_ON else SYSCLK_OFF),
    Event.writeb PRCM_REQ_MB3_HEADER MB3H_REFCLK_REQUEST,
    Event.reg_writel Reg.PRCM_MBOX_CPU_SET (MBOX_BIT 3) ]

/-- What a waiting request function logs after its wait: the outcome, the
error messages on a timeout, and the release of its lock. -/
def wait_tail (c : Compl) (l : Lock) (completed : Bool) : List Event :=
  Event.wait_end c completed ::
    ((if completed then [] else [Event.pr_err, Event.warn]) ++ [Event.unlock l])

/-- The part of the state the interrupt top half never writes: the request-side
fields and the environment. -/
def host_view (w : World) :
    Nat × Nat × Nat × Nat × Nat × Bool × (Nat → Nat) × Nat × (Nat → Nat) × (Nat → Nat) ×
      List Nat × List Nat :=
  (w.dbb_irqs, w.dbb_wakeups, w.abb_events, w.last_dbb_events, w.last_abb_events,
    w.mask_work_pending, w.mb2_req_pll_st, w.mb3_req_st, w.clk_mgt_pllsw, w.clk_mgt_reg,
    w.cpu_val, w.sem)

/-! ## Sample inputs

Concrete inputs on which the functions are evaluated. -/

/-- One assignment of the header values. -/
def Headers.sample : Headers :=
  { prcmu_wakeup_bit :=
      [ WAKEUP_BIT_RTC, WAKEUP_BIT_RTT0, WAKEUP_BIT_RTT1, 0, 0, WAKEUP_BIT_USB,
        WAKEUP_BIT_ABB, 0, WAKEUP_BIT_ARM, WAKEUP_BIT_CD_IRQ ],
    clk_mgt_offset := fun clock => 4 * (clock + 1),
    PRCMU_NUM_REG_CLOCKS := 24, PRCMU_SYSCLK := 24, PRCMU_TIMCLK := 26,
    PRCMU_PLLSOC0 := 27, PRCMU_PLLSOC1 := 28, PRCMU_PLLDDR := 30,
    PRCM_TCR_DOZE_MODE := BIT 17, PRCM_TCR_TENSEL_MASK := 0xF, PRCM_TCR_STOP_TIMERS := BIT 16,
    PRCM_SEM_PRCM_SEM := BIT 0,
    PRCM_CLK_MGT_CLKEN := BIT 8, PRCM_CLK_MGT_CLKPLLSW_MASK := 0xE0,
    ESRAM0_DEEP_SLEEP_STATE_OFF := 1, ESRAM0_DEEP_SLEEP_STATE_RET := 2,
    PRCMU_AP_SLEEP := 1, PRCMU_AP_DEEP_SLEEP := 4, PRCMU_AP_IDLE := 5, PRCMU_AP_DEEP_IDLE := 7,
    DDR_PWR_STATE_UNCHANGED := 0 }

/-- The driver after `db5500_prcmu_early_init`, over a zeroed TCDM window, with the
pending bits reading as clear on the next four polls. -/
def World.sample : World :=
  db5500_prcmu_early_init (World.boot (fun _ => 0) [0, 0, 0, 0] [])

/-- The world `World.sample` after `db5500_prcmu_enable_wakeups` with the RTC and USB indices
of `Headers.sample`. -/
def World.sample_wakeups : World :=
  (db5500_prcmu_enable_wakeups Headers.sample (BIT 0 ||| BIT 5) World.sample).getD World.sample

/-- The world `World.sample` with line 0 unmasked and not yet pushed. -/
def World.sample_unpushed : World :=
  { World.sample with dbb_irqs := WAKEUP_BIT_RTC }

/-- The world `World.sample_unpushed` after `config_wakeups`. -/
def World.sample_pushed : World :=
  (config_wakeups World.sample_unpushed).getD World.sample

/-- A late acknowledge of a PLL request: header `MB2H_PLL_REQUEST`, status
`RC_SUCCESS`, with acknowledge bit 2 raised. -/
def Irq.pll_ack : Irq :=
  { stores := [(PRCM_ACK_MB2_HEADER, MB2H_PLL_REQUEST), (PRCM_ACK_MB2_PLL_STATUS, RC_SUCCESS)],
    it1_val := MBOX_BIT 2 }

/-- Transaction A: `request_pll(DB5500_PLL_SOC0, true)` on `World.sample` with no
interrupt during its wait. -/
def World.sample_A : World :=
  ((request_pll DB5500_PLL_SOC0 true [] World.sample).map Prod.fst).getD World.sample

/-- The state once the interrupt path has consumed the late acknowledge for A. -/
def World.sample_A_late : World :=
  ((interrupt Irq.pll_ack World.sample_A).map Prod.fst).getD World.sample

/-- A mailbox-2 acknowledge: header byte `h` and the three status bytes, with
acknowledge bit 2 raised. -/
def Irq.mb2_ack (h epod_status clk_status pll_status : Nat) : Irq :=
  { stores := [(PRCM_ACK_MB2_HEADER, h), (PRCM_ACK_MB2_EPOD_STATUS, epod_status),
               (PRCM_ACK_MB2_CLK_STATUS, clk_status), (PRCM_ACK_MB2_PLL_STATUS, pll_status)],
    it1_val := MBOX_BIT 2 }

/-- The mailbox whose request header, or whose request region, holds TCDM offset
`off`.  The request region of a mailbox runs from its base `PRCM_REQ_MBn` up to
the next base above it (mailbox 0: up to the header bytes). -/
def req_mailbox (off : Nat) : Option Nat :=
  if PRCM_REQ_MB0_HEADER ≤ off ∧ off ≤ PRCM_REQ_MB7_HEADER then some (off - PRCM_MB_HEADER)
  else if PRCM_REQ_MB0 ≤ off ∧ off < PRCM_MB_HEADER then some 0
  else if PRCM_REQ_MB1 ≤ off ∧ off < PRCM_REQ_MB0 then some 1
  else if PRCM_REQ_MB2 ≤ off ∧ off < PRCM_REQ_MB1 then some 2
  else if PRCM_REQ_MB3 ≤ off ∧ off < PRCM_REQ_MB2 then some 3
  else if PRCM_REQ_MB4 ≤ off ∧ off < PRCM_REQ_MB3 then some 4
  else if PRCM_REQ_MB5 ≤ off ∧ off < PRCM_REQ_MB4 then some 5
  else if PRCM_REQ_MB6 ≤ off ∧ off < PRCM_REQ_MB5 then some 6
  else if PRCM_REQ_MB7 ≤ off ∧ off < PRCM_REQ_MB6 then some 7
  else none

/-- One step of the pending-bit discipline for mailbox `n`.  The state says
whether request-pending bit `n` has been read clear in the current lock hold and
not raised since; `none` once a store into mailbox `n`'s request region or header
was made without that. -/
def discipline_step (n : Nat) (st : Option Bool) (e : Event) : Option Bool :=
  match st with
  | none => none
  | some seen =>
    match e with
    | Event.lock _ => some false
    | Event.unlock _ => some false
    | Event.readl_cpu_val v => some (v &&& MBOX_BIT n == 0)
    | Event.writeb off _ => if req_mailbox off = some n ∧ seen = false then none else some seen
    | Event.writel off _ => if req_mailbox off = some n ∧ seen = false then none else some seen
    | Event.memcpy_toio off _ =>
      if req_mailbox off = some n ∧ seen = false then none else some seen
    | Event.reg_writel Reg.PRCM_MBOX_CPU_SET bits => some (seen && (bits &&& MBOX_BIT n == 0))
    | _ => some seen

/-- Whether a sequence of events keeps the pending-bit discipline for mailbox `n`:
every store into the mailbox's request region or header comes after a read of
`PRCM_MBOX_CPU_VAL` with bit `n` clear in the same lock hold. -/
def pending_discipline (n : Nat) (tr : List Event) : Bool :=
  (tr.foldl (discipline_step n) (some false)).isSome

/-- The mailbox writes of `request`-style functions: stores into mailbox `m`'s
request region or header. -/
def is_req_store (m : Nat) : Event → Bool
  | Event.writeb off _ => req_mailbox off = some m
  | Event.writel off _ => req_mailbox off = some m
  | Event.memcpy_toio off _ => req_mailbox off = some m
  | _ => false

/-- The world `World.sample` after `db5500_prcmu_config_esram0_deep_sleep` with the retention
state of `Headers.sample`. -/
def World.sample_esram0 : World :=
  (db5500_prcmu_config_esram0_deep_sleep Headers.sample 2 World.sample).1

/-- The request-region stores of `db5500_prcmu_set_power_state` for a supported
state, in program order. -/
def power_state_stores (H : Headers) (state : Nat) (keep_ulp_clk keep_ap_pll : Bool) :
    List Event :=
  (if state = H.PRCMU_AP_IDLE then
      [ Event.writeb PRCM_REQ_MB0_AP_POWER_STATE DB5500_AP_IDLE,
        Event.writeb PRCM_REQ_MB0_DDR_STATE (H.DDR_PWR_STATE_UNCHANGED % 256) ]
    else if state = H.PRCMU_AP_SLEEP then
      [ Event.writeb PRCM_REQ_MB0_AP_POWER_STATE DB5500_AP_SLEEP ]
    else
      [ Event.writeb PRCM_REQ_MB0_AP_POWER_STATE DB5500_AP_DEEP_SLEEP ]) ++
  [ Event.writeb PRCM_REQ_MB0_AP_PLL_STATE (if keep_ap_pll then 1 else 0),
    Event.writeb PRCM_REQ_MB0_ULP_CLOCK_STATE (if keep_ulp_clk then 1 else 0),
    Event.writeb PRCM_REQ_MB0_HEADER MB0H_PWR_STATE_TRANS ]

/-- Whether `db5500_prcmu_set_power_state` has a case for `state`. -/
def power_state_supported (H : Headers) (state : Nat) : Prop :=
  state = H.PRCMU_AP_IDLE ∨ state = H.PRCMU_AP_SLEEP ∨ state = H.PRCMU_AP_DEEP_SLEEP

/-- The request-region stores of `db5500_prcmu_abb_read`, in program order. -/
def abb_read_stores (slave reg size : Nat) : List Event :=
  [ Event.writeb PRCM_REQ_MB5_I2C_SLAVE (slave % 256),
    Event.writeb PRCM_REQ_MB5_I2C_REG (reg % 256),
    Event.writeb PRCM_REQ_MB5_I2C_SIZE (size % 256),
    Event.writeb PRCM_REQ_MB5_HEADER MB5H_I2C_READ ]

/-- The request-region stores of `db5500_prcmu_abb_write`, in program order. -/
def abb_write_stores (slave reg : Nat) (value : List Nat) (size : Nat) : List Event :=
  [ Event.writeb PRCM_REQ_MB5_I2C_SLAVE (slave % 256),
    Event.writeb PRCM_REQ_MB5_I2C_REG (reg % 256),
    Event.writeb PRCM_REQ_MB5_I2C_SIZE (size % 256),
    Event.memcpy_toio PRCM_REQ_MB5_I2C_DATA ((value.take size).map (fun b => b % 256)),
    Event.writeb PRCM_REQ_MB5_HEADER MB5H_I2C_WRITE ]

/-- The operations that issue a request on a mailbox, with their arguments and the
interrupts arriving during their wait. -/
inductive RequestOp where
  | request_sysclk (enable : Bool) (irqs : List Irq)
  | request_pll (pll : Nat) (enable : Bool) (irqs : List Irq)
  | config_wakeups
  | set_power_state (state : Nat) (keep_ulp_clk keep_ap_pll : Bool)
  | abb_read (slave reg : Nat) (value : List Nat) (size : Nat) (irqs : List Irq)
  | abb_write (slave reg : Nat) (value : List Nat) (size : Nat) (irqs : List Irq)
  | ack_dbb_wakeup

/-- The state an operation returns in, if it returns. -/
def RequestOp.run (H : Headers) (op : RequestOp) (w : World) : Option World :=
  match op with
  | RequestOp.request_sysclk enable irqs => (Db5500Prcmu.request_sysclk enable irqs w).map Prod.fst
  | RequestOp.request_pll pll enable irqs => (Db5500Prcmu.request_pll pll enable irqs w).map Prod.fst
  | RequestOp.config_wakeups => Db5500Prcmu.config_wakeups w
  | RequestOp.set_power_state state keep_ulp_clk keep_ap_pll =>
    (db5500_prcmu_set_power_state H state keep_ulp_clk keep_ap_pll w).map Prod.fst
  | RequestOp.abb_read slave reg value size irqs =>
    (db5500_prcmu_abb_read slave reg value size irqs w).map Prod.fst
  | RequestOp.abb_write slave reg value size irqs =>
    (db5500_prcmu_abb_write slave reg value size irqs w).map Prod.fst
  | RequestOp.ack_dbb_wakeup => Db5500Prcmu.ack_dbb_wakeup w

/-- The world `World.sample` after `db5500_prcmu_set_power_state` with the sleep state of
`Headers.sample`. -/
def World.sample_sleep : World :=
  ((RequestOp.set_power_state 1 false true).run Headers.sample World.sample).getD World.sample

/-- A state in which the firmware has acknowledged the RTC and USB wakeup events
in buffer 0 while only the RTC line is unmasked. -/
def World.sample_wake : World :=
  { World.sample with
    dbb_irqs := WAKEUP_BIT_RTC,
    tcdm := store PRCM_ACK_MB0_WAKEUP_0_DBB (WAKEUP_BIT_RTC ||| WAKEUP_BIT_USB) (fun _ => 0) }

/-- A state in which bit 30 is set in `dbb_irqs` (as after unmasking the
`AC_REL_ACK` line alone) and the firmware has acknowledged event bit 30 in
buffer 0. -/
def World.sample_bit30 : World :=
  { World.sample with
    dbb_irqs := BIT 30,
    tcdm := store (PRCM_ACK_MB0_WAKEUP_0_DBB + 3) 0x40 (fun _ => 0) }

/-- A mailbox-5 acknowledge: header byte `h`, return code `rc` and the four data
bytes, with acknowledge bit 5 raised. -/
def Irq.mb5_ack (h rc d0 d1 d2 d3 : Nat) : Irq :=
  { stores := [(PRCM_ACK_MB5_HEADER, h), (PRCM_ACK_MB5_RETURN_CODE, rc),
               (PRCM_ACK_MB5_I2C_DATA, d0), (PRCM_ACK_MB5_I2C_DATA + 1, d1),
               (PRCM_ACK_MB5_I2C_DATA + 2, d2), (PRCM_ACK_MB5_I2C_DATA + 3, d3)],
    it1_val := MBOX_BIT 5 }

/-- A mailbox-3 acknowledge: header byte `h` and the byte of the field
`PRCM_ACK_MB3_REFCLK_REQ`, with acknowledge bit 3 raised. -/
def Irq.mb3_ack (h status : Nat) : Irq :=
  { stores := [(PRCM_ACK_MB3_HEADER, h), (PRCM_ACK_MB3_REFCLK_REQ, status)],
    it1_val := MBOX_BIT 3 }

/-- The state `request_sysclk` waits in: the state after its busy-wait, with the
request recorded, written and flagged. -/
def sysclk_issue (enable : Bool) (w : World) : World :=
  reg_writel (MBOX_BIT 3) Reg.PRCM_MBOX_CPU_SET
    (writeb MB3H_REFCLK_REQUEST PRCM_REQ_MB3_HEADER
      (writeb (if enable then SYSCLK_ON else SYSCLK_OFF) PRCM_REQ_MB3_REFCLK_MGT
        { w with mb3_req_st := if enable then SYSCLK_ON else SYSCLK_OFF }))

/-- What `request_sysclk` does once its wait has ended in state `p.1` with
outcome `p.2`. -/
def sysclk_finish (p : World × Bool) : World × Int :=
  if !p.2 then
    (emit (Event.unlock Lock.sysclk) (emit Event.warn (emit Event.pr_err p.1)), - EIO)
  else if p.1.mb3_ack_header ≠ MB3H_REFCLK_REQUEST ∨ p.1.mb3_ack_status ≠ p.1.mb3_req_st then
    (emit (Event.unlock Lock.sysclk) p.1, - EIO)
  else
    (emit (Event.unlock Lock.sysclk) p.1, 0)

/-- Whether the `len` bytes from TCDM offset `off` lie in the request region of
mailbox `n`, below the header bytes. -/
def in_payload (n off len : Nat) : Bool :=
  decide (req_mailbox off = some n ∧ req_mailbox (off + len - 1) = some n ∧
    off + len ≤ PRCM_MB_HEADER)

/-- A store into a payload field of mailbox `n`'s request region. -/
def is_payload_store (n : Nat) : Event → Bool
  | Event.writeb off _ => in_payload n off 1
  | Event.writel off _ => in_payload n off 4
  | Event.memcpy_toio off bytes => in_payload n off bytes.length
  | _ => false

/-- Whether a sequence of mailbox writes is: stores into payload fields of
mailbox `n`, then one byte store into mailbox `n`'s request header, then one
write of `MBOX_BIT(n)` to `PRCM_MBOX_CPU_SET`, and nothing else. -/
def header_last (n : Nat) (ws : List Event) : Bool :=
  match ws.reverse with
  | Event.reg_writel Reg.PRCM_MBOX_CPU_SET bits :: Event.writeb off _ :: payload =>
    decide (bits = MBOX_BIT n) && decide (off = PRCM_MB_HEADER + n) &&
      payload.all (is_payload_store n)
  | _ => false

/-- The value of a write to `PRCM_ARM_IT1_CLR`. -/
def it1_clr_value : Event → Option Nat
  | Event.reg_writel Reg.PRCM_ARM_IT1_CLR v => some v
  | _ => none

/-- The values written to `PRCM_ARM_IT1_CLR` in a trace, in order. -/
def it1_clears (tr : List Event) : List Nat := tr.filterMap it1_clr_value

/-- The completion object an event signals. -/
def completed_object : Event → Option Compl
  | Event.complete c => some c
  | _ => none

/-- The completion objects signalled in a trace, in order. -/
def completions (tr : List Event) : List Compl := tr.filterMap completed_object

/-- The readers of the mailboxes `ns`, run one after the other in the order of
the list; the result is `IRQ_WAKE_THREAD` once a reader has returned true. -/
def run_readers : List Nat → irqreturn_t → World → Option (World × irqreturn_t)
  | [], r, w => some (w, r)
  | n :: ns, r, w =>
    match read_mailbox n w with
    | none => none
    | some (w1, wake) => run_readers ns (if wake then irqreturn_t.IRQ_WAKE_THREAD else r) w1

/-- The mailboxes `n` in `0..7` with bit `n` set in `v`, in increasing order. -/
def pending_mailboxes (v : Nat) : List Nat :=
  (List.range NUM_MB).filter (fun n => v &&& MBOX_BIT n ≠ 0)

/-- A state in which the firmware has acknowledged on mailbox 1 with header
`MB1H_APE_OPP`, current APE OPP 2 and APE voltage status 1. -/
def World.sample_ape_opp : World :=
  { World.sample with
    tcdm := store PRCM_ACK_MB1_APE_VOLT_STATUS 1 (store PRCM_ACK_MB1_CURRENT_APE_OPP 2
      (store PRCM_ACK_MB1_HEADER MB1H_APE_OPP (fun _ => 0))) }

/-- The callbacks of `struct irq_chip` the driver fills in, each taking the line
`d->irq - IRQ_DB5500_PRCMU_BASE`. -/
structure irq_chip where
  name : String
  irq_disable : Nat → World → Option World
  irq_ack : Nat → World → Option World
  irq_mask : Nat → World → Option World
  irq_unmask : Nat → World → Option World

def noop (_n : Nat) (w : World) : Option World := some w

def prcmu_irq_chip : irq_chip :=
  { name := "prcmu",
    irq_disable := prcmu_irq_mask,
    irq_ack := noop,
    irq_mask := prcmu_irq_mask,
    irq_unmask := prcmu_irq_unmask }

/-- The world `World.sample` with the hardware semaphore reading free twice and the
register of clock 3 holding `0x1A5`. -/
def World.sample_clk : World :=
  { World.sample with sem := [0, 0], clk_mgt_reg := fun n => if n = 3 then 0x1A5 else 0 }

/-- The world `World.sample_clk` after `request_reg_clock(3, false)`. -/
def World.sample_clk_off : World :=
  ((request_reg_clock Headers.sample 3 false World.sample_clk).map Prod.fst).getD World.sample

/-- The request header byte of each mailbox, by mailbox number. -/
def req_header_offsets : List Nat :=
  [ PRCM_REQ_MB0_HEADER, PRCM_REQ_MB1_HEADER, PRCM_REQ_MB2_HEADER, PRCM_REQ_MB3_HEADER,
    PRCM_REQ_MB4_HEADER, PRCM_REQ_MB5_HEADER, PRCM_REQ_MB6_HEADER, PRCM_REQ_MB7_HEADER ]

/-- The acknowledge header byte of each mailbox, by mailbox number. -/
def ack_header_offsets : List Nat :=
  [ PRCM_ACK_MB0_HEADER, PRCM_ACK_MB1_HEADER, PRCM_ACK_MB2_HEADER, PRCM_ACK_MB3_HEADER,
    PRCM_ACK_MB4_HEADER, PRCM_ACK_MB5_HEADER, PRCM_ACK_MB6_HEADER, PRCM_ACK_MB7_HEADER ]

/-- The base of the request region of each mailbox, by mailbox number. -/
def req_bases : List Nat :=
  [ PRCM_REQ_MB0, PRCM_REQ_MB1, PRCM_REQ_MB2, PRCM_REQ_MB3, PRCM_REQ_MB4, PRCM_REQ_MB5,
    PRCM_REQ_MB6, PRCM_REQ_MB7 ]

/-- The base of the acknowledge region of each mailbox, by mailbox number. -/
def ack_bases : List Nat :=
  [ PRCM_ACK_MB0, PRCM_ACK_MB1, PRCM_ACK_MB2, PRCM_ACK_MB3, PRCM_ACK_MB4, PRCM_ACK_MB5,
    PRCM_ACK_MB6, PRCM_ACK_MB7 ]

/-- The named request and acknowledge fields as `(offset, size in bytes)`: one
byte for a field the driver accesses with `writeb` or `readb`, four for one it
accesses with `writel`, `readl` or a four-byte copy, and `abb_len` for the two
ABB event buffers, which the driver only hands out by address. -/
def named_fields (abb_len : Nat) : List (Nat × Nat) :=
  [ (PRCM_REQ_MB0_AP_POWER_STATE, 1), (PRCM_REQ_MB0_ULP_CLOCK_STATE, 1),
    (PRCM_REQ_MB0_AP_PLL_STATE, 1), (PRCM_REQ_MB0_DDR_STATE, 1),
    (PRCM_REQ_MB0_ESRAM0_STATE, 1), (PRCM_REQ_MB0_WAKEUP_DBB, 4),
    (PRCM_REQ_MB0_WAKEUP_ABB, 4),
    (PRCM_ACK_MB0_AP_PWRSTTR_STATUS, 1), (PRCM_ACK_MB0_READ_POINTER, 1),
    (PRCM_ACK_MB0_WAKEUP_0_DBB, 4), (PRCM_ACK_MB0_WAKEUP_0_ABB, abb_len),
    (PRCM_ACK_MB0_WAKEUP_1_DBB, 4), (PRCM_ACK_MB0_WAKEUP_1_ABB, abb_len),
    (PRCM_REQ_MB1_ARM_OPP, 1), (PRCM_REQ_MB1_APE_OPP, 1),
    (PRCM_ACK_MB1_CURRENT_ARM_OPP, 1), (PRCM_ACK_MB1_CURRENT_APE_OPP, 1),
    (PRCM_ACK_MB1_ARM_VOLT_STATUS, 1), (PRCM_ACK_MB1_APE_VOLT_STATUS, 1),
    (PRCM_REQ_MB2_EPOD_CLIENT, 1), (PRCM_REQ_MB2_EPOD_STATE, 1),
    (PRCM_REQ_MB2_CLK_CLIENT, 1), (PRCM_REQ_MB2_CLK_STATE, 1),
    (PRCM_REQ_MB2_PLL_CLIENT, 1), (PRCM_REQ_MB2_PLL_STATE, 1),
    (PRCM_ACK_MB2_EPOD_STATUS, 1), (PRCM_ACK_MB2_CLK_STATUS, 1), (PRCM_ACK_MB2_PLL_STATUS, 1),
    (PRCM_REQ_MB3_REFCLK_MGT, 1), (PRCM_ACK_MB3_REFCLK_REQ, 1),
    (PRCM_REQ_MB5_I2C_SLAVE, 1), (PRCM_REQ_MB5_I2C_REG, 1), (PRCM_REQ_MB5_I2C_SIZE, 1),
    (PRCM_REQ_MB5_I2C_DATA, 4),
    (PRCM_ACK_MB5_RETURN_CODE, 1), (PRCM_ACK_MB5_I2C_DATA, 4) ]

/-- The constant `PRCM_ACK_MB0_EVENT_ABB_NUMBERS`. -/
def PRCM_ACK_MB0_EVENT_ABB_NUMBERS : Nat := 20

/-- Whether the byte ranges `(offset, size)` `a` and `b` have no byte in common. -/
def ranges_disjoint (a b : Nat × Nat) : Bool :=
  decide (a.1 + a.2 ≤ b.1) || decide (b.1 + b.2 ≤ a.1)

/-- Whether the byte ranges of a list are pairwise disjoint. -/
def pairwise_disjoint : List (Nat × Nat) → Bool
  | [] => true
  | a :: rest => rest.all (ranges_disjoint a) && pairwise_disjoint rest

/-- The bitmask the description of `db5500_prcmu_enable_wakeups` names: the bitwise OR
of the entries `tbl[i]` over the indices `i` whose bit is set in `wakeups`. -/
def wakeup_mask (tbl : List Nat) (wakeups : Nat) : Nat :=
  ((tbl.enum.filter (fun p => wakeups &&& BIT p.1 ≠ 0)).map Prod.snd).foldl
    (fun acc b => acc ||| b) 0

/-- The loop `for (n = 0; bits; n++)` of `prcmu_irq_handler` once more, this time
recording for each iteration the index `n` and the value of `bits` it starts with; an
iteration with `bits & MBOX_BIT(n)` computes `bits - MBOX_BIT(n)` and indexes
`read_mailbox[n]`. -/
def irq_loop_steps : Nat → Nat → Nat → World → List (Nat × Nat)
  | 0, _, _, _ => []
  | fuel + 1, n, bits, w =>
    if bits = 0 then []
    else if bits &&& MBOX_BIT n ≠ 0 then
      match read_mailbox n w with
      | none => [(n, bits)]
      | some (w1, _) => (n, bits) :: irq_loop_steps fuel (n + 1) (bits - MBOX_BIT n) w1
    else (n, bits) :: irq_loop_steps fuel (n + 1) bits w

/-- The lock the driver holds while it writes a request to mailbox `m`:
`mb0_transfer.lock`, `mb2_transfer.lock`, `mb3_transfer.sysclk_lock` and
`mb5_transfer.lock`; no function of the driver writes a request to mailbox 1, 4, 6
or 7. -/
def mailbox_lock : Nat → Option Lock
  | 0 => some Lock.mb0
  | 2 => some Lock.mb2
  | 3 => some Lock.sysclk
  | 5 => some Lock.mb5
  | _ => none

/-- The completion a requester of mailbox `m` waits for; a request on mailbox 0 is
not waited for. -/
def mailbox_completion : Nat → Option Compl
  | 2 => some Compl.mb2_work
  | 3 => some Compl.sysclk_work
  | 5 => some Compl.mb5_work
  | _ => none

/-- A write to `PRCM_MBOX_CPU_SET` that raises request-pending bit `m`. -/
def raises_pending (m : Nat) : Event → Bool
  | Event.reg_writel Reg.PRCM_MBOX_CPU_SET bits => bits &&& MBOX_BIT m != 0
  | _ => false

/-- A write to mailbox `m`: a store into its request region or header, or raising its
request-pending bit. -/
def writes_mailbox (m : Nat) (e : Event) : Bool := is_req_store m e || raises_pending m e

/-- The event that ends a caller's request on mailbox `m`: the return of its wait on the
mailbox's completion, and for mailbox 0 the release of `mb0_transfer.lock`. -/
def ends_request (m : Nat) : Event → Bool
  | Event.unlock l => m = 0 ∧ l = Lock.mb0
  | Event.wait_end c _ => mailbox_completion m = some c
  | _ => false

/-- The functions of the driver that other code, the interrupt controller, the
workqueue and the interrupt core call, with their arguments and the interrupts
arriving during their waits. -/
inductive Caller where
  | request_clock (clock : Nat) (enable : Bool) (irqs : List Irq)
  | config_esram0_deep_sleep (state : Nat)
  | set_power_state (state : Nat) (keep_ulp_clk keep_ap_pll : Bool)
  | enable_wakeups (wakeups : Nat)
  | config_abb_event_readout (abb_events : Nat)
  | abb_read (slave reg : Nat) (value : List Nat) (size : Nat) (irqs : List Irq)
  | abb_write (slave reg : Nat) (value : List Nat) (size : Nat) (irqs : List Irq)
  | irq_handler (i : Irq)
  | irq_thread_fn
  | mask_work
  | irq_mask (n : Nat)
  | irq_unmask (n : Nat)

/-- The state a call returns in, if it returns. -/
def Caller.run (H : Headers) (op : Caller) (w : World) : Option World :=
  match op with
  | Caller.request_clock clock enable irqs =>
    (db5500_prcmu_request_clock H clock enable irqs w).map Prod.fst
  | Caller.config_esram0_deep_sleep state =>
    some (db5500_prcmu_config_esram0_deep_sleep H state w).1
  | Caller.set_power_state state keep_ulp_clk keep_ap_pll =>
    (db5500_prcmu_set_power_state H state keep_ulp_clk keep_ap_pll w).map Prod.fst
  | Caller.enable_wakeups wakeups => db5500_prcmu_enable_wakeups H wakeups w
  | Caller.config_abb_event_readout abb_events =>
    db5500_prcmu_config_abb_event_readout abb_events w
  | Caller.abb_read slave reg value size irqs =>
    (db5500_prcmu_abb_read slave reg value size irqs w).map Prod.fst
  | Caller.abb_write slave reg value size irqs =>
    (db5500_prcmu_abb_write slave reg value size irqs w).map Prod.fst
  | Caller.irq_handler i => (interrupt i w).map Prod.fst
  | Caller.irq_thread_fn => (prcmu_irq_thread_fn w).map Prod.fst
  | Caller.mask_work => prcmu_mask_work w
  | Caller.irq_mask n => prcmu_irq_mask n w
  | Caller.irq_unmask n => prcmu_irq_unmask n w

/-- The events one call can leave: those of a returning run of an entry point from
some state, with some values read from the hardware and some interrupts. -/
def call_trace (H : Headers) (tr : List Event) : Prop :=
  ∃ op w w1, Caller.run H op w = some w1 ∧ tr = new_events w w1

/-- The events one thread can have left at some moment: its calls one after the
other, the last one possibly still under way. -/
def thread_ok (H : Headers) (tr : List Event) : Prop :=
  ∃ calls : List (List Event), (∀ c ∈ calls, call_trace H c) ∧ tr <+: calls.flatten

/-- The events of thread `t` in a schedule: a schedule lists the events of all
threads in the order they happen, each with the thread it belongs to. -/
def thread_trace (t : Nat) (s : List (Nat × Event)) : List Event :=
  (s.filter (fun x => x.1 = t)).map Prod.snd

/-- One step of lock `l` along a schedule: the state is the thread that holds the
lock; `none` once the lock was taken while held or released by a thread that does
not hold it. -/
def lock_step (l : Lock) (st : Option (Option Nat)) (x : Nat × Event) : Option (Option Nat) :=
  match st with
  | none => none
  | some holder =>
    if x.2 = Event.lock l then (if holder = none then some (some x.1) else none)
    else if x.2 = Event.unlock l then (if holder = some x.1 then some none else none)
    else some holder

/-- Whether a schedule respects lock `l`. -/
def lock_ok (l : Lock) (s : List (Nat × Event)) : Bool :=
  (s.foldl (lock_step l) (some none)).isSome

/-- One step of the requests on mailbox `m` along a schedule: the state is the thread
whose request is in flight, from its raising request-pending bit `m` to the end of its
request; `none` once another thread has written to the mailbox in between. -/
def exclusion_step (m : Nat) (st : Option (Option Nat)) (x : Nat × Event) :
    Option (Option Nat) :=
  match st with
  | none => none
  | some owner =>
    if writes_mailbox m x.2 then
      match owner with
      | some t => if t = x.1 then some owner else none
      | none => if raises_pending m x.2 then some (some x.1) else some none
    else if ends_request m x.2 ∧ owner = some x.1 then some none
    else some owner

/-- Whether no thread writes to mailbox `m` while the request of another thread on
`m` is in flight. -/
def exclusive (m : Nat) (s : List (Nat × Event)) : Bool :=
  (s.foldl (exclusion_step m) (some none)).isSome

/-- One step of a single thread with respect to mailbox `m`: the state is whether
the thread holds the lock of `m` and whether it has a request in flight; `none` once
it has written to the mailbox without the lock, or released the lock with its
request still in flight. -/
def guard_step (m : Nat) (st : Option (Bool × Bool)) (e : Event) : Option (Bool × Bool) :=
  match st with
  | none => none
  | some (held, fl) =>
    if (mailbox_lock m).map Event.lock = some e then some (true, fl)
    else if (mailbox_lock m).map Event.unlock = some e then
      (if fl = true ∧ ends_request m e = false then none else some (false, false))
    else if writes_mailbox m e then
      (if held then some (true, fl || raises_pending m e) else none)
    else if ends_request m e then some (held, false)
    else some (held, fl)

def guard_run (m : Nat) (tr : List Event) (st : Option (Bool × Bool)) : Option (Bool × Bool) :=
  tr.foldl (guard_step m) st

/-- Events that touch no mailbox: no store into TCDM, no write to
`PRCM_MBOX_CPU_SET`, no return of a wait, and no lock of a mailbox. -/
def quiet : Event → Bool
  | Event.lock l => l ≠ Lock.mb0 ∧ l ≠ Lock.mb2 ∧ l ≠ Lock.sysclk ∧ l ≠ Lock.mb5
  | Event.unlock l => l ≠ Lock.mb0 ∧ l ≠ Lock.mb2 ∧ l ≠ Lock.sysclk ∧ l ≠ Lock.mb5
  | Event.writeb _ _ => false
  | Event.writel _ _ => false
  | Event.memcpy_toio _ _ => false
  | Event.reg_writel Reg.PRCM_MBOX_CPU_SET _ => false
  | Event.wait_end _ _ => false
  | _ => true

/-- Events that touch no mailbox but `k`: the stores go into the request region of
`k`, the pending bit raised is bit `k`, the lock is the lock of `k` and the wait is
the wait for the completion of `k`. -/
def touches (k : Nat) : Event → Bool
  | Event.lock l => mailbox_lock k = some l ∨ quiet (Event.lock l) = true
  | Event.unlock l => mailbox_lock k = some l ∨ quiet (Event.lock l) = true
  | Event.writeb off _ => req_mailbox off = some k
  | Event.writel off _ => req_mailbox off = some k
  | Event.memcpy_toio off _ => req_mailbox off = some k
  | Event.reg_writel Reg.PRCM_MBOX_CPU_SET bits => bits = MBOX_BIT k
  | Event.wait_end c _ => mailbox_completion k = some c
  | _ => true

/-- Events of a call on mailbox `k` between taking the lock and the end of the
request: stores into the request region of `k`, raising bit `k`, and events that
touch no mailbox and no lock. -/
def in_hold (k : Nat) : Event → Bool
  | Event.lock _ => false
  | Event.unlock _ => false
  | Event.wait_end _ _ => false
  | Event.writeb off _ => req_mailbox off = some k
  | Event.writel off _ => req_mailbox off = some k
  | Event.memcpy_toio off _ => req_mailbox off = some k
  | Event.reg_writel Reg.PRCM_MBOX_CPU_SET bits => bits = MBOX_BIT k
  | _ => true

/-- What a call on mailbox `k` leaves: events that touch no mailbox but `k`, with the
writes to `k` inside a hold of its lock and the request ended before the lock is
released. -/
def footprint (k : Nat) (tr : List Event) : Prop :=
  (∀ e ∈ tr, touches k e = true) ∧
  guard_run k tr (some (false, false)) = some (false, false)

/-- Three threads at once: thread 1 in `db5500_prcmu_set_power_state`, thread 2 in
`db5500_prcmu_request_clock` for `PRCMU_PLLSOC0`, whose acknowledge arrives while it
waits, and thread 3 in `prcmu_irq_thread_fn`, which gets the lock of mailbox 0 once
thread 1 has released it. -/
def sample_schedule : List (Nat × Event) :=
  [ (1, Event.lock Lock.mb0),
    (2, Event.lock Lock.mb2),
    (1, Event.readl_cpu_val 0),
    (2, Event.readl_cpu_val 0),
    (1, Event.writeb PRCM_REQ_MB0_AP_POWER_STATE DB5500_AP_IDLE),
    (2, Event.writeb PRCM_REQ_MB2_PLL_CLIENT DB5500_PLL_SOC0),
    (1, Event.writeb PRCM_REQ_MB0_DDR_STATE 0),
    (1, Event.writeb PRCM_REQ_MB0_AP_PLL_STATE 1),
    (2, Event.writeb PRCM_REQ_MB2_PLL_STATE 1),
    (1, Event.writeb PRCM_REQ_MB0_ULP_CLOCK_STATE 0),
    (2, Event.writeb PRCM_REQ_MB2_HEADER MB2H_PLL_REQUEST),
    (1, Event.writeb PRCM_REQ_MB0_HEADER MB0H_PWR_STATE_TRANS),
    (2, Event.reg_writel Reg.PRCM_MBOX_CPU_SET (MBOX_BIT 2)),
    (1, Event.reg_writel Reg.PRCM_MBOX_CPU_SET (MBOX_BIT 0)),
    (1, Event.unlock Lock.mb0),
    (3, Event.lock Lock.mb0),
    (3, Event.readl_cpu_val 0),
    (3, Event.writeb PRCM_REQ_MB0_HEADER MB0H_RD_WAKE_UP_ACK),
    (2, Event.reg_writel Reg.PRCM_ARM_IT1_CLR (MBOX_BIT 2)),
    (2, Event.complete Compl.mb2_work),
    (3, Event.reg_writel Reg.PRCM_MBOX_CPU_SET (MBOX_BIT 0)),
    (2, Event.wait_end Compl.mb2_work true),
    (3, Event.unlock Lock.mb0),
    (2, Event.unlock Lock.mb2) ]

/-- Transaction A on mailbox 3: `request_sysclk(true)` on `World.sample` with no
interrupt during its wait. -/
def World.sample_S : World :=
  ((request_sysclk true [] World.sample).map Prod.fst).getD World.sample

/-- The state once the interrupt path has consumed the late acknowledge for that
transaction. -/
def World.sample_S_late : World :=
  ((interrupt (Irq.mb3_ack MB3H_REFCLK_REQUEST SYSCLK_ON) World.sample_S).map Prod.fst).getD
    World.sample

/-- The world `World.sample` after a two-byte `db5500_prcmu_abb_read` whose wait takes
the acknowledge interrupt. -/
def World.sample_abb_read : World :=
  ((db5500_prcmu_abb_read 0x12 0x04 [0, 0] 2
    [Irq.mb5_ack MB5H_I2C_READ RC_SUCCESS 0xAB 0xCD 0 0] World.sample).map Prod.fst).getD
    World.sample

/-- The world `World.sample` after a two-byte `db5500_prcmu_abb_write` whose wait takes
the acknowledge interrupt. -/
def World.sample_abb_write : World :=
  ((db5500_prcmu_abb_write 0x12 0x04 [0xAA, 0xBB] 2
    [Irq.mb5_ack MB5H_I2C_WRITE RC_SUCCESS 0 0 0 0] World.sample).map Prod.fst).getD
    World.sample

end Db5500Prcmu

namespace Dbx500Regulator

/-! # `drivers/regulator/dbx500-prcmu.c`: the power-state reference count -/

end Dbx500Regulator

namespace Cw1200

/-! # `drivers/staging/cw1200/txrx.c`: building a TX retry policy -/

/-- The fields of the kernel's `struct ieee80211_tx_rate` that `tx_policy_build` uses:
the rate index `idx`, an `s8`, and the number of tries `count`, a `u8`. -/
structure ieee80211_tx_rate where
  idx : Int
  count : Nat
  deriving DecidableEq, Repr, Inhabited

/-- The fields of `struct tx_policy` that `tx_policy_build` writes: the three words
of `tbl`, and the bytes `defined` and `retry_count`. -/
structure tx_policy where
  tbl : List Nat
  defined : Nat
  retry_count : Nat
  deriving DecidableEq, Repr

/-- Reading `rates[i]`. -/
def rate_at (rates : List ieee80211_tx_rate) (i : Nat) : ieee80211_tx_rate :=
  rates.getD i ⟨0, 0⟩

/-- Storing `c` into `rates[i].count`. -/
def set_count (rates : List ieee80211_tx_rate) (i c : Nat) : List ieee80211_tx_rate :=
  rates.set i { rate_at rates i with count := c }

/-- The first loop of `tx_policy_build`, `for (i = 0; i < count; ++i)`, from index `i`
on with `fuel = count - i` iterations left: the array, the index at which the loop
stops, and `total`.  The `u8` sum wraps at 256 and the `unsigned` sum at `2^32`. -/
def distill : Nat → Nat → Nat → List ieee80211_tx_rate →
    List ieee80211_tx_rate × Nat × Nat
  | 0, i, total, rates => (rates, i, total)
  | fuel + 1, i, total, rates =>
    if (rate_at rates i).idx < 0 then (rates, i, total)
    else if i ≠ 0 ∧ (rate_at rates i).idx = (rate_at rates (i - 1)).idx then
      (set_count rates (i - 1) (((rate_at rates (i - 1)).count + (rate_at rates i).count) % 256),
        i, total)
    else
      let total := (total + (rate_at rates i).count) % 2 ^ 32
      let rates :=
        if i ≠ 0 ∧ (rate_at rates i).idx > (rate_at rates (i - 1)).idx then
          (rates.set (i - 1) (rate_at rates i)).set i (rate_at rates (i - 1))
        else rates
      distill fuel (i + 1) total rates

/-- The loop `for (i = count - 1; i >= 0; --i)` of `tx_policy_build` with `i + 1 = k`
iterations left: the array and `limit` at the end.  `limit - i` and
`limit -= rates[i].count` are `unsigned` operations: they wrap at `2^32`. -/
def clamp : Nat → Nat → List ieee80211_tx_rate → List ieee80211_tx_rate × Nat
  | 0, limit, rates => (rates, limit)
  | i + 1, limit, rates =>
    let d := (limit + 2 ^ 32 - i % 2 ^ 32) % 2 ^ 32
    let rates := if (rate_at rates i).count > d then set_count rates i (d % 256) else rates
    clamp i ((limit + 2 ^ 32 - (rate_at rates i).count) % 2 ^ 32) rates

/-- The same loop, listing for every iteration the index `i` and the value of `limit`
with which `limit - i` is computed. -/
def clamp_steps : Nat → Nat → List ieee80211_tx_rate → List (Nat × Nat)
  | 0, _, _ => []
  | i + 1, limit, rates =>
    let d := (limit + 2 ^ 32 - i % 2 ^ 32) % 2 ^ 32
    let rates := if (rate_at rates i).count > d then set_count rates i (d % 256) else rates
    (i, limit) :: clamp_steps i ((limit + 2 ^ 32 - (rate_at rates i).count) % 2 ^ 32) rates

/-- The last loop of `tx_policy_build`, `for (i = 0; i < count; ++i)`, from index `i`
on with `fuel = count - i` iterations left.  `hw_value idx` stands for
`rates_tbl[idx].hw_value`; a word outside `tbl` is not written. -/
def encode (hw_value : Int → Nat) : Nat → Nat → List ieee80211_tx_rate → tx_policy →
    List ieee80211_tx_rate × tx_policy
  | 0, _, rates, policy => (rates, policy)
  | fuel + 1, i, rates, policy =>
    let rateid := hw_value (rate_at rates i).idx
    let off := rateid >>> 3
    let shift := (rateid &&& 0x07) <<< 2
    let retries := if (rate_at rates i).count > 0x0F then 0x0F else (rate_at rates i).count
    let rates := if (rate_at rates i).count > 0x0F then set_count rates i 0x0F else rates
    let policy :=
      { policy with
        tbl := policy.tbl.set off (policy.tbl.getD off 0 ||| (retries <<< shift) % 2 ^ 32),
        retry_count := (policy.retry_count + retries) % 256 }
    encode hw_value fuel (i + 1) rates policy

/-- The value of `limit` after `if (limit < count) limit = count;`. -/
def retry_limit (short_frame_max_tx_count count : Nat) : Nat :=
  if short_frame_max_tx_count < count then count else short_frame_max_tx_count

/-- Function `tx_policy_build`: the array `rates` as it leaves it, the policy it
builds, and the number of rates it uses (`count` after the first loop).
`short_frame_max_tx_count` and `hw_value` stand for the fields of `priv`; `BUG_ON`
does not return. -/
def tx_policy_build (hw_value : Int → Nat) (short_frame_max_tx_count : Nat)
    (rates : List ieee80211_tx_rate) (count : Nat) :
    Option (List ieee80211_tx_rate × tx_policy × Nat) :=
  if (rate_at rates 0).idx < 0 then none
  else
    let d := distill count 0 0 rates
    let count := d.2.1
    let total := d.2.2
    let limit := retry_limit short_frame_max_tx_count count
    let rates := if total > limit then (clamp count limit d.1).1 else d.1
    let policy : tx_policy :=
      { tbl := [0, 0, 0], defined := (hw_value (rate_at rates 0).idx + 1) % 256,
        retry_count := 0 }
    let e := encode hw_value count 0 rates policy
    some (e.1, e.2, count)

/-- The iterations of the clamping loop in a call of `tx_policy_build`: none when
`total <= limit`. -/
def tx_policy_clamp_steps (short_frame_max_tx_count : Nat)
    (rates : List ieee80211_tx_rate) (count : Nat) : List (Nat × Nat) :=
  let d := distill count 0 0 rates
  let limit := retry_limit short_frame_max_tx_count d.2.1
  if d.2.2 > limit then clamp_steps d.2.1 limit d.1 else []

/-- A rate table whose hardware value is the rate index. -/
def sample_hw_value (idx : Int) : Nat := idx.toNat

/-- Two entries for the same rate, three tries each. -/
def sample_rates : List ieee80211_tx_rate := [⟨5, 3⟩, ⟨5, 3⟩]

/-- Three different rates with more tries than the limit allows. -/
def sample_rates_clamped : List ieee80211_tx_rate := [⟨7, 20⟩, ⟨5, 4⟩, ⟨3, 4⟩]

end Cw1200

namespace Db5500Prcmu

/-! ## Basic facts -/

theorem poll_mbox_some (n : Nat) : ∀ (l : List Nat) (w w1 : World),
    poll_mbox n w l = some w1 →
    ∃ pre v rest, l = pre ++ v :: rest ∧ (∀ x ∈ pre, x &&& MBOX_BIT n ≠ 0) ∧
      v &&& MBOX_BIT n = 0 ∧
      w1 = { w with cpu_val := rest,
                    trace := w.trace ++ (pre ++ [v]).map Event.readl_cpu_val } := by
  intro l
  induction l with
  | nil => intro w w1 h; simp [poll_mbox] at h
  | cons v rest ih =>
    intro w w1 h
    simp only [poll_mbox] at h
    by_cases hv : v &&& MBOX_BIT n = 0
    · simp [hv] at h
      refine ⟨[], v, rest, rfl, by simp, hv, ?_⟩
      subst h
      simp [emit]
    · simp [hv] at h
      obtain ⟨pre, v1, rest1, hl, hpre, hv1, hw⟩ := ih _ _ h
      refine ⟨v :: pre, v1, rest1, by simp [hl], ?_, hv1, ?_⟩
      · intro x hx
        rcases List.mem_cons.mp hx with rfl | hx
        · exact hv
        · exact hpre x hx
      · subst hw
        simp [emit]

theorem poll_mbox_isSome (n : Nat) : ∀ (l : List Nat) (w : World),
    (∃ v ∈ l, v &&& MBOX_BIT n = 0) → (poll_mbox n w l).isSome = true := by
  intro l
  induction l with
  | nil => intro w h; simp at h
  | cons v rest ih =>
    intro w h
    simp only [poll_mbox]
    by_cases hv : v &&& MBOX_BIT n = 0
    · simp [hv]
    · simp only [ne_eq, hv, not_false_eq_true, if_true]
      apply ih
      obtain ⟨x, hx, hx0⟩ := h
      rcases List.mem_cons.mp hx with rfl | hx
      · exact absurd hx0 hv
      · exact ⟨x, hx, hx0⟩

theorem mailbox_writes_append (a b : List Event) :
    mailbox_writes (a ++ b) = mailbox_writes a ++ mailbox_writes b := by
  simp [mailbox_writes]

theorem mailbox_writes_reads (l : List Nat) :
    mailbox_writes (l.map Event.readl_cpu_val) = [] := by
  induction l with
  | nil => rfl
  | cons v rest ih =>
    simp only [mailbox_writes, List.map_cons, List.filter_cons] at ih ⊢
    simp [is_mailbox_write, ih]

theorem wait_mbox_clear_some (n : Nat) (w w1 : World) (h : wait_mbox_clear n w = some w1) :
    ∃ pre v rest, w.cpu_val = pre ++ v :: rest ∧ (∀ x ∈ pre, x &&& MBOX_BIT n ≠ 0) ∧
      v &&& MBOX_BIT n = 0 ∧
      w1 = { w with cpu_val := rest,
                    trace := w.trace ++ (pre ++ [v]).map Event.readl_cpu_val } :=
  poll_mbox_some n w.cpu_val w w1 h

theorem wait_mbox_clear_isSome (n : Nat) (w : World)
    (h : ∃ v ∈ w.cpu_val, v &&& MBOX_BIT n = 0) : (wait_mbox_clear n w).isSome = true :=
  poll_mbox_isSome n w.cpu_val w h

/-- What `config_wakeups` leaves behind when it returns. -/
theorem config_wakeups_some (w w1 : World) (h : config_wakeups w = some w1) :
    w1.dbb_irqs = w.dbb_irqs ∧ w1.dbb_wakeups = w.dbb_wakeups ∧ w1.abb_events = w.abb_events ∧
    w1.last_dbb_events = w.dbb_irqs ||| w.dbb_wakeups ∧ w1.last_abb_events = w.abb_events ∧
    ∃ polls : List Nat, w1.trace = w.trace ++ polls.map Event.readl_cpu_val ++
      (if w.dbb_irqs ||| w.dbb_wakeups = w.last_dbb_events ∧ w.abb_events = w.last_abb_events
       then [] else wakeup_cfg_push (w.dbb_irqs ||| w.dbb_wakeups) w.abb_events) := by
  unfold config_wakeups at h
  by_cases hs : w.dbb_irqs ||| w.dbb_wakeups = w.last_dbb_events ∧ w.abb_events = w.last_abb_events
  · simp only [hs, and_self, if_true, Option.some.injEq] at h
    subst h
    refine ⟨rfl, rfl, rfl, hs.1.symm, hs.2.symm, [], ?_⟩
    simp [hs]
  · simp only [hs, if_false] at h
    cases hp : wait_mbox_clear 0 w with
    | none => simp [hp] at h
    | some w0 =>
      simp only [hp, Option.some.injEq] at h
      obtain ⟨pre, v, rest, _, _, _, hw0⟩ := wait_mbox_clear_some 0 w w0 hp
      subst hw0
      subst h
      simp only [writel, writeb, reg_writel, emit]
      refine ⟨trivial, trivial, trivial, trivial, trivial, pre ++ [v], ?_⟩
      simp [hs, wakeup_cfg_push, MB0H_WAKE_UP_CFG]

theorem config_wakeups_same (w : World)
    (hs : w.dbb_irqs ||| w.dbb_wakeups = w.last_dbb_events ∧ w.abb_events = w.last_abb_events) :
    config_wakeups w = some w := by
  simp [config_wakeups, hs]

theorem config_wakeups_isSome (w : World)
    (h : (w.dbb_irqs ||| w.dbb_wakeups = w.last_dbb_events ∧ w.abb_events = w.last_abb_events) ∨
      ∃ v ∈ w.cpu_val, v &&& MBOX_BIT 0 = 0) : (config_wakeups w).isSome = true := by
  by_cases hs : w.dbb_irqs ||| w.dbb_wakeups = w.last_dbb_events ∧ w.abb_events = w.last_abb_events
  · simp [config_wakeups_same w hs]
  · rcases h with h | h
    · exact absurd h hs
    · have := wait_mbox_clear_isSome 0 w h
      unfold config_wakeups
      simp only [hs, if_false]
      cases hp : wait_mbox_clear 0 w with
      | none => simp [hp] at this
      | some w0 => simp

/-- The loop of `db5500_prcmu_enable_wakeups` only logs warnings; the bits it
computes do not depend on the driver state. -/
theorem wakeup_bits_world (wakeups : Nat) : ∀ (l : List Nat) (i bits : Nat) (w : World),
    ∃ k : Nat, wakeup_bits wakeups i l bits w =
      ((wakeup_bits wakeups i l bits (World.boot (fun _ => 0) [] [])).1,
        { w with trace := w.trace ++ List.replicate k Event.warn }) := by
  intro l
  induction l with
  | nil => intro i bits w; exact ⟨0, by simp [wakeup_bits]⟩
  | cons b bs ih =>
    intro i bits w
    simp only [wakeup_bits]
    by_cases hw : wakeups &&& BIT i = 0
    · simp only [hw, ne_eq, not_true_eq_false, if_false]
      exact ih _ _ _
    · simp only [hw, ne_eq, not_false_eq_true, if_true]
      by_cases hb : b = 0
      · simp only [hb, if_true]
        obtain ⟨k, hk⟩ := ih (i + 1) bits (emit Event.warn w)
        obtain ⟨k0, hk0⟩ := ih (i + 1) bits (emit Event.warn (World.boot (fun _ => 0) [] []))
        refine ⟨k + 1, ?_⟩
        rw [hk, hk0]
        simp [emit, List.replicate_succ]
      · simp only [hb, if_false]
        exact ih _ _ _

theorem mailbox_writes_warns (k : Nat) : mailbox_writes (List.replicate k Event.warn) = [] := by
  induction k with
  | zero => rfl
  | succ k ih =>
    simp only [mailbox_writes, List.replicate_succ, List.filter_cons] at ih ⊢
    simp [is_mailbox_write, ih]

/-! ## The interrupt path -/

theorem dispatch_wakeups_eq (ev : Nat) : ∀ (l : List Nat) (n : Nat) (w : World),
    dispatch_wakeups ev n l w =
      { w with trace := w.trace ++ (dispatched ev n l).map Event.generic_handle_irq } := by
  intro l
  induction l with
  | nil => intro n w; simp [dispatch_wakeups, dispatched]
  | cons b bs ih =>
    intro n w
    simp only [dispatch_wakeups, dispatched]
    by_cases hb : ev &&& b = 0
    · simp [hb, ih]
    · simp [hb, ih, emit]

set_option maxRecDepth 100000 in
theorem mbox_bits_sub : ∀ b : Fin 256, ∀ n : Fin 8, ∀ k : Fin 8,
    b.val &&& MBOX_BIT n.val ≠ 0 → b.val &&& MBOX_BIT k.val = 0 →
      (b.val - MBOX_BIT n.val) &&& MBOX_BIT k.val = 0 := by decide

theorem mbox_bit_lt (b n : Nat) (hb : b < 256) (h : b &&& MBOX_BIT n ≠ 0) : n < 8 := by
  by_contra hn
  apply h
  have hlt : b < 2 ^ n := lt_of_lt_of_le hb (by
    calc 256 = 2 ^ 8 := by norm_num
      _ ≤ 2 ^ n := Nat.pow_le_pow_right (by norm_num) (by omega))
  apply Nat.eq_of_testBit_eq
  intro i
  simp only [MBOX_BIT, BIT, Nat.one_shiftLeft, Nat.testBit_and, Nat.testBit_two_pow,
    Nat.zero_testBit]
  by_cases hni : n = i
  · subst hni; simp [Nat.testBit_lt_two_pow hlt]
  · simp [hni]

/-- A property of the state that every reader but mailbox `k`'s preserves is
preserved by the handler loop when acknowledge bit `k` is not pending. -/
theorem irq_loop_frame (k : Nat) (hk : k < 8) (P : World → Prop)
    (hP : ∀ n w w1 b, n ≠ k → read_mailbox n w = some (w1, b) → P w → P w1) :
    ∀ (fuel n bits : Nat) (r : irqreturn_t) (w w1 : World) (r1 : irqreturn_t),
      bits < 256 → bits &&& MBOX_BIT k = 0 →
      irq_loop fuel n bits r w = some (w1, r1) → P w → P w1 := by
  intro fuel
  induction fuel with
  | zero =>
    intro n bits r w w1 r1 _ _ h hw
    simp only [irq_loop] at h
    by_cases hb : bits = 0
    · simp only [hb, if_true, Option.some.injEq, Prod.mk.injEq] at h
      rw [← h.1]; exact hw
    · simp [hb] at h
  | succ fuel ih =>
    intro n bits r w w1 r1 hlt hkb h hw
    simp only [irq_loop] at h
    by_cases hb : bits = 0
    · simp only [hb, if_true, Option.some.injEq, Prod.mk.injEq] at h
      rw [← h.1]; exact hw
    · simp only [hb, if_false] at h
      by_cases hn : bits &&& MBOX_BIT n = 0
      · simp only [hn, ne_eq, not_true_eq_false, if_false] at h
        exact ih _ _ _ _ _ _ hlt hkb h hw
      · simp only [hn, ne_eq, not_false_eq_true, if_true] at h
        have hn8 : n < 8 := mbox_bit_lt bits n hlt hn
        have hnk : n ≠ k := by
          intro e; subst e; exact hn hkb
        cases hr : read_mailbox n w with
        | none => simp [hr] at h
        | some p =>
          obtain ⟨w2, b⟩ := p
          simp only [hr] at h
          have hsub := mbox_bits_sub ⟨bits, hlt⟩ ⟨n, hn8⟩ ⟨k, hk⟩ hn hkb
          exact ih _ _ _ _ _ _ (lt_of_le_of_lt (Nat.sub_le _ _) hlt) hsub h
            (hP n w w2 b hnk hr hw)

theorem and_all_mbox_bits (v k : Nat) (hk : k < 8) (h : v &&& MBOX_BIT k = 0) :
    (v &&& ALL_MBOX_BITS) &&& MBOX_BIT k = 0 := by
  have hc : ALL_MBOX_BITS &&& MBOX_BIT k = MBOX_BIT k := by
    interval_cases k <;> decide
  rw [Nat.land_assoc, hc, h]

theorem and_all_mbox_bits_lt (v : Nat) : v &&& ALL_MBOX_BITS < 256 :=
  lt_of_le_of_lt Nat.and_le_right (by decide)

/-- The same for a whole interrupt, provided the firmware's stores do not matter
to the property. -/
theorem interrupt_frame (k : Nat) (hk : k < 8) (P : World → Prop)
    (hP : ∀ n w w1 b, n ≠ k → read_mailbox n w = some (w1, b) → P w → P w1)
    (hS : ∀ (w : World) (m : Nat → Nat), P w → P { w with tcdm := m })
    (i : Irq) (w w1 : World) (r : irqreturn_t) (hq : i.it1_val &&& MBOX_BIT k = 0)
    (h : interrupt i w = some (w1, r)) (hw : P w) : P w1 := by
  simp only [interrupt, prcmu_irq_handler] at h
  by_cases hb : i.it1_val &&& ALL_MBOX_BITS = 0
  · simp only [hb, if_true, Option.some.injEq, Prod.mk.injEq] at h
    rw [← h.1]; exact hS _ _ hw
  · simp only [hb, if_false] at h
    exact irq_loop_frame k hk P hP _ _ _ _ _ _ _ (and_all_mbox_bits_lt _)
      (and_all_mbox_bits _ k hk hq) h (hS _ _ hw)

theorem read_mailbox_lt (n : Nat) (hn : n < 8) (w : World) :
    ∃ p, read_mailbox n w = some p := by
  interval_cases n <;> exact ⟨_, rfl⟩

theorem read_mailbox_0_views (w : World) :
    mb2_view (read_mailbox_0 w).1 = mb2_view w ∧ mb3_view (read_mailbox_0 w).1 = mb3_view w ∧
    mb5_view (read_mailbox_0 w).1 = mb5_view w := by
  simp only [read_mailbox_0, dispatch_wakeups_eq]
  split <;> exact ⟨rfl, rfl, rfl⟩

theorem read_mailbox_1_views (w : World) :
    mb2_view (read_mailbox_1 w).1 = mb2_view w ∧ mb3_view (read_mailbox_1 w).1 = mb3_view w ∧
    mb5_view (read_mailbox_1 w).1 = mb5_view w := by
  simp only [read_mailbox_1]
  split
  · exact ⟨rfl, rfl, rfl⟩
  · split <;> exact ⟨rfl, rfl, rfl⟩

theorem read_mailbox_2_views (w : World) :
    mb3_view (read_mailbox_2 w).1 = mb3_view w ∧ mb5_view (read_mailbox_2 w).1 = mb5_view w := by
  simp only [read_mailbox_2]
  split
  · exact ⟨rfl, rfl⟩
  · split
    · exact ⟨rfl, rfl⟩
    · split <;> exact ⟨rfl, rfl⟩

theorem read_mailbox_3_views (w : World) :
    mb2_view (read_mailbox_3 w).1 = mb2_view w ∧ mb5_view (read_mailbox_3 w).1 = mb5_view w := by
  simp only [read_mailbox_3]
  split <;> exact ⟨rfl, rfl⟩

theorem read_mailbox_5_views (w : World) :
    mb2_view (read_mailbox_5 w).1 = mb2_view w ∧ mb3_view (read_mailbox_5 w).1 = mb3_view w := by
  simp only [read_mailbox_5]
  split
  · exact ⟨rfl, rfl⟩
  · split <;> exact ⟨rfl, rfl⟩

theorem read_mailbox_mb2_view (n : Nat) (w w1 : World) (b : Bool) (hn : n ≠ 2)
    (h : read_mailbox n w = some (w1, b)) : mb2_view w1 = mb2_view w := by
  unfold read_mailbox at h
  split at h <;> simp only [Option.some.injEq, reduceCtorEq] at h <;>
    first
    | exact absurd rfl hn
    | (obtain rfl := congrArg Prod.fst h
       first
       | exact (read_mailbox_0_views w).1
       | exact (read_mailbox_1_views w).1
       | exact (read_mailbox_3_views w).1
       | exact (read_mailbox_5_views w).1
       | rfl)

theorem read_mailbox_mb3_view (n : Nat) (w w1 : World) (b : Bool) (hn : n ≠ 3)
    (h : read_mailbox n w = some (w1, b)) : mb3_view w1 = mb3_view w := by
  unfold read_mailbox at h
  split at h <;> simp only [Option.some.injEq, reduceCtorEq] at h <;>
    first
    | exact absurd rfl hn
    | (obtain rfl := congrArg Prod.fst h
       first
       | exact (read_mailbox_0_views w).2.1
       | exact (read_mailbox_1_views w).2.1
       | exact (read_mailbox_2_views w).1
       | exact (read_mailbox_5_views w).2
       | rfl)

theorem read_mailbox_mb5_view (n : Nat) (w w1 : World) (b : Bool) (hn : n ≠ 5)
    (h : read_mailbox n w = some (w1, b)) : mb5_view w1 = mb5_view w := by
  unfold read_mailbox at h
  split at h <;> simp only [Option.some.injEq, reduceCtorEq] at h <;>
    first
    | exact absurd rfl hn
    | (obtain rfl := congrArg Prod.fst h
       first
       | exact (read_mailbox_0_views w).2.2
       | exact (read_mailbox_1_views w).2.2
       | exact (read_mailbox_2_views w).2
       | exact (read_mailbox_3_views w).2
       | rfl)

set_option maxRecDepth 100000 in
theorem mbox_bits_low : ∀ b : Fin 256, ∀ n : Fin 8, b.val % 2 ^ n.val = 0 →
    (b.val &&& MBOX_BIT n.val ≠ 0 → (b.val - MBOX_BIT n.val) % 2 ^ (n.val + 1) = 0) ∧
    (b.val &&& MBOX_BIT n.val = 0 → b.val % 2 ^ (n.val + 1) = 0) := by decide

/-- The handler loop runs to completion within `NUM_MB` iterations. -/
theorem irq_loop_isSome : ∀ (fuel n bits : Nat) (r : irqreturn_t) (w : World),
    n ≤ 8 → bits < 256 → bits % 2 ^ n = 0 → 8 ≤ n + fuel →
    ∃ p, irq_loop fuel n bits r w = some p := by
  intro fuel
  induction fuel with
  | zero =>
    intro n bits r w hn hlt hlow hf
    have h8 : n = 8 := by omega
    subst h8
    have hb : bits = 0 := by simp at hlow; omega
    simp only [irq_loop]
    rw [if_pos hb]
    exact ⟨_, rfl⟩
  | succ fuel ih =>
    intro n bits r w hn hlt hlow hf
    simp only [irq_loop]
    by_cases hb : bits = 0
    · rw [if_pos hb]
      exact ⟨_, rfl⟩
    · simp only [hb, if_false]
      have hn8 : n < 8 := by
        by_contra hc
        have h8 : n = 8 := by omega
        subst h8
        simp at hlow; omega
      have hfacts := mbox_bits_low ⟨bits, hlt⟩ ⟨n, hn8⟩ hlow
      by_cases hbit : bits &&& MBOX_BIT n = 0
      · simp only [hbit, ne_eq, not_true_eq_false, if_false]
        exact ih _ _ _ _ (by omega) hlt (hfacts.2 hbit) (by omega)
      · simp only [hbit, ne_eq, not_false_eq_true, if_true]
        obtain ⟨p, hp⟩ := read_mailbox_lt n hn8 w
        obtain ⟨w1, wake⟩ := p
        simp only [hp]
        exact ih _ _ _ _ (by omega) (lt_of_le_of_lt (Nat.sub_le _ _) hlt) (hfacts.1 hbit)
          (by omega)

/-- The top half always returns. -/
theorem interrupt_isSome (i : Irq) (w : World) : ∃ p, interrupt i w = some p := by
  simp only [interrupt, prcmu_irq_handler]
  by_cases hb : i.it1_val &&& ALL_MBOX_BITS = 0
  · rw [if_pos hb]
    exact ⟨_, rfl⟩
  · simp only [hb, if_false]
    exact irq_loop_isSome 256 0 _ _ _ (by omega) (and_all_mbox_bits_lt _) (Nat.mod_one _)
      (by omega)

theorem interrupt_mb2_view (i : Irq) (w w1 : World) (r : irqreturn_t)
    (hq : i.it1_val &&& MBOX_BIT 2 = 0) (h : interrupt i w = some (w1, r)) :
    mb2_view w1 = mb2_view w :=
  interrupt_frame 2 (by decide) (fun x => mb2_view x = mb2_view w)
    (fun n x x1 b hn hx hv => (read_mailbox_mb2_view n x x1 b hn hx).trans hv)
    (fun _ _ hv => hv) i w w1 r hq h rfl

theorem interrupt_mb3_view (i : Irq) (w w1 : World) (r : irqreturn_t)
    (hq : i.it1_val &&& MBOX_BIT 3 = 0) (h : interrupt i w = some (w1, r)) :
    mb3_view w1 = mb3_view w :=
  interrupt_frame 3 (by decide) (fun x => mb3_view x = mb3_view w)
    (fun n x x1 b hn hx hv => (read_mailbox_mb3_view n x x1 b hn hx).trans hv)
    (fun _ _ hv => hv) i w w1 r hq h rfl

theorem interrupt_mb5_view (i : Irq) (w w1 : World) (r : irqreturn_t)
    (hq : i.it1_val &&& MBOX_BIT 5 = 0) (h : interrupt i w = some (w1, r)) :
    mb5_view w1 = mb5_view w :=
  interrupt_frame 5 (by decide) (fun x => mb5_view x = mb5_view w)
    (fun n x x1 b hn hx hv => (read_mailbox_mb5_view n x x1 b hn hx).trans hv)
    (fun _ _ hv => hv) i w w1 r hq h rfl

/-- A property every reader preserves is preserved by the handler loop. -/
theorem irq_loop_all (P : World → Prop)
    (hP : ∀ n w w1 b, read_mailbox n w = some (w1, b) → P w → P w1) :
    ∀ (fuel n bits : Nat) (r : irqreturn_t) (w w1 : World) (r1 : irqreturn_t),
      irq_loop fuel n bits r w = some (w1, r1) → P w → P w1 := by
  intro fuel
  induction fuel with
  | zero =>
    intro n bits r w w1 r1 h hw
    simp only [irq_loop] at h
    by_cases hb : bits = 0
    · simp only [hb, if_true, Option.some.injEq, Prod.mk.injEq] at h
      rw [← h.1]; exact hw
    · simp [hb] at h
  | succ fuel ih =>
    intro n bits r w w1 r1 h hw
    simp only [irq_loop] at h
    by_cases hb : bits = 0
    · simp only [hb, if_true, Option.some.injEq, Prod.mk.injEq] at h
      rw [← h.1]; exact hw
    · simp only [hb, if_false] at h
      by_cases hn : bits &&& MBOX_BIT n = 0
      · simp only [hn, ne_eq, not_true_eq_false, if_false] at h
        exact ih _ _ _ _ _ _ h hw
      · simp only [hn, ne_eq, not_false_eq_true, if_true] at h
        cases hr : read_mailbox n w with
        | none => simp [hr] at h
        | some p =>
          obtain ⟨w2, b⟩ := p
          simp only [hr] at h
          exact ih _ _ _ _ _ _ h (hP n w w2 b hr hw)

/-- Each reader only appends top-half events to the trace. -/
theorem read_mailbox_trace (n : Nat) (w w1 : World) (b : Bool)
    (h : read_mailbox n w = some (w1, b)) :
    ∃ evs, w1.trace = w.trace ++ evs ∧ ∀ e ∈ evs, is_irq_event e = true := by
  unfold read_mailbox at h
  split at h <;> simp only [Option.some.injEq, reduceCtorEq] at h
  · obtain rfl := congrArg Prod.fst h
    simp only [read_mailbox_0, dispatch_wakeups_eq, print_unknown_header_warning, reg_writel, emit]
    split
    · refine ⟨_, (List.append_assoc _ _ _), ?_⟩
      intro e he
      rcases List.mem_append.mp he with he | he
      · obtain ⟨x, _, rfl⟩ := List.mem_map.mp he
        rfl
      · rw [List.mem_singleton.mp he]; rfl
    · refine ⟨_, (List.append_assoc _ _ _), ?_⟩
      intro e he
      simp only [List.mem_append, List.mem_singleton] at he
      rcases he with rfl | rfl <;> rfl
  · obtain rfl := congrArg Prod.fst h
    simp only [read_mailbox_1, print_unknown_header_warning, reg_writel, emit, complete,
      Compl.set_done, Compl.done]
    split
    · refine ⟨_, (List.append_assoc _ _ _), ?_⟩
      intro e he
      simp only [List.mem_append, List.mem_singleton] at he
      rcases he with rfl | rfl <;> rfl
    · split
      · refine ⟨_, (List.append_assoc _ _ _), ?_⟩
        intro e he
        simp only [List.mem_append, List.mem_singleton] at he
        rcases he with rfl | rfl <;> rfl
      · refine ⟨_, (List.append_assoc _ _ _), ?_⟩
        intro e he
        simp only [List.mem_append, List.mem_singleton] at he
        rcases he with rfl | rfl <;> rfl
  · obtain rfl := congrArg Prod.fst h
    simp only [read_mailbox_2, reg_writel, emit, complete, Compl.set_done, Compl.done]
    split
    · refine ⟨_, (List.append_assoc _ _ _), ?_⟩
      intro e he
      simp only [List.mem_append, List.mem_singleton] at he
      rcases he with rfl | rfl <;> rfl
    · split
      · refine ⟨_, (List.append_assoc _ _ _), ?_⟩
        intro e he
        simp only [List.mem_append, List.mem_singleton] at he
        rcases he with rfl | rfl <;> rfl
      · split
        · refine ⟨_, (List.append_assoc _ _ _), ?_⟩
          intro e he
          simp only [List.mem_append, List.mem_singleton] at he
          rcases he with rfl | rfl <;> rfl
        · refine ⟨_, (List.append_assoc _ _ _), ?_⟩
          intro e he
          simp only [List.mem_append, List.mem_singleton] at he
          rcases he with rfl | rfl <;> rfl
  · obtain rfl := congrArg Prod.fst h
    simp only [read_mailbox_3, reg_writel, emit, complete, Compl.set_done, Compl.done]
    split
    · refine ⟨_, (List.append_assoc _ _ _), ?_⟩
      intro e he
      simp only [List.mem_append, List.mem_singleton] at he
      rcases he with rfl | rfl <;> rfl
    · refine ⟨_, (List.append_assoc _ _ _), ?_⟩
      intro e he
      simp only [List.mem_append, List.mem_singleton] at he
      rcases he with rfl | rfl <;> rfl
  · obtain rfl := congrArg Prod.fst h
    exact ⟨_, rfl, by intro e he; rw [List.mem_singleton.mp he]; rfl⟩
  · obtain rfl := congrArg Prod.fst h
    simp only [read_mailbox_5, print_unknown_header_warning, reg_writel, emit, complete,
      Compl.set_done, Compl.done]
    split
    · refine ⟨_, (List.append_assoc _ _ _), ?_⟩
      intro e he
      simp only [List.mem_append, List.mem_singleton] at he
      rcases he with rfl | rfl <;> rfl
    · split
      · refine ⟨_, (List.append_assoc _ _ _), ?_⟩
        intro e he
        simp only [List.mem_append, List.mem_singleton] at he
        rcases he with rfl | rfl <;> rfl
      · refine ⟨_, (List.append_assoc _ _ _), ?_⟩
        intro e he
        simp only [List.mem_append, List.mem_singleton] at he
        rcases he with rfl | rfl <;> rfl
  · obtain rfl := congrArg Prod.fst h
    exact ⟨_, rfl, by intro e he; rw [List.mem_singleton.mp he]; rfl⟩
  · obtain rfl := congrArg Prod.fst h
    exact ⟨_, rfl, by intro e he; rw [List.mem_singleton.mp he]; rfl⟩

/-- An interrupt only appends top-half events to the trace. -/
theorem interrupt_trace (i : Irq) (w w1 : World) (r : irqreturn_t)
    (h : interrupt i w = some (w1, r)) :
    ∃ evs, w1.trace = w.trace ++ evs ∧ ∀ e ∈ evs, is_irq_event e = true := by
  simp only [interrupt, prcmu_irq_handler] at h
  by_cases hb : i.it1_val &&& ALL_MBOX_BITS = 0
  · simp only [hb, if_true, Option.some.injEq, Prod.mk.injEq] at h
    rw [← h.1]
    exact ⟨[], by simp, by simp⟩
  · simp only [hb, if_false] at h
    refine irq_loop_all
      (fun x => ∃ evs, x.trace = w.trace ++ evs ∧ ∀ e ∈ evs, is_irq_event e = true)
      ?_ _ _ _ _ _ _ _ h ⟨[], by simp, by simp⟩
    intro n x x1 b hx hpx
    obtain ⟨evs, he, ha⟩ := hpx
    obtain ⟨evs1, he1, ha1⟩ := read_mailbox_trace n x x1 b hx
    refine ⟨evs ++ evs1, by rw [he1, he, List.append_assoc], ?_⟩
    intro e hm
    rcases List.mem_append.mp hm with hm | hm
    · exact ha e hm
    · exact ha1 e hm

/-! ## Waiting -/

theorem wait_timeout_pending (c : Compl) (irqs : List Irq) (w : World) (h : 0 < c.done w) :
    wait_for_completion_timeout c irqs w =
      some (emit (Event.wait_end c true) (c.set_done (c.done w - 1) w), true) := by
  cases irqs <;> simp [wait_for_completion_timeout, h]

theorem wait_timeout_nil (c : Compl) (w : World) (h : c.done w = 0) :
    wait_for_completion_timeout c [] w = some (emit (Event.wait_end c false) w, false) := by
  simp [wait_for_completion_timeout, h]

theorem wait_timeout_isSome (c : Compl) : ∀ (irqs : List Irq) (w : World),
    ∃ p, wait_for_completion_timeout c irqs w = some p := by
  intro irqs
  induction irqs with
  | nil =>
    intro w
    simp only [wait_for_completion_timeout]
    split <;> exact ⟨_, rfl⟩
  | cons i rest ih =>
    intro w
    simp only [wait_for_completion_timeout]
    split
    · exact ⟨_, rfl⟩
    · obtain ⟨p, hp⟩ := interrupt_isSome i w
      obtain ⟨w1, r⟩ := p
      simp only [hp]
      exact ih w1

theorem set_done_trace (c : Compl) (d : Nat) (w : World) : (c.set_done d w).trace = w.trace := by
  cases c <;> rfl

theorem wait_timeout_trace (c : Compl) : ∀ (irqs : List Irq) (w w1 : World) (b : Bool),
    wait_for_completion_timeout c irqs w = some (w1, b) →
    ∃ evs, w1.trace = w.trace ++ evs ++ [Event.wait_end c b] ∧
      ∀ e ∈ evs, is_irq_event e = true := by
  intro irqs
  induction irqs with
  | nil =>
    intro w w1 b h
    simp only [wait_for_completion_timeout] at h
    split at h <;> simp only [Option.some.injEq, Prod.mk.injEq] at h <;>
      obtain ⟨rfl, rfl⟩ := h <;> exact ⟨[], by simp [emit, set_done_trace], by simp⟩
  | cons i rest ih =>
    intro w w1 b h
    simp only [wait_for_completion_timeout] at h
    split at h
    · simp only [Option.some.injEq, Prod.mk.injEq] at h
      obtain ⟨rfl, rfl⟩ := h
      exact ⟨[], by simp [emit, set_done_trace], by simp⟩
    · cases hi : interrupt i w with
      | none => simp [hi] at h
      | some p =>
        obtain ⟨w2, r⟩ := p
        simp only [hi] at h
        obtain ⟨evs, he, ha⟩ := interrupt_trace i w w2 r hi
        obtain ⟨evs1, he1, ha1⟩ := ih w2 w1 b h
        refine ⟨evs ++ evs1, by rw [he1, he]; simp, ?_⟩
        intro e hm
        rcases List.mem_append.mp hm with hm | hm
        · exact ha e hm
        · exact ha1 e hm

/-- With no signal pending and no mailbox-2 acknowledge among the interrupts, the
wait on `mb2_transfer.work` times out and leaves the staged acknowledge alone. -/
theorem wait_timeout_mb2_quiet : ∀ (irqs : List Irq) (w w1 : World) (b : Bool),
    (∀ i ∈ irqs, i.it1_val &&& MBOX_BIT 2 = 0) → w.mb2_done = 0 →
    wait_for_completion_timeout Compl.mb2_work irqs w = some (w1, b) →
    b = false ∧ mb2_view w1 = mb2_view w := by
  intro irqs
  induction irqs with
  | nil =>
    intro w w1 b _ hd h
    rw [wait_timeout_nil _ _ (by simpa [Compl.done] using hd)] at h
    simp only [Option.some.injEq, Prod.mk.injEq] at h
    obtain ⟨rfl, rfl⟩ := h
    exact ⟨rfl, rfl⟩
  | cons i rest ih =>
    intro w w1 b hq hd h
    simp only [wait_for_completion_timeout, Compl.done, hd, lt_self_iff_false, if_false] at h
    cases hi : interrupt i w with
    | none => simp [hi] at h
    | some p =>
      obtain ⟨w2, r⟩ := p
      simp only [hi] at h
      have hv := interrupt_mb2_view i w w2 r (hq i (List.mem_cons_self _ _)) hi
      have hd2 : w2.mb2_done = 0 := by
        have := congrArg Prod.fst hv
        simp only [mb2_view] at this
        rw [this, hd]
      obtain ⟨hb, hv1⟩ := ih w2 w1 b (fun j hj => hq j (List.mem_cons_of_mem _ hj)) hd2 h
      exact ⟨hb, hv1.trans hv⟩

theorem wait_timeout_mb3_quiet : ∀ (irqs : List Irq) (w w1 : World) (b : Bool),
    (∀ i ∈ irqs, i.it1_val &&& MBOX_BIT 3 = 0) → w.mb3_done = 0 →
    wait_for_completion_timeout Compl.sysclk_work irqs w = some (w1, b) →
    b = false ∧ mb3_view w1 = mb3_view w := by
  intro irqs
  induction irqs with
  | nil =>
    intro w w1 b _ hd h
    rw [wait_timeout_nil _ _ (by simpa [Compl.done] using hd)] at h
    simp only [Option.some.injEq, Prod.mk.injEq] at h
    obtain ⟨rfl, rfl⟩ := h
    exact ⟨rfl, rfl⟩
  | cons i rest ih =>
    intro w w1 b hq hd h
    simp only [wait_for_completion_timeout, Compl.done, hd, lt_self_iff_false, if_false] at h
    cases hi : interrupt i w with
    | none => simp [hi] at h
    | some p =>
      obtain ⟨w2, r⟩ := p
      simp only [hi] at h
      have hv := interrupt_mb3_view i w w2 r (hq i (List.mem_cons_self _ _)) hi
      have hd2 : w2.mb3_done = 0 := by
        have := congrArg Prod.fst hv
        simp only [mb3_view] at this
        rw [this, hd]
      obtain ⟨hb, hv1⟩ := ih w2 w1 b (fun j hj => hq j (List.mem_cons_of_mem _ hj)) hd2 h
      exact ⟨hb, hv1.trans hv⟩

/-! ## C1 -/

/-- C1: `config_wakeups` writes the wakeup DBB/ABB fields and the `WAKE_UP_CFG` header
and raises request-pending bit 0 exactly when the pair
`(dbb_irqs | dbb_wakeups, abb_events)` differs from the remembered pair; when it
returns the remembered pair is the current pair; it returns whenever the pair is
unchanged or the pending bit is eventually seen clear; and a second
`db5500_prcmu_enable_wakeups(w)` right after a first one returns, makes no mailbox
write and does not raise the pending bit. -/
theorem config_wakeups_dedup (H : Headers) (wakeups : Nat) (w : World) :
    (∀ w1, config_wakeups w = some w1 →
      mailbox_writes w1.trace = mailbox_writes w.trace ++
        (if w.dbb_irqs ||| w.dbb_wakeups = w.last_dbb_events ∧ w.abb_events = w.last_abb_events
         then [] else wakeup_cfg_push (w.dbb_irqs ||| w.dbb_wakeups) w.abb_events) ∧
      w1.last_dbb_events = w.dbb_irqs ||| w.dbb_wakeups ∧ w1.last_abb_events = w.abb_events) ∧
    (((w.dbb_irqs ||| w.dbb_wakeups = w.last_dbb_events ∧ w.abb_events = w.last_abb_events) ∨
      ∃ v ∈ w.cpu_val, v &&& MBOX_BIT 0 = 0) → (config_wakeups w).isSome = true) ∧
    (∀ w1, db5500_prcmu_enable_wakeups H wakeups w = some w1 →
      ∃ w2, db5500_prcmu_enable_wakeups H wakeups w1 = some w2 ∧
        mailbox_writes w2.trace = mailbox_writes w1.trace) := by
  refine ⟨?_, config_wakeups_isSome w, ?_⟩
  · intro w1 h
    obtain ⟨_, _, _, hd, ha, polls, ht⟩ := config_wakeups_some w w1 h
    refine ⟨?_, hd, ha⟩
    rw [ht, mailbox_writes_append, mailbox_writes_append, mailbox_writes_reads]
    by_cases hs : w.dbb_irqs ||| w.dbb_wakeups = w.last_dbb_events ∧
        w.abb_events = w.last_abb_events
    · simp [hs, mailbox_writes]
    · simp [hs, mailbox_writes, wakeup_cfg_push, is_mailbox_write]
  · intro w1 h
    unfold db5500_prcmu_enable_wakeups at h ⊢
    by_cases hv : wakeups = wakeups &&& VALID_WAKEUPS H
    · simp only [ne_eq, hv.symm, not_true_eq_false, if_false] at h ⊢
      obtain ⟨k, hk⟩ := wakeup_bits_world wakeups H.prcmu_wakeup_bit 0 0 w
      obtain ⟨k1, hk1⟩ := wakeup_bits_world wakeups H.prcmu_wakeup_bit 0 0 w1
      rw [hk] at h
      rw [hk1]
      simp only at h ⊢
      generalize (wakeup_bits wakeups 0 H.prcmu_wakeup_bit 0 (World.boot (fun _ => 0) [] [])).1
        = bits at h ⊢
      cases hc : config_wakeups
          { emit (Event.lock Lock.mb0) { w with trace := w.trace ++ List.replicate k Event.warn }
            with dbb_wakeups := bits } with
      | none => simp [hc] at h
      | some w0 =>
        simp only [hc, Option.some.injEq] at h
        obtain ⟨hi, hwk, hab, hd, ha, _, _⟩ := config_wakeups_some _ _ hc
        subst h
        have hs : config_wakeups
            { emit (Event.lock Lock.mb0)
                { emit (Event.unlock Lock.mb0) w0 with
                  trace := (emit (Event.unlock Lock.mb0) w0).trace ++ List.replicate k1 Event.warn }
              with dbb_wakeups := bits } = some _ :=
          config_wakeups_same _ (by
            simp only [emit] at hi hwk hab hd ha ⊢
            simp [hi, hd, hab, ha])
        rw [hs]
        refine ⟨_, rfl, ?_⟩
        simp only [emit, mailbox_writes_append, mailbox_writes_warns]
        simp [mailbox_writes, is_mailbox_write]
    · simp [hv] at h

theorem config_wakeups_dedup_witness :
    (mailbox_writes World.sample_pushed.trace = mailbox_writes World.sample_unpushed.trace ++
        (if World.sample_unpushed.dbb_irqs ||| World.sample_unpushed.dbb_wakeups
              = World.sample_unpushed.last_dbb_events ∧
            World.sample_unpushed.abb_events = World.sample_unpushed.last_abb_events
         then [] else wakeup_cfg_push
           (World.sample_unpushed.dbb_irqs ||| World.sample_unpushed.dbb_wakeups)
           World.sample_unpushed.abb_events) ∧
      World.sample_pushed.last_dbb_events
        = World.sample_unpushed.dbb_irqs ||| World.sample_unpushed.dbb_wakeups ∧
      World.sample_pushed.last_abb_events = World.sample_unpushed.abb_events) ∧
    (config_wakeups World.sample_unpushed).isSome = true ∧
    (∃ w2, db5500_prcmu_enable_wakeups Headers.sample (BIT 0 ||| BIT 5) World.sample_wakeups
        = some w2 ∧
      mailbox_writes w2.trace = mailbox_writes World.sample_wakeups.trace) :=
  ⟨(config_wakeups_dedup Headers.sample (BIT 0 ||| BIT 5) World.sample_unpushed).1
      World.sample_pushed rfl,
    (config_wakeups_dedup Headers.sample (BIT 0 ||| BIT 5) World.sample_unpushed).2.1
      (Or.inr ⟨0, by decide, by decide⟩),
    (config_wakeups_dedup Headers.sample (BIT 0 ||| BIT 5) World.sample).2.2
      World.sample_wakeups rfl⟩

/-! ## C2 -/

/-- C2 fails as stated: transaction A (`request_pll(SOC0, true)`) times out, the
interrupt path then consumes the late acknowledge for A, and transaction B
(`request_pll(SOC1, false)`), during whose wait no interrupt arrives at all,
finds the completion still signalled and returns 0 on A's staged header and
status. -/
theorem request_pll_stale_completion :
    (request_pll DB5500_PLL_SOC0 true [] World.sample).map Prod.snd = some (- EIO) ∧
    (interrupt Irq.pll_ack World.sample_A).map Prod.snd = some irqreturn_t.IRQ_HANDLED ∧
    World.sample_A_late.mb2_done = 1 ∧
    (request_pll DB5500_PLL_SOC1 false [] World.sample_A_late).map Prod.snd = some 0 := by
  decide

/-! ## request_pll -/

theorem request_pll_eq (pll : Nat) (enable : Bool) (irqs : List Irq) (w : World)
    (hpll : pll < DB5500_NUM_PLL_ID) :
    request_pll pll enable irqs w =
      (wait_mbox_clear 2 (emit (Event.lock Lock.mb2) w)).bind (fun w0 =>
        (wait_for_completion_timeout Compl.mb2_work irqs (pll_issue pll enable w0)).map
          pll_finish) := by
  unfold request_pll
  rw [if_neg (by omega)]
  dsimp only
  cases wait_mbox_clear 2 (emit (Event.lock Lock.mb2) w) with
  | none => rfl
  | some w0 =>
    simp only [pll_issue, writeb, emit, reg_writel, Function.update_same, Option.some_bind]
    cases wait_for_completion_timeout Compl.mb2_work irqs _ with
    | none => rfl
    | some p =>
      obtain ⟨ww, b⟩ := p
      simp only [pll_finish, Option.map_some']
      split <;> [rfl; split] <;> rfl

/-- The state `request_pll` waits in, spelled out. -/
theorem request_pll_wait_state (w : World)
    (hclear : ∃ v ∈ w.cpu_val, v &&& MBOX_BIT 2 = 0) :
    ∃ w0 pre v rest, wait_mbox_clear 2 (emit (Event.lock Lock.mb2) w) = some w0 ∧
      w.cpu_val = pre ++ v :: rest ∧ (∀ x ∈ pre, x &&& MBOX_BIT 2 ≠ 0) ∧ v &&& MBOX_BIT 2 = 0 ∧
      w0 = { w with cpu_val := rest,
                    trace := w.trace ++ Event.lock Lock.mb2 ::
                      (pre ++ [v]).map Event.readl_cpu_val } := by
  have hs := wait_mbox_clear_isSome 2 (emit (Event.lock Lock.mb2) w) hclear
  cases hw : wait_mbox_clear 2 (emit (Event.lock Lock.mb2) w) with
  | none => simp [hw] at hs
  | some w0 =>
    obtain ⟨pre, v, rest, hl, hpre, hv, he⟩ := wait_mbox_clear_some 2 _ w0 hw
    refine ⟨w0, pre, v, rest, rfl, hl, hpre, hv, ?_⟩
    rw [he]
    simp [emit]

theorem pll_finish_true (ww : World) :
    pll_finish (ww, true) = (emit (Event.unlock Lock.mb2) ww,
      if ww.mb2_ack_status = RC_SUCCESS ∧ ww.mb2_ack_header = MB2H_PLL_REQUEST then 0
      else - EIO) := by
  simp only [pll_finish]
  by_cases h1 : ww.mb2_ack_status = RC_SUCCESS <;>
    by_cases h2 : ww.mb2_ack_header = MB2H_PLL_REQUEST <;> simp [h1, h2]

theorem pll_finish_false (ww : World) :
    pll_finish (ww, false) =
      (emit (Event.unlock Lock.mb2) (emit Event.warn (emit Event.pr_err ww)), - EIO) := by
  simp [pll_finish]

theorem new_events_append (w w1 : World) (evs : List Event) (h : w1.trace = w.trace ++ evs) :
    new_events w w1 = evs := by
  simp [new_events, h]

theorem pll_issue_fields (pll : Nat) (enable : Bool) (w : World) :
    mb2_view (pll_issue pll enable w) = mb2_view w ∧
    (pll_issue pll enable w).trace = w.trace ++
      [ Event.writeb PRCM_REQ_MB2_PLL_CLIENT (pll % 256),
        Event.writeb PRCM_REQ_MB2_PLL_STATE ((if enable then 1 else 0) % 256),
        Event.writeb PRCM_REQ_MB2_HEADER (MB2H_PLL_REQUEST % 256),
        Event.reg_writel Reg.PRCM_MBOX_CPU_SET (MBOX_BIT 2) ] := by
  refine ⟨rfl, ?_⟩
  simp only [pll_issue, emit, writeb, reg_writel, List.append_assoc]
  rfl

/-! ## C2 -/

/-- C2 (amended): the completion object of mailbox 2 is zeroed by
`db5500_prcmu_early_init` and `request_pll` does not re-initialise it.  When a
signal is already outstanding on entry (a late acknowledge for A was consumed),
B's wait ends at once, whatever arrives later, and B's result is decided by the
header and status staged before B began.  When no signal is outstanding on entry
and no mailbox-2 acknowledge arrives during B's wait, B times out with `-EIO`. -/
theorem request_pll_completion_not_rearmed (pll : Nat) (enable : Bool) (irqs : List Irq)
    (w : World) (hpll : pll < DB5500_NUM_PLL_ID)
    (hclear : ∃ v ∈ w.cpu_val, v &&& MBOX_BIT 2 = 0) :
    (db5500_prcmu_early_init w).mb2_done = 0 ∧
    (0 < w.mb2_done → ∃ w1, request_pll pll enable irqs w =
        some (w1, if w.mb2_ack_status = RC_SUCCESS ∧ w.mb2_ack_header = MB2H_PLL_REQUEST
                  then 0 else - EIO) ∧
      w1.mb2_done = w.mb2_done - 1 ∧
      (∀ e ∈ new_events w w1, is_irq_event e = false)) ∧
    (w.mb2_done = 0 → (∀ i ∈ irqs, i.it1_val &&& MBOX_BIT 2 = 0) →
      ∃ w1, request_pll pll enable irqs w = some (w1, - EIO) ∧
        Event.wait_end Compl.mb2_work false ∈ new_events w w1) := by
  obtain ⟨w0, pre, v, rest, hw0, _, _, _, he⟩ := request_pll_wait_state w hclear
  have hv0 : mb2_view w0 = mb2_view w := by rw [he]; rfl
  have ht0 : w0.trace = w.trace ++ Event.lock Lock.mb2 :: (pre ++ [v]).map Event.readl_cpu_val := by
    rw [he]
  obtain ⟨hvi, hti⟩ := pll_issue_fields pll enable w0
  simp only [mb2_view, Prod.mk.injEq] at hv0 hvi
  refine ⟨rfl, ?_, ?_⟩
  · intro hd
    have hdone : 0 < Compl.done Compl.mb2_work (pll_issue pll enable w0) := by
      show 0 < (pll_issue pll enable w0).mb2_done
      rw [hvi.1, hv0.1]; exact hd
    rw [request_pll_eq pll enable irqs w hpll, hw0, Option.some_bind,
      wait_timeout_pending _ irqs _ hdone, Option.map_some', pll_finish_true]
    refine ⟨emit (Event.unlock Lock.mb2) (emit (Event.wait_end Compl.mb2_work true)
      (Compl.set_done Compl.mb2_work (Compl.done Compl.mb2_work (pll_issue pll enable w0) - 1)
        (pll_issue pll enable w0))), ?_, ?_, ?_⟩
    · have h1 : (emit (Event.wait_end Compl.mb2_work true)
          (Compl.set_done Compl.mb2_work (Compl.done Compl.mb2_work (pll_issue pll enable w0) - 1)
            (pll_issue pll enable w0))).mb2_ack_status = w.mb2_ack_status := by
        show (pll_issue pll enable w0).mb2_ack_status = _
        rw [hvi.2.2, hv0.2.2]
      have h2 : (emit (Event.wait_end Compl.mb2_work true)
          (Compl.set_done Compl.mb2_work (Compl.done Compl.mb2_work (pll_issue pll enable w0) - 1)
            (pll_issue pll enable w0))).mb2_ack_header = w.mb2_ack_header := by
        show (pll_issue pll enable w0).mb2_ack_header = _
        rw [hvi.2.1, hv0.2.1]
      rw [h1, h2]
    · show (pll_issue pll enable w0).mb2_done - 1 = _
      rw [hvi.1, hv0.1]
    · rw [new_events_append w _ (Event.lock Lock.mb2 :: (pre ++ [v]).map Event.readl_cpu_val ++
        [ Event.writeb PRCM_REQ_MB2_PLL_CLIENT (pll % 256),
          Event.writeb PRCM_REQ_MB2_PLL_STATE ((if enable then 1 else 0) % 256),
          Event.writeb PRCM_REQ_MB2_HEADER (MB2H_PLL_REQUEST % 256),
          Event.reg_writel Reg.PRCM_MBOX_CPU_SET (MBOX_BIT 2),
          Event.wait_end Compl.mb2_work true, Event.unlock Lock.mb2 ]) (by
            show (pll_issue pll enable w0).trace ++ [Event.wait_end Compl.mb2_work true]
              ++ [Event.unlock Lock.mb2] = _
            rw [hti, ht0]; simp)]
      intro e he
      simp only [List.mem_append, List.mem_cons, List.mem_map, List.mem_singleton,
        List.not_mem_nil, or_false] at he
      rcases he with (rfl | ⟨x, _, rfl⟩) | rfl | rfl | rfl | rfl | rfl | rfl <;> rfl
  · intro hd hq
    obtain ⟨p, hp⟩ := wait_timeout_isSome Compl.mb2_work irqs (pll_issue pll enable w0)
    obtain ⟨ww, b⟩ := p
    have hd0 : (pll_issue pll enable w0).mb2_done = 0 := by rw [hvi.1, hv0.1]; exact hd
    obtain ⟨rfl, _⟩ := wait_timeout_mb2_quiet irqs _ ww b hq hd0 hp
    obtain ⟨evs, hevs, _⟩ := wait_timeout_trace _ irqs _ ww false hp
    rw [request_pll_eq pll enable irqs w hpll, hw0, Option.some_bind, hp, Option.map_some',
      pll_finish_false]
    refine ⟨_, rfl, ?_⟩
    rw [new_events_append w _ (Event.lock Lock.mb2 :: (pre ++ [v]).map Event.readl_cpu_val ++
      [Event.writeb PRCM_REQ_MB2_PLL_CLIENT (pll % 256),
       Event.writeb PRCM_REQ_MB2_PLL_STATE ((if enable then 1 else 0) % 256),
       Event.writeb PRCM_REQ_MB2_HEADER (MB2H_PLL_REQUEST % 256),
       Event.reg_writel Reg.PRCM_MBOX_CPU_SET (MBOX_BIT 2)] ++ evs ++
      [Event.wait_end Compl.mb2_work false, Event.pr_err, Event.warn,
       Event.unlock Lock.mb2]) (by
        show ww.trace ++ [Event.pr_err] ++ [Event.warn] ++ [Event.unlock Lock.mb2] = _
        rw [hevs, hti, ht0]; simp)]
    simp

theorem request_pll_completion_not_rearmed_witness :
    (∃ w1, request_pll DB5500_PLL_SOC1 false [] World.sample_A_late =
        some (w1, if World.sample_A_late.mb2_ack_status = RC_SUCCESS ∧
                    World.sample_A_late.mb2_ack_header = MB2H_PLL_REQUEST then 0 else - EIO) ∧
      w1.mb2_done = World.sample_A_late.mb2_done - 1 ∧
      (∀ e ∈ new_events World.sample_A_late w1, is_irq_event e = false)) ∧
    (∃ w1, request_pll DB5500_PLL_SOC0 true [] World.sample = some (w1, - EIO) ∧
      Event.wait_end Compl.mb2_work false ∈ new_events World.sample w1) :=
  ⟨(request_pll_completion_not_rearmed DB5500_PLL_SOC1 false [] World.sample_A_late (by decide)
      ⟨0, by decide, by decide⟩).2.1 (by decide),
    (request_pll_completion_not_rearmed DB5500_PLL_SOC0 true [] World.sample (by decide)
      ⟨0, by decide, by decide⟩).2.2 (by decide) (by simp)⟩

theorem read_mailbox_pll_st (n : Nat) (w w1 : World) (b : Bool)
    (h : read_mailbox n w = some (w1, b)) : w1.mb2_req_pll_st = w.mb2_req_pll_st := by
  unfold read_mailbox at h
  split at h <;> simp only [Option.some.injEq, reduceCtorEq] at h <;>
    obtain rfl := congrArg Prod.fst h
  · simp only [read_mailbox_0, dispatch_wakeups_eq]; split <;> rfl
  · simp only [read_mailbox_1]; split <;> [rfl; split] <;> rfl
  · simp only [read_mailbox_2]; split <;> [rfl; split] <;> [rfl; split] <;> rfl
  · simp only [read_mailbox_3]; split <;> rfl
  · rfl
  · simp only [read_mailbox_5]; split <;> [rfl; split] <;> rfl
  · rfl
  · rfl

theorem interrupt_pll_st (i : Irq) (w w1 : World) (r : irqreturn_t)
    (h : interrupt i w = some (w1, r)) : w1.mb2_req_pll_st = w.mb2_req_pll_st := by
  simp only [interrupt, prcmu_irq_handler] at h
  by_cases hb : i.it1_val &&& ALL_MBOX_BITS = 0
  · simp only [hb, if_true, Option.some.injEq, Prod.mk.injEq] at h
    rw [← h.1]
  · simp only [hb, if_false] at h
    exact irq_loop_all (fun x => x.mb2_req_pll_st = w.mb2_req_pll_st)
      (fun n x x1 b hx hp => (read_mailbox_pll_st n x x1 b hx).trans hp) _ _ _ _ _ _ _ h rfl

theorem wait_timeout_pll_st (c : Compl) : ∀ (irqs : List Irq) (w w1 : World) (b : Bool),
    wait_for_completion_timeout c irqs w = some (w1, b) →
    w1.mb2_req_pll_st = w.mb2_req_pll_st := by
  intro irqs
  induction irqs with
  | nil =>
    intro w w1 b h
    simp only [wait_for_completion_timeout] at h
    split at h <;> simp only [Option.some.injEq, Prod.mk.injEq] at h <;>
      obtain ⟨rfl, rfl⟩ := h <;> cases c <;> rfl
  | cons i rest ih =>
    intro w w1 b h
    simp only [wait_for_completion_timeout] at h
    split at h
    · simp only [Option.some.injEq, Prod.mk.injEq] at h
      obtain ⟨rfl, rfl⟩ := h
      cases c <;> rfl
    · cases hi : interrupt i w with
      | none => simp [hi] at h
      | some p =>
        obtain ⟨w2, r⟩ := p
        simp only [hi] at h
        exact (ih w2 w1 b h).trans (interrupt_pll_st i w w2 r hi)

/-- Everything `request_pll` does when it returns. -/
theorem request_pll_some (pll : Nat) (enable : Bool) (irqs : List Irq) (w w1 : World) (r : Int)
    (h : request_pll pll enable irqs w = some (w1, r)) :
    pll < DB5500_NUM_PLL_ID ∧ ∃ pre v rest evs b,
      w.cpu_val = pre ++ v :: rest ∧ (∀ x ∈ pre, x &&& MBOX_BIT 2 ≠ 0) ∧
      v &&& MBOX_BIT 2 = 0 ∧ (∀ e ∈ evs, is_irq_event e = true) ∧
      new_events w w1 = Event.lock Lock.mb2 :: (pre ++ [v]).map Event.readl_cpu_val ++
        pll_writes pll enable ++ evs ++ wait_tail Compl.mb2_work Lock.mb2 b ∧
      r = (if b = true ∧ w1.mb2_ack_status = RC_SUCCESS ∧ w1.mb2_ack_header = MB2H_PLL_REQUEST
           then 0 else - EIO) ∧
      w1.mb2_req_pll_st = Function.update w.mb2_req_pll_st pll (if enable then 1 else 0) := by
  have hpll : pll < DB5500_NUM_PLL_ID := by
    by_contra hc
    simp [request_pll, Nat.not_lt.mp hc] at h
  refine ⟨hpll, ?_⟩
  rw [request_pll_eq pll enable irqs w hpll] at h
  cases hw0 : wait_mbox_clear 2 (emit (Event.lock Lock.mb2) w) with
  | none => simp [hw0] at h
  | some w0 =>
    rw [hw0, Option.some_bind] at h
    cases hp : wait_for_completion_timeout Compl.mb2_work irqs (pll_issue pll enable w0) with
    | none => simp [hp] at h
    | some p =>
      obtain ⟨ww, b⟩ := p
      rw [hp, Option.map_some', Option.some.injEq] at h
      obtain ⟨pre, v, rest, hl, hpre, hv, he⟩ := wait_mbox_clear_some 2 _ w0 hw0
      obtain ⟨evs, hevs, hirq⟩ := wait_timeout_trace _ irqs _ ww b hp
      have hst := wait_timeout_pll_st _ irqs _ ww b hp
      have ht0 : w0.trace = w.trace ++ Event.lock Lock.mb2 ::
          (pre ++ [v]).map Event.readl_cpu_val := by
        rw [he]; simp [emit]
      have hst0 : w0.mb2_req_pll_st = w.mb2_req_pll_st := by rw [he]; rfl
      obtain ⟨_, hti⟩ := pll_issue_fields pll enable w0
      refine ⟨pre, v, rest, evs, b, hl, hpre, hv, hirq, ?_, ?_, ?_⟩
      · cases b with
        | true =>
          rw [pll_finish_true] at h
          obtain rfl := congrArg Prod.fst h
          apply new_events_append
          show ww.trace ++ [Event.unlock Lock.mb2] = _
          rw [hevs, hti, ht0]
          cases enable <;> simp [pll_writes, wait_tail, MB2H_PLL_REQUEST]
        | false =>
          rw [pll_finish_false] at h
          obtain rfl := congrArg Prod.fst h
          apply new_events_append
          show ww.trace ++ [Event.pr_err] ++ [Event.warn] ++ [Event.unlock Lock.mb2] = _
          rw [hevs, hti, ht0]
          cases enable <;> simp [pll_writes, wait_tail, MB2H_PLL_REQUEST]
      · cases b with
        | true =>
          rw [pll_finish_true] at h
          obtain rfl := congrArg Prod.fst h
          have := congrArg Prod.snd h
          simp only at this
          rw [← this]
          simp [emit]
        | false =>
          rw [pll_finish_false] at h
          have := congrArg Prod.snd h
          simp only at this
          rw [← this]
          simp
      · have hw1 : w1.mb2_req_pll_st = ww.mb2_req_pll_st := by
          cases b with
          | true => rw [pll_finish_true] at h; obtain rfl := congrArg Prod.fst h; rfl
          | false => rw [pll_finish_false] at h; obtain rfl := congrArg Prod.fst h; rfl
        rw [hw1, hst, ← hst0]
        rfl

theorem request_pll_returns (pll : Nat) (enable : Bool) (irqs : List Irq) (w : World)
    (hpll : pll < DB5500_NUM_PLL_ID) (hclear : ∃ v ∈ w.cpu_val, v &&& MBOX_BIT 2 = 0) :
    ∃ w1 r, request_pll pll enable irqs w = some (w1, r) := by
  obtain ⟨w0, _, _, _, hw0, _⟩ := request_pll_wait_state w hclear
  obtain ⟨p, hp⟩ := wait_timeout_isSome Compl.mb2_work irqs (pll_issue pll enable w0)
  rw [request_pll_eq pll enable irqs w hpll, hw0, Option.some_bind, hp, Option.map_some']
  exact ⟨_, _, rfl⟩

theorem wait_end_mem_tail (c : Compl) (l : Lock) (b : Bool) (pre evs : List Event)
    (hpre : ∀ e ∈ pre, ∀ x, e ≠ Event.wait_end c x)
    (hevs : ∀ e ∈ evs, is_irq_event e = true) :
    Event.wait_end c true ∈ pre ++ evs ++ wait_tail c l b ↔ b = true := by
  constructor
  · intro h
    rcases List.mem_append.mp h with h | h
    · rcases List.mem_append.mp h with h | h
      · exact absurd rfl (hpre _ h true)
      · have := hevs _ h
        simp [is_irq_event] at this
    · cases b with
      | true => rfl
      | false => simp [wait_tail] at h
  · rintro rfl
    simp [wait_tail]

theorem read_mailbox_2_mb2_ack (h se sc sp : Nat) (w : World) :
    read_mailbox_2 { w with tcdm := apply_stores (Irq.mb2_ack h se sc sp).stores w.tcdm } =
      if h % 256 = MB2H_EPOD_REQUEST ∨ h % 256 = MB2H_CLK_REQUEST ∨ h % 256 = MB2H_PLL_REQUEST
      then
        (emit (Event.complete Compl.mb2_work) (emit
          (Event.reg_writel Reg.PRCM_ARM_IT1_CLR (MBOX_BIT 2))
          { w with tcdm := apply_stores (Irq.mb2_ack h se sc sp).stores w.tcdm,
                   mb2_ack_header := h % 256,
                   mb2_ack_status := (if h % 256 = MB2H_EPOD_REQUEST then se % 256
                      else if h % 256 = MB2H_CLK_REQUEST then sc % 256 else sp % 256),
                   mb2_done := w.mb2_done + 1 }), false)
      else
        (emit Event.pr_err (emit (Event.reg_writel Reg.PRCM_ARM_IT1_CLR (MBOX_BIT 2))
          { w with tcdm := apply_stores (Irq.mb2_ack h se sc sp).stores w.tcdm,
                   mb2_ack_header := h % 256 }), false) := by
  have hh : apply_stores (Irq.mb2_ack h se sc sp).stores w.tcdm PRCM_ACK_MB2_HEADER
      = h % 256 := by
    simp [Irq.mb2_ack, apply_stores, store, PRCM_ACK_MB2_HEADER, PRCM_MB_HEADER,
      PRCM_ACK_MB2_EPOD_STATUS, PRCM_ACK_MB2_CLK_STATUS, PRCM_ACK_MB2_PLL_STATUS, PRCM_ACK_MB2]
  have he : apply_stores (Irq.mb2_ack h se sc sp).stores w.tcdm PRCM_ACK_MB2_EPOD_STATUS
      = se % 256 := by
    simp [Irq.mb2_ack, apply_stores, store, PRCM_ACK_MB2_HEADER, PRCM_MB_HEADER,
      PRCM_ACK_MB2_EPOD_STATUS, PRCM_ACK_MB2_CLK_STATUS, PRCM_ACK_MB2_PLL_STATUS, PRCM_ACK_MB2]
  have hc : apply_stores (Irq.mb2_ack h se sc sp).stores w.tcdm PRCM_ACK_MB2_CLK_STATUS
      = sc % 256 := by
    simp [Irq.mb2_ack, apply_stores, store, PRCM_ACK_MB2_HEADER, PRCM_MB_HEADER,
      PRCM_ACK_MB2_EPOD_STATUS, PRCM_ACK_MB2_CLK_STATUS, PRCM_ACK_MB2_PLL_STATUS, PRCM_ACK_MB2]
  have hp : apply_stores (Irq.mb2_ack h se sc sp).stores w.tcdm PRCM_ACK_MB2_PLL_STATUS
      = sp % 256 := by
    simp [Irq.mb2_ack, apply_stores, store, PRCM_ACK_MB2_HEADER, PRCM_MB_HEADER,
      PRCM_ACK_MB2_EPOD_STATUS, PRCM_ACK_MB2_CLK_STATUS, PRCM_ACK_MB2_PLL_STATUS, PRCM_ACK_MB2]
  simp only [read_mailbox_2, readb, hh, he, hc, hp, Nat.mod_mod]
  by_cases h1 : h % 256 = MB2H_EPOD_REQUEST
  · simp only [h1, true_or, if_true]
    rfl
  · by_cases h2 : h % 256 = MB2H_CLK_REQUEST
    · simp only [h1, h2, true_or, or_true, if_true, if_false]
      rfl
    · by_cases h3 : h % 256 = MB2H_PLL_REQUEST
      · simp only [h1, h2, h3, or_true, if_true, if_false]
        rfl
      · simp only [h1, h2, h3, or_self, if_false]
        rfl

theorem exists_result {α : Type} (a : α) (r1 r2 : Int) (h : r1 = r2) :
    ∃ x, some (a, r1) = some (x, r2) := ⟨a, by rw [h]⟩

theorem wait_timeout_cons (c : Compl) (i : Irq) (rest : List Irq) (w : World)
    (h : c.done w = 0) :
    wait_for_completion_timeout c (i :: rest) w =
      (interrupt i w).bind (fun p => wait_for_completion_timeout c rest p.1) := by
  simp only [wait_for_completion_timeout, h, lt_self_iff_false, if_false]
  cases interrupt i w with
  | none => rfl
  | some p => rfl

theorem interrupt_mb2_ack (h se sc sp : Nat) (w : World) :
    interrupt (Irq.mb2_ack h se sc sp) w =
      some ((read_mailbox_2
        { w with tcdm := apply_stores (Irq.mb2_ack h se sc sp).stores w.tcdm }).1,
        irqreturn_t.IRQ_HANDLED) := by
  have h2 : ∀ x : World, (read_mailbox_2 x).2 = false := by
    intro x
    simp only [read_mailbox_2]
    split <;> [rfl; split] <;> [rfl; split] <;> rfl
  have hb : (Irq.mb2_ack h se sc sp).it1_val &&& ALL_MBOX_BITS = 4 := by
    show MBOX_BIT 2 &&& ALL_MBOX_BITS = 4
    decide
  simp only [interrupt, prcmu_irq_handler, hb]
  have hl : ∀ x : World, irq_loop 256 0 4 irqreturn_t.IRQ_HANDLED x =
      some ((read_mailbox_2 x).1,
        if (read_mailbox_2 x).2 then irqreturn_t.IRQ_WAKE_THREAD else irqreturn_t.IRQ_HANDLED) :=
    fun _ => rfl
  rw [if_neg (by decide), hl, h2]
  rfl

/-- A single mailbox-2 acknowledge delivered during the wait of a `request_pll`
that started with no signal outstanding decides its result. -/
theorem request_pll_single_ack (pll : Nat) (enable : Bool) (w : World)
    (hpll : pll < DB5500_NUM_PLL_ID) (hclear : ∃ v ∈ w.cpu_val, v &&& MBOX_BIT 2 = 0)
    (h se sc sp : Nat) (hd : w.mb2_done = 0) :
    ∃ w1, request_pll pll enable [Irq.mb2_ack h se sc sp] w =
      some (w1, if h % 256 = MB2H_PLL_REQUEST ∧ sp % 256 = RC_SUCCESS then 0 else - EIO) := by
  obtain ⟨w0, pre, v, rest, hw0, _, _, _, he⟩ := request_pll_wait_state w hclear
  have hv0 : mb2_view w0 = mb2_view w := by rw [he]; rfl
  obtain ⟨hvi, _⟩ := pll_issue_fields pll enable w0
  have hd0 : (pll_issue pll enable w0).mb2_done = 0 := by
    have := congrArg Prod.fst (hvi.trans hv0)
    simp only [mb2_view] at this
    rw [this, hd]
  rw [request_pll_eq pll enable _ w hpll, hw0, Option.some_bind]
  generalize pll_issue pll enable w0 = X at hd0
  rw [wait_timeout_cons _ _ _ _ (by simpa [Compl.done] using hd0), interrupt_mb2_ack,
    Option.some_bind, read_mailbox_2_mb2_ack]
  by_cases hk : h % 256 = MB2H_EPOD_REQUEST ∨ h % 256 = MB2H_CLK_REQUEST ∨
      h % 256 = MB2H_PLL_REQUEST
  · rw [if_pos hk, wait_timeout_pending _ _ _ (by simp [Compl.done, emit]), Option.map_some',
      pll_finish_true]
    apply exists_result
    by_cases h3 : h % 256 = MB2H_PLL_REQUEST
    · have h1 : ¬ h % 256 = MB2H_EPOD_REQUEST := by rw [h3]; decide
      have h2 : ¬ h % 256 = MB2H_CLK_REQUEST := by rw [h3]; decide
      simp only [emit, Compl.set_done, h3, true_and, and_true]
      have e1 : ¬ MB2H_PLL_REQUEST = MB2H_EPOD_REQUEST := by decide
      have e2 : ¬ MB2H_PLL_REQUEST = MB2H_CLK_REQUEST := by decide
      simp only [e1, e2, if_false]
    · simp [h3, emit, Compl.set_done]
  · have h3 : ¬ h % 256 = MB2H_PLL_REQUEST := fun e => hk (Or.inr (Or.inr e))
    rw [if_neg hk, wait_timeout_nil _ _ (by simpa [Compl.done, emit] using hd0),
      Option.map_some', pll_finish_false]
    simp only [h3, false_and, if_false]
    exact ⟨_, rfl⟩

/-! ## C3 -/

/-- C3: for every pll id below `DB5500_NUM_PLL_ID`, `request_pll` returns (once the
pending bit is seen clear), and it returns 0 exactly when its wait completed before
the timeout and the staged acknowledge has header `MB2H_PLL_REQUEST` and status
`RC_SUCCESS`; every other outcome is `-EIO`.  In particular, for a mailbox-2
acknowledge with header byte `h` delivered during the wait, the result is 0 exactly
when `h` is `MB2H_PLL_REQUEST` and the PLL status byte is `RC_SUCCESS`, and `-EIO`
otherwise (for `MB2H_EPOD_REQUEST`, `MB2H_CLK_REQUEST`, any other header, or a
failure status). -/
theorem request_pll_header_status (pll : Nat) (enable : Bool) (irqs : List Irq) (w : World)
    (hpll : pll < DB5500_NUM_PLL_ID) (hclear : ∃ v ∈ w.cpu_val, v &&& MBOX_BIT 2 = 0) :
    (∃ w1 r, request_pll pll enable irqs w = some (w1, r) ∧
      (r = 0 ↔ Event.wait_end Compl.mb2_work true ∈ new_events w w1 ∧
        w1.mb2_ack_header = MB2H_PLL_REQUEST ∧ w1.mb2_ack_status = RC_SUCCESS) ∧
      (r ≠ 0 → r = - EIO)) ∧
    (∀ h se sc sp : Nat, w.mb2_done = 0 →
      ∃ w1, request_pll pll enable [Irq.mb2_ack h se sc sp] w =
        some (w1, if h % 256 = MB2H_PLL_REQUEST ∧ sp % 256 = RC_SUCCESS then 0 else - EIO)) := by
  constructor
  · obtain ⟨w1, r, hr⟩ := request_pll_returns pll enable irqs w hpll hclear
    obtain ⟨_, pre, v, rest, evs, b, _, _, _, hirq, hnew, hres, _⟩ :=
      request_pll_some pll enable irqs w w1 r hr
    refine ⟨w1, r, hr, ?_, ?_⟩
    · have hmem : Event.wait_end Compl.mb2_work true ∈ new_events w w1 ↔ b = true := by
        rw [hnew]
        apply wait_end_mem_tail
        · intro e he x
          simp only [List.cons_append, List.mem_cons, List.mem_append, List.mem_map,
            pll_writes, List.mem_singleton, List.not_mem_nil, or_false] at he
          rcases he with rfl | ⟨y, _, rfl⟩ | rfl | rfl | rfl | rfl <;> simp
        · exact hirq
      rw [hmem, hres]
      by_cases hb : b = true <;> by_cases h1 : w1.mb2_ack_status = RC_SUCCESS <;>
        by_cases h2 : w1.mb2_ack_header = MB2H_PLL_REQUEST <;> simp [hb, h1, h2, EIO]
    · intro _
      rw [hres] at *
      split <;> simp_all
  · intro h se sc sp hd
    exact request_pll_single_ack pll enable w hpll hclear h se sc sp hd

theorem request_pll_header_status_witness :
    (∃ w1 r, request_pll DB5500_PLL_SOC0 true [Irq.pll_ack] World.sample = some (w1, r) ∧
      (r = 0 ↔ Event.wait_end Compl.mb2_work true ∈ new_events World.sample w1 ∧
        w1.mb2_ack_header = MB2H_PLL_REQUEST ∧ w1.mb2_ack_status = RC_SUCCESS) ∧
      (r ≠ 0 → r = - EIO)) ∧
    (∃ w1, request_pll DB5500_PLL_SOC0 true [Irq.mb2_ack MB2H_EPOD_REQUEST 0 0 0] World.sample =
      some (w1, if MB2H_EPOD_REQUEST % 256 = MB2H_PLL_REQUEST ∧ 0 % 256 = RC_SUCCESS then 0
                else - EIO)) :=
  ⟨(request_pll_header_status DB5500_PLL_SOC0 true [Irq.pll_ack] World.sample (by decide)
      ⟨0, by decide, by decide⟩).1,
    (request_pll_header_status DB5500_PLL_SOC0 true [Irq.pll_ack] World.sample (by decide)
      ⟨0, by decide, by decide⟩).2 MB2H_EPOD_REQUEST 0 0 0 rfl⟩

/-! ## The pending-bit discipline on traces -/

theorem discipline_step_neutral (n : Nat) (s : Bool) (e : Event)
    (he : is_mailbox_write e = false) : ∃ s1, discipline_step n (some s) e = some s1 := by
  cases e with
  | reg_writel r v =>
    cases r <;> exact ⟨_, rfl⟩
  | writeb off v => simp [is_mailbox_write] at he
  | writel off v => simp [is_mailbox_write] at he
  | memcpy_toio off bytes => simp [is_mailbox_write] at he
  | _ => exact ⟨_, rfl⟩

theorem discipline_neutral (n : Nat) : ∀ (L : List Event) (s : Bool),
    (∀ e ∈ L, is_mailbox_write e = false) →
    ∃ s1, L.foldl (discipline_step n) (some s) = some s1 := by
  intro L
  induction L with
  | nil => intro s _; exact ⟨s, rfl⟩
  | cons e es ih =>
    intro s h
    obtain ⟨s1, hs1⟩ := discipline_step_neutral n s e (h e (List.mem_cons_self _ _))
    rw [List.foldl_cons, hs1]
    exact ih s1 (fun x hx => h x (List.mem_cons_of_mem _ hx))

theorem discipline_reads (n : Nat) : ∀ (pre : List Nat) (v : Nat) (s : Bool),
    ((pre ++ [v]).map Event.readl_cpu_val).foldl (discipline_step n) (some s) =
      some (v &&& MBOX_BIT n == 0) := by
  intro pre
  induction pre with
  | nil => intro v s; rfl
  | cons x xs ih =>
    intro v s
    simp only [List.cons_append, List.map_cons, List.foldl_cons]
    exact ih v _

theorem discipline_stores (n m : Nat) : ∀ (Ws : List Event) (s : Bool),
    (∀ e ∈ Ws, is_req_store m e = true) → (n = m → s = true) →
    Ws.foldl (discipline_step n) (some s) = some s := by
  intro Ws
  induction Ws with
  | nil => intro s _ _; rfl
  | cons e es ih =>
    intro s h hs
    have he := h e (List.mem_cons_self _ _)
    have hstep : discipline_step n (some s) e = some s := by
      cases e with
      | writeb off v =>
        simp only [is_req_store, decide_eq_true_eq] at he
        simp only [discipline_step, he, Option.some.injEq]
        by_cases hnm : n = m
        · simp [hs hnm]
        · simp [Ne.symm hnm]
      | writel off v =>
        simp only [is_req_store, decide_eq_true_eq] at he
        simp only [discipline_step, he, Option.some.injEq]
        by_cases hnm : n = m
        · simp [hs hnm]
        · simp [Ne.symm hnm]
      | memcpy_toio off bytes =>
        simp only [is_req_store, decide_eq_true_eq] at he
        simp only [discipline_step, he, Option.some.injEq]
        by_cases hnm : n = m
        · simp [hs hnm]
        · simp [Ne.symm hnm]
      | _ => simp [is_req_store] at he
    rw [List.foldl_cons, hstep]
    exact ih s (fun x hx => h x (List.mem_cons_of_mem _ hx)) hs

/-- A request keeps the discipline: events that write no mailbox, the busy-wait
ending on a read with bit `m` clear, stores into mailbox `m`, the raising of bit
`m`, and again events that write no mailbox. -/
theorem discipline_request (n m : Nat) (A : List Event) (pre : List Nat) (v : Nat)
    (Ws B : List Event) (hA : ∀ e ∈ A, is_mailbox_write e = false)
    (hv : v &&& MBOX_BIT m = 0) (hW : ∀ e ∈ Ws, is_req_store m e = true)
    (hB : ∀ e ∈ B, is_mailbox_write e = false) :
    pending_discipline n (A ++ (pre ++ [v]).map Event.readl_cpu_val ++ Ws ++
      Event.reg_writel Reg.PRCM_MBOX_CPU_SET (MBOX_BIT m) :: B) = true := by
  obtain ⟨s1, h1⟩ := discipline_neutral n A false hA
  have h3 := discipline_stores n m Ws (v &&& MBOX_BIT n == 0) hW (by
    rintro rfl; simp [hv])
  simp only [pending_discipline, List.foldl_append, List.foldl_cons, h1, discipline_reads, h3]
  obtain ⟨s2, h2⟩ := discipline_neutral n B
    ((v &&& MBOX_BIT n == 0) && (MBOX_BIT m &&& MBOX_BIT n == 0)) hB
  simp only [discipline_step, h2, Option.isSome_some]

theorem discipline_no_write (n : Nat) (L : List Event)
    (h : ∀ e ∈ L, is_mailbox_write e = false) : pending_discipline n L = true := by
  obtain ⟨s1, h1⟩ := discipline_neutral n L false h
  simp [pending_discipline, h1]

theorem irq_event_no_write (e : Event) (h : is_irq_event e = true) :
    is_mailbox_write e = false := by
  cases e with
  | reg_writel r v => cases r <;> first | rfl | simp [is_irq_event] at h
  | _ => first | rfl | simp [is_irq_event] at h

/-! ## What the other request functions do when they return -/

theorem wait_trace (c : Compl) : ∀ (irqs : List Irq) (w w1 : World),
    wait_for_completion c irqs w = some w1 →
    ∃ evs, w1.trace = w.trace ++ evs ++ [Event.wait_end c true] ∧
      ∀ e ∈ evs, is_irq_event e = true := by
  intro irqs
  induction irqs with
  | nil =>
    intro w w1 h
    simp only [wait_for_completion] at h
    split at h
    · simp only [Option.some.injEq] at h
      subst h
      exact ⟨[], by simp [emit, set_done_trace], by simp⟩
    · simp at h
  | cons i rest ih =>
    intro w w1 h
    simp only [wait_for_completion] at h
    split at h
    · simp only [Option.some.injEq] at h
      subst h
      exact ⟨[], by simp [emit, set_done_trace], by simp⟩
    · cases hi : interrupt i w with
      | none => simp [hi] at h
      | some p =>
        obtain ⟨w2, r⟩ := p
        simp only [hi] at h
        obtain ⟨evs, he, ha⟩ := interrupt_trace i w w2 r hi
        obtain ⟨evs1, he1, ha1⟩ := ih w2 w1 h
        refine ⟨evs ++ evs1, by rw [he1, he]; simp, ?_⟩
        intro e hm
        rcases List.mem_append.mp hm with hm | hm
        · exact ha e hm
        · exact ha1 e hm

theorem read_mailbox_host_view (n : Nat) (w w1 : World) (b : Bool)
    (h : read_mailbox n w = some (w1, b)) : host_view w1 = host_view w := by
  unfold read_mailbox at h
  split at h <;> simp only [Option.some.injEq, reduceCtorEq] at h <;>
    obtain rfl := congrArg Prod.fst h
  · simp only [read_mailbox_0, dispatch_wakeups_eq]; split <;> rfl
  · simp only [read_mailbox_1]; split <;> [rfl; split] <;> rfl
  · simp only [read_mailbox_2]; split <;> [rfl; split] <;> [rfl; split] <;> rfl
  · simp only [read_mailbox_3]; split <;> rfl
  · rfl
  · simp only [read_mailbox_5]; split <;> [rfl; split] <;> rfl
  · rfl
  · rfl

theorem interrupt_host_view (i : Irq) (w w1 : World) (r : irqreturn_t)
    (h : interrupt i w = some (w1, r)) : host_view w1 = host_view w := by
  simp only [interrupt, prcmu_irq_handler] at h
  by_cases hb : i.it1_val &&& ALL_MBOX_BITS = 0
  · simp only [hb, if_true, Option.some.injEq, Prod.mk.injEq] at h
    rw [← h.1]
    rfl
  · simp only [hb, if_false] at h
    exact irq_loop_all (fun x => host_view x = host_view w)
      (fun n x x1 b hx hp => (read_mailbox_host_view n x x1 b hx).trans hp) _ _ _ _ _ _ _ h rfl

theorem wait_timeout_host_view (c : Compl) : ∀ (irqs : List Irq) (w w1 : World) (b : Bool),
    wait_for_completion_timeout c irqs w = some (w1, b) → host_view w1 = host_view w := by
  intro irqs
  induction irqs with
  | nil =>
    intro w w1 b h
    simp only [wait_for_completion_timeout] at h
    split at h <;> simp only [Option.some.injEq, Prod.mk.injEq] at h <;>
      obtain ⟨rfl, rfl⟩ := h <;> cases c <;> rfl
  | cons i rest ih =>
    intro w w1 b h
    simp only [wait_for_completion_timeout] at h
    split at h
    · simp only [Option.some.injEq, Prod.mk.injEq] at h
      obtain ⟨rfl, rfl⟩ := h
      cases c <;> rfl
    · cases hi : interrupt i w with
      | none => simp [hi] at h
      | some p =>
        obtain ⟨w2, r⟩ := p
        simp only [hi] at h
        exact (ih w2 w1 b h).trans (interrupt_host_view i w w2 r hi)

theorem host_view_req_st (w w1 : World) (h : host_view w1 = host_view w) :
    w1.mb3_req_st = w.mb3_req_st := by
  simp only [host_view, Prod.mk.injEq] at h
  exact h.2.2.2.2.2.2.2.1

theorem request_sysclk_some (enable : Bool) (irqs : List Irq) (w w1 : World) (r : Int)
    (h : request_sysclk enable irqs w = some (w1, r)) :
    ∃ pre v rest evs b,
      w.cpu_val = pre ++ v :: rest ∧ (∀ x ∈ pre, x &&& MBOX_BIT 3 ≠ 0) ∧
      v &&& MBOX_BIT 3 = 0 ∧ (∀ e ∈ evs, is_irq_event e = true) ∧
      new_events w w1 = Event.lock Lock.sysclk :: (pre ++ [v]).map Event.readl_cpu_val ++
        sysclk_writes enable ++ evs ++ wait_tail Compl.sysclk_work Lock.sysclk b ∧
      r = (if b = true ∧ w1.mb3_ack_header = MB3H_REFCLK_REQUEST ∧
              w1.mb3_ack_status = (if enable then SYSCLK_ON else SYSCLK_OFF)
           then 0 else - EIO) := by
  unfold request_sysclk at h
  dsimp only at h
  cases hw0 : wait_mbox_clear 3 (emit (Event.lock Lock.sysclk) w) with
  | none => simp [hw0] at h
  | some w0 =>
    rw [hw0] at h
    dsimp only at h
    obtain ⟨pre, v, rest, hl, hpre, hv, he⟩ := wait_mbox_clear_some 3 _ w0 hw0
    cases hp : wait_for_completion_timeout Compl.sysclk_work irqs
        (reg_writel (MBOX_BIT 3) Reg.PRCM_MBOX_CPU_SET
          (writeb MB3H_REFCLK_REQUEST PRCM_REQ_MB3_HEADER
            (writeb (if enable = true then SYSCLK_ON else SYSCLK_OFF) PRCM_REQ_MB3_REFCLK_MGT
              { w0 with mb3_req_st := if enable = true then SYSCLK_ON else SYSCLK_OFF }))) with
    | none => simp [hp] at h
    | some p =>
      obtain ⟨ww, b⟩ := p
      rw [hp] at h
      dsimp only at h
      obtain ⟨evs, hevs, hirq⟩ := wait_timeout_trace _ irqs _ ww b hp
      have hreq : ww.mb3_req_st = if enable = true then SYSCLK_ON else SYSCLK_OFF :=
        host_view_req_st _ _ (wait_timeout_host_view _ irqs _ ww b hp)
      have htr : ww.trace = w.trace ++ (Event.lock Lock.sysclk ::
          (pre ++ [v]).map Event.readl_cpu_val ++ sysclk_writes enable ++ evs ++
          [Event.wait_end Compl.sysclk_work b]) := by
        rw [hevs, he]
        cases enable <;>
          simp [emit, writeb, reg_writel, sysclk_writes, SYSCLK_ON, SYSCLK_OFF,
            MB3H_REFCLK_REQUEST]
      refine ⟨pre, v, rest, evs, b, hl, hpre, hv, hirq, ?_, ?_⟩
      · cases b with
        | false =>
          simp only [Bool.not_false, if_true, Option.some.injEq, Prod.mk.injEq] at h
          obtain ⟨rfl, _⟩ := h
          apply new_events_append
          simp [emit, htr, wait_tail]
        | true =>
          simp only [Bool.not_true, Bool.false_eq_true, if_false] at h
          by_cases hc : ww.mb3_ack_header ≠ MB3H_REFCLK_REQUEST ∨
              ww.mb3_ack_status ≠ ww.mb3_req_st
          · rw [if_pos hc] at h
            simp only [Option.some.injEq, Prod.mk.injEq] at h
            obtain ⟨rfl, _⟩ := h
            apply new_events_append
            simp [emit, htr, wait_tail]
          · rw [if_neg hc] at h
            simp only [Option.some.injEq, Prod.mk.injEq] at h
            obtain ⟨rfl, _⟩ := h
            apply new_events_append
            simp [emit, htr, wait_tail]
      · cases b with
        | false =>
          simp only [Bool.not_false, if_true, Option.some.injEq, Prod.mk.injEq] at h
          obtain ⟨_, rfl⟩ := h
          simp
        | true =>
          simp only [Bool.not_true, Bool.false_eq_true, if_false] at h
          by_cases hc : ww.mb3_ack_header ≠ MB3H_REFCLK_REQUEST ∨
              ww.mb3_ack_status ≠ ww.mb3_req_st
          · rw [if_pos hc] at h
            simp only [Option.some.injEq, Prod.mk.injEq] at h
            obtain ⟨rfl, rfl⟩ := h
            rw [hreq] at hc
            simp only [emit, true_and]
            rw [if_neg]
            rintro ⟨h1, h2⟩
            rcases hc with hc | hc
            · exact hc h1
            · exact hc h2
          · rw [if_neg hc] at h
            simp only [Option.some.injEq, Prod.mk.injEq] at h
            obtain ⟨rfl, rfl⟩ := h
            rw [hreq] at hc
            simp only [emit, true_and]
            rw [if_pos]
            push_neg at hc
            exact hc


theorem ack_dbb_wakeup_some (w w1 : World) (h : ack_dbb_wakeup w = some w1) :
    ∃ pre v rest, w.cpu_val = pre ++ v :: rest ∧ (∀ x ∈ pre, x &&& MBOX_BIT 0 ≠ 0) ∧
      v &&& MBOX_BIT 0 = 0 ∧
      new_events w w1 = Event.lock Lock.mb0 :: (pre ++ [v]).map Event.readl_cpu_val ++
        [ Event.writeb PRCM_REQ_MB0_HEADER MB0H_RD_WAKE_UP_ACK,
          Event.reg_writel Reg.PRCM_MBOX_CPU_SET (MBOX_BIT 0), Event.unlock Lock.mb0 ] := by
  unfold ack_dbb_wakeup at h
  dsimp only at h
  cases hw0 : wait_mbox_clear 0 (emit (Event.lock Lock.mb0) w) with
  | none => simp [hw0] at h
  | some w0 =>
    rw [hw0] at h
    simp only [Option.some.injEq] at h
    obtain ⟨pre, v, rest, hl, hpre, hv, he⟩ := wait_mbox_clear_some 0 _ w0 hw0
    refine ⟨pre, v, rest, hl, hpre, hv, ?_⟩
    subst h
    apply new_events_append
    rw [he]
    simp [emit, writeb, reg_writel, MB0H_RD_WAKE_UP_ACK]

/-- Function `config_wakeups` with the last poll spelled out. -/
theorem config_wakeups_push (w w1 : World) (h : config_wakeups w = some w1)
    (hd : ¬ (w.dbb_irqs ||| w.dbb_wakeups = w.last_dbb_events ∧
      w.abb_events = w.last_abb_events)) :
    ∃ pre v rest, w.cpu_val = pre ++ v :: rest ∧ (∀ x ∈ pre, x &&& MBOX_BIT 0 ≠ 0) ∧
      v &&& MBOX_BIT 0 = 0 ∧
      new_events w w1 = (pre ++ [v]).map Event.readl_cpu_val ++
        wakeup_cfg_push (w.dbb_irqs ||| w.dbb_wakeups) w.abb_events := by
  unfold config_wakeups at h
  simp only [hd, if_false] at h
  cases hw0 : wait_mbox_clear 0 w with
  | none => simp [hw0] at h
  | some w0 =>
    rw [hw0] at h
    simp only [Option.some.injEq] at h
    obtain ⟨pre, v, rest, hl, hpre, hv, he⟩ := wait_mbox_clear_some 0 _ w0 hw0
    refine ⟨pre, v, rest, hl, hpre, hv, ?_⟩
    subst h
    apply new_events_append
    rw [he]
    simp [emit, writel, writeb, reg_writel, wakeup_cfg_push, MB0H_WAKE_UP_CFG]

theorem set_power_state_some (H : Headers) (state : Nat) (keep_ulp_clk keep_ap_pll : Bool)
    (w w1 : World) (r : Int)
    (h : db5500_prcmu_set_power_state H state keep_ulp_clk keep_ap_pll w = some (w1, r)) :
    ∃ pre v rest, w.cpu_val = pre ++ v :: rest ∧ (∀ x ∈ pre, x &&& MBOX_BIT 0 ≠ 0) ∧
      v &&& MBOX_BIT 0 = 0 ∧
      ((power_state_supported H state ∧ r = 0 ∧
        new_events w w1 = Event.lock Lock.mb0 :: (pre ++ [v]).map Event.readl_cpu_val ++
          power_state_stores H state keep_ulp_clk keep_ap_pll ++
          [Event.reg_writel Reg.PRCM_MBOX_CPU_SET (MBOX_BIT 0), Event.unlock Lock.mb0]) ∨
       (¬ power_state_supported H state ∧ r = - EINVAL ∧
        new_events w w1 = Event.lock Lock.mb0 :: (pre ++ [v]).map Event.readl_cpu_val ++
          [Event.unlock Lock.mb0])) := by
  unfold db5500_prcmu_set_power_state at h
  split at h
  · simp at h
  · dsimp only at h
    cases hw0 : wait_mbox_clear 0 (emit (Event.lock Lock.mb0) w) with
    | none => simp [hw0] at h
    | some w0 =>
      rw [hw0] at h
      dsimp only at h
      obtain ⟨pre, v, rest, hl, hpre, hv, he⟩ := wait_mbox_clear_some 0 _ w0 hw0
      refine ⟨pre, v, rest, hl, hpre, hv, ?_⟩
      by_cases h1 : state = H.PRCMU_AP_IDLE
      · left
        simp only [h1, if_true, Option.some.injEq, Prod.mk.injEq] at h
        obtain ⟨rfl, rfl⟩ := h
        refine ⟨Or.inl h1, rfl, ?_⟩
        apply new_events_append
        rw [he]
        cases keep_ulp_clk <;> cases keep_ap_pll <;>
          simp [emit, writeb, reg_writel, power_state_stores, h1, DB5500_AP_IDLE,
            MB0H_PWR_STATE_TRANS]
      · by_cases h2 : state = H.PRCMU_AP_SLEEP
        · left
          simp only [h1, h2, if_true, if_false, Option.some.injEq, Prod.mk.injEq] at h
          have h1b : ¬ H.PRCMU_AP_SLEEP = H.PRCMU_AP_IDLE := by rw [← h2]; exact h1
          simp only [h1b, if_false, Option.some.injEq, Prod.mk.injEq] at h
          obtain ⟨rfl, rfl⟩ := h
          refine ⟨Or.inr (Or.inl h2), rfl, ?_⟩
          apply new_events_append
          rw [he]
          cases keep_ulp_clk <;> cases keep_ap_pll <;>
            simp [emit, writeb, reg_writel, power_state_stores, h1, h2, h1b, DB5500_AP_SLEEP,
              MB0H_PWR_STATE_TRANS]
        · by_cases h3 : state = H.PRCMU_AP_DEEP_SLEEP
          · left
            simp only [h1, h2, h3, if_true, if_false, Option.some.injEq, Prod.mk.injEq] at h
            have h1b : ¬ H.PRCMU_AP_DEEP_SLEEP = H.PRCMU_AP_IDLE := by rw [← h3]; exact h1
            have h2b : ¬ H.PRCMU_AP_DEEP_SLEEP = H.PRCMU_AP_SLEEP := by rw [← h3]; exact h2
            simp only [h1b, h2b, if_false, Option.some.injEq, Prod.mk.injEq] at h
            obtain ⟨rfl, rfl⟩ := h
            refine ⟨Or.inr (Or.inr h3), rfl, ?_⟩
            apply new_events_append
            rw [he]
            cases keep_ulp_clk <;> cases keep_ap_pll <;>
              simp [emit, writeb, reg_writel, power_state_stores, h1, h2, h3, h1b, h2b,
                DB5500_AP_DEEP_SLEEP, MB0H_PWR_STATE_TRANS]
          · right
            simp only [h1, h2, h3, if_false, Option.some.injEq, Prod.mk.injEq] at h
            obtain ⟨rfl, rfl⟩ := h
            refine ⟨?_, rfl, ?_⟩
            · rintro (h | h | h)
              · exact h1 h
              · exact h2 h
              · exact h3 h
            · apply new_events_append
              rw [he]
              simp [emit]

theorem abb_read_some (slave reg : Nat) (value : List Nat) (size : Nat) (irqs : List Irq)
    (w w1 : World) (r : Int) (buf : List Nat)
    (h : db5500_prcmu_abb_read slave reg value size irqs w = some (w1, r, buf)) :
    ((size < 1 ∨ 4 < size) ∧ w1 = w ∧ r = - EINVAL ∧ buf = value) ∨
    (1 ≤ size ∧ size ≤ 4 ∧ ∃ pre v rest evs,
      w.cpu_val = pre ++ v :: rest ∧ (∀ x ∈ pre, x &&& MBOX_BIT 5 ≠ 0) ∧
      v &&& MBOX_BIT 5 = 0 ∧ (∀ e ∈ evs, is_irq_event e = true) ∧
      new_events w w1 = Event.lock Lock.mb5 :: (pre ++ [v]).map Event.readl_cpu_val ++
        abb_read_stores slave reg size ++
        Event.reg_writel Reg.PRCM_MBOX_CPU_SET (MBOX_BIT 5) ::
          (evs ++ [Event.wait_end Compl.mb5_work true, Event.unlock Lock.mb5]) ∧
      (r, buf) = (if w1.mb5_ack_header = MB5H_I2C_READ ∧ w1.mb5_ack_status = RC_SUCCESS
                  then (0, memcpy value w1.mb5_ack_value size) else (- EIO, value))) := by
  unfold db5500_prcmu_abb_read at h
  by_cases hs : size < 1 ∨ 4 < size
  · left
    rw [if_pos hs] at h
    simp only [Option.some.injEq, Prod.mk.injEq] at h
    obtain ⟨rfl, rfl, rfl⟩ := h
    exact ⟨hs, rfl, rfl, rfl⟩
  · right
    rw [if_neg hs] at h
    dsimp only at h
    push_neg at hs
    refine ⟨by omega, by omega, ?_⟩
    cases hw0 : wait_mbox_clear 5 (emit (Event.lock Lock.mb5) w) with
    | none => simp [hw0] at h
    | some w0 =>
      rw [hw0] at h
      dsimp only at h
      obtain ⟨pre, v, rest, hl, hpre, hv, he⟩ := wait_mbox_clear_some 5 _ w0 hw0
      cases hp : wait_for_completion Compl.mb5_work irqs
          (reg_writel (MBOX_BIT 5) Reg.PRCM_MBOX_CPU_SET
            (writeb MB5H_I2C_READ PRCM_REQ_MB5_HEADER
              (writeb size PRCM_REQ_MB5_I2C_SIZE
                (writeb reg PRCM_REQ_MB5_I2C_REG (writeb slave PRCM_REQ_MB5_I2C_SLAVE w0))))) with
      | none => simp [hp] at h
      | some ww =>
        rw [hp] at h
        dsimp only at h
        obtain ⟨evs, hevs, hirq⟩ := wait_trace _ irqs _ ww hp
        have htr : ww.trace = w.trace ++ (Event.lock Lock.mb5 ::
            (pre ++ [v]).map Event.readl_cpu_val ++ abb_read_stores slave reg size ++
            Event.reg_writel Reg.PRCM_MBOX_CPU_SET (MBOX_BIT 5) ::
              (evs ++ [Event.wait_end Compl.mb5_work true])) := by
          rw [hevs, he]
          simp [emit, writeb, reg_writel, abb_read_stores, MB5H_I2C_READ]
        refine ⟨pre, v, rest, evs, hl, hpre, hv, hirq, ?_, ?_⟩
        · by_cases hc : ww.mb5_ack_header = MB5H_I2C_READ ∧ ww.mb5_ack_status = RC_SUCCESS
          · rw [if_pos hc] at h
            simp only [Option.some.injEq, Prod.mk.injEq] at h
            obtain ⟨rfl, _, _⟩ := h
            apply new_events_append
            simp [emit, htr]
          · rw [if_neg hc] at h
            simp only [Option.some.injEq, Prod.mk.injEq] at h
            obtain ⟨rfl, _, _⟩ := h
            apply new_events_append
            simp [emit, htr]
        · by_cases hc : ww.mb5_ack_header = MB5H_I2C_READ ∧ ww.mb5_ack_status = RC_SUCCESS
          · rw [if_pos hc] at h
            simp only [Option.some.injEq, Prod.mk.injEq] at h
            obtain ⟨rfl, rfl, rfl⟩ := h
            have hc1 : (emit (Event.unlock Lock.mb5) ww).mb5_ack_header = MB5H_I2C_READ ∧
                (emit (Event.unlock Lock.mb5) ww).mb5_ack_status = RC_SUCCESS := hc
            rw [if_pos hc1]
            rfl
          · rw [if_neg hc] at h
            simp only [Option.some.injEq, Prod.mk.injEq] at h
            obtain ⟨rfl, rfl, rfl⟩ := h
            have hc1 : ¬ ((emit (Event.unlock Lock.mb5) ww).mb5_ack_header = MB5H_I2C_READ ∧
                (emit (Event.unlock Lock.mb5) ww).mb5_ack_status = RC_SUCCESS) := hc
            rw [if_neg hc1]

theorem abb_write_some (slave reg : Nat) (value : List Nat) (size : Nat) (irqs : List Irq)
    (w w1 : World) (r : Int)
    (h : db5500_prcmu_abb_write slave reg value size irqs w = some (w1, r)) :
    ((size < 1 ∨ 4 < size) ∧ w1 = w ∧ r = - EINVAL) ∨
    (1 ≤ size ∧ size ≤ 4 ∧ ∃ pre v rest evs,
      w.cpu_val = pre ++ v :: rest ∧ (∀ x ∈ pre, x &&& MBOX_BIT 5 ≠ 0) ∧
      v &&& MBOX_BIT 5 = 0 ∧ (∀ e ∈ evs, is_irq_event e = true) ∧
      new_events w w1 = Event.lock Lock.mb5 :: (pre ++ [v]).map Event.readl_cpu_val ++
        abb_write_stores slave reg value size ++
        Event.reg_writel Reg.PRCM_MBOX_CPU_SET (MBOX_BIT 5) ::
          (evs ++ [Event.wait_end Compl.mb5_work true, Event.unlock Lock.mb5]) ∧
      r = (if w1.mb5_ack_header = MB5H_I2C_WRITE ∧ w1.mb5_ack_status = RC_SUCCESS
           then 0 else - EIO)) := by
  unfold db5500_prcmu_abb_write at h
  by_cases hs : size < 1 ∨ 4 < size
  · left
    rw [if_pos hs] at h
    simp only [Option.some.injEq, Prod.mk.injEq] at h
    obtain ⟨rfl, rfl⟩ := h
    exact ⟨hs, rfl, rfl⟩
  · right
    rw [if_neg hs] at h
    dsimp only at h
    push_neg at hs
    refine ⟨by omega, by omega, ?_⟩
    cases hw0 : wait_mbox_clear 5 (emit (Event.lock Lock.mb5) w) with
    | none => simp [hw0] at h
    | some w0 =>
      rw [hw0] at h
      dsimp only at h
      obtain ⟨pre, v, rest, hl, hpre, hv, he⟩ := wait_mbox_clear_some 5 _ w0 hw0
      cases hp : wait_for_completion Compl.mb5_work irqs
          (reg_writel (MBOX_BIT 5) Reg.PRCM_MBOX_CPU_SET
            (writeb MB5H_I2C_WRITE PRCM_REQ_MB5_HEADER
              (memcpy_toio PRCM_REQ_MB5_I2C_DATA (value.take size)
                (writeb size PRCM_REQ_MB5_I2C_SIZE
                  (writeb reg PRCM_REQ_MB5_I2C_REG
                    (writeb slave PRCM_REQ_MB5_I2C_SLAVE w0)))))) with
      | none => simp [hp] at h
      | some ww =>
        rw [hp] at h
        dsimp only at h
        obtain ⟨evs, hevs, hirq⟩ := wait_trace _ irqs _ ww hp
        have htr : ww.trace = w.trace ++ (Event.lock Lock.mb5 ::
            (pre ++ [v]).map Event.readl_cpu_val ++ abb_write_stores slave reg value size ++
            Event.reg_writel Reg.PRCM_MBOX_CPU_SET (MBOX_BIT 5) ::
              (evs ++ [Event.wait_end Compl.mb5_work true])) := by
          rw [hevs, he]
          simp [emit, writeb, reg_writel, memcpy_toio, abb_write_stores, MB5H_I2C_WRITE]
        refine ⟨pre, v, rest, evs, hl, hpre, hv, hirq, ?_, ?_⟩
        · by_cases hc : ww.mb5_ack_header = MB5H_I2C_WRITE ∧ ww.mb5_ack_status = RC_SUCCESS
          · rw [if_pos hc] at h
            simp only [Option.some.injEq, Prod.mk.injEq] at h
            obtain ⟨rfl, _⟩ := h
            apply new_events_append
            simp [emit, htr]
          · rw [if_neg hc] at h
            simp only [Option.some.injEq, Prod.mk.injEq] at h
            obtain ⟨rfl, _⟩ := h
            apply new_events_append
            simp [emit, htr]
        · by_cases hc : ww.mb5_ack_header = MB5H_I2C_WRITE ∧ ww.mb5_ack_status = RC_SUCCESS
          · rw [if_pos hc] at h
            simp only [Option.some.injEq, Prod.mk.injEq] at h
            obtain ⟨rfl, rfl⟩ := h
            have hc1 : (emit (Event.unlock Lock.mb5) ww).mb5_ack_header = MB5H_I2C_WRITE ∧
                (emit (Event.unlock Lock.mb5) ww).mb5_ack_status = RC_SUCCESS := hc
            rw [if_pos hc1]
          · rw [if_neg hc] at h
            simp only [Option.some.injEq, Prod.mk.injEq] at h
            obtain ⟨rfl, rfl⟩ := h
            have hc1 : ¬ ((emit (Event.unlock Lock.mb5) ww).mb5_ack_header = MB5H_I2C_WRITE ∧
                (emit (Event.unlock Lock.mb5) ww).mb5_ack_status = RC_SUCCESS) := hc
            rw [if_neg hc1]


theorem no_write_of_irq_tail (evs T : List Event) (hevs : ∀ e ∈ evs, is_irq_event e = true)
    (hT : ∀ e ∈ T, is_mailbox_write e = false) :
    ∀ e ∈ evs ++ T, is_mailbox_write e = false := by
  intro e he
  rcases List.mem_append.mp he with he | he
  · exact irq_event_no_write e (hevs e he)
  · exact hT e he

theorem wait_tail_no_write (c : Compl) (l : Lock) (b : Bool) :
    ∀ e ∈ wait_tail c l b, is_mailbox_write e = false := by
  intro e he
  cases b <;> simp [wait_tail] at he <;> rcases he with rfl | he
  · rfl
  · rcases he with rfl | rfl | rfl <;> rfl
  · rfl
  · subst he; rfl

theorem is_req_store_writeb (m off v : Nat) (h : req_mailbox off = some m) :
    is_req_store m (Event.writeb off v) = true := by
  simp [is_req_store, h]

theorem is_req_store_writel (m off v : Nat) (h : req_mailbox off = some m) :
    is_req_store m (Event.writel off v) = true := by
  simp [is_req_store, h]

theorem is_req_store_memcpy (m off : Nat) (bytes : List Nat) (h : req_mailbox off = some m) :
    is_req_store m (Event.memcpy_toio off bytes) = true := by
  simp [is_req_store, h]

/-! ## C4 -/

/-- C4 fails as stated: `db5500_prcmu_config_esram0_deep_sleep` stores into the
request region of mailbox 0 (`PRCM_REQ_MB0_ESRAM0_STATE`) without having read
`PRCM_MBOX_CPU_VAL` at all. -/
theorem esram0_store_without_poll :
    new_events World.sample World.sample_esram0 =
      [ Event.lock Lock.mb0, Event.writeb PRCM_REQ_MB0_ESRAM0_STATE RET_ST,
        Event.unlock Lock.mb0 ] ∧
    req_mailbox PRCM_REQ_MB0_ESRAM0_STATE = some 0 ∧
    pending_discipline 0 (new_events World.sample World.sample_esram0) = false := by
  decide

/-- C4 (amended): every operation that issues a request on a mailbox
(`request_sysclk`, `request_pll`, `config_wakeups`, `db5500_prcmu_set_power_state`,
`db5500_prcmu_abb_read`, `db5500_prcmu_abb_write`, `ack_dbb_wakeup`) stores into a
mailbox's request region or request header only after it has read
`PRCM_MBOX_CPU_VAL` with that mailbox's pending bit clear in the same lock hold.
`db5500_prcmu_config_esram0_deep_sleep` issues no request: between taking and
releasing the mailbox-0 lock it stores the ESRAM0 state byte and does nothing
else (no poll, no header, no pending bit). -/
theorem pending_bit_discipline (H : Headers) (op : RequestOp) (w w1 : World) (n : Nat)
    (h : op.run H w = some w1) :
    pending_discipline n (new_events w w1) = true ∧
    (∀ state,
      db5500_prcmu_config_esram0_deep_sleep H state w = (w, - EINVAL) ∨
      ((db5500_prcmu_config_esram0_deep_sleep H state w).2 = 0 ∧
        new_events w (db5500_prcmu_config_esram0_deep_sleep H state w).1 =
          [ Event.lock Lock.mb0,
            Event.writeb PRCM_REQ_MB0_ESRAM0_STATE
              (if state = H.ESRAM0_DEEP_SLEEP_STATE_RET then RET_ST else OFF_ST),
            Event.unlock Lock.mb0 ])) := by
  constructor
  · cases op with
    | request_sysclk enable irqs =>
      simp only [RequestOp.run, Option.map_eq_some', Prod.exists, exists_and_right,
        exists_eq_right] at h
      obtain ⟨r, hr⟩ := h
      obtain ⟨pre, v, rest, evs, b, _, _, hv, hirq, hnew, _⟩ :=
        request_sysclk_some enable irqs w w1 r hr
      rw [hnew]
      have := discipline_request n 3 [Event.lock Lock.sysclk] pre v
        [ Event.writeb PRCM_REQ_MB3_REFCLK_MGT (if enable then SYSCLK_ON else SYSCLK_OFF),
          Event.writeb PRCM_REQ_MB3_HEADER MB3H_REFCLK_REQUEST ]
        (evs ++ wait_tail Compl.sysclk_work Lock.sysclk b)
        (by intro e he; rw [List.mem_singleton.mp he]; rfl) hv
        (by
          intro e he
          simp only [List.mem_cons, List.mem_singleton, List.not_mem_nil, or_false] at he
          rcases he with rfl | rfl <;>
            exact is_req_store_writeb _ _ _ (by decide))
        (no_write_of_irq_tail _ _ hirq (wait_tail_no_write _ _ _))
      simpa [sysclk_writes] using this
    | request_pll pll enable irqs =>
      simp only [RequestOp.run, Option.map_eq_some', Prod.exists, exists_and_right,
        exists_eq_right] at h
      obtain ⟨r, hr⟩ := h
      obtain ⟨_, pre, v, rest, evs, b, _, _, hv, hirq, hnew, _⟩ :=
        request_pll_some pll enable irqs w w1 r hr
      rw [hnew]
      have := discipline_request n 2 [Event.lock Lock.mb2] pre v
        [ Event.writeb PRCM_REQ_MB2_PLL_CLIENT (pll % 256),
          Event.writeb PRCM_REQ_MB2_PLL_STATE (if enable then 1 else 0),
          Event.writeb PRCM_REQ_MB2_HEADER MB2H_PLL_REQUEST ]
        (evs ++ wait_tail Compl.mb2_work Lock.mb2 b)
        (by intro e he; rw [List.mem_singleton.mp he]; rfl) hv
        (by
          intro e he
          simp only [List.mem_cons, List.mem_singleton, List.not_mem_nil, or_false] at he
          rcases he with rfl | rfl | rfl <;>
            exact is_req_store_writeb _ _ _ (by decide))
        (no_write_of_irq_tail _ _ hirq (wait_tail_no_write _ _ _))
      simpa [pll_writes] using this
    | config_wakeups =>
      simp only [RequestOp.run] at h
      by_cases hd : w.dbb_irqs ||| w.dbb_wakeups = w.last_dbb_events ∧
          w.abb_events = w.last_abb_events
      · rw [config_wakeups_same w hd, Option.some.injEq] at h
        subst h
        simp [new_events, pending_discipline]
      · obtain ⟨pre, v, rest, _, _, hv, hnew⟩ := config_wakeups_push w w1 h hd
        rw [hnew]
        have := discipline_request n 0 [] pre v
          [ Event.writel PRCM_REQ_MB0_WAKEUP_DBB ((w.dbb_irqs ||| w.dbb_wakeups) % 2 ^ 32),
            Event.writel PRCM_REQ_MB0_WAKEUP_ABB (w.abb_events % 2 ^ 32),
            Event.writeb PRCM_REQ_MB0_HEADER MB0H_WAKE_UP_CFG ] []
          (by simp) hv
          (by
            intro e he
            simp only [List.mem_cons, List.mem_singleton, List.not_mem_nil, or_false] at he
            rcases he with rfl | rfl | rfl <;>
            first
              | exact is_req_store_writeb _ _ _ (by decide)
              | exact is_req_store_writel _ _ _ (by decide))
          (by simp)
        simpa [wakeup_cfg_push] using this
    | set_power_state state keep_ulp_clk keep_ap_pll =>
      simp only [RequestOp.run, Option.map_eq_some', Prod.exists, exists_and_right,
        exists_eq_right] at h
      obtain ⟨r, hr⟩ := h
      obtain ⟨pre, v, rest, _, _, hv, hcase⟩ :=
        set_power_state_some H state keep_ulp_clk keep_ap_pll w w1 r hr
      rcases hcase with ⟨_, _, hnew⟩ | ⟨_, _, hnew⟩
      · rw [hnew]
        have := discipline_request n 0 [Event.lock Lock.mb0] pre v
          (power_state_stores H state keep_ulp_clk keep_ap_pll) [Event.unlock Lock.mb0]
          (by intro e he; rw [List.mem_singleton.mp he]; rfl) hv
          (by
            intro e he
            simp only [power_state_stores, List.mem_append, List.mem_cons, List.mem_singleton,
              List.not_mem_nil, or_false] at he
            rcases he with he | rfl | rfl | rfl
            · split at he
              · simp only [List.mem_cons, List.mem_singleton, List.not_mem_nil,
                  or_false] at he
                rcases he with rfl | rfl <;> exact is_req_store_writeb _ _ _ (by decide)
              · split at he <;> simp only [List.mem_singleton] at he <;> subst he <;>
                  exact is_req_store_writeb _ _ _ (by decide)
            · exact is_req_store_writeb _ _ _ (by decide)
            · exact is_req_store_writeb _ _ _ (by decide)
            · exact is_req_store_writeb _ _ _ (by decide))
          (by intro e he; rw [List.mem_singleton.mp he]; rfl)
        simpa using this
      · rw [hnew]
        apply discipline_no_write
        intro e he
        simp only [List.cons_append, List.mem_cons, List.mem_append, List.mem_map,
          List.mem_singleton, List.not_mem_nil, or_false] at he
        rcases he with rfl | ⟨x, _, rfl⟩ | rfl <;> rfl
    | abb_read slave reg value size irqs =>
      simp only [RequestOp.run, Option.map_eq_some', Prod.exists, exists_and_right,
        exists_eq_right] at h
      obtain ⟨r, buf, hr⟩ := h
      rcases abb_read_some slave reg value size irqs w w1 r buf hr with
        ⟨_, rfl, _, _⟩ | ⟨_, _, pre, v, rest, evs, _, _, hv, hirq, hnew, _⟩
      · simp [new_events, pending_discipline]
      · rw [hnew]
        exact discipline_request n 5 [Event.lock Lock.mb5] pre v
          (abb_read_stores slave reg size)
          (evs ++ [Event.wait_end Compl.mb5_work true, Event.unlock Lock.mb5])
          (by intro e he; rw [List.mem_singleton.mp he]; rfl) hv
          (by
            intro e he
            simp only [abb_read_stores, List.mem_cons, List.mem_singleton, List.not_mem_nil,
              or_false] at he
            rcases he with rfl | rfl | rfl | rfl <;>
            exact is_req_store_writeb _ _ _ (by decide))
          (no_write_of_irq_tail _ _ hirq (by
            intro e he
            simp only [List.mem_cons, List.mem_singleton, List.not_mem_nil, or_false] at he
            rcases he with rfl | rfl <;> rfl))
    | abb_write slave reg value size irqs =>
      simp only [RequestOp.run, Option.map_eq_some', Prod.exists, exists_and_right,
        exists_eq_right] at h
      obtain ⟨r, hr⟩ := h
      rcases abb_write_some slave reg value size irqs w w1 r hr with
        ⟨_, rfl, _⟩ | ⟨_, _, pre, v, rest, evs, _, _, hv, hirq, hnew, _⟩
      · simp [new_events, pending_discipline]
      · rw [hnew]
        exact discipline_request n 5 [Event.lock Lock.mb5] pre v
          (abb_write_stores slave reg value size)
          (evs ++ [Event.wait_end Compl.mb5_work true, Event.unlock Lock.mb5])
          (by intro e he; rw [List.mem_singleton.mp he]; rfl) hv
          (by
            intro e he
            simp only [abb_write_stores, List.mem_cons, List.mem_singleton, List.not_mem_nil,
              or_false] at he
            rcases he with rfl | rfl | rfl | rfl | rfl <;>
            first
              | exact is_req_store_writeb _ _ _ (by decide)
              | exact is_req_store_memcpy _ _ _ (by decide))
          (no_write_of_irq_tail _ _ hirq (by
            intro e he
            simp only [List.mem_cons, List.mem_singleton, List.not_mem_nil, or_false] at he
            rcases he with rfl | rfl <;> rfl))
    | ack_dbb_wakeup =>
      simp only [RequestOp.run] at h
      obtain ⟨pre, v, rest, _, _, hv, hnew⟩ := ack_dbb_wakeup_some w w1 h
      rw [hnew]
      have := discipline_request n 0 [Event.lock Lock.mb0] pre v
        [Event.writeb PRCM_REQ_MB0_HEADER MB0H_RD_WAKE_UP_ACK] [Event.unlock Lock.mb0]
        (by intro e he; rw [List.mem_singleton.mp he]; rfl) hv
        (by intro e he; rw [List.mem_singleton.mp he]; exact is_req_store_writeb _ _ _ (by decide))
        (by intro e he; rw [List.mem_singleton.mp he]; rfl)
      simpa using this
  · intro state
    unfold db5500_prcmu_config_esram0_deep_sleep
    by_cases hs : state > H.ESRAM0_DEEP_SLEEP_STATE_RET ∨ state < H.ESRAM0_DEEP_SLEEP_STATE_OFF
    · left; rw [if_pos hs]
    · right
      rw [if_neg hs]
      refine ⟨rfl, ?_⟩
      apply new_events_append
      by_cases hr : state = H.ESRAM0_DEEP_SLEEP_STATE_RET
      · simp [hr, emit, writeb, RET_ST]
      · simp [hr, emit, writeb, OFF_ST]

theorem pending_bit_discipline_witness :
    pending_discipline 0 (new_events World.sample World.sample_sleep) = true ∧
    (db5500_prcmu_config_esram0_deep_sleep Headers.sample 2 World.sample =
        (World.sample, - EINVAL) ∨
      ((db5500_prcmu_config_esram0_deep_sleep Headers.sample 2 World.sample).2 = 0 ∧
        new_events World.sample
            (db5500_prcmu_config_esram0_deep_sleep Headers.sample 2 World.sample).1 =
          [ Event.lock Lock.mb0,
            Event.writeb PRCM_REQ_MB0_ESRAM0_STATE
              (if 2 = Headers.sample.ESRAM0_DEEP_SLEEP_STATE_RET then RET_ST else OFF_ST),
            Event.unlock Lock.mb0 ])) :=
  ⟨(pending_bit_discipline Headers.sample (RequestOp.set_power_state 1 false true) World.sample
      World.sample_sleep 0 rfl).1,
    (pending_bit_discipline Headers.sample (RequestOp.set_power_state 1 false true) World.sample
      World.sample_sleep 0 rfl).2 2⟩

/-! ## Wakeup demultiplexing -/

theorem dispatched_eq (ev : Nat) : ∀ (l : List Nat) (n : Nat),
    dispatched ev n l =
      ((List.range l.length).filter (fun j => ev &&& l.getD j 0 ≠ 0)).map (fun j => n + j) := by
  intro l
  induction l with
  | nil => intro n; rfl
  | cons b bs ih =>
    intro n
    have hf : List.filter (fun j => decide (ev &&& (b :: bs).getD j 0 ≠ 0))
        ((List.range bs.length).map Nat.succ) =
        (List.filter (fun j => decide (ev &&& bs.getD j 0 ≠ 0)) (List.range bs.length)).map
          Nat.succ := by
      rw [List.filter_map]
      rfl
    have hm : ((List.filter (fun j => decide (ev &&& bs.getD j 0 ≠ 0))
        (List.range bs.length)).map Nat.succ).map (fun j => n + j) =
        (List.filter (fun j => decide (ev &&& bs.getD j 0 ≠ 0)) (List.range bs.length)).map
          (fun j => n + 1 + j) := by
      rw [List.map_map]
      apply List.map_congr_left
      intro j _
      simp only [Function.comp, Nat.succ_eq_add_one]
      omega
    rw [List.length_cons, List.range_succ_eq_map, List.filter_cons, hf]
    simp only [dispatched, ih (n + 1)]
    by_cases hb : ev &&& b = 0
    · have hd : decide (ev &&& (b :: bs).getD 0 0 ≠ 0) = false := by simp [hb]
      rw [hd]
      simp only [hb, ne_eq, not_true_eq_false, if_false, Bool.false_eq_true]
      exact hm.symm
    · have hd : decide (ev &&& (b :: bs).getD 0 0 ≠ 0) = true := by simp [hb]
      rw [hd]
      simp only [hb, ne_eq, not_false_eq_true, if_true, List.map_cons, add_zero]
      rw [hm]

theorem dispatches_handle (l : List Nat) (tail : List Event)
    (ht : dispatches tail = []) :
    dispatches (l.map Event.generic_handle_irq ++ tail) = l := by
  induction l with
  | nil => simpa using ht
  | cons x xs ih => simp [dispatches, ih]

/-! ## C5 -/

/-- C5: when `read_mailbox_0` sees header `MB0H_WAKE_UP`, with `ev` the acknowledged
DBB event word (buffer 1 if the read pointer is odd, buffer 0 otherwise), the
virtual interrupts it dispatches are, in increasing order, exactly the lines `n`
of the table with `ev & dbb_irqs & prcmu_irq_bit[n] != 0`, and it asks for the
thread to be woken.  With `ev` the RTC and USB bits and `dbb_irqs` the RTC bit
alone, the RTC line is dispatched and nothing else. -/
theorem read_mailbox_0_demux (w : World) (ev : Nat)
    (hh : readb PRCM_ACK_MB0_HEADER w = MB0H_WAKE_UP)
    (hev : ev = if readb PRCM_ACK_MB0_READ_POINTER w % 2 = 1
                then readl PRCM_ACK_MB0_WAKEUP_1_DBB w else readl PRCM_ACK_MB0_WAKEUP_0_DBB w) :
    dispatches (new_events w (read_mailbox_0 w).1) =
      (List.range NUM_DB5500_PRCMU_WAKEUPS).filter
        (fun n => ev &&& w.dbb_irqs &&& prcmu_irq_bit.getD n 0 ≠ 0) ∧
    (read_mailbox_0 w).2 = true ∧
    (ev = WAKEUP_BIT_RTC ||| WAKEUP_BIT_USB → w.dbb_irqs = WAKEUP_BIT_RTC →
      dispatches (new_events w (read_mailbox_0 w).1) = [IRQ_INDEX_RTC]) := by
  have hev1 : ev = if readb PRCM_ACK_MB0_READ_POINTER w &&& 1 ≠ 0
      then readl PRCM_ACK_MB0_WAKEUP_1_DBB w else readl PRCM_ACK_MB0_WAKEUP_0_DBB w := by
    rw [hev, Nat.and_one_is_mod]
    by_cases hp : readb PRCM_ACK_MB0_READ_POINTER w % 2 = 1
    · simp [hp]
    · have : readb PRCM_ACK_MB0_READ_POINTER w % 2 = 0 := by omega
      simp [this]
  have hd : dispatches (new_events w (read_mailbox_0 w).1) =
      dispatched (ev &&& w.dbb_irqs) 0 prcmu_irq_bit := by
    have ht : (read_mailbox_0 w).1.trace = w.trace ++
        ((dispatched (ev &&& w.dbb_irqs) 0 prcmu_irq_bit).map Event.generic_handle_irq ++
          [Event.reg_writel Reg.PRCM_ARM_IT1_CLR (MBOX_BIT 0)]) := by
      simp only [read_mailbox_0, hh, if_true, dispatch_wakeups_eq, reg_writel, emit, ← hev1,
        List.append_assoc]
    rw [new_events_append w _ _ ht]
    exact dispatches_handle _ _ rfl
  refine ⟨?_, ?_, ?_⟩
  · rw [hd, dispatched_eq]
    simp only [zero_add, List.map_id', NUM_DB5500_PRCMU_WAKEUPS]
  · simp only [read_mailbox_0, hh, if_true]
  · intro he hi
    rw [hd, he, hi]
    decide

theorem read_mailbox_0_demux_witness :
    dispatches (new_events World.sample_wake (read_mailbox_0 World.sample_wake).1) =
      (List.range NUM_DB5500_PRCMU_WAKEUPS).filter
        (fun n => (WAKEUP_BIT_RTC ||| WAKEUP_BIT_USB) &&& World.sample_wake.dbb_irqs &&&
          prcmu_irq_bit.getD n 0 ≠ 0) ∧
    (read_mailbox_0 World.sample_wake).2 = true ∧
    dispatches (new_events World.sample_wake (read_mailbox_0 World.sample_wake).1) =
      [IRQ_INDEX_RTC] :=
  ⟨(read_mailbox_0_demux World.sample_wake (WAKEUP_BIT_RTC ||| WAKEUP_BIT_USB) (by decide)
      (by decide)).1,
    (read_mailbox_0_demux World.sample_wake (WAKEUP_BIT_RTC ||| WAKEUP_BIT_USB) (by decide)
      (by decide)).2.1,
    (read_mailbox_0_demux World.sample_wake (WAKEUP_BIT_RTC ||| WAKEUP_BIT_USB) (by decide)
      (by decide)).2.2 rfl (by decide)⟩


/-! ## C6 -/

/-- C6, the code at the failing input: the distinct lines `GPIO7` and `AC_REL_ACK`
both map to `BIT(30)`.  Every table entry is a single bit, but with only
`AC_REL_ACK` unmasked, `prcmu_irq_unmask(AC_REL_ACK)` leaves `dbb_irqs` at bit 30,
`prcmu_irq_mask(GPIO7)` then clears it, and an acknowledged event bit 30
dispatches both lines. -/
theorem irq_bit_shared_by_two_lines :
    IRQ_INDEX_GPIO7 ≠ IRQ_INDEX_AC_REL_ACK ∧
    prcmu_irq_bit[IRQ_INDEX_GPIO7]? = some (BIT 30) ∧
    prcmu_irq_bit[IRQ_INDEX_AC_REL_ACK]? = some (BIT 30) ∧
    (∀ b ∈ prcmu_irq_bit, ∃ k < 32, b = BIT k) ∧
    (prcmu_irq_unmask IRQ_INDEX_AC_REL_ACK World.sample).map World.dbb_irqs = some (BIT 30) ∧
    World.sample_bit30.dbb_irqs = BIT 30 ∧
    (prcmu_irq_mask IRQ_INDEX_GPIO7 World.sample_bit30).map World.dbb_irqs = some 0 ∧
    dispatches (new_events World.sample_bit30 (read_mailbox_0 World.sample_bit30).1) =
      [IRQ_INDEX_GPIO7, IRQ_INDEX_AC_REL_ACK] := by
  decide

/-! ## C7 -/

theorem testBit_u32 (x i : Nat) (hx : x < 2 ^ 32) (hi : 32 ≤ i) : x.testBit i = false :=
  Nat.testBit_lt_two_pow (lt_of_lt_of_le hx (Nat.pow_le_pow_right (by norm_num) hi))

/-- Setting then clearing a bit that was clear gives back the 32-bit word. -/
theorem or_and_not_u32 (d b : Nat) (hd : d < 2 ^ 32) (hb : b < 2 ^ 32) (h : d &&& b = 0) :
    (d ||| b) &&& (U32_MAX ^^^ b) = d := by
  apply Nat.eq_of_testBit_eq
  intro i
  have hM : U32_MAX = 2 ^ 32 - 1 := by decide
  have hdb : (d &&& b).testBit i = false := by rw [h]; exact Nat.zero_testBit i
  rw [Nat.testBit_and] at hdb
  rw [Nat.testBit_and, Nat.testBit_or, Nat.testBit_xor, hM, Nat.testBit_two_pow_sub_one]
  by_cases hi : i < 32
  · simp only [hi, decide_True]
    cases hdi : d.testBit i <;> cases hbi : b.testBit i <;> simp_all
  · have hd0 := testBit_u32 d i hd (by omega)
    have hb0 := testBit_u32 b i hb (by omega)
    simp [hi, hd0, hb0]

theorem prcmu_irq_bit_u32 (n b : Nat) (h : prcmu_irq_bit[n]? = some b) : b < 2 ^ 32 := by
  have hall : ∀ x ∈ prcmu_irq_bit, x < 2 ^ 32 := by decide
  exact hall b (List.getElem?_mem h)

/-- What `schedule_work` changes: the queued mark, and one trace event that
writes no mailbox. -/
theorem schedule_work_spec (w : World) :
    (schedule_work w).dbb_irqs = w.dbb_irqs ∧ (schedule_work w).dbb_wakeups = w.dbb_wakeups ∧
    (schedule_work w).abb_events = w.abb_events ∧
    (schedule_work w).last_dbb_events = w.last_dbb_events ∧
    (schedule_work w).last_abb_events = w.last_abb_events ∧
    (schedule_work w).mask_work_pending = true ∧
    ∃ evs, (schedule_work w).trace = w.trace ++ evs ∧ mailbox_writes evs = [] := by
  unfold schedule_work
  by_cases hp : w.mask_work_pending = true
  · rw [if_pos hp]
    exact ⟨rfl, rfl, rfl, rfl, rfl, hp, [], by simp, rfl⟩
  · rw [if_neg hp]
    exact ⟨rfl, rfl, rfl, rfl, rfl, rfl, [Event.schedule_work], rfl, rfl⟩

theorem prcmu_irq_unmask_spec (n b : Nat) (w : World) (hn : prcmu_irq_bit[n]? = some b) :
    ∃ w1, prcmu_irq_unmask n w = some w1 ∧ w1.dbb_irqs = w.dbb_irqs ||| b ∧
      w1.dbb_wakeups = w.dbb_wakeups ∧ w1.abb_events = w.abb_events ∧
      w1.last_dbb_events = w.last_dbb_events ∧ w1.last_abb_events = w.last_abb_events ∧
      w1.mask_work_pending = true ∧
      ∃ evs, w1.trace = w.trace ++ evs ∧ mailbox_writes evs = [] := by
  simp only [prcmu_irq_unmask, hn]
  refine ⟨_, rfl, ?_⟩
  obtain ⟨h1, h2, h3, h4, h5, h6, evs, h7, h8⟩ := schedule_work_spec
    (emit (Event.unlock Lock.dbb_irqs)
      { emit (Event.lock Lock.dbb_irqs) w with
        dbb_irqs := (emit (Event.lock Lock.dbb_irqs) w).dbb_irqs ||| b })
  refine ⟨h1, h2, h3, h4, h5, h6, [Event.lock Lock.dbb_irqs, Event.unlock Lock.dbb_irqs] ++ evs,
    ?_, ?_⟩
  · rw [h7]; simp [emit]
  · rw [mailbox_writes_append, h8]; rfl

theorem prcmu_irq_mask_spec (n b : Nat) (w : World) (hn : prcmu_irq_bit[n]? = some b) :
    ∃ w1, prcmu_irq_mask n w = some w1 ∧ w1.dbb_irqs = w.dbb_irqs &&& (U32_MAX ^^^ b) ∧
      w1.dbb_wakeups = w.dbb_wakeups ∧ w1.abb_events = w.abb_events ∧
      w1.last_dbb_events = w.last_dbb_events ∧ w1.last_abb_events = w.last_abb_events ∧
      w1.mask_work_pending = true ∧
      ∃ evs, w1.trace = w.trace ++ evs ∧ mailbox_writes evs = [] := by
  simp only [prcmu_irq_mask, hn]
  refine ⟨_, rfl, ?_⟩
  obtain ⟨h1, h2, h3, h4, h5, h6, evs, h7, h8⟩ := schedule_work_spec
    (emit (Event.unlock Lock.dbb_irqs)
      { emit (Event.lock Lock.dbb_irqs) w with
        dbb_irqs := (emit (Event.lock Lock.dbb_irqs) w).dbb_irqs &&& (U32_MAX ^^^ b) })
  refine ⟨h1, h2, h3, h4, h5, h6, [Event.lock Lock.dbb_irqs, Event.unlock Lock.dbb_irqs] ++ evs,
    ?_, ?_⟩
  · rw [h7]; simp [emit]
  · rw [mailbox_writes_append, h8]; rfl

/-- The queued work item, run in a state whose pair is the remembered pair, only
takes and releases the mailbox-0 lock. -/
theorem run_mask_work_same (w : World) (hp : w.mask_work_pending = true)
    (hs : w.dbb_irqs ||| w.dbb_wakeups = w.last_dbb_events ∧
      w.abb_events = w.last_abb_events) :
    ∃ w3, run_mask_work w = some w3 ∧ w3.mask_work_pending = false ∧
      w3.dbb_irqs = w.dbb_irqs ∧
      w3.trace = w.trace ++ [Event.lock Lock.mb0, Event.unlock Lock.mb0] := by
  simp only [run_mask_work, hp, if_true, prcmu_mask_work]
  rw [config_wakeups_same _ (by simpa [emit] using hs)]
  exact ⟨_, rfl, rfl, rfl, by simp [emit]⟩

/-- C7: for a line `n` of the controller whose bit is clear in `dbb_irqs`, in a
state where the remembered pair equals the current pair,
`prcmu_irq_unmask(n)`, then `prcmu_irq_mask(n)`, then the queued
`prcmu_mask_work` all return, restore `dbb_irqs`, and make no mailbox write at
all: no `WAKE_UP_CFG` transaction is issued and the pending bit is not raised. -/
theorem unmask_mask_no_push (n b : Nat) (w : World)
    (hn : prcmu_irq_bit[n]? = some b) (hu32 : w.dbb_irqs < 2 ^ 32)
    (hlast : w.dbb_irqs ||| w.dbb_wakeups = w.last_dbb_events ∧
      w.abb_events = w.last_abb_events)
    (hclear : w.dbb_irqs &&& b = 0) :
    ∃ w1 w2 w3, prcmu_irq_unmask n w = some w1 ∧ w1.dbb_irqs = w.dbb_irqs ||| b ∧
      prcmu_irq_mask n w1 = some w2 ∧ w2.dbb_irqs = w.dbb_irqs ∧
      w2.mask_work_pending = true ∧
      run_mask_work w2 = some w3 ∧ w3.mask_work_pending = false ∧
      mailbox_writes (new_events w w3) = [] := by
  have hb := prcmu_irq_bit_u32 n b hn
  have hback := or_and_not_u32 w.dbb_irqs b hu32 hb hclear
  obtain ⟨w1, hw1, hi1, hk1, ha1, hd1, hl1, _, e1, ht1, hm1⟩ := prcmu_irq_unmask_spec n b w hn
  obtain ⟨w2, hw2, hi2, hk2, ha2, hd2, hl2, hp2, e2, ht2, hm2⟩ :=
    prcmu_irq_mask_spec n b w1 hn
  have hi2' : w2.dbb_irqs = w.dbb_irqs := by rw [hi2, hi1, hback]
  obtain ⟨w3, hw3, hp3, _, ht3⟩ := run_mask_work_same w2 hp2 (by
    rw [hi2', hk2, hk1, ha2, ha1, hd2, hd1, hl2, hl1]; exact hlast)
  refine ⟨w1, w2, w3, hw1, hi1, hw2, hi2', hp2, hw3, hp3, ?_⟩
  rw [new_events_append w w3 (e1 ++ e2 ++ [Event.lock Lock.mb0, Event.unlock Lock.mb0]) (by
    rw [ht3, ht2, ht1]; simp)]
  rw [mailbox_writes_append, mailbox_writes_append, hm1, hm2]
  rfl

theorem unmask_mask_no_push_witness :
    ∃ w1 w2 w3, prcmu_irq_unmask IRQ_INDEX_USB World.sample_pushed = some w1 ∧
      w1.dbb_irqs = World.sample_pushed.dbb_irqs ||| WAKEUP_BIT_USB ∧
      prcmu_irq_mask IRQ_INDEX_USB w1 = some w2 ∧ w2.dbb_irqs = World.sample_pushed.dbb_irqs ∧
      w2.mask_work_pending = true ∧
      run_mask_work w2 = some w3 ∧ w3.mask_work_pending = false ∧
      mailbox_writes (new_events World.sample_pushed w3) = [] :=
  unmask_mask_no_push IRQ_INDEX_USB WAKEUP_BIT_USB World.sample_pushed (by decide)
    (by decide) (by decide) (by decide)

/-! ## C8 -/

theorem mailbox_writes_irq (evs : List Event) (h : ∀ e ∈ evs, is_irq_event e = true) :
    mailbox_writes evs = [] := by
  simp only [mailbox_writes, List.filter_eq_nil_iff]
  intro e he
  simp [irq_event_no_write e (h e he)]

theorem mailbox_writes_wait_tail (c : Compl) (l : Lock) (b : Bool) :
    mailbox_writes (wait_tail c l b) = [] := by
  cases b <;> rfl

/-- C8: for every pll id below `DB5500_NUM_PLL_ID` and every enable flag,
`request_pll(pll, enable)` returns; its mailbox writes are, in this order, `pll`
to the PLL client field, `enable` (1 or 0) to the PLL state field,
`MB2H_PLL_REQUEST` to the mailbox-2 request header, and `MBOX_BIT(2)` to
`PRCM_MBOX_CPU_SET`, and nothing else; it records `enable` in `req.pll_st[pll]`
and leaves the other entries alone; and when the acknowledge delivered during
the wait has header `MB2H_PLL_REQUEST` and status `RC_SUCCESS` it returns 0.
`db5500_prcmu_request_clock(PRCMU_PLLSOC0, true)` is
`request_pll(DB5500_PLL_SOC0, true)`: client `DB5500_PLL_SOC0`, state 1. -/
theorem request_pll_encoding (H : Headers) (pll : Nat) (enable : Bool) (irqs : List Irq)
    (w : World) (hpll : pll < DB5500_NUM_PLL_ID)
    (hclear : ∃ v ∈ w.cpu_val, v &&& MBOX_BIT 2 = 0)
    (hsoc0 : ¬ H.PRCMU_PLLSOC0 < H.PRCMU_NUM_REG_CLOCKS ∧ H.PRCMU_PLLSOC0 ≠ H.PRCMU_TIMCLK) :
    (∃ w1 r, request_pll pll enable irqs w = some (w1, r) ∧
      mailbox_writes (new_events w w1) =
        [ Event.writeb PRCM_REQ_MB2_PLL_CLIENT pll,
          Event.writeb PRCM_REQ_MB2_PLL_STATE (if enable then 1 else 0),
          Event.writeb PRCM_REQ_MB2_HEADER MB2H_PLL_REQUEST,
          Event.reg_writel Reg.PRCM_MBOX_CPU_SET (MBOX_BIT 2) ] ∧
      w1.mb2_req_pll_st pll = (if enable then 1 else 0) ∧
      (∀ other, other ≠ pll → w1.mb2_req_pll_st other = w.mb2_req_pll_st other)) ∧
    (∀ se sc : Nat, w.mb2_done = 0 →
      ∃ w1, request_pll pll enable [Irq.mb2_ack MB2H_PLL_REQUEST se sc RC_SUCCESS] w =
        some (w1, 0)) ∧
    db5500_prcmu_request_clock H H.PRCMU_PLLSOC0 true irqs w =
      request_pll DB5500_PLL_SOC0 true irqs w ∧
    (∀ w1 r, db5500_prcmu_request_clock H H.PRCMU_PLLSOC0 true irqs w = some (w1, r) →
      mailbox_writes (new_events w w1) =
        [ Event.writeb PRCM_REQ_MB2_PLL_CLIENT DB5500_PLL_SOC0,
          Event.writeb PRCM_REQ_MB2_PLL_STATE 1,
          Event.writeb PRCM_REQ_MB2_HEADER MB2H_PLL_REQUEST,
          Event.reg_writel Reg.PRCM_MBOX_CPU_SET (MBOX_BIT 2) ]) := by
  have hwrites : ∀ (p : Nat) (en : Bool) (w1 : World) (r : Int), p < DB5500_NUM_PLL_ID →
      request_pll p en irqs w = some (w1, r) →
      mailbox_writes (new_events w w1) =
        [ Event.writeb PRCM_REQ_MB2_PLL_CLIENT p,
          Event.writeb PRCM_REQ_MB2_PLL_STATE (if en then 1 else 0),
          Event.writeb PRCM_REQ_MB2_HEADER MB2H_PLL_REQUEST,
          Event.reg_writel Reg.PRCM_MBOX_CPU_SET (MBOX_BIT 2) ] := by
    intro p en w1 r hp hr
    obtain ⟨_, pre, v, rest, evs, b, _, _, _, hirq, hnew, _, _⟩ :=
      request_pll_some p en irqs w w1 r hr
    have hmod : p % 256 = p := Nat.mod_eq_of_lt (by
      have : DB5500_NUM_PLL_ID = 3 := rfl
      omega)
    rw [hnew, mailbox_writes_append, mailbox_writes_append, mailbox_writes_append,
      mailbox_writes_irq evs hirq, mailbox_writes_wait_tail]
    have hl : mailbox_writes (Event.lock Lock.mb2 :: (pre ++ [v]).map Event.readl_cpu_val)
        = [] := by
      simp only [mailbox_writes, List.filter_cons]
      simp [is_mailbox_write]
    rw [hl]
    simp [mailbox_writes, pll_writes, is_mailbox_write, hmod]
  refine ⟨?_, ?_, ?_, ?_⟩
  · obtain ⟨w1, r, hr⟩ := request_pll_returns pll enable irqs w hpll hclear
    obtain ⟨_, pre, v, rest, evs, b, _, _, _, _, _, _, hst⟩ :=
      request_pll_some pll enable irqs w w1 r hr
    refine ⟨w1, r, hr, hwrites pll enable w1 r hpll hr, ?_, ?_⟩
    · rw [hst, Function.update_same]
    · intro other ho
      rw [hst, Function.update_noteq ho]
  · intro se sc hd
    have := request_pll_single_ack pll enable w hpll hclear MB2H_PLL_REQUEST se sc RC_SUCCESS hd
    simpa using this
  · unfold db5500_prcmu_request_clock
    rw [if_neg hsoc0.1, if_neg hsoc0.2, if_pos rfl]
  · intro w1 r hr
    unfold db5500_prcmu_request_clock at hr
    rw [if_neg hsoc0.1, if_neg hsoc0.2, if_pos rfl] at hr
    have := hwrites DB5500_PLL_SOC0 true w1 r (by decide) hr
    simpa using this

theorem request_pll_encoding_witness :
    (∃ w1 r, request_pll DB5500_PLL_SOC0 true [Irq.pll_ack] World.sample = some (w1, r) ∧
      mailbox_writes (new_events World.sample w1) =
        [ Event.writeb PRCM_REQ_MB2_PLL_CLIENT DB5500_PLL_SOC0,
          Event.writeb PRCM_REQ_MB2_PLL_STATE (if true then 1 else 0),
          Event.writeb PRCM_REQ_MB2_HEADER MB2H_PLL_REQUEST,
          Event.reg_writel Reg.PRCM_MBOX_CPU_SET (MBOX_BIT 2) ] ∧
      w1.mb2_req_pll_st DB5500_PLL_SOC0 = (if true then 1 else 0) ∧
      (∀ other, other ≠ DB5500_PLL_SOC0 →
        w1.mb2_req_pll_st other = World.sample.mb2_req_pll_st other)) ∧
    (∃ w1, request_pll DB5500_PLL_SOC0 true [Irq.mb2_ack MB2H_PLL_REQUEST 0 0 RC_SUCCESS]
        World.sample = some (w1, 0)) ∧
    db5500_prcmu_request_clock Headers.sample Headers.sample.PRCMU_PLLSOC0 true [Irq.pll_ack]
        World.sample =
      request_pll DB5500_PLL_SOC0 true [Irq.pll_ack] World.sample :=
  ⟨(request_pll_encoding Headers.sample DB5500_PLL_SOC0 true [Irq.pll_ack] World.sample
      (by decide) ⟨0, by decide, by decide⟩ (by decide)).1,
    (request_pll_encoding Headers.sample DB5500_PLL_SOC0 true [Irq.pll_ack] World.sample
      (by decide) ⟨0, by decide, by decide⟩ (by decide)).2.1 0 0 rfl,
    (request_pll_encoding Headers.sample DB5500_PLL_SOC0 true [Irq.pll_ack] World.sample
      (by decide) ⟨0, by decide, by decide⟩ (by decide)).2.2.1⟩

/-! ## Waits that time out -/

theorem lock_held_unlock (l : Lock) (tr : List Event) :
    lock_held l (tr ++ [Event.unlock l]) = false := by
  simp only [lock_held, List.foldl_append, List.foldl_cons, List.foldl_nil]
  simp

theorem lock_held_wait_tail (c : Compl) (l : Lock) (b : Bool) (tr : List Event) :
    lock_held l (tr ++ wait_tail c l b) = false := by
  have : tr ++ wait_tail c l b =
      (tr ++ Event.wait_end c b :: (if b then [] else [Event.pr_err, Event.warn])) ++
        [Event.unlock l] := by
    simp [wait_tail]
  rw [this]
  exact lock_held_unlock l _

/-- Function `request_pll` with no signal outstanding and no mailbox-2 acknowledge during
its wait. -/
theorem request_pll_quiet (pll : Nat) (enable : Bool) (irqs : List Irq) (w : World)
    (hpll : pll < DB5500_NUM_PLL_ID) (hclear : ∃ v ∈ w.cpu_val, v &&& MBOX_BIT 2 = 0)
    (hd : w.mb2_done = 0) (hq : ∀ i ∈ irqs, i.it1_val &&& MBOX_BIT 2 = 0) :
    ∃ w1 pre v evs, request_pll pll enable irqs w = some (w1, - EIO) ∧
      (∀ e ∈ evs, is_irq_event e = true) ∧
      new_events w w1 = Event.lock Lock.mb2 :: (pre ++ [v]).map Event.readl_cpu_val ++
        pll_writes pll enable ++ evs ++ wait_tail Compl.mb2_work Lock.mb2 false ∧
      mb2_view w1 = mb2_view w := by
  obtain ⟨w0, pre, v, rest, hw0, _, _, _, he⟩ := request_pll_wait_state w hclear
  have hv0 : mb2_view w0 = mb2_view w := by rw [he]; rfl
  have ht0 : w0.trace = w.trace ++ Event.lock Lock.mb2 ::
      (pre ++ [v]).map Event.readl_cpu_val := by rw [he]
  obtain ⟨hvi, hti⟩ := pll_issue_fields pll enable w0
  obtain ⟨p, hp⟩ := wait_timeout_isSome Compl.mb2_work irqs (pll_issue pll enable w0)
  obtain ⟨ww, b⟩ := p
  have hd0 : (pll_issue pll enable w0).mb2_done = 0 := by
    have := congrArg Prod.fst (hvi.trans hv0)
    simp only [mb2_view] at this
    rw [this, hd]
  obtain ⟨rfl, hvw⟩ := wait_timeout_mb2_quiet irqs _ ww b hq hd0 hp
  obtain ⟨evs, hevs, hirq⟩ := wait_timeout_trace _ irqs _ ww false hp
  refine ⟨emit (Event.unlock Lock.mb2) (emit Event.warn (emit Event.pr_err ww)), pre, v, evs,
    ?_, hirq, ?_, ?_⟩
  · rw [request_pll_eq pll enable irqs w hpll, hw0, Option.some_bind, hp, Option.map_some',
      pll_finish_false]
  · apply new_events_append
    show ww.trace ++ [Event.pr_err] ++ [Event.warn] ++ [Event.unlock Lock.mb2] = _
    rw [hevs, hti, ht0]
    cases enable <;> simp [pll_writes, wait_tail, MB2H_PLL_REQUEST]
  · exact hvw.trans (hvi.trans hv0)

/-- Function `request_sysclk` with no signal outstanding and no mailbox-3 acknowledge
during its wait. -/
theorem request_sysclk_quiet (enable : Bool) (irqs : List Irq) (w : World)
    (hclear : ∃ v ∈ w.cpu_val, v &&& MBOX_BIT 3 = 0)
    (hd : w.mb3_done = 0) (hq : ∀ i ∈ irqs, i.it1_val &&& MBOX_BIT 3 = 0) :
    ∃ w1 pre v evs, request_sysclk enable irqs w = some (w1, - EIO) ∧
      (∀ e ∈ evs, is_irq_event e = true) ∧
      new_events w w1 = Event.lock Lock.sysclk :: (pre ++ [v]).map Event.readl_cpu_val ++
        sysclk_writes enable ++ evs ++ wait_tail Compl.sysclk_work Lock.sysclk false ∧
      mb3_view w1 = mb3_view w := by
  have hs := wait_mbox_clear_isSome 3 (emit (Event.lock Lock.sysclk) w) hclear
  cases hw0 : wait_mbox_clear 3 (emit (Event.lock Lock.sysclk) w) with
  | none => simp [hw0] at hs
  | some w0 =>
    obtain ⟨pre, v, rest, _, _, _, he⟩ := wait_mbox_clear_some 3 _ w0 hw0
    have hv0 : mb3_view w0 = mb3_view w := by rw [he]; rfl
    obtain ⟨p, hp⟩ := wait_timeout_isSome Compl.sysclk_work irqs
      (reg_writel (MBOX_BIT 3) Reg.PRCM_MBOX_CPU_SET
        (writeb MB3H_REFCLK_REQUEST PRCM_REQ_MB3_HEADER
          (writeb (if enable = true then SYSCLK_ON else SYSCLK_OFF) PRCM_REQ_MB3_REFCLK_MGT
            { w0 with mb3_req_st := if enable = true then SYSCLK_ON else SYSCLK_OFF })))
    obtain ⟨ww, b⟩ := p
    have hd0 : (reg_writel (MBOX_BIT 3) Reg.PRCM_MBOX_CPU_SET
        (writeb MB3H_REFCLK_REQUEST PRCM_REQ_MB3_HEADER
          (writeb (if enable = true then SYSCLK_ON else SYSCLK_OFF) PRCM_REQ_MB3_REFCLK_MGT
            { w0 with mb3_req_st := if enable = true then SYSCLK_ON else SYSCLK_OFF }))).mb3_done
        = 0 := by
      have := congrArg Prod.fst hv0
      simp only [mb3_view] at this
      show w0.mb3_done = 0
      rw [this, hd]
    obtain ⟨rfl, hvw⟩ := wait_timeout_mb3_quiet irqs _ ww b hq hd0 hp
    obtain ⟨evs, hevs, hirq⟩ := wait_timeout_trace _ irqs _ ww false hp
    refine ⟨emit (Event.unlock Lock.sysclk) (emit Event.warn (emit Event.pr_err ww)), pre, v, evs,
      ?_, hirq, ?_, ?_⟩
    · unfold request_sysclk
      dsimp only
      rw [hw0]
      dsimp only
      rw [hp]
      rfl
    · apply new_events_append
      show ww.trace ++ [Event.pr_err] ++ [Event.warn] ++ [Event.unlock Lock.sysclk] = _
      rw [hevs, he]
      cases enable <;>
        simp [emit, writeb, reg_writel, sysclk_writes, wait_tail, SYSCLK_ON, SYSCLK_OFF,
          MB3H_REFCLK_REQUEST]
    · exact hvw.trans hv0

theorem mailbox_writes_request (l : Lock) (reads : List Nat) (ws evs tail : List Event)
    (hws : mailbox_writes ws = ws) (hevs : ∀ e ∈ evs, is_irq_event e = true)
    (htail : mailbox_writes tail = []) :
    mailbox_writes (Event.lock l :: reads.map Event.readl_cpu_val ++ ws ++ evs ++ tail) = ws := by
  rw [mailbox_writes_append, mailbox_writes_append, mailbox_writes_append,
    mailbox_writes_irq evs hevs, htail, hws]
  have hl : mailbox_writes (Event.lock l :: reads.map Event.readl_cpu_val) = [] := by
    have := mailbox_writes_reads reads
    simp only [mailbox_writes, List.filter_cons] at this ⊢
    simp [is_mailbox_write, this]
  rw [hl]
  simp

theorem wait_timed_out_mem_tail (c : Compl) (l : Lock) (b : Bool) (pre evs : List Event)
    (hpre : ∀ e ∈ pre, ∀ x, e ≠ Event.wait_end c x)
    (hevs : ∀ e ∈ evs, is_irq_event e = true) :
    Event.wait_end c false ∈ pre ++ evs ++ wait_tail c l b ↔ b = false := by
  constructor
  · intro h
    rcases List.mem_append.mp h with h | h
    · rcases List.mem_append.mp h with h | h
      · exact absurd rfl (hpre _ h false)
      · have := hevs _ h
        simp [is_irq_event] at this
    · cases b with
      | false => rfl
      | true => simp [wait_tail] at h
  · rintro rfl
    simp [wait_tail]

/-! ## ABB read -/

theorem wait_pending (c : Compl) (irqs : List Irq) (w : World) (h : 0 < c.done w) :
    wait_for_completion c irqs w =
      some (emit (Event.wait_end c true) (c.set_done (c.done w - 1) w)) := by
  cases irqs <;> simp [wait_for_completion, h]

theorem wait_cons (c : Compl) (i : Irq) (rest : List Irq) (w : World) (h : c.done w = 0) :
    wait_for_completion c (i :: rest) w =
      (interrupt i w).bind (fun p => wait_for_completion c rest p.1) := by
  simp only [wait_for_completion, h, lt_self_iff_false, if_false]
  cases interrupt i w with
  | none => rfl
  | some p => rfl

theorem interrupt_mb5_ack (h rc d0 d1 d2 d3 : Nat) (w : World) :
    interrupt (Irq.mb5_ack h rc d0 d1 d2 d3) w =
      some ((read_mailbox_5
        { w with tcdm := apply_stores (Irq.mb5_ack h rc d0 d1 d2 d3).stores w.tcdm }).1,
        irqreturn_t.IRQ_HANDLED) := by
  have h5 : ∀ x : World, (read_mailbox_5 x).2 = false := fun _ => rfl
  have hb : (Irq.mb5_ack h rc d0 d1 d2 d3).it1_val &&& ALL_MBOX_BITS = 32 := by
    show MBOX_BIT 5 &&& ALL_MBOX_BITS = 32
    decide
  simp only [interrupt, prcmu_irq_handler, hb]
  have hl : ∀ x : World, irq_loop 256 0 32 irqreturn_t.IRQ_HANDLED x =
      some ((read_mailbox_5 x).1,
        if (read_mailbox_5 x).2 then irqreturn_t.IRQ_WAKE_THREAD else irqreturn_t.IRQ_HANDLED) :=
    fun _ => rfl
  rw [if_neg (by decide), hl, h5]
  rfl

theorem read_mailbox_5_read_ack (rc d0 d1 d2 d3 : Nat) (w : World) :
    (read_mailbox_5
      { w with tcdm := apply_stores (Irq.mb5_ack MB5H_I2C_READ rc d0 d1 d2 d3).stores w.tcdm }).1
      = emit (Event.reg_writel Reg.PRCM_ARM_IT1_CLR (MBOX_BIT 5))
          (emit (Event.complete Compl.mb5_work)
            { w with tcdm := apply_stores (Irq.mb5_ack MB5H_I2C_READ rc d0 d1 d2 d3).stores
                        w.tcdm,
                     mb5_ack_value := [d0 % 256, d1 % 256, d2 % 256, d3 % 256],
                     mb5_ack_header := MB5H_I2C_READ,
                     mb5_ack_status := rc % 256,
                     mb5_done := w.mb5_done + 1 }) := by
  have hmem : ∀ a, apply_stores (Irq.mb5_ack MB5H_I2C_READ rc d0 d1 d2 d3).stores w.tcdm a =
      if a = PRCM_ACK_MB5_I2C_DATA + 3 then d3 % 256
      else if a = PRCM_ACK_MB5_I2C_DATA + 2 then d2 % 256
      else if a = PRCM_ACK_MB5_I2C_DATA + 1 then d1 % 256
      else if a = PRCM_ACK_MB5_I2C_DATA then d0 % 256
      else if a = PRCM_ACK_MB5_RETURN_CODE then rc % 256
      else if a = PRCM_ACK_MB5_HEADER then MB5H_I2C_READ % 256
      else w.tcdm a := by
    intro a
    simp only [Irq.mb5_ack, apply_stores, store]
  have hh : apply_stores (Irq.mb5_ack MB5H_I2C_READ rc d0 d1 d2 d3).stores w.tcdm
      PRCM_ACK_MB5_HEADER = MB5H_I2C_READ := by
    rw [hmem]
    rw [if_neg (by decide), if_neg (by decide), if_neg (by decide), if_neg (by decide),
      if_neg (by decide), if_pos rfl]
    rfl
  have hrc : apply_stores (Irq.mb5_ack MB5H_I2C_READ rc d0 d1 d2 d3).stores w.tcdm
      PRCM_ACK_MB5_RETURN_CODE = rc % 256 := by
    rw [hmem]
    rw [if_neg (by decide), if_neg (by decide), if_neg (by decide), if_neg (by decide),
      if_pos rfl]
  have hval : memcpy_fromio PRCM_ACK_MB5_I2C_DATA 4
      { w with tcdm := apply_stores (Irq.mb5_ack MB5H_I2C_READ rc d0 d1 d2 d3).stores w.tcdm } =
      [d0 % 256, d1 % 256, d2 % 256, d3 % 256] := by
    have e0 : apply_stores (Irq.mb5_ack MB5H_I2C_READ rc d0 d1 d2 d3).stores w.tcdm
        (PRCM_ACK_MB5_I2C_DATA + 0) = d0 % 256 := by
      rw [hmem]
      rw [if_neg (by decide), if_neg (by decide), if_neg (by decide), if_pos (by decide)]
    have e1 : apply_stores (Irq.mb5_ack MB5H_I2C_READ rc d0 d1 d2 d3).stores w.tcdm
        (PRCM_ACK_MB5_I2C_DATA + 1) = d1 % 256 := by
      rw [hmem]
      rw [if_neg (by decide), if_neg (by decide), if_pos rfl]
    have e2 : apply_stores (Irq.mb5_ack MB5H_I2C_READ rc d0 d1 d2 d3).stores w.tcdm
        (PRCM_ACK_MB5_I2C_DATA + 2) = d2 % 256 := by
      rw [hmem]
      rw [if_neg (by decide), if_pos rfl]
    have e3 : apply_stores (Irq.mb5_ack MB5H_I2C_READ rc d0 d1 d2 d3).stores w.tcdm
        (PRCM_ACK_MB5_I2C_DATA + 3) = d3 % 256 := by
      rw [hmem]
      rw [if_pos rfl]
    simp only [memcpy_fromio, readb, List.range, List.range.loop, List.map_cons, List.map_nil,
      e0, e1, e2, e3, Nat.mod_mod]
  simp only [read_mailbox_5, readb, hh, hrc, hval, Nat.mod_mod]
  rw [if_pos (by decide)]
  rfl

theorem writeb_mb5_done (v off : Nat) (w : World) : (writeb v off w).mb5_done = w.mb5_done :=
  rfl

theorem reg_writel_mb5_done (v : Nat) (r : Reg) (w : World) :
    (reg_writel v r w).mb5_done = w.mb5_done := rfl

/-- The result of `db5500_prcmu_abb_read` when a successful read acknowledge is
the first interrupt of its wait. -/
theorem abb_read_acked (slave reg size rc d0 d1 d2 d3 : Nat) (value : List Nat)
    (rest : List Irq) (w : World) (hsize : 1 ≤ size ∧ size ≤ 4)
    (hclear : ∃ v ∈ w.cpu_val, v &&& MBOX_BIT 5 = 0) (hd : w.mb5_done = 0) :
    ∃ w1, db5500_prcmu_abb_read slave reg value size
        (Irq.mb5_ack MB5H_I2C_READ rc d0 d1 d2 d3 :: rest) w =
      some (w1, if rc % 256 = RC_SUCCESS
                then (0, memcpy value [d0 % 256, d1 % 256, d2 % 256, d3 % 256] size)
                else (- EIO, value)) := by
  have hs := wait_mbox_clear_isSome 5 (emit (Event.lock Lock.mb5) w) hclear
  cases hw0 : wait_mbox_clear 5 (emit (Event.lock Lock.mb5) w) with
  | none => simp [hw0] at hs
  | some w0 =>
    obtain ⟨pre, v, rest0, _, _, _, he⟩ := wait_mbox_clear_some 5 _ w0 hw0
    have hd0 : w0.mb5_done = 0 := by rw [he]; exact hd
    unfold db5500_prcmu_abb_read
    rw [if_neg (by omega)]
    dsimp only
    rw [hw0]
    dsimp only
    generalize hX : reg_writel (MBOX_BIT 5) Reg.PRCM_MBOX_CPU_SET
      (writeb MB5H_I2C_READ PRCM_REQ_MB5_HEADER
        (writeb size PRCM_REQ_MB5_I2C_SIZE
          (writeb reg PRCM_REQ_MB5_I2C_REG (writeb slave PRCM_REQ_MB5_I2C_SLAVE w0)))) = X
    have hdX : X.mb5_done = 0 := by
      rw [← hX]
      simp only [writeb_mb5_done, reg_writel_mb5_done]
      exact hd0
    rw [wait_cons _ _ _ _ (by simpa [Compl.done] using hdX), interrupt_mb5_ack,
      Option.some_bind, read_mailbox_5_read_ack,
      wait_pending _ _ _ (by simp [Compl.done, emit])]
    dsimp only
    by_cases hrc : rc % 256 = RC_SUCCESS
    · rw [if_pos hrc, if_pos ⟨rfl, hrc⟩]
      exact ⟨_, rfl⟩
    · rw [if_neg hrc, if_neg (fun hc => hrc hc.2)]
      exact ⟨_, rfl⟩

/-! ## C10 -/

/-- C10: for every slave, register and size in 1..4, when the acknowledge
`read_mailbox_5` processes has header `MB5H_I2C_READ`, return code `RC_SUCCESS` and
data bytes `d0..d3`, `db5500_prcmu_abb_read` returns 0 and the caller's buffer
holds `d[0..size-1]` in its first `size` bytes, the bytes beyond being untouched.
The mailbox writes are slave, register and size, then the header
`MB5H_I2C_READ`, then `MBOX_BIT(5)` to `PRCM_MBOX_CPU_SET`.  Whatever interrupts
arrive, a call that returns with that header and return code staged returns 0
and has copied the first `size` staged data bytes. -/
theorem abb_read_payload (slave reg size d0 d1 d2 d3 : Nat) (value : List Nat)
    (rest : List Irq) (w : World)
    (hu8 : slave < 256 ∧ reg < 256 ∧ d0 < 256 ∧ d1 < 256 ∧ d2 < 256 ∧ d3 < 256)
    (hsize : 1 ≤ size ∧ size ≤ 4) (hbuf : size ≤ value.length) :
    ((∃ v ∈ w.cpu_val, v &&& MBOX_BIT 5 = 0) → w.mb5_done = 0 →
      ∃ w1 buf, db5500_prcmu_abb_read slave reg value size
          (Irq.mb5_ack MB5H_I2C_READ RC_SUCCESS d0 d1 d2 d3 :: rest) w = some (w1, 0, buf) ∧
        buf.take size = [d0, d1, d2, d3].take size ∧ buf.drop size = value.drop size ∧
        buf.length = value.length ∧
        mailbox_writes (new_events w w1) =
          [ Event.writeb PRCM_REQ_MB5_I2C_SLAVE slave, Event.writeb PRCM_REQ_MB5_I2C_REG reg,
            Event.writeb PRCM_REQ_MB5_I2C_SIZE size,
            Event.writeb PRCM_REQ_MB5_HEADER MB5H_I2C_READ,
            Event.reg_writel Reg.PRCM_MBOX_CPU_SET (MBOX_BIT 5) ]) ∧
    (∀ irqs w1 r buf, db5500_prcmu_abb_read slave reg value size irqs w = some (w1, r, buf) →
      w1.mb5_ack_header = MB5H_I2C_READ → w1.mb5_ack_status = RC_SUCCESS →
      r = 0 ∧ buf = memcpy value w1.mb5_ack_value size) := by
  obtain ⟨hsl, hreg, h0, h1, h2, h3⟩ := hu8
  refine ⟨fun hclear hd => ?_, ?_⟩
  · obtain ⟨w1, hr⟩ := abb_read_acked slave reg size RC_SUCCESS d0 d1 d2 d3 value rest w hsize
      hclear hd
    rw [if_pos (by decide), Nat.mod_eq_of_lt h0, Nat.mod_eq_of_lt h1, Nat.mod_eq_of_lt h2,
      Nat.mod_eq_of_lt h3] at hr
    have hlen : ([d0, d1, d2, d3].take size).length = size := by
      simp only [List.length_take, List.length_cons, List.length_nil]
      omega
    refine ⟨w1, memcpy value [d0, d1, d2, d3] size, hr, ?_, ?_, ?_, ?_⟩
    · rw [memcpy, List.take_append_of_le_length (by omega), List.take_take]
      simp
    · rw [memcpy, List.drop_append_of_le_length (by omega)]
      have : List.drop size (List.take size [d0, d1, d2, d3]) = [] := by
        rw [List.drop_eq_nil_iff]; omega
      rw [this, List.nil_append]
    · simp only [memcpy, List.length_append, hlen, List.length_drop]
      omega
    · rcases abb_read_some slave reg value size _ w w1 0 _ hr with
        ⟨hbad, _⟩ | ⟨_, _, pre, v, rest0, evs, _, _, _, hirq, hnew, _⟩
      · omega
      · rw [hnew]
        have := mailbox_writes_request Lock.mb5 (pre ++ [v])
          (abb_read_stores slave reg size ++
            [Event.reg_writel Reg.PRCM_MBOX_CPU_SET (MBOX_BIT 5)]) evs
          [Event.wait_end Compl.mb5_work true, Event.unlock Lock.mb5] rfl hirq rfl
        have hsz : size % 256 = size := Nat.mod_eq_of_lt (by omega)
        simp only [List.append_assoc, List.cons_append, List.nil_append, List.singleton_append]
          at this ⊢
        rw [this]
        simp [abb_read_stores, Nat.mod_eq_of_lt hsl, Nat.mod_eq_of_lt hreg, hsz]
  · intro irqs w1 r buf hr hh hs
    rcases abb_read_some slave reg value size irqs w w1 r buf hr with
      ⟨hbad, _⟩ | ⟨_, _, pre, v, rest0, evs, _, _, _, _, _, hres⟩
    · omega
    · rw [if_pos ⟨hh, hs⟩] at hres
      simp only [Prod.mk.injEq] at hres
      exact hres

theorem abb_read_payload_witness :
    ∃ w1 buf, db5500_prcmu_abb_read 0x12 0x04 [0, 0, 0, 0] 2
        (Irq.mb5_ack MB5H_I2C_READ RC_SUCCESS 0xAA 0xBB 0xCC 0xDD :: []) World.sample =
          some (w1, 0, buf) ∧
      buf.take 2 = [0xAA, 0xBB, 0xCC, 0xDD].take 2 ∧ buf.drop 2 = [0, 0, 0, 0].drop 2 ∧
      buf.length = [0, 0, 0, 0].length ∧
      mailbox_writes (new_events World.sample w1) =
        [ Event.writeb PRCM_REQ_MB5_I2C_SLAVE 0x12, Event.writeb PRCM_REQ_MB5_I2C_REG 0x04,
          Event.writeb PRCM_REQ_MB5_I2C_SIZE 2,
          Event.writeb PRCM_REQ_MB5_HEADER MB5H_I2C_READ,
          Event.reg_writel Reg.PRCM_MBOX_CPU_SET (MBOX_BIT 5) ] :=
  (abb_read_payload 0x12 0x04 2 0xAA 0xBB 0xCC 0xDD [0, 0, 0, 0] [] World.sample (by decide)
    (by decide) (by decide)).1 ⟨0, by decide, by decide⟩ (by decide)

/-! ## C11 -/

/-- C11: whenever `db5500_prcmu_abb_read` returns a non-zero result, the caller's
buffer is as it was before the call; the result is then `-EINVAL` for a size
outside 1..4, and otherwise `-EIO` with a staged acknowledge whose header is not
`MB5H_I2C_READ` or whose status is not `RC_SUCCESS`. -/
theorem abb_read_failure_keeps_buffer (slave reg size : Nat) (value : List Nat)
    (irqs : List Irq) (w w1 : World) (r : Int) (buf : List Nat)
    (h : db5500_prcmu_abb_read slave reg value size irqs w = some (w1, r, buf))
    (hr : r ≠ 0) :
    buf = value ∧
    (((size < 1 ∨ 4 < size) ∧ r = - EINVAL) ∨
     (1 ≤ size ∧ size ≤ 4 ∧ r = - EIO ∧
        ¬ (w1.mb5_ack_header = MB5H_I2C_READ ∧ w1.mb5_ack_status = RC_SUCCESS))) := by
  rcases abb_read_some slave reg value size irqs w w1 r buf h with
    ⟨hbad, _, hre, hb⟩ | ⟨h1, h4, pre, v, rest0, evs, _, _, _, _, _, hres⟩
  · exact ⟨hb, Or.inl ⟨hbad, hre⟩⟩
  · by_cases hok : w1.mb5_ack_header = MB5H_I2C_READ ∧ w1.mb5_ack_status = RC_SUCCESS
    · rw [if_pos hok] at hres
      simp only [Prod.mk.injEq] at hres
      exact absurd hres.1 hr
    · rw [if_neg hok] at hres
      simp only [Prod.mk.injEq] at hres
      exact ⟨hres.2, Or.inr ⟨h1, h4, hres.1, hok⟩⟩

theorem abb_read_failure_keeps_buffer_witness :
    ∃ w1, db5500_prcmu_abb_read 0x12 0x04 [1, 2, 3, 4] 2
        (Irq.mb5_ack MB5H_I2C_READ RC_FAIL 0xAA 0xBB 0xCC 0xDD :: []) World.sample =
          some (w1, - EIO, [1, 2, 3, 4]) ∧
      ([1, 2, 3, 4] = [1, 2, 3, 4] ∧
        (((2 < 1 ∨ 4 < 2) ∧ - EIO = - EINVAL) ∨
         (1 ≤ 2 ∧ 2 ≤ 4 ∧ - EIO = - EIO ∧
          ¬ (w1.mb5_ack_header = MB5H_I2C_READ ∧ w1.mb5_ack_status = RC_SUCCESS)))) := by
  obtain ⟨w1, h⟩ := abb_read_acked 0x12 0x04 2 RC_FAIL 0xAA 0xBB 0xCC 0xDD [1, 2, 3, 4] []
    World.sample (by decide) ⟨0, by decide, by decide⟩ (by decide)
  rw [if_neg (by decide)] at h
  exact ⟨w1, h, abb_read_failure_keeps_buffer 0x12 0x04 2 [1, 2, 3, 4] _ World.sample w1
    (- EIO) [1, 2, 3, 4] h (by decide)⟩

/-! ## C12 -/

/-- C12: `db5500_prcmu_abb_read` and `db5500_prcmu_abb_write` return `-EINVAL`
exactly when `size < 1` or `size > 4`; they then return in the state they were
called in, so that no lock was taken, no register or shared-memory field was
read or written and no pending bit was raised, and the read leaves the buffer as
it was. -/
theorem abb_size_validation (slave reg size : Nat) (value : List Nat) (irqs : List Irq)
    (w : World) :
    (size < 1 ∨ 4 < size →
      db5500_prcmu_abb_read slave reg value size irqs w = some (w, - EINVAL, value) ∧
      db5500_prcmu_abb_write slave reg value size irqs w = some (w, - EINVAL)) ∧
    (∀ w1 r buf, db5500_prcmu_abb_read slave reg value size irqs w = some (w1, r, buf) →
      (r = - EINVAL ↔ size < 1 ∨ 4 < size)) ∧
    (∀ w1 r, db5500_prcmu_abb_write slave reg value size irqs w = some (w1, r) →
      (r = - EINVAL ↔ size < 1 ∨ 4 < size)) := by
  have hne0 : (0 : Int) ≠ - EINVAL := by decide
  have hne1 : - EIO ≠ - EINVAL := by decide
  refine ⟨fun hbad => ⟨?_, ?_⟩, ?_, ?_⟩
  · unfold db5500_prcmu_abb_read
    rw [if_pos hbad]
  · unfold db5500_prcmu_abb_write
    rw [if_pos hbad]
  · intro w1 r buf h
    rcases abb_read_some slave reg value size irqs w w1 r buf h with
      ⟨hbad, _, hre, _⟩ | ⟨h1, h4, pre, v, rest0, evs, _, _, _, _, _, hres⟩
    · exact ⟨fun _ => hbad, fun _ => hre⟩
    · constructor
      · intro hre
        exfalso
        by_cases hok : w1.mb5_ack_header = MB5H_I2C_READ ∧ w1.mb5_ack_status = RC_SUCCESS
        · rw [if_pos hok] at hres
          simp only [Prod.mk.injEq] at hres
          exact hne0 (hres.1.symm.trans hre)
        · rw [if_neg hok] at hres
          simp only [Prod.mk.injEq] at hres
          exact hne1 (hres.1.symm.trans hre)
      · intro hbad
        omega
  · intro w1 r h
    rcases abb_write_some slave reg value size irqs w w1 r h with
      ⟨hbad, _, hre⟩ | ⟨h1, h4, pre, v, rest0, evs, _, _, _, _, _, hres⟩
    · exact ⟨fun _ => hbad, fun _ => hre⟩
    · constructor
      · intro hre
        exfalso
        by_cases hok : w1.mb5_ack_header = MB5H_I2C_WRITE ∧ w1.mb5_ack_status = RC_SUCCESS
        · rw [if_pos hok] at hres
          exact hne0 (hres.symm.trans hre)
        · rw [if_neg hok] at hres
          exact hne1 (hres.symm.trans hre)
      · intro hbad
        omega

theorem abb_size_validation_witness :
    (db5500_prcmu_abb_read 0x12 0x04 [1, 2, 3, 4] 5 [] World.sample =
        some (World.sample, - EINVAL, [1, 2, 3, 4]) ∧
      db5500_prcmu_abb_write 0x12 0x04 [1, 2, 3, 4] 5 [] World.sample =
        some (World.sample, - EINVAL)) ∧
    (db5500_prcmu_abb_read 0x12 0x04 [1, 2, 3, 4] 0 [] World.sample =
        some (World.sample, - EINVAL, [1, 2, 3, 4]) ∧
      db5500_prcmu_abb_write 0x12 0x04 [1, 2, 3, 4] 0 [] World.sample =
        some (World.sample, - EINVAL)) ∧
    (- EINVAL = - EINVAL ↔ 5 < 1 ∨ 4 < 5) :=
  ⟨(abb_size_validation 0x12 0x04 5 [1, 2, 3, 4] [] World.sample).1 (by decide),
    (abb_size_validation 0x12 0x04 0 [1, 2, 3, 4] [] World.sample).1 (by decide),
    (abb_size_validation 0x12 0x04 5 [1, 2, 3, 4] [] World.sample).2.1 World.sample _ _
      ((abb_size_validation 0x12 0x04 5 [1, 2, 3, 4] [] World.sample).1 (by decide)).1⟩

/-! ## ABB write -/

theorem read_mailbox_5_write_ack (rc d0 d1 d2 d3 : Nat) (w : World) :
    (read_mailbox_5
      { w with tcdm := apply_stores (Irq.mb5_ack MB5H_I2C_WRITE rc d0 d1 d2 d3).stores
                  w.tcdm }).1
      = emit (Event.reg_writel Reg.PRCM_ARM_IT1_CLR (MBOX_BIT 5))
          (emit (Event.complete Compl.mb5_work)
            { w with tcdm := apply_stores (Irq.mb5_ack MB5H_I2C_WRITE rc d0 d1 d2 d3).stores
                        w.tcdm,
                     mb5_ack_header := MB5H_I2C_WRITE,
                     mb5_ack_status := rc % 256,
                     mb5_done := w.mb5_done + 1 }) := by
  have hmem : ∀ a, apply_stores (Irq.mb5_ack MB5H_I2C_WRITE rc d0 d1 d2 d3).stores w.tcdm a =
      if a = PRCM_ACK_MB5_I2C_DATA + 3 then d3 % 256
      else if a = PRCM_ACK_MB5_I2C_DATA + 2 then d2 % 256
      else if a = PRCM_ACK_MB5_I2C_DATA + 1 then d1 % 256
      else if a = PRCM_ACK_MB5_I2C_DATA then d0 % 256
      else if a = PRCM_ACK_MB5_RETURN_CODE then rc % 256
      else if a = PRCM_ACK_MB5_HEADER then MB5H_I2C_WRITE % 256
      else w.tcdm a := by
    intro a
    simp only [Irq.mb5_ack, apply_stores, store]
  have hh : apply_stores (Irq.mb5_ack MB5H_I2C_WRITE rc d0 d1 d2 d3).stores w.tcdm
      PRCM_ACK_MB5_HEADER = MB5H_I2C_WRITE := by
    rw [hmem]
    rw [if_neg (by decide), if_neg (by decide), if_neg (by decide), if_neg (by decide),
      if_neg (by decide), if_pos rfl]
    rfl
  have hrc : apply_stores (Irq.mb5_ack MB5H_I2C_WRITE rc d0 d1 d2 d3).stores w.tcdm
      PRCM_ACK_MB5_RETURN_CODE = rc % 256 := by
    rw [hmem]
    rw [if_neg (by decide), if_neg (by decide), if_neg (by decide), if_neg (by decide),
      if_pos rfl]
  simp only [read_mailbox_5, readb, hh, hrc, Nat.mod_mod]
  rw [if_neg (by decide), if_pos (by decide)]
  rfl

theorem memcpy_toio_mb5_done (off : Nat) (bytes : List Nat) (w : World) :
    (memcpy_toio off bytes w).mb5_done = w.mb5_done := rfl

/-- The state `db5500_prcmu_abb_write` waits in. -/
theorem abb_write_wait_state (slave reg size : Nat) (value : List Nat) (irqs : List Irq)
    (w : World) (hsize : 1 ≤ size ∧ size ≤ 4)
    (hclear : ∃ v ∈ w.cpu_val, v &&& MBOX_BIT 5 = 0) (hd : w.mb5_done = 0) :
    ∃ X : World, X.mb5_done = 0 ∧
      db5500_prcmu_abb_write slave reg value size irqs w =
        (wait_for_completion Compl.mb5_work irqs X).map (fun w2 =>
          if w2.mb5_ack_header = MB5H_I2C_WRITE ∧ w2.mb5_ack_status = RC_SUCCESS
          then (emit (Event.unlock Lock.mb5) w2, (0 : Int))
          else (emit (Event.unlock Lock.mb5) w2, - EIO)) := by
  have hs := wait_mbox_clear_isSome 5 (emit (Event.lock Lock.mb5) w) hclear
  cases hw0 : wait_mbox_clear 5 (emit (Event.lock Lock.mb5) w) with
  | none => simp [hw0] at hs
  | some w0 =>
    obtain ⟨pre, v, rest0, _, _, _, he⟩ := wait_mbox_clear_some 5 _ w0 hw0
    have hd0 : w0.mb5_done = 0 := by rw [he]; exact hd
    unfold db5500_prcmu_abb_write
    rw [if_neg (by omega)]
    dsimp only
    rw [hw0]
    dsimp only
    refine ⟨reg_writel (MBOX_BIT 5) Reg.PRCM_MBOX_CPU_SET
      (writeb MB5H_I2C_WRITE PRCM_REQ_MB5_HEADER
        (memcpy_toio PRCM_REQ_MB5_I2C_DATA (List.take size value)
          (writeb size PRCM_REQ_MB5_I2C_SIZE
            (writeb reg PRCM_REQ_MB5_I2C_REG (writeb slave PRCM_REQ_MB5_I2C_SLAVE w0))))),
      ?_, ?_⟩
    · simp only [writeb_mb5_done, reg_writel_mb5_done, memcpy_toio_mb5_done]
      exact hd0
    · cases wait_for_completion Compl.mb5_work irqs _ with
      | none => rfl
      | some w2 =>
        simp only [Option.map_some']
        split <;> rfl

/-- The result of `db5500_prcmu_abb_write` when a write acknowledge, or a read
acknowledge, is the first interrupt of its wait. -/
theorem abb_write_acked (slave reg size rc d0 d1 d2 d3 : Nat) (value : List Nat)
    (rest : List Irq) (w : World) (hsize : 1 ≤ size ∧ size ≤ 4)
    (hclear : ∃ v ∈ w.cpu_val, v &&& MBOX_BIT 5 = 0) (hd : w.mb5_done = 0) :
    (∃ w1, db5500_prcmu_abb_write slave reg value size
        (Irq.mb5_ack MB5H_I2C_WRITE rc d0 d1 d2 d3 :: rest) w =
      some (w1, if rc % 256 = RC_SUCCESS then 0 else - EIO)) ∧
    (∃ w1, db5500_prcmu_abb_write slave reg value size
        (Irq.mb5_ack MB5H_I2C_READ rc d0 d1 d2 d3 :: rest) w = some (w1, - EIO)) := by
  constructor
  · obtain ⟨X, hdX, hX⟩ := abb_write_wait_state slave reg size value
      (Irq.mb5_ack MB5H_I2C_WRITE rc d0 d1 d2 d3 :: rest) w hsize hclear hd
    rw [hX, wait_cons _ _ _ _ (by simpa [Compl.done] using hdX), interrupt_mb5_ack,
      Option.some_bind, read_mailbox_5_write_ack,
      wait_pending _ _ _ (by simp [Compl.done, emit]), Option.map_some']
    by_cases hrc : rc % 256 = RC_SUCCESS
    · rw [if_pos hrc, if_pos ⟨rfl, hrc⟩]
      exact ⟨_, rfl⟩
    · rw [if_neg hrc, if_neg (fun hc => hrc hc.2)]
      exact ⟨_, rfl⟩
  · obtain ⟨X, hdX, hX⟩ := abb_write_wait_state slave reg size value
      (Irq.mb5_ack MB5H_I2C_READ rc d0 d1 d2 d3 :: rest) w hsize hclear hd
    rw [hX, wait_cons _ _ _ _ (by simpa [Compl.done] using hdX), interrupt_mb5_ack,
      Option.some_bind, read_mailbox_5_read_ack,
      wait_pending _ _ _ (by simp [Compl.done, emit]), Option.map_some']
    have hne : ¬ MB5H_I2C_READ = MB5H_I2C_WRITE := by decide
    rw [if_neg (fun hc => hne hc.1)]
    exact ⟨_, rfl⟩

/-! ## C13 -/

/-- C13: for every slave, register, data and size in 1..4, the mailbox writes of
`db5500_prcmu_abb_write` are slave, register and size to the mailbox-5 request
fields, the first `size` data bytes to the data field at offset 4, the header
`MB5H_I2C_WRITE`, then `MBOX_BIT(5)` to `PRCM_MBOX_CPU_SET`; once its wait has
completed it returns 0 exactly when the staged acknowledge has header
`MB5H_I2C_WRITE` and status `RC_SUCCESS`, and `-EIO` otherwise, with the lock
released.  With a write acknowledge as the first interrupt of the wait it
returns 0 or `-EIO` by the return code; with a read acknowledge it returns
`-EIO`. -/
theorem abb_write_contract (slave reg size : Nat) (value : List Nat) (w : World)
    (hu8 : slave < 256 ∧ reg < 256 ∧ ∀ b ∈ value, b < 256)
    (hsize : 1 ≤ size ∧ size ≤ 4) :
    (∀ irqs w1 r, db5500_prcmu_abb_write slave reg value size irqs w = some (w1, r) →
      mailbox_writes (new_events w w1) =
        [ Event.writeb PRCM_REQ_MB5_I2C_SLAVE slave, Event.writeb PRCM_REQ_MB5_I2C_REG reg,
          Event.writeb PRCM_REQ_MB5_I2C_SIZE size,
          Event.memcpy_toio (PRCM_REQ_MB5 + 4) (value.take size),
          Event.writeb PRCM_REQ_MB5_HEADER MB5H_I2C_WRITE,
          Event.reg_writel Reg.PRCM_MBOX_CPU_SET (MBOX_BIT 5) ] ∧
      (r = 0 ↔ w1.mb5_ack_header = MB5H_I2C_WRITE ∧ w1.mb5_ack_status = RC_SUCCESS) ∧
      (r ≠ 0 → r = - EIO) ∧
      lock_held Lock.mb5 (new_events w w1) = false) ∧
    ((∃ v ∈ w.cpu_val, v &&& MBOX_BIT 5 = 0) → w.mb5_done = 0 →
      ∀ rc d0 d1 d2 d3 rest,
        (∃ w1, db5500_prcmu_abb_write slave reg value size
            (Irq.mb5_ack MB5H_I2C_WRITE rc d0 d1 d2 d3 :: rest) w =
          some (w1, if rc % 256 = RC_SUCCESS then 0 else - EIO)) ∧
        (∃ w1, db5500_prcmu_abb_write slave reg value size
            (Irq.mb5_ack MB5H_I2C_READ rc d0 d1 d2 d3 :: rest) w = some (w1, - EIO))) := by
  obtain ⟨hsl, hreg, hval⟩ := hu8
  refine ⟨?_, fun hclear hd rc d0 d1 d2 d3 rest =>
    abb_write_acked slave reg size rc d0 d1 d2 d3 value rest w hsize hclear hd⟩
  intro irqs w1 r h
  rcases abb_write_some slave reg value size irqs w w1 r h with
    ⟨hbad, _⟩ | ⟨_, _, pre, v, rest0, evs, _, _, _, hirq, hnew, hres⟩
  · omega
  · have hne : (- EIO : Int) ≠ 0 := by decide
    have hmap : (value.take size).map (fun b => b % 256) = value.take size := by
      rw [List.map_congr_left (g := id)]
      · simp
      · intro b hb
        exact Nat.mod_eq_of_lt (hval b (List.mem_of_mem_take hb))
    refine ⟨?_, ?_, ?_, ?_⟩
    · rw [hnew]
      have := mailbox_writes_request Lock.mb5 (pre ++ [v])
        (abb_write_stores slave reg value size ++
          [Event.reg_writel Reg.PRCM_MBOX_CPU_SET (MBOX_BIT 5)]) evs
        [Event.wait_end Compl.mb5_work true, Event.unlock Lock.mb5] rfl hirq rfl
      have hsz : size % 256 = size := Nat.mod_eq_of_lt (by omega)
      simp only [List.append_assoc, List.cons_append, List.nil_append, List.singleton_append]
        at this ⊢
      rw [this]
      simp only [abb_write_stores, Nat.mod_eq_of_lt hsl, Nat.mod_eq_of_lt hreg, hsz, hmap]
      rfl
    · by_cases hok : w1.mb5_ack_header = MB5H_I2C_WRITE ∧ w1.mb5_ack_status = RC_SUCCESS
      · rw [if_pos hok] at hres
        exact ⟨fun _ => hok, fun _ => hres⟩
      · rw [if_neg hok] at hres
        exact ⟨fun h0 => absurd (hres.symm.trans h0) hne, fun hc => absurd hc hok⟩
    · intro hr
      by_cases hok : w1.mb5_ack_header = MB5H_I2C_WRITE ∧ w1.mb5_ack_status = RC_SUCCESS
      · rw [if_pos hok] at hres
        exact absurd hres hr
      · rw [if_neg hok] at hres
        exact hres
    · rw [hnew]
      have e : Event.lock Lock.mb5 :: List.map Event.readl_cpu_val (pre ++ [v]) ++
          abb_write_stores slave reg value size ++
          Event.reg_writel Reg.PRCM_MBOX_CPU_SET (MBOX_BIT 5) ::
            (evs ++ [Event.wait_end Compl.mb5_work true, Event.unlock Lock.mb5]) =
          (Event.lock Lock.mb5 :: List.map Event.readl_cpu_val (pre ++ [v]) ++
          abb_write_stores slave reg value size ++
          Event.reg_writel Reg.PRCM_MBOX_CPU_SET (MBOX_BIT 5) ::
            (evs ++ [Event.wait_end Compl.mb5_work true])) ++ [Event.unlock Lock.mb5] := by
        simp
      rw [e]
      exact lock_held_unlock _ _

theorem abb_write_contract_witness :
    (∃ w1, db5500_prcmu_abb_write 0x12 0x04 [0xAA, 0xBB, 0xCC, 0xDD] 2
        (Irq.mb5_ack MB5H_I2C_WRITE RC_SUCCESS 0 0 0 0 :: []) World.sample =
      some (w1, if RC_SUCCESS % 256 = RC_SUCCESS then 0 else - EIO)) ∧
    (∃ w1, db5500_prcmu_abb_write 0x12 0x04 [0xAA, 0xBB, 0xCC, 0xDD] 2
        (Irq.mb5_ack MB5H_I2C_READ RC_SUCCESS 0 0 0 0 :: []) World.sample =
      some (w1, - EIO)) :=
  (abb_write_contract 0x12 0x04 2 [0xAA, 0xBB, 0xCC, 0xDD] World.sample
    ⟨by decide, by decide, by decide⟩ (by decide)).2 ⟨0, by decide, by decide⟩ (by decide)
    RC_SUCCESS 0 0 0 0 []


/-! ## Clock requests -/

theorem poll_sem_some (H : Headers) : ∀ (l : List Nat) (w w1 : World),
    poll_sem H w l = some w1 →
    ∃ reads : List Nat, w1.trace = w.trace ++ reads.map Event.readl_sem := by
  intro l
  induction l with
  | nil => intro w w1 h; simp [poll_sem] at h
  | cons v rest ih =>
    intro w w1 h
    simp only [poll_sem] at h
    by_cases hv : v &&& H.PRCM_SEM_PRCM_SEM = 0
    · simp [hv] at h
      refine ⟨[v], ?_⟩
      subst h
      simp [emit]
    · simp [hv] at h
      obtain ⟨reads, hr⟩ := ih _ _ h
      refine ⟨v :: reads, ?_⟩
      rw [hr]
      simp [emit]

theorem poll_sem_isSome (H : Headers) : ∀ (l : List Nat) (w : World),
    (∃ v ∈ l, v &&& H.PRCM_SEM_PRCM_SEM = 0) → ∃ w1, poll_sem H w l = some w1 := by
  intro l
  induction l with
  | nil => intro w h; simp at h
  | cons v rest ih =>
    intro w h
    simp only [poll_sem]
    by_cases hv : v &&& H.PRCM_SEM_PRCM_SEM = 0
    · simp [hv]
    · simp only [ne_eq, hv, not_false_eq_true, if_true]
      apply ih
      obtain ⟨x, hx, hx0⟩ := h
      rcases List.mem_cons.mp hx with rfl | hx
      · exact absurd hx0 hv
      · exact ⟨x, hx, hx0⟩

/-- Function `request_reg_clock` returns 0 and makes no mailbox write. -/
theorem request_reg_clock_some (H : Headers) (clock : Nat) (enable : Bool) (w w1 : World)
    (r : Int) (h : request_reg_clock H clock enable w = some (w1, r)) :
    r = 0 ∧ mailbox_writes (new_events w w1) = [] := by
  unfold request_reg_clock at h
  dsimp only at h
  generalize hW : (if H.clk_mgt_offset clock = 0 then emit Event.warn w else w) = W at h
  have hWt : ∃ a, W.trace = w.trace ++ a ∧ mailbox_writes a = [] := by
    rw [← hW]
    split
    · exact ⟨[Event.warn], rfl, rfl⟩
    · exact ⟨[], by simp, rfl⟩
  obtain ⟨a, ha, hma⟩ := hWt
  cases hp : poll_sem H (emit (Event.lock Lock.clk_mgt) W) (emit (Event.lock Lock.clk_mgt) W).sem with
  | none => rw [hp] at h; simp at h
  | some w0 =>
    rw [hp] at h
    dsimp only at h
    obtain ⟨reads, hr⟩ := poll_sem_some H _ _ _ hp
    simp only [Option.some.injEq, Prod.mk.injEq] at h
    obtain ⟨h1, h2⟩ := h
    refine ⟨h2.symm, ?_⟩
    have ht : w1.trace = w.trace ++ (a ++ Event.lock Lock.clk_mgt :: reads.map Event.readl_sem ++
        [Event.reg_writel (Reg.CLK_MGT clock)
          (if enable then w0.clk_mgt_reg clock |||
              (H.PRCM_CLK_MGT_CLKEN ||| w0.clk_mgt_pllsw clock)
            else w0.clk_mgt_reg clock &&&
              (U32_MAX ^^^ (H.PRCM_CLK_MGT_CLKEN ||| H.PRCM_CLK_MGT_CLKPLLSW_MASK))),
         Event.reg_writel Reg.PRCM_SEM 0, Event.unlock Lock.clk_mgt]) := by
      have e := congrArg World.trace h1
      rw [← e]
      cases enable <;> simp [emit, reg_writel, hr, ha]
    rw [new_events_append w w1 _ ht, mailbox_writes_append, mailbox_writes_append, hma]
    have hl : mailbox_writes (Event.lock Lock.clk_mgt :: reads.map Event.readl_sem) = [] := by
      simp only [mailbox_writes, List.filter_cons]
      simp [is_mailbox_write]
    rw [hl]
    rfl

theorem request_reg_clock_returns (H : Headers) (clock : Nat) (enable : Bool) (w : World)
    (hsem : ∃ v ∈ w.sem, v &&& H.PRCM_SEM_PRCM_SEM = 0) :
    ∃ w1, request_reg_clock H clock enable w = some (w1, 0) := by
  unfold request_reg_clock
  dsimp only
  generalize hW : (if H.clk_mgt_offset clock = 0 then emit Event.warn w else w) = W
  have hs : W.sem = w.sem := by
    rw [← hW]
    split <;> rfl
  obtain ⟨w0, hp⟩ := poll_sem_isSome H (emit (Event.lock Lock.clk_mgt) W).sem
    (emit (Event.lock Lock.clk_mgt) W) (by simpa [emit, hs] using hsem)
  rw [hp]
  exact ⟨_, rfl⟩

theorem request_timclk_writes (H : Headers) (enable : Bool) (w : World) :
    (request_timclk H enable w).2 = 0 ∧
    mailbox_writes (new_events w (request_timclk H enable w).1) = [] := by
  refine ⟨rfl, ?_⟩
  rw [new_events_append w _ [Event.reg_writel Reg.PRCM_TCR
    (if !enable then H.PRCM_TCR_DOZE_MODE ||| H.PRCM_TCR_TENSEL_MASK ||| H.PRCM_TCR_STOP_TIMERS
      else H.PRCM_TCR_DOZE_MODE ||| H.PRCM_TCR_TENSEL_MASK)] rfl]
  rfl

/-- The mailbox writes of `request_pll`. -/
theorem request_pll_writes (pll : Nat) (enable : Bool) (irqs : List Irq) (w w1 : World)
    (r : Int) (h : request_pll pll enable irqs w = some (w1, r)) :
    mailbox_writes (new_events w w1) =
      [ Event.writeb PRCM_REQ_MB2_PLL_CLIENT pll,
        Event.writeb PRCM_REQ_MB2_PLL_STATE (if enable then 1 else 0),
        Event.writeb PRCM_REQ_MB2_HEADER MB2H_PLL_REQUEST,
        Event.reg_writel Reg.PRCM_MBOX_CPU_SET (MBOX_BIT 2) ] := by
  obtain ⟨hp, pre, v, rest, evs, b, _, _, _, hirq, hnew, _, _⟩ :=
    request_pll_some pll enable irqs w w1 r h
  have hmod : pll % 256 = pll := Nat.mod_eq_of_lt (by
    have : DB5500_NUM_PLL_ID = 3 := rfl
    omega)
  rw [hnew, mailbox_writes_request _ _ _ _ _ rfl hirq (mailbox_writes_wait_tail _ _ _)]
  simp [pll_writes, hmod]

/-- The mailbox writes of `request_sysclk`. -/
theorem request_sysclk_writes (enable : Bool) (irqs : List Irq) (w w1 : World)
    (r : Int) (h : request_sysclk enable irqs w = some (w1, r)) :
    mailbox_writes (new_events w w1) =
      [ Event.writeb PRCM_REQ_MB3_REFCLK_MGT (if enable then SYSCLK_ON else SYSCLK_OFF),
        Event.writeb PRCM_REQ_MB3_HEADER MB3H_REFCLK_REQUEST,
        Event.reg_writel Reg.PRCM_MBOX_CPU_SET (MBOX_BIT 3) ] := by
  obtain ⟨pre, v, rest, evs, b, _, _, _, hirq, hnew, _⟩ :=
    request_sysclk_some enable irqs w w1 r h
  rw [hnew, mailbox_writes_request _ _ _ _ _ rfl hirq (mailbox_writes_wait_tail _ _ _)]
  simp [sysclk_writes]

theorem result_ne_einval (c : Prop) [Decidable c] :
    (if c then (0 : Int) else - EIO) ≠ - EINVAL := by
  split <;> decide

/-! ## C14 -/

/-- C14: `db5500_prcmu_request_clock(clock, enable)` returns `-EINVAL` in the state
it was called in, with no register or mailbox access, for every clock id that
is neither below `PRCMU_NUM_REG_CLOCKS` nor one of `PRCMU_TIMCLK`,
`PRCMU_PLLSOC0`, `PRCMU_PLLSOC1`, `PRCMU_PLLDDR`, `PRCMU_SYSCLK`, and for no
other id.  For the other ids it is `request_reg_clock`, `request_timclk`,
`request_pll` with `DB5500_PLL_SOC0`, `DB5500_PLL_SOC1`, `DB5500_PLL_DDR`, and
`request_sysclk` respectively.  A regulated clock and `PRCMU_TIMCLK` cause no
mailbox write; a PLL id causes the mailbox-2 PLL request and nothing else; and
`PRCMU_SYSCLK` the mailbox-3 request and nothing else.  The five named ids are
enumerators of the absent header: they are taken to be distinct and not below
`PRCMU_NUM_REG_CLOCKS`. -/
theorem request_clock_dispatch (H : Headers) (clock : Nat) (enable : Bool) (irqs : List Irq)
    (w : World)
    (hge : H.PRCMU_NUM_REG_CLOCKS ≤ H.PRCMU_TIMCLK ∧ H.PRCMU_NUM_REG_CLOCKS ≤ H.PRCMU_PLLSOC0 ∧
      H.PRCMU_NUM_REG_CLOCKS ≤ H.PRCMU_PLLSOC1 ∧ H.PRCMU_NUM_REG_CLOCKS ≤ H.PRCMU_PLLDDR ∧
      H.PRCMU_NUM_REG_CLOCKS ≤ H.PRCMU_SYSCLK)
    (hnd : [H.PRCMU_TIMCLK, H.PRCMU_PLLSOC0, H.PRCMU_PLLSOC1, H.PRCMU_PLLDDR,
      H.PRCMU_SYSCLK].Nodup) :
    (¬ clock < H.PRCMU_NUM_REG_CLOCKS →
      clock ∉ [H.PRCMU_TIMCLK, H.PRCMU_PLLSOC0, H.PRCMU_PLLSOC1, H.PRCMU_PLLDDR,
        H.PRCMU_SYSCLK] →
      db5500_prcmu_request_clock H clock enable irqs w = some (w, - EINVAL)) ∧
    (clock < H.PRCMU_NUM_REG_CLOCKS →
      db5500_prcmu_request_clock H clock enable irqs w = request_reg_clock H clock enable w) ∧
    db5500_prcmu_request_clock H H.PRCMU_TIMCLK enable irqs w =
      some (request_timclk H enable w) ∧
    db5500_prcmu_request_clock H H.PRCMU_PLLSOC0 enable irqs w =
      request_pll DB5500_PLL_SOC0 enable irqs w ∧
    db5500_prcmu_request_clock H H.PRCMU_PLLSOC1 enable irqs w =
      request_pll DB5500_PLL_SOC1 enable irqs w ∧
    db5500_prcmu_request_clock H H.PRCMU_PLLDDR enable irqs w =
      request_pll DB5500_PLL_DDR enable irqs w ∧
    db5500_prcmu_request_clock H H.PRCMU_SYSCLK enable irqs w = request_sysclk enable irqs w ∧
    (∀ w1 r, db5500_prcmu_request_clock H clock enable irqs w = some (w1, r) →
      (clock < H.PRCMU_NUM_REG_CLOCKS ∨ clock = H.PRCMU_TIMCLK →
        r = 0 ∧ mailbox_writes (new_events w w1) = []) ∧
      (∀ pll, (clock, pll) ∈ [(H.PRCMU_PLLSOC0, DB5500_PLL_SOC0),
          (H.PRCMU_PLLSOC1, DB5500_PLL_SOC1), (H.PRCMU_PLLDDR, DB5500_PLL_DDR)] →
        mailbox_writes (new_events w w1) =
          [ Event.writeb PRCM_REQ_MB2_PLL_CLIENT pll,
            Event.writeb PRCM_REQ_MB2_PLL_STATE (if enable then 1 else 0),
            Event.writeb PRCM_REQ_MB2_HEADER MB2H_PLL_REQUEST,
            Event.reg_writel Reg.PRCM_MBOX_CPU_SET (MBOX_BIT 2) ]) ∧
      (clock = H.PRCMU_SYSCLK →
        mailbox_writes (new_events w w1) =
          [ Event.writeb PRCM_REQ_MB3_REFCLK_MGT (if enable then SYSCLK_ON else SYSCLK_OFF),
            Event.writeb PRCM_REQ_MB3_HEADER MB3H_REFCLK_REQUEST,
            Event.reg_writel Reg.PRCM_MBOX_CPU_SET (MBOX_BIT 3) ]) ∧
      (r = - EINVAL → w1 = w ∧ ¬ clock < H.PRCMU_NUM_REG_CLOCKS ∧
        clock ∉ [H.PRCMU_TIMCLK, H.PRCMU_PLLSOC0, H.PRCMU_PLLSOC1, H.PRCMU_PLLDDR,
          H.PRCMU_SYSCLK])) := by
  obtain ⟨g1, g2, g3, g4, g5⟩ := hge
  simp only [List.nodup_cons, List.mem_cons, List.mem_singleton, List.not_mem_nil, not_or,
    or_false, not_false_eq_true, List.nodup_nil, and_true] at hnd
  obtain ⟨⟨n12, n13, n14, n15⟩, ⟨n23, n24, n25⟩, ⟨n34, n35⟩, n45⟩ := hnd
  have hpll_ne : ∀ (p : Nat) (en : Bool) (w1 : World) (r : Int),
      request_pll p en irqs w = some (w1, r) → r ≠ - EINVAL := by
    intro p en w1 r h
    obtain ⟨_, pre, v, rest, evs, b, _, _, _, _, _, hres, _⟩ := request_pll_some p en irqs w w1 r h
    rw [hres]
    exact result_ne_einval _
  have hsys_ne : ∀ (w1 : World) (r : Int),
      request_sysclk enable irqs w = some (w1, r) → r ≠ - EINVAL := by
    intro w1 r h
    obtain ⟨pre, v, rest, evs, b, _, _, _, _, _, hres⟩ := request_sysclk_some enable irqs w w1 r h
    rw [hres]
    exact result_ne_einval _
  have e2 : db5500_prcmu_request_clock H H.PRCMU_TIMCLK enable irqs w =
      some (request_timclk H enable w) := by
    unfold db5500_prcmu_request_clock
    rw [if_neg (by omega), if_pos rfl]
  have e3 : db5500_prcmu_request_clock H H.PRCMU_PLLSOC0 enable irqs w =
      request_pll DB5500_PLL_SOC0 enable irqs w := by
    unfold db5500_prcmu_request_clock
    rw [if_neg (by omega), if_neg (Ne.symm n12), if_pos rfl]
  have e4 : db5500_prcmu_request_clock H H.PRCMU_PLLSOC1 enable irqs w =
      request_pll DB5500_PLL_SOC1 enable irqs w := by
    unfold db5500_prcmu_request_clock
    rw [if_neg (by omega), if_neg (Ne.symm n13), if_neg (Ne.symm n23), if_pos rfl]
  have e5 : db5500_prcmu_request_clock H H.PRCMU_PLLDDR enable irqs w =
      request_pll DB5500_PLL_DDR enable irqs w := by
    unfold db5500_prcmu_request_clock
    rw [if_neg (by omega), if_neg (Ne.symm n14), if_neg (Ne.symm n24), if_neg (Ne.symm n34),
      if_pos rfl]
  have e6 : db5500_prcmu_request_clock H H.PRCMU_SYSCLK enable irqs w =
      request_sysclk enable irqs w := by
    unfold db5500_prcmu_request_clock
    rw [if_neg (by omega), if_neg (Ne.symm n15), if_neg (Ne.symm n25), if_neg (Ne.symm n35),
      if_neg (Ne.symm n45), if_pos rfl]
  have e1 : clock < H.PRCMU_NUM_REG_CLOCKS →
      db5500_prcmu_request_clock H clock enable irqs w = request_reg_clock H clock enable w := by
    intro hc
    unfold db5500_prcmu_request_clock
    rw [if_pos hc]
  have e0 : ¬ clock < H.PRCMU_NUM_REG_CLOCKS →
      clock ∉ [H.PRCMU_TIMCLK, H.PRCMU_PLLSOC0, H.PRCMU_PLLSOC1, H.PRCMU_PLLDDR,
        H.PRCMU_SYSCLK] →
      db5500_prcmu_request_clock H clock enable irqs w = some (w, - EINVAL) := by
    intro hc hn
    simp only [List.mem_cons, List.mem_singleton, List.not_mem_nil, not_or, or_false] at hn
    unfold db5500_prcmu_request_clock
    rw [if_neg hc, if_neg hn.1, if_neg hn.2.1, if_neg hn.2.2.1, if_neg hn.2.2.2.1,
      if_neg hn.2.2.2.2]
  have h0ne : (0 : Int) ≠ - EINVAL := by decide
  refine ⟨e0, e1, e2, e3, e4, e5, e6, ?_⟩
  intro w1 r h
  refine ⟨?_, ?_, ?_, ?_⟩
  · rintro (hc | rfl)
    · rw [e1 hc] at h
      exact request_reg_clock_some H clock enable w w1 r h
    · rw [e2] at h
      simp only [Option.some.injEq] at h
      have := request_timclk_writes H enable w
      rw [h] at this
      exact ⟨this.1, this.2⟩
  · intro pll hm
    simp only [List.mem_cons, Prod.mk.injEq, List.mem_singleton, List.not_mem_nil, or_false]
      at hm
    rcases hm with ⟨rfl, rfl⟩ | ⟨rfl, rfl⟩ | ⟨rfl, rfl⟩
    · rw [e3] at h
      exact request_pll_writes _ _ _ _ _ _ h
    · rw [e4] at h
      exact request_pll_writes _ _ _ _ _ _ h
    · rw [e5] at h
      exact request_pll_writes _ _ _ _ _ _ h
  · rintro rfl
    rw [e6] at h
    exact request_sysclk_writes _ _ _ _ _ h
  · intro hr
    by_cases hc : clock < H.PRCMU_NUM_REG_CLOCKS
    · rw [e1 hc] at h
      exact absurd ((request_reg_clock_some H clock enable w w1 r h).1.symm.trans hr) h0ne
    · by_cases c1 : clock = H.PRCMU_TIMCLK
      · subst c1
        rw [e2] at h
        simp only [Option.some.injEq] at h
        have := (request_timclk_writes H enable w).1
        rw [h] at this
        exact absurd (this.symm.trans hr) h0ne
      · by_cases c2 : clock = H.PRCMU_PLLSOC0
        · subst c2
          rw [e3] at h
          exact absurd hr (hpll_ne _ _ _ _ h)
        · by_cases c3 : clock = H.PRCMU_PLLSOC1
          · subst c3
            rw [e4] at h
            exact absurd hr (hpll_ne _ _ _ _ h)
          · by_cases c4 : clock = H.PRCMU_PLLDDR
            · subst c4
              rw [e5] at h
              exact absurd hr (hpll_ne _ _ _ _ h)
            · by_cases c5 : clock = H.PRCMU_SYSCLK
              · subst c5
                rw [e6] at h
                exact absurd hr (hsys_ne _ _ h)
              · have hn : clock ∉ [H.PRCMU_TIMCLK, H.PRCMU_PLLSOC0, H.PRCMU_PLLSOC1,
                    H.PRCMU_PLLDDR, H.PRCMU_SYSCLK] := by
                  simp only [List.mem_cons, List.mem_singleton, List.not_mem_nil, not_or,
                    or_false]
                  exact ⟨c1, c2, c3, c4, c5⟩
                rw [e0 hc hn] at h
                simp only [Option.some.injEq, Prod.mk.injEq] at h
                exact ⟨h.1.symm, hc, hn⟩

theorem request_clock_dispatch_witness :
    db5500_prcmu_request_clock Headers.sample 25 true [] World.sample =
      some (World.sample, - EINVAL) ∧
    db5500_prcmu_request_clock Headers.sample 3 true [] World.sample =
      request_reg_clock Headers.sample 3 true World.sample ∧
    db5500_prcmu_request_clock Headers.sample Headers.sample.PRCMU_PLLDDR false [] World.sample =
      request_pll DB5500_PLL_DDR false [] World.sample :=
  ⟨(request_clock_dispatch Headers.sample 25 true [] World.sample (by decide) (by decide)).1
      (by decide) (by decide),
    (request_clock_dispatch Headers.sample 3 true [] World.sample (by decide) (by decide)).2.1
      (by decide),
    (request_clock_dispatch Headers.sample 3 false [] World.sample (by decide)
      (by decide)).2.2.2.2.2.1⟩

/-! ## request_sysclk -/

theorem request_sysclk_eq (enable : Bool) (irqs : List Irq) (w : World) :
    request_sysclk enable irqs w =
      (wait_mbox_clear 3 (emit (Event.lock Lock.sysclk) w)).bind (fun w0 =>
        (wait_for_completion_timeout Compl.sysclk_work irqs (sysclk_issue enable w0)).map
          sysclk_finish) := by
  unfold request_sysclk
  dsimp only
  cases wait_mbox_clear 3 (emit (Event.lock Lock.sysclk) w) with
  | none => rfl
  | some w0 =>
    simp only [sysclk_issue, Option.some_bind]
    cases wait_for_completion_timeout Compl.sysclk_work irqs _ with
    | none => rfl
    | some p =>
      obtain ⟨ww, b⟩ := p
      simp only [sysclk_finish, Option.map_some']
      split <;> [rfl; split] <;> rfl

theorem read_mailbox_3_mb3_ack (h s : Nat) (w : World) :
    read_mailbox_3 { w with tcdm := apply_stores (Irq.mb3_ack h s).stores w.tcdm } =
      if h % 256 = MB3H_REFCLK_REQUEST then
        (emit (Event.complete Compl.sysclk_work) (emit
          (Event.reg_writel Reg.PRCM_ARM_IT1_CLR (MBOX_BIT 3))
          { w with tcdm := apply_stores (Irq.mb3_ack h s).stores w.tcdm,
                   mb3_ack_header := h % 256,
                   mb3_ack_status := s % 256,
                   mb3_done := w.mb3_done + 1 }), false)
      else
        (emit Event.pr_err (emit (Event.reg_writel Reg.PRCM_ARM_IT1_CLR (MBOX_BIT 3))
          { w with tcdm := apply_stores (Irq.mb3_ack h s).stores w.tcdm,
                   mb3_ack_header := h % 256 }), false) := by
  have hh : apply_stores (Irq.mb3_ack h s).stores w.tcdm PRCM_ACK_MB3_HEADER = h % 256 := by
    simp [Irq.mb3_ack, apply_stores, store, PRCM_ACK_MB3_HEADER, PRCM_MB_HEADER,
      PRCM_ACK_MB3_REFCLK_REQ, PRCM_ACK_MB3]
  have hs : apply_stores (Irq.mb3_ack h s).stores w.tcdm PRCM_ACK_MB3_REFCLK_REQ = s % 256 := by
    simp [Irq.mb3_ack, apply_stores, store, PRCM_ACK_MB3_HEADER, PRCM_MB_HEADER,
      PRCM_ACK_MB3_REFCLK_REQ, PRCM_ACK_MB3]
  simp only [read_mailbox_3, readb, hh, hs, Nat.mod_mod]
  by_cases h1 : h % 256 = MB3H_REFCLK_REQUEST
  · simp only [h1, if_true]
    rfl
  · simp only [h1, if_false]
    rfl

theorem interrupt_mb3_ack (h s : Nat) (w : World) :
    interrupt (Irq.mb3_ack h s) w =
      some ((read_mailbox_3
        { w with tcdm := apply_stores (Irq.mb3_ack h s).stores w.tcdm }).1,
        irqreturn_t.IRQ_HANDLED) := by
  have h3 : ∀ x : World, (read_mailbox_3 x).2 = false := by
    intro x
    simp only [read_mailbox_3]
    split <;> rfl
  have hb : (Irq.mb3_ack h s).it1_val &&& ALL_MBOX_BITS = 8 := by
    show MBOX_BIT 3 &&& ALL_MBOX_BITS = 8
    decide
  simp only [interrupt, prcmu_irq_handler, hb]
  have hl : ∀ x : World, irq_loop 256 0 8 irqreturn_t.IRQ_HANDLED x =
      some ((read_mailbox_3 x).1,
        if (read_mailbox_3 x).2 then irqreturn_t.IRQ_WAKE_THREAD else irqreturn_t.IRQ_HANDLED) :=
    fun _ => rfl
  rw [if_neg (by decide), hl, h3]
  rfl

theorem sysclk_finish_true (ww : World) :
    sysclk_finish (ww, true) = (emit (Event.unlock Lock.sysclk) ww,
      if ww.mb3_ack_header = MB3H_REFCLK_REQUEST ∧ ww.mb3_ack_status = ww.mb3_req_st then 0
      else - EIO) := by
  simp only [sysclk_finish]
  by_cases h1 : ww.mb3_ack_header = MB3H_REFCLK_REQUEST <;>
    by_cases h2 : ww.mb3_ack_status = ww.mb3_req_st <;> simp [h1, h2]

theorem sysclk_finish_false (ww : World) :
    sysclk_finish (ww, false) =
      (emit (Event.unlock Lock.sysclk) (emit Event.warn (emit Event.pr_err ww)), - EIO) := by
  simp [sysclk_finish]

/-- A single mailbox-3 acknowledge delivered during the wait of a
`request_sysclk` that started with no signal outstanding decides its result. -/
theorem request_sysclk_single_ack (enable : Bool) (w : World)
    (hclear : ∃ v ∈ w.cpu_val, v &&& MBOX_BIT 3 = 0) (h s : Nat) (hd : w.mb3_done = 0) :
    ∃ w1, request_sysclk enable [Irq.mb3_ack h s] w =
      some (w1, if h % 256 = MB3H_REFCLK_REQUEST ∧
                  s % 256 = (if enable then SYSCLK_ON else SYSCLK_OFF) then 0 else - EIO) := by
  have hs := wait_mbox_clear_isSome 3 (emit (Event.lock Lock.sysclk) w) hclear
  cases hw0 : wait_mbox_clear 3 (emit (Event.lock Lock.sysclk) w) with
  | none => simp [hw0] at hs
  | some w0 =>
    obtain ⟨pre, v, rest, _, _, _, he⟩ := wait_mbox_clear_some 3 _ w0 hw0
    have hd0 : (sysclk_issue enable w0).mb3_done = 0 := by
      show w0.mb3_done = 0
      rw [he]
      exact hd
    have hr0 : (sysclk_issue enable w0).mb3_req_st = (if enable then SYSCLK_ON else SYSCLK_OFF) :=
      rfl
    rw [request_sysclk_eq, hw0, Option.some_bind]
    generalize sysclk_issue enable w0 = X at hd0 hr0
    rw [wait_timeout_cons _ _ _ _ (by simpa [Compl.done] using hd0), interrupt_mb3_ack,
      Option.some_bind, read_mailbox_3_mb3_ack]
    by_cases hk : h % 256 = MB3H_REFCLK_REQUEST
    · rw [if_pos hk, wait_timeout_pending _ _ _ (by simp [Compl.done, emit]), Option.map_some',
        sysclk_finish_true]
      apply exists_result
      simp only [emit, Compl.set_done, hk, true_and, hr0]
    · rw [if_neg hk, wait_timeout_nil _ _ (by simpa [Compl.done, emit] using hd0),
        Option.map_some', sysclk_finish_false]
      simp only [hk, false_and, if_false]
      exact ⟨_, rfl⟩

/-! ## C15 -/

/-- C15 fails as stated: `request_sysclk(true)` whose wait is completed by an
acknowledge with header `MB3H_REFCLK_REQUEST` and status byte `RC_FAIL` returns 0,
and with status byte `RC_SUCCESS` it returns `-EIO`. -/
theorem request_sysclk_status_is_state :
    (∃ w1, request_sysclk true [Irq.mb3_ack MB3H_REFCLK_REQUEST RC_FAIL] World.sample =
        some (w1, 0) ∧
      Event.wait_end Compl.sysclk_work true ∈ new_events World.sample w1 ∧
      w1.mb3_ack_header = MB3H_REFCLK_REQUEST ∧ w1.mb3_ack_status = RC_FAIL) ∧
    (∃ w1, request_sysclk true [Irq.mb3_ack MB3H_REFCLK_REQUEST RC_SUCCESS] World.sample =
        some (w1, - EIO)) := by
  have hpre : ∀ (reads : List Nat), ∀ e ∈ Event.lock Lock.sysclk ::
      reads.map Event.readl_cpu_val ++ sysclk_writes true,
      ∀ x, e ≠ Event.wait_end Compl.sysclk_work x := by
    intro reads e he x
    simp only [List.cons_append, List.mem_cons, List.mem_append, List.mem_map,
      sysclk_writes, List.mem_singleton, List.not_mem_nil, or_false] at he
    rcases he with rfl | ⟨y, _, rfl⟩ | rfl | rfl | rfl <;> simp
  constructor
  · obtain ⟨w1, h⟩ := request_sysclk_single_ack true World.sample ⟨0, by decide, by decide⟩
      MB3H_REFCLK_REQUEST RC_FAIL (by decide)
    rw [if_pos (by decide)] at h
    obtain ⟨pre, v, rest, evs, b, _, _, _, hirq, hnew, hres⟩ :=
      request_sysclk_some true _ World.sample w1 0 h
    have hne : (0 : Int) ≠ - EIO := by decide
    by_cases hc : b = true ∧ w1.mb3_ack_header = MB3H_REFCLK_REQUEST ∧
        w1.mb3_ack_status = (if true = true then SYSCLK_ON else SYSCLK_OFF)
    · refine ⟨w1, h, ?_, hc.2.1, hc.2.2⟩
      rw [hnew]
      exact (wait_end_mem_tail _ _ b _ evs (hpre (pre ++ [v])) hirq).mpr hc.1
    · rw [if_neg hc] at hres
      exact absurd hres hne
  · obtain ⟨w1, h⟩ := request_sysclk_single_ack true World.sample ⟨0, by decide, by decide⟩
      MB3H_REFCLK_REQUEST RC_SUCCESS (by decide)
    rw [if_neg (by decide)] at h
    exact ⟨w1, h⟩

/-- C15 (amended): for every enable flag, when the wait of `request_sysclk`
completes it returns 0 exactly when the staged acknowledge has header
`MB3H_REFCLK_REQUEST` and a status byte equal to the requested state
(`SYSCLK_ON` for enable, `SYSCLK_OFF` for disable), and `-EIO` otherwise.  For a
disable request the status byte `RC_FAIL` gives `-EIO` and 0 is returned only for
`RC_SUCCESS`; for an enable request it is the other way round: the status byte
`RC_FAIL` (the value of `SYSCLK_ON`) with the matching header gives 0 and
`RC_SUCCESS` gives `-EIO`.  An acknowledge with header `h` and status `s`
delivered during the wait of a call that started with no signal outstanding
decides the result in this way. -/
theorem request_sysclk_status_check (enable : Bool) (w : World) :
    (∀ irqs w1 r, request_sysclk enable irqs w = some (w1, r) →
      Event.wait_end Compl.sysclk_work true ∈ new_events w w1 →
      (r = 0 ↔ w1.mb3_ack_header = MB3H_REFCLK_REQUEST ∧
        w1.mb3_ack_status = (if enable then SYSCLK_ON else SYSCLK_OFF)) ∧
      (r ≠ 0 → r = - EIO) ∧
      (enable = false →
        (w1.mb3_ack_status = RC_FAIL → r = - EIO) ∧ (r = 0 → w1.mb3_ack_status = RC_SUCCESS)) ∧
      (enable = true →
        (w1.mb3_ack_header = MB3H_REFCLK_REQUEST → w1.mb3_ack_status = RC_FAIL → r = 0) ∧
        (w1.mb3_ack_status = RC_SUCCESS → r = - EIO))) ∧
    ((∃ v ∈ w.cpu_val, v &&& MBOX_BIT 3 = 0) → w.mb3_done = 0 →
      ∀ h s, ∃ w1, request_sysclk enable [Irq.mb3_ack h s] w =
        some (w1, if h % 256 = MB3H_REFCLK_REQUEST ∧
                    s % 256 = (if enable then SYSCLK_ON else SYSCLK_OFF) then 0 else - EIO)) := by
  refine ⟨?_, fun hclear hd h s => request_sysclk_single_ack enable w hclear h s hd⟩
  intro irqs w1 r hr hdone
  have hpre : ∀ (reads : List Nat), ∀ e ∈ Event.lock Lock.sysclk ::
      reads.map Event.readl_cpu_val ++ sysclk_writes enable,
      ∀ x, e ≠ Event.wait_end Compl.sysclk_work x := by
    intro reads e he x
    simp only [List.cons_append, List.mem_cons, List.mem_append, List.mem_map,
      sysclk_writes, List.mem_singleton, List.not_mem_nil, or_false] at he
    rcases he with rfl | ⟨y, _, rfl⟩ | rfl | rfl | rfl <;> simp
  obtain ⟨pre, v, rest, evs, b, _, _, _, hirq, hnew, hres⟩ :=
    request_sysclk_some enable irqs w w1 r hr
  rw [hnew] at hdone
  have hb : b = true := (wait_end_mem_tail _ _ b _ evs (hpre (pre ++ [v])) hirq).mp hdone
  subst hb
  simp only [true_and] at hres
  have hne : (- EIO : Int) ≠ 0 := by decide
  have hiff : r = 0 ↔ w1.mb3_ack_header = MB3H_REFCLK_REQUEST ∧
      w1.mb3_ack_status = (if enable then SYSCLK_ON else SYSCLK_OFF) := by
    by_cases hc : w1.mb3_ack_header = MB3H_REFCLK_REQUEST ∧
        w1.mb3_ack_status = (if enable then SYSCLK_ON else SYSCLK_OFF)
    · rw [if_pos hc] at hres
      exact ⟨fun _ => hc, fun _ => hres⟩
    · rw [if_neg hc] at hres
      exact ⟨fun h0 => absurd (hres.symm.trans h0) hne, fun h => absurd h hc⟩
  have hor : r ≠ 0 → r = - EIO := by
    intro h0
    by_cases hc : w1.mb3_ack_header = MB3H_REFCLK_REQUEST ∧
        w1.mb3_ack_status = (if enable then SYSCLK_ON else SYSCLK_OFF)
    · exact absurd (hiff.mpr hc) h0
    · rw [if_neg hc] at hres
      exact hres
  have h10 : ¬ RC_FAIL = SYSCLK_OFF := by decide
  have h01 : ¬ RC_SUCCESS = SYSCLK_ON := by decide
  refine ⟨hiff, hor, ?_, ?_⟩
  · rintro rfl
    simp only [Bool.false_eq_true, if_false] at hiff
    refine ⟨fun hs => hor (fun h0 => ?_), fun h0 => (hiff.mp h0).2⟩
    have := (hiff.mp h0).2
    rw [hs] at this
    exact h10 this
  · rintro rfl
    simp only [if_true] at hiff
    refine ⟨fun hh hs => hiff.mpr ⟨hh, hs⟩, fun hs => hor (fun h0 => ?_)⟩
    have := (hiff.mp h0).2
    rw [hs] at this
    exact h01 this

theorem request_sysclk_status_check_witness :
    (∃ w1, request_sysclk false [Irq.mb3_ack MB3H_REFCLK_REQUEST RC_SUCCESS] World.sample =
      some (w1, if MB3H_REFCLK_REQUEST % 256 = MB3H_REFCLK_REQUEST ∧
                  RC_SUCCESS % 256 = (if false then SYSCLK_ON else SYSCLK_OFF) then 0
                else - EIO)) ∧
    (∃ w1, request_sysclk true [Irq.mb3_ack MB3H_REFCLK_REQUEST SYSCLK_ON] World.sample =
      some (w1, if MB3H_REFCLK_REQUEST % 256 = MB3H_REFCLK_REQUEST ∧
                  SYSCLK_ON % 256 = (if true then SYSCLK_ON else SYSCLK_OFF) then 0
                else - EIO)) :=
  ⟨(request_sysclk_status_check false World.sample).2 ⟨0, by decide, by decide⟩ (by decide)
      MB3H_REFCLK_REQUEST RC_SUCCESS,
    (request_sysclk_status_check true World.sample).2 ⟨0, by decide, by decide⟩ (by decide)
      MB3H_REFCLK_REQUEST SYSCLK_ON⟩

/-! ## Order of the request writes -/

theorem header_last_intro (n : Nat) (payload : List Event) (h : Nat)
    (hp : ∀ e ∈ payload, is_payload_store n e = true) :
    header_last n (payload ++ [Event.writeb (PRCM_MB_HEADER + n) h,
      Event.reg_writel Reg.PRCM_MBOX_CPU_SET (MBOX_BIT n)]) = true := by
  simp only [header_last, List.reverse_append, List.reverse_cons, List.reverse_nil,
    List.nil_append, List.cons_append, decide_True, Bool.true_and, List.all_eq_true,
    List.mem_reverse]
  exact hp

theorem in_payload_mb5_data (len : Nat) (h : len ≤ 4) :
    in_payload 5 PRCM_REQ_MB5_I2C_DATA len = true := by
  interval_cases len <;> decide

/-! ## What each acknowledge reader logs -/

theorem read_mailbox_0_events (w : World) :
    new_events w (read_mailbox_0 w).1 =
      if readb PRCM_ACK_MB0_HEADER w = MB0H_WAKE_UP then
        (dispatched ((if readb PRCM_ACK_MB0_READ_POINTER w &&& 1 ≠ 0
            then readl PRCM_ACK_MB0_WAKEUP_1_DBB w else readl PRCM_ACK_MB0_WAKEUP_0_DBB w)
          &&& w.dbb_irqs) 0 prcmu_irq_bit).map Event.generic_handle_irq ++
          [Event.reg_writel Reg.PRCM_ARM_IT1_CLR (MBOX_BIT 0)]
      else
        [Event.pr_warning 0 (readb PRCM_ACK_MB0_HEADER w),
          Event.reg_writel Reg.PRCM_ARM_IT1_CLR (MBOX_BIT 0)] := by
  apply new_events_append
  simp only [read_mailbox_0, dispatch_wakeups_eq, print_unknown_header_warning, reg_writel, emit]
  split <;> simp

theorem read_mailbox_1_events (w : World) :
    new_events w (read_mailbox_1 w).1 =
      if readb PRCM_ACK_MB1_HEADER w = MB1H_ARM_OPP ∨
          readb PRCM_ACK_MB1_HEADER w = MB1H_ARM_APE_OPP then
        [Event.reg_writel Reg.PRCM_ARM_IT1_CLR (MBOX_BIT 1), Event.complete Compl.mb1_work]
      else
        [Event.pr_warning 1 (readb PRCM_ACK_MB1_HEADER w),
          Event.reg_writel Reg.PRCM_ARM_IT1_CLR (MBOX_BIT 1)] := by
  apply new_events_append
  simp only [read_mailbox_1, print_unknown_header_warning, reg_writel, emit, complete,
    Compl.set_done, Compl.done]
  have e1 : ¬ MB1H_ARM_APE_OPP = MB1H_ARM_OPP := by decide
  by_cases h1 : readb PRCM_ACK_MB1_HEADER w = MB1H_ARM_OPP
  · simp [h1]
  · by_cases h2 : readb PRCM_ACK_MB1_HEADER w = MB1H_ARM_APE_OPP
    · simp [h2, e1]
    · simp [h1, h2]

theorem read_mailbox_2_events (w : World) :
    new_events w (read_mailbox_2 w).1 =
      if readb PRCM_ACK_MB2_HEADER w = MB2H_EPOD_REQUEST ∨
          readb PRCM_ACK_MB2_HEADER w = MB2H_CLK_REQUEST ∨
          readb PRCM_ACK_MB2_HEADER w = MB2H_PLL_REQUEST then
        [Event.reg_writel Reg.PRCM_ARM_IT1_CLR (MBOX_BIT 2), Event.complete Compl.mb2_work]
      else
        [Event.reg_writel Reg.PRCM_ARM_IT1_CLR (MBOX_BIT 2), Event.pr_err] := by
  apply new_events_append
  simp only [read_mailbox_2, reg_writel, emit, complete, Compl.set_done, Compl.done]
  have e1 : ¬ MB2H_CLK_REQUEST = MB2H_EPOD_REQUEST := by decide
  have e2 : ¬ MB2H_PLL_REQUEST = MB2H_EPOD_REQUEST := by decide
  have e3 : ¬ MB2H_PLL_REQUEST = MB2H_CLK_REQUEST := by decide
  by_cases h1 : readb PRCM_ACK_MB2_HEADER w = MB2H_EPOD_REQUEST
  · simp [h1]
  · by_cases h2 : readb PRCM_ACK_MB2_HEADER w = MB2H_CLK_REQUEST
    · simp [h2, e1]
    · by_cases h3 : readb PRCM_ACK_MB2_HEADER w = MB2H_PLL_REQUEST
      · simp [h3, e2, e3]
      · simp [h1, h2, h3]

theorem read_mailbox_3_events (w : World) :
    new_events w (read_mailbox_3 w).1 =
      if readb PRCM_ACK_MB3_HEADER w = MB3H_REFCLK_REQUEST then
        [Event.reg_writel Reg.PRCM_ARM_IT1_CLR (MBOX_BIT 3), Event.complete Compl.sysclk_work]
      else
        [Event.reg_writel Reg.PRCM_ARM_IT1_CLR (MBOX_BIT 3), Event.pr_err] := by
  apply new_events_append
  simp only [read_mailbox_3, reg_writel, emit, complete, Compl.set_done, Compl.done]
  by_cases h1 : readb PRCM_ACK_MB3_HEADER w = MB3H_REFCLK_REQUEST
  · simp [h1]
  · simp [h1]

theorem read_mailbox_5_events (w : World) :
    new_events w (read_mailbox_5 w).1 =
      if readb PRCM_ACK_MB5_HEADER w = MB5H_I2C_READ ∨
          readb PRCM_ACK_MB5_HEADER w = MB5H_I2C_WRITE then
        [Event.complete Compl.mb5_work, Event.reg_writel Reg.PRCM_ARM_IT1_CLR (MBOX_BIT 5)]
      else
        [Event.pr_warning 5 (readb PRCM_ACK_MB5_HEADER w),
          Event.reg_writel Reg.PRCM_ARM_IT1_CLR (MBOX_BIT 5)] := by
  apply new_events_append
  simp only [read_mailbox_5, print_unknown_header_warning, reg_writel, emit, complete,
    Compl.set_done, Compl.done]
  have e1 : ¬ MB5H_I2C_WRITE = MB5H_I2C_READ := by decide
  by_cases h1 : readb PRCM_ACK_MB5_HEADER w = MB5H_I2C_READ
  · simp [h1]
  · by_cases h2 : readb PRCM_ACK_MB5_HEADER w = MB5H_I2C_WRITE
    · simp [h2, e1]
    · simp [h1, h2]

theorem read_mailbox_4_events (w : World) :
    new_events w (read_mailbox_4 w).1 = [Event.reg_writel Reg.PRCM_ARM_IT1_CLR (MBOX_BIT 4)] :=
  new_events_append _ _ _ rfl

theorem read_mailbox_6_events (w : World) :
    new_events w (read_mailbox_6 w).1 = [Event.reg_writel Reg.PRCM_ARM_IT1_CLR (MBOX_BIT 6)] :=
  new_events_append _ _ _ rfl

theorem read_mailbox_7_events (w : World) :
    new_events w (read_mailbox_7 w).1 = [Event.reg_writel Reg.PRCM_ARM_IT1_CLR (MBOX_BIT 7)] :=
  new_events_append _ _ _ rfl

theorem it1_clears_dispatch (l : List Nat) :
    it1_clears (l.map Event.generic_handle_irq) = [] := by
  induction l with
  | nil => rfl
  | cons a l ih =>
    simp only [it1_clears, List.map_cons, List.filterMap_cons, it1_clr_value] at ih ⊢
    exact ih

/-- Every reader writes its own bit, once, to `PRCM_ARM_IT1_CLR`. -/
theorem read_mailbox_clears (n : Nat) (w w1 : World) (b : Bool)
    (h : read_mailbox n w = some (w1, b)) :
    it1_clears (new_events w w1) = [MBOX_BIT n] := by
  unfold read_mailbox at h
  split at h <;> simp only [Option.some.injEq, reduceCtorEq] at h
  · obtain rfl := congrArg Prod.fst h
    rw [read_mailbox_0_events]
    split
    · simp only [it1_clears, List.filterMap_append]
      have := it1_clears_dispatch
      simp only [it1_clears] at this
      rw [this]
      rfl
    · rfl
  · obtain rfl := congrArg Prod.fst h
    rw [read_mailbox_1_events]
    split <;> rfl
  · obtain rfl := congrArg Prod.fst h
    rw [read_mailbox_2_events]
    split <;> rfl
  · obtain rfl := congrArg Prod.fst h
    rw [read_mailbox_3_events]
    split <;> rfl
  · obtain rfl := congrArg Prod.fst h
    rw [read_mailbox_4_events]
    rfl
  · obtain rfl := congrArg Prod.fst h
    rw [read_mailbox_5_events]
    split <;> rfl
  · obtain rfl := congrArg Prod.fst h
    rw [read_mailbox_6_events]
    rfl
  · obtain rfl := congrArg Prod.fst h
    rw [read_mailbox_7_events]
    rfl

/-! ## The order in which the handler runs the readers -/

set_option maxRecDepth 100000 in
theorem mbox_bits_sub_iff : ∀ b : Fin 256, ∀ n : Fin 8, ∀ k : Fin 8,
    b.val &&& MBOX_BIT n.val ≠ 0 → n ≠ k →
      ((b.val - MBOX_BIT n.val) &&& MBOX_BIT k.val = 0 ↔ b.val &&& MBOX_BIT k.val = 0) := by
  decide

theorem mbox_bits_zero_of_low (b n : Nat) (hb : b < 256) (hn : 8 ≤ n) (h : b % 2 ^ n = 0) :
    b = 0 := by
  have : b < 2 ^ n := lt_of_lt_of_le hb (by
    calc 256 = 2 ^ 8 := by norm_num
      _ ≤ 2 ^ n := Nat.pow_le_pow_right (by norm_num) hn)
  rw [Nat.mod_eq_of_lt this] at h
  exact h

/-- The handler loop runs the readers of the pending mailboxes from `n` on, in
increasing order. -/
theorem irq_loop_eq : ∀ (fuel n bits : Nat) (r : irqreturn_t) (w : World),
    n ≤ 8 → bits < 256 → bits % 2 ^ n = 0 → 8 ≤ n + fuel →
    irq_loop fuel n bits r w =
      run_readers ((List.range' n (8 - n)).filter (fun k => bits &&& MBOX_BIT k ≠ 0)) r w := by
  intro fuel
  induction fuel with
  | zero =>
    intro n bits r w hn hb hlow hf
    have h8 : n = 8 := by omega
    subst h8
    have h0 := mbox_bits_zero_of_low bits 8 hb (le_refl _) hlow
    subst h0
    rfl
  | succ fuel ih =>
    intro n bits r w hn hb hlow hf
    by_cases h0 : bits = 0
    · subst h0
      have : (List.range' n (8 - n)).filter (fun k => 0 &&& MBOX_BIT k ≠ 0) = [] := by
        rw [List.filter_eq_nil_iff]
        intro k _
        simp
      rw [this]
      simp [irq_loop, run_readers]
    · have hn8 : n < 8 := by
        by_contra hc
        exact h0 (mbox_bits_zero_of_low bits n hb (by omega) hlow)
      have hr : List.range' n (8 - n) = n :: List.range' (n + 1) (8 - (n + 1)) := by
        have : 8 - n = (8 - (n + 1)) + 1 := by omega
        rw [this, List.range'_succ]
      have hlo := mbox_bits_low ⟨bits, hb⟩ ⟨n, hn8⟩ hlow
      simp only [irq_loop, if_neg h0]
      by_cases hbit : bits &&& MBOX_BIT n = 0
      · have hnot : ¬ (bits &&& MBOX_BIT n ≠ 0) := fun hc => hc hbit
        rw [if_neg hnot, ih (n + 1) bits r w (by omega) hb (hlo.2 hbit) (by omega), hr,
          List.filter_cons_of_neg (by simpa using hbit)]
      · have hpos : bits &&& MBOX_BIT n ≠ 0 := hbit
        rw [if_pos hpos, hr, List.filter_cons_of_pos (by simpa using hbit)]
        obtain ⟨p, hp⟩ := read_mailbox_lt n hn8 w
        obtain ⟨w1, wake⟩ := p
        simp only [run_readers, hp]
        have hsub : bits - MBOX_BIT n < 256 := lt_of_le_of_lt (Nat.sub_le _ _) hb
        rw [ih (n + 1) (bits - MBOX_BIT n) _ w1 (by omega) hsub (hlo.1 hpos) (by omega)]
        congr 1
        apply List.filter_congr
        intro k hk
        rw [List.mem_range'_1] at hk
        have hk8 : k < 8 := by omega
        have hne : (⟨n, hn8⟩ : Fin 8) ≠ ⟨k, hk8⟩ := by
          intro hc
          have := congrArg Fin.val hc
          simp only at this
          omega
        have := mbox_bits_sub_iff ⟨bits, hb⟩ ⟨n, hn8⟩ ⟨k, hk8⟩ hpos hne
        simp only at this
        simp only [ne_eq, decide_not, this]

set_option maxRecDepth 100000 in
theorem all_mbox_bits_and : ∀ k : Fin 8, ALL_MBOX_BITS &&& MBOX_BIT k.val = MBOX_BIT k.val := by
  decide

theorem and_all_mbox_bits_bit (v k : Nat) (hk : k < 8) :
    (v &&& ALL_MBOX_BITS) &&& MBOX_BIT k = v &&& MBOX_BIT k := by
  rw [Nat.land_assoc]
  have := all_mbox_bits_and ⟨k, hk⟩
  simp only at this
  rw [this]

/-- The handler runs the readers of the pending mailboxes in increasing order. -/
theorem prcmu_irq_handler_eq (v : Nat) (w : World) :
    prcmu_irq_handler v w =
      if v &&& ALL_MBOX_BITS = 0 then some (w, irqreturn_t.IRQ_NONE)
      else run_readers (pending_mailboxes v) irqreturn_t.IRQ_HANDLED w := by
  simp only [prcmu_irq_handler]
  split
  · rfl
  · rw [irq_loop_eq 256 0 _ _ w (by omega) (and_all_mbox_bits_lt v) (Nat.mod_one _) (by omega)]
    congr 1
    simp only [pending_mailboxes, NUM_MB, List.range_eq_range', Nat.sub_zero]
    apply List.filter_congr
    intro k hk
    rw [List.mem_range'_1] at hk
    rw [and_all_mbox_bits_bit v k (by omega)]

theorem run_readers_isSome : ∀ (ns : List Nat) (r : irqreturn_t) (w : World),
    (∀ n ∈ ns, n < 8) → ∃ p, run_readers ns r w = some p := by
  intro ns
  induction ns with
  | nil => intro r w _; exact ⟨_, rfl⟩
  | cons n ns ih =>
    intro r w h
    obtain ⟨p, hp⟩ := read_mailbox_lt n (h n (List.mem_cons_self _ _)) w
    obtain ⟨w1, wake⟩ := p
    simp only [run_readers, hp]
    exact ih _ _ (fun k hk => h k (List.mem_cons_of_mem _ hk))

theorem new_events_trans (w w1 w2 : World) (a b : List Event)
    (h1 : w1.trace = w.trace ++ a) (h2 : w2.trace = w1.trace ++ b) :
    new_events w w2 = new_events w w1 ++ new_events w1 w2 := by
  rw [new_events_append w w1 a h1, new_events_append w1 w2 b h2,
    new_events_append w w2 (a ++ b) (by rw [h2, h1, List.append_assoc])]

theorem run_readers_trace : ∀ (ns : List Nat) (r : irqreturn_t) (w w1 : World)
    (r1 : irqreturn_t), run_readers ns r w = some (w1, r1) →
    ∃ evs, w1.trace = w.trace ++ evs := by
  intro ns
  induction ns with
  | nil =>
    intro r w w1 r1 h
    simp only [run_readers, Option.some.injEq, Prod.mk.injEq] at h
    exact ⟨[], by rw [← h.1]; simp⟩
  | cons n ns ih =>
    intro r w w1 r1 h
    simp only [run_readers] at h
    cases hp : read_mailbox n w with
    | none => rw [hp] at h; simp at h
    | some p =>
      obtain ⟨w0, wake⟩ := p
      rw [hp] at h
      obtain ⟨a, ha, _⟩ := read_mailbox_trace n w w0 wake hp
      obtain ⟨b, hb⟩ := ih _ _ _ _ h
      exact ⟨a ++ b, by rw [hb, ha, List.append_assoc]⟩

/-- The writes to `PRCM_ARM_IT1_CLR` made while the readers of `ns` run are the
bits of `ns`, in order. -/
theorem run_readers_clears : ∀ (ns : List Nat) (r : irqreturn_t) (w w1 : World)
    (r1 : irqreturn_t), run_readers ns r w = some (w1, r1) →
    it1_clears (new_events w w1) = ns.map MBOX_BIT := by
  intro ns
  induction ns with
  | nil =>
    intro r w w1 r1 h
    simp only [run_readers, Option.some.injEq, Prod.mk.injEq] at h
    rw [← h.1, new_events_append w w [] (by simp)]
    rfl
  | cons n ns ih =>
    intro r w w1 r1 h
    simp only [run_readers] at h
    cases hp : read_mailbox n w with
    | none => rw [hp] at h; simp at h
    | some p =>
      obtain ⟨w0, wake⟩ := p
      rw [hp] at h
      obtain ⟨a, ha, _⟩ := read_mailbox_trace n w w0 wake hp
      obtain ⟨b, hb⟩ := run_readers_trace _ _ _ _ _ h
      rw [new_events_trans w w0 w1 a b ha hb]
      simp only [it1_clears, List.filterMap_append, List.map_cons]
      have h1 := read_mailbox_clears n w w0 wake hp
      have h2 := ih _ _ _ _ h
      simp only [it1_clears] at h1 h2
      rw [h1, h2]
      rfl

theorem run_readers_result : ∀ (ns : List Nat) (r : irqreturn_t) (w w1 : World)
    (r1 : irqreturn_t), run_readers ns r w = some (w1, r1) →
    r ≠ irqreturn_t.IRQ_NONE → r1 ≠ irqreturn_t.IRQ_NONE := by
  intro ns
  induction ns with
  | nil =>
    intro r w w1 r1 h hr
    simp only [run_readers, Option.some.injEq, Prod.mk.injEq] at h
    rw [← h.2]
    exact hr
  | cons n ns ih =>
    intro r w w1 r1 h hr
    simp only [run_readers] at h
    cases hp : read_mailbox n w with
    | none => rw [hp] at h; simp at h
    | some p =>
      obtain ⟨w0, wake⟩ := p
      rw [hp] at h
      refine ih _ _ _ _ h ?_
      cases wake
      · exact hr
      · simp

/-! ## C17 -/

/-- C17: for every value `v` of `PRCM_ARM_IT1_VAL`, `prcmu_irq_handler` returns, and
it runs `read_mailbox[n]` once for each `n` in `0..7` with bit `n` set in `v`, in
strictly increasing `n`, and no other reader: the handler is the readers of
`pending_mailboxes v` run in the order of that list, and its writes to
`PRCM_ARM_IT1_CLR` are the bits of that list in that order.  It returns
`IRQ_NONE` exactly when `(v & 0xFF) == 0`, and then it has run no reader and
changed nothing.  The argument `v` is what the one `readl(PRCM_ARM_IT1_VAL)` at
the head of the handler yields. -/
theorem irq_handler_demux_order (v : Nat) (w : World) :
    prcmu_irq_handler v w =
      (if v &&& 0xFF = 0 then some (w, irqreturn_t.IRQ_NONE)
       else run_readers (pending_mailboxes v) irqreturn_t.IRQ_HANDLED w) ∧
    (∀ n, n ∈ pending_mailboxes v ↔ n < 8 ∧ v &&& MBOX_BIT n ≠ 0) ∧
    (pending_mailboxes v).Pairwise (fun a b => a < b) ∧
    (∃ w1 r, prcmu_irq_handler v w = some (w1, r) ∧
      it1_clears (new_events w w1) = (pending_mailboxes v).map MBOX_BIT ∧
      (r = irqreturn_t.IRQ_NONE ↔ v &&& 0xFF = 0) ∧
      (v &&& 0xFF = 0 → w1 = w ∧ pending_mailboxes v = [])) := by
  have hmem : ∀ n, n ∈ pending_mailboxes v ↔ n < 8 ∧ v &&& MBOX_BIT n ≠ 0 := by
    intro n
    simp [pending_mailboxes, NUM_MB]
  have hall : ALL_MBOX_BITS = 0xFF := by decide
  have heq := prcmu_irq_handler_eq v w
  rw [hall] at heq
  refine ⟨heq, hmem, ?_, ?_⟩
  · exact List.Pairwise.sublist (List.filter_sublist _) (List.pairwise_lt_range _)
  · by_cases h0 : v &&& 0xFF = 0
    · have hnil : pending_mailboxes v = [] := by
        rw [List.eq_nil_iff_forall_not_mem]
        intro n hn
        obtain ⟨hn8, hbit⟩ := (hmem n).mp hn
        apply hbit
        rw [← and_all_mbox_bits_bit v n hn8, hall, h0]
        simp
      refine ⟨w, irqreturn_t.IRQ_NONE, ?_, ?_, ?_, ?_⟩
      · rw [heq, if_pos h0]
      · rw [hnil, new_events_append w w [] (by simp)]
        rfl
      · exact ⟨fun _ => h0, fun _ => rfl⟩
      · exact fun _ => ⟨rfl, hnil⟩
    · obtain ⟨p, hp⟩ := run_readers_isSome (pending_mailboxes v) irqreturn_t.IRQ_HANDLED w
        (fun n hn => ((hmem n).mp hn).1)
      obtain ⟨w1, r⟩ := p
      refine ⟨w1, r, ?_, ?_, ?_, ?_⟩
      · rw [heq, if_neg h0, hp]
      · exact run_readers_clears _ _ _ _ _ hp
      · exact ⟨fun hr => absurd hr (run_readers_result _ _ _ _ _ hp (by simp)),
          fun hc => absurd hc h0⟩
      · exact fun hc => absurd hc h0

theorem irq_handler_demux_order_witness :
    (∃ w1 r, prcmu_irq_handler 0x125 World.sample = some (w1, r) ∧
      it1_clears (new_events World.sample w1) = [MBOX_BIT 0, MBOX_BIT 2, MBOX_BIT 5] ∧
      r ≠ irqreturn_t.IRQ_NONE) ∧
    prcmu_irq_handler 0x300 World.sample = some (World.sample, irqreturn_t.IRQ_NONE) := by
  obtain ⟨h1, _, _, w1, r, hr, hclr, hiff, _⟩ := irq_handler_demux_order 0x125 World.sample
  refine ⟨⟨w1, r, hr, ?_, ?_⟩, ?_⟩
  · rw [hclr]
    decide
  · intro hc
    exact absurd (hiff.mp hc) (by decide)
  · have := (irq_handler_demux_order 0x300 World.sample).1
    rw [if_pos (by decide)] at this
    exact this

/-! ## Readers and completion objects -/

theorem read_mailbox_1_known (w : World)
    (h : readb PRCM_ACK_MB1_HEADER w = MB1H_ARM_OPP ∨
      readb PRCM_ACK_MB1_HEADER w = MB1H_ARM_APE_OPP) :
    (read_mailbox_1 w).1.mb1_done = w.mb1_done + 1 ∧
    (read_mailbox_1 w).1.mb1_ack_header = readb PRCM_ACK_MB1_HEADER w ∧
    (readb PRCM_ACK_MB1_HEADER w = MB1H_ARM_OPP →
      (read_mailbox_1 w).1.mb1_ack_arm_opp = readb PRCM_ACK_MB1_CURRENT_ARM_OPP w ∧
      (read_mailbox_1 w).1.mb1_ack_arm_voltage_st = readb PRCM_ACK_MB1_ARM_VOLT_STATUS w ∧
      (read_mailbox_1 w).1.mb1_ack_ape_opp = w.mb1_ack_ape_opp ∧
      (read_mailbox_1 w).1.mb1_ack_ape_voltage_st = w.mb1_ack_ape_voltage_st) ∧
    (readb PRCM_ACK_MB1_HEADER w = MB1H_ARM_APE_OPP →
      (read_mailbox_1 w).1.mb1_ack_ape_opp = readb PRCM_ACK_MB1_CURRENT_APE_OPP w ∧
      (read_mailbox_1 w).1.mb1_ack_ape_voltage_st = readb PRCM_ACK_MB1_APE_VOLT_STATUS w ∧
      (read_mailbox_1 w).1.mb1_ack_arm_opp = w.mb1_ack_arm_opp ∧
      (read_mailbox_1 w).1.mb1_ack_arm_voltage_st = w.mb1_ack_arm_voltage_st) := by
  have e1 : ¬ MB1H_ARM_APE_OPP = MB1H_ARM_OPP := by decide
  have e2 : ¬ MB1H_ARM_OPP = MB1H_ARM_APE_OPP := by decide
  simp only [read_mailbox_1, print_unknown_header_warning, reg_writel, emit, complete,
    Compl.set_done, Compl.done, readb]
  simp only [readb] at h
  rcases h with h | h
  · simp [h, e2]
  · simp [h, e1]

theorem read_mailbox_1_unknown (w : World)
    (h1 : readb PRCM_ACK_MB1_HEADER w ≠ MB1H_ARM_OPP)
    (h2 : readb PRCM_ACK_MB1_HEADER w ≠ MB1H_ARM_APE_OPP) :
    (∀ c : Compl, c.done (read_mailbox_1 w).1 = c.done w) ∧
    (read_mailbox_1 w).1.mb1_ack_header = readb PRCM_ACK_MB1_HEADER w ∧
    (read_mailbox_1 w).1.mb1_ack_arm_opp = w.mb1_ack_arm_opp ∧
    (read_mailbox_1 w).1.mb1_ack_arm_voltage_st = w.mb1_ack_arm_voltage_st ∧
    (read_mailbox_1 w).1.mb1_ack_ape_opp = w.mb1_ack_ape_opp ∧
    (read_mailbox_1 w).1.mb1_ack_ape_voltage_st = w.mb1_ack_ape_voltage_st := by
  simp only [read_mailbox_1, print_unknown_header_warning, reg_writel, emit, complete,
    Compl.set_done, Compl.done, readb]
  simp only [readb, ne_eq] at h1 h2
  refine ⟨fun c => ?_, ?_⟩
  · cases c <;> simp [h1, h2, Compl.done]
  · simp [h1, h2]

theorem read_mailbox_2_known (w : World)
    (h : readb PRCM_ACK_MB2_HEADER w = MB2H_EPOD_REQUEST ∨
      readb PRCM_ACK_MB2_HEADER w = MB2H_CLK_REQUEST ∨
      readb PRCM_ACK_MB2_HEADER w = MB2H_PLL_REQUEST) :
    (read_mailbox_2 w).1.mb2_done = w.mb2_done + 1 ∧
    (read_mailbox_2 w).1.mb2_ack_header = readb PRCM_ACK_MB2_HEADER w ∧
    (read_mailbox_2 w).1.mb2_ack_status =
      (if readb PRCM_ACK_MB2_HEADER w = MB2H_EPOD_REQUEST then readb PRCM_ACK_MB2_EPOD_STATUS w
       else if readb PRCM_ACK_MB2_HEADER w = MB2H_CLK_REQUEST then readb PRCM_ACK_MB2_CLK_STATUS w
       else readb PRCM_ACK_MB2_PLL_STATUS w) := by
  have e1 : ¬ MB2H_CLK_REQUEST = MB2H_EPOD_REQUEST := by decide
  have e2 : ¬ MB2H_PLL_REQUEST = MB2H_EPOD_REQUEST := by decide
  have e3 : ¬ MB2H_PLL_REQUEST = MB2H_CLK_REQUEST := by decide
  simp only [read_mailbox_2, reg_writel, emit, complete, Compl.set_done, Compl.done, readb]
  simp only [readb] at h
  rcases h with h | h | h
  · simp [h]
  · simp [h, e1]
  · simp [h, e2, e3]

theorem read_mailbox_2_unknown (w : World)
    (h1 : readb PRCM_ACK_MB2_HEADER w ≠ MB2H_EPOD_REQUEST)
    (h2 : readb PRCM_ACK_MB2_HEADER w ≠ MB2H_CLK_REQUEST)
    (h3 : readb PRCM_ACK_MB2_HEADER w ≠ MB2H_PLL_REQUEST) :
    (∀ c : Compl, c.done (read_mailbox_2 w).1 = c.done w) ∧
    (read_mailbox_2 w).1.mb2_ack_header = readb PRCM_ACK_MB2_HEADER w ∧
    (read_mailbox_2 w).1.mb2_ack_status = w.mb2_ack_status := by
  simp only [read_mailbox_2, reg_writel, emit, complete, Compl.set_done, Compl.done, readb]
  simp only [readb, ne_eq] at h1 h2 h3
  refine ⟨fun c => ?_, ?_⟩
  · cases c <;> simp [h1, h2, h3, Compl.done]
  · simp [h1, h2, h3]

theorem read_mailbox_3_known (w : World)
    (h : readb PRCM_ACK_MB3_HEADER w = MB3H_REFCLK_REQUEST) :
    (read_mailbox_3 w).1.mb3_done = w.mb3_done + 1 ∧
    (read_mailbox_3 w).1.mb3_ack_header = MB3H_REFCLK_REQUEST ∧
    (read_mailbox_3 w).1.mb3_ack_status = readb PRCM_ACK_MB3_REFCLK_REQ w := by
  simp only [read_mailbox_3, reg_writel, emit, complete, Compl.set_done, Compl.done, readb]
  simp only [readb] at h
  simp [h]

theorem read_mailbox_3_unknown (w : World)
    (h1 : readb PRCM_ACK_MB3_HEADER w ≠ MB3H_REFCLK_REQUEST) :
    (∀ c : Compl, c.done (read_mailbox_3 w).1 = c.done w) ∧
    (read_mailbox_3 w).1.mb3_ack_header = readb PRCM_ACK_MB3_HEADER w ∧
    (read_mailbox_3 w).1.mb3_ack_status = w.mb3_ack_status := by
  simp only [read_mailbox_3, reg_writel, emit, complete, Compl.set_done, Compl.done, readb]
  simp only [readb, ne_eq] at h1
  refine ⟨fun c => ?_, ?_⟩
  · cases c <;> simp [h1, Compl.done]
  · simp [h1]

theorem read_mailbox_5_known (w : World)
    (h : readb PRCM_ACK_MB5_HEADER w = MB5H_I2C_WRITE ∨
      readb PRCM_ACK_MB5_HEADER w = MB5H_I2C_READ) :
    (read_mailbox_5 w).1.mb5_done = w.mb5_done + 1 ∧
    (read_mailbox_5 w).1.mb5_ack_header = readb PRCM_ACK_MB5_HEADER w ∧
    (read_mailbox_5 w).1.mb5_ack_status = readb PRCM_ACK_MB5_RETURN_CODE w ∧
    (read_mailbox_5 w).1.mb5_ack_value =
      (if readb PRCM_ACK_MB5_HEADER w = MB5H_I2C_READ then memcpy_fromio PRCM_ACK_MB5_I2C_DATA 4 w
       else w.mb5_ack_value) := by
  have e1 : ¬ MB5H_I2C_WRITE = MB5H_I2C_READ := by decide
  simp only [read_mailbox_5, print_unknown_header_warning, reg_writel, emit, complete,
    Compl.set_done, Compl.done, readb, memcpy_fromio]
  simp only [readb] at h
  rcases h with h | h
  · simp [h, e1]
  · simp [h]

theorem read_mailbox_5_unknown (w : World)
    (h1 : readb PRCM_ACK_MB5_HEADER w ≠ MB5H_I2C_WRITE)
    (h2 : readb PRCM_ACK_MB5_HEADER w ≠ MB5H_I2C_READ) :
    (∀ c : Compl, c.done (read_mailbox_5 w).1 = c.done w) ∧
    mb5_view (read_mailbox_5 w).1 = mb5_view w := by
  simp only [read_mailbox_5, print_unknown_header_warning, reg_writel, emit, complete,
    Compl.set_done, Compl.done, readb, mb5_view]
  simp only [readb, ne_eq] at h1 h2
  refine ⟨fun c => ?_, ?_⟩
  · cases c <;> simp [h1, h2, Compl.done]
  · simp [h1, h2]

theorem read_mailbox_0_result (w : World) :
    (∀ c : Compl, c.done (read_mailbox_0 w).1 = c.done w) ∧
    ((read_mailbox_0 w).2 = true ↔ readb PRCM_ACK_MB0_HEADER w = MB0H_WAKE_UP) := by
  simp only [read_mailbox_0, dispatch_wakeups_eq, print_unknown_header_warning, reg_writel, emit]
  refine ⟨fun c => ?_, ?_⟩
  · cases c <;> (simp only [Compl.done]; split <;> rfl)
  · split <;> simp_all

theorem mb5_ack_header_byte (h rc d0 d1 d2 d3 : Nat) (w : World) :
    readb PRCM_ACK_MB5_HEADER
      { w with tcdm := apply_stores (Irq.mb5_ack h rc d0 d1 d2 d3).stores w.tcdm } = h % 256 := by
  simp [readb, Irq.mb5_ack, apply_stores, store, PRCM_ACK_MB5_HEADER, PRCM_MB_HEADER,
    PRCM_ACK_MB5_RETURN_CODE, PRCM_ACK_MB5_I2C_DATA, PRCM_ACK_MB5]

theorem wait_nil_blocked (c : Compl) (w : World) (h : c.done w = 0) :
    wait_for_completion c [] w = none := by
  simp [wait_for_completion, h]

/-- A mailbox-2 acknowledge with a header `read_mailbox_2` has no case for leaves
a wait on the mailbox-2 completion to time out. -/
theorem wait_unknown_mb2 (w : World) (hd : w.mb2_done = 0) (h se sc sp : Nat)
    (hk : ¬ (h % 256 = MB2H_EPOD_REQUEST ∨ h % 256 = MB2H_CLK_REQUEST ∨
      h % 256 = MB2H_PLL_REQUEST)) :
    ∃ w1, wait_for_completion_timeout Compl.mb2_work [Irq.mb2_ack h se sc sp] w =
      some (w1, false) := by
  rw [wait_timeout_cons _ _ _ _ (by simpa [Compl.done] using hd), interrupt_mb2_ack,
    Option.some_bind, read_mailbox_2_mb2_ack, if_neg hk,
    wait_timeout_nil _ _ (by simpa [Compl.done, emit] using hd)]
  exact ⟨_, rfl⟩

theorem wait_unknown_mb3 (w : World) (hd : w.mb3_done = 0) (h s : Nat)
    (hk : ¬ h % 256 = MB3H_REFCLK_REQUEST) :
    ∃ w1, wait_for_completion_timeout Compl.sysclk_work [Irq.mb3_ack h s] w =
      some (w1, false) := by
  rw [wait_timeout_cons _ _ _ _ (by simpa [Compl.done] using hd), interrupt_mb3_ack,
    Option.some_bind, read_mailbox_3_mb3_ack, if_neg hk,
    wait_timeout_nil _ _ (by simpa [Compl.done, emit] using hd)]
  exact ⟨_, rfl⟩

theorem wait_unknown_mb5 (w : World) (hd : w.mb5_done = 0) (h rc d0 d1 d2 d3 : Nat)
    (hk : ¬ (h % 256 = MB5H_I2C_WRITE ∨ h % 256 = MB5H_I2C_READ)) :
    wait_for_completion Compl.mb5_work [Irq.mb5_ack h rc d0 d1 d2 d3] w = none := by
  rw [wait_cons _ _ _ _ (by simpa [Compl.done] using hd), interrupt_mb5_ack, Option.some_bind]
  apply wait_nil_blocked
  have hb := mb5_ack_header_byte h rc d0 d1 d2 d3 w
  have := (read_mailbox_5_unknown
    { w with tcdm := apply_stores (Irq.mb5_ack h rc d0 d1 d2 d3).stores w.tcdm }
    (by rw [hb]; exact fun hc => hk (Or.inl hc))
    (by rw [hb]; exact fun hc => hk (Or.inr hc))).1 Compl.mb5_work
  rw [this]
  exact hd

/-! ## C18 -/

/-- C18: when the acknowledge header byte is not one of the values the reader's
switch has a case for, `read_mailbox_1`, `read_mailbox_2`, `read_mailbox_3` and
`read_mailbox_5` signal no completion object (no `complete` call, every
completion count as before), and `read_mailbox_0` dispatches no virtual
interrupt and returns false, so the wake thread is not requested.  A waiter is
not woken by such an acknowledge: a wait on the mailbox-2 or mailbox-3
completion that receives only this acknowledge times out, and the wait without
timeout on the mailbox-5 completion does not return. -/
theorem unknown_header_no_completion (w : World) :
    (readb PRCM_ACK_MB1_HEADER w ≠ MB1H_ARM_OPP →
      readb PRCM_ACK_MB1_HEADER w ≠ MB1H_ARM_APE_OPP →
      completions (new_events w (read_mailbox_1 w).1) = [] ∧
      ∀ c : Compl, c.done (read_mailbox_1 w).1 = c.done w) ∧
    (readb PRCM_ACK_MB2_HEADER w ≠ MB2H_EPOD_REQUEST →
      readb PRCM_ACK_MB2_HEADER w ≠ MB2H_CLK_REQUEST →
      readb PRCM_ACK_MB2_HEADER w ≠ MB2H_PLL_REQUEST →
      completions (new_events w (read_mailbox_2 w).1) = [] ∧
      ∀ c : Compl, c.done (read_mailbox_2 w).1 = c.done w) ∧
    (readb PRCM_ACK_MB3_HEADER w ≠ MB3H_REFCLK_REQUEST →
      completions (new_events w (read_mailbox_3 w).1) = [] ∧
      ∀ c : Compl, c.done (read_mailbox_3 w).1 = c.done w) ∧
    (readb PRCM_ACK_MB5_HEADER w ≠ MB5H_I2C_WRITE →
      readb PRCM_ACK_MB5_HEADER w ≠ MB5H_I2C_READ →
      completions (new_events w (read_mailbox_5 w).1) = [] ∧
      ∀ c : Compl, c.done (read_mailbox_5 w).1 = c.done w) ∧
    (readb PRCM_ACK_MB0_HEADER w ≠ MB0H_WAKE_UP →
      dispatches (new_events w (read_mailbox_0 w).1) = [] ∧ (read_mailbox_0 w).2 = false ∧
      completions (new_events w (read_mailbox_0 w).1) = []) ∧
    (w.mb2_done = 0 → ∀ h se sc sp,
      ¬ (h % 256 = MB2H_EPOD_REQUEST ∨ h % 256 = MB2H_CLK_REQUEST ∨
        h % 256 = MB2H_PLL_REQUEST) →
      ∃ w1, wait_for_completion_timeout Compl.mb2_work [Irq.mb2_ack h se sc sp] w =
        some (w1, false)) ∧
    (w.mb3_done = 0 → ∀ h s, ¬ h % 256 = MB3H_REFCLK_REQUEST →
      ∃ w1, wait_for_completion_timeout Compl.sysclk_work [Irq.mb3_ack h s] w =
        some (w1, false)) ∧
    (w.mb5_done = 0 → ∀ h rc d0 d1 d2 d3,
      ¬ (h % 256 = MB5H_I2C_WRITE ∨ h % 256 = MB5H_I2C_READ) →
      wait_for_completion Compl.mb5_work [Irq.mb5_ack h rc d0 d1 d2 d3] w = none) := by
  refine ⟨?_, ?_, ?_, ?_, ?_, fun hd h se sc sp hk => wait_unknown_mb2 w hd h se sc sp hk,
    fun hd h s hk => wait_unknown_mb3 w hd h s hk,
    fun hd h rc d0 d1 d2 d3 hk => wait_unknown_mb5 w hd h rc d0 d1 d2 d3 hk⟩
  · intro h1 h2
    refine ⟨?_, (read_mailbox_1_unknown w h1 h2).1⟩
    rw [read_mailbox_1_events, if_neg (by rintro (h | h) <;> contradiction)]
    rfl
  · intro h1 h2 h3
    refine ⟨?_, (read_mailbox_2_unknown w h1 h2 h3).1⟩
    rw [read_mailbox_2_events, if_neg (by rintro (h | h | h) <;> contradiction)]
    rfl
  · intro h1
    refine ⟨?_, (read_mailbox_3_unknown w h1).1⟩
    rw [read_mailbox_3_events, if_neg h1]
    rfl
  · intro h1 h2
    refine ⟨?_, (read_mailbox_5_unknown w h1 h2).1⟩
    rw [read_mailbox_5_events, if_neg (by rintro (h | h) <;> contradiction)]
    rfl
  · intro h0
    have hr := (read_mailbox_0_result w).2
    refine ⟨?_, ?_, ?_⟩
    · rw [read_mailbox_0_events, if_neg h0]
      rfl
    · cases hb : (read_mailbox_0 w).2
      · rfl
      · exact absurd (hr.mp hb) h0
    · rw [read_mailbox_0_events, if_neg h0]
      rfl

theorem unknown_header_no_completion_witness :
    (completions (new_events World.sample (read_mailbox_1 World.sample).1) = [] ∧
      ∀ c : Compl, c.done (read_mailbox_1 World.sample).1 = c.done World.sample) ∧
    (∃ w1, wait_for_completion_timeout Compl.mb2_work [Irq.mb2_ack 7 0 0 0] World.sample =
      some (w1, false)) ∧
    wait_for_completion Compl.mb5_work [Irq.mb5_ack 9 0 0 0 0 0] World.sample = none :=
  ⟨(unknown_header_no_completion World.sample).1 (by decide) (by decide),
    (unknown_header_no_completion World.sample).2.2.2.2.2.1 (by decide) 7 0 0 0 (by decide),
    (unknown_header_no_completion World.sample).2.2.2.2.2.2.2 (by decide) 9 0 0 0 0 0
      (by decide)⟩

/-! ## C19 -/

/-- C19: `read_mailbox_1` has no case for the header `MB1H_APE_OPP` of
`enum mb1_header`: it stages the header, logs the unknown-header warning, clears
its interrupt bit, copies no APE field and does not signal `mb1_transfer.work`.
For every other header of the enumerations (mailbox 1: `MB1H_ARM_OPP`,
`MB1H_ARM_APE_OPP`; mailbox 2: `MB2H_EPOD_REQUEST`, `MB2H_CLK_REQUEST`,
`MB2H_PLL_REQUEST`; mailbox 3: `MB3H_REFCLK_REQUEST`; mailbox 5:
`MB5H_I2C_WRITE`, `MB5H_I2C_READ`) the reader stages the header and the fields of
that header and signals the mailbox's completion object once. -/
theorem known_header_release (w : World) :
    (readb PRCM_ACK_MB1_HEADER w = MB1H_APE_OPP →
      new_events w (read_mailbox_1 w).1 =
        [ Event.pr_warning 1 MB1H_APE_OPP,
          Event.reg_writel Reg.PRCM_ARM_IT1_CLR (MBOX_BIT 1) ] ∧
      completions (new_events w (read_mailbox_1 w).1) = [] ∧
      (read_mailbox_1 w).1.mb1_done = w.mb1_done ∧
      (read_mailbox_1 w).1.mb1_ack_header = MB1H_APE_OPP ∧
      (read_mailbox_1 w).1.mb1_ack_ape_opp = w.mb1_ack_ape_opp ∧
      (read_mailbox_1 w).1.mb1_ack_ape_voltage_st = w.mb1_ack_ape_voltage_st) ∧
    (readb PRCM_ACK_MB1_HEADER w = MB1H_ARM_OPP →
      completions (new_events w (read_mailbox_1 w).1) = [Compl.mb1_work] ∧
      (read_mailbox_1 w).1.mb1_done = w.mb1_done + 1 ∧
      (read_mailbox_1 w).1.mb1_ack_header = MB1H_ARM_OPP ∧
      (read_mailbox_1 w).1.mb1_ack_arm_opp = readb PRCM_ACK_MB1_CURRENT_ARM_OPP w ∧
      (read_mailbox_1 w).1.mb1_ack_arm_voltage_st = readb PRCM_ACK_MB1_ARM_VOLT_STATUS w) ∧
    (readb PRCM_ACK_MB1_HEADER w = MB1H_ARM_APE_OPP →
      completions (new_events w (read_mailbox_1 w).1) = [Compl.mb1_work] ∧
      (read_mailbox_1 w).1.mb1_done = w.mb1_done + 1 ∧
      (read_mailbox_1 w).1.mb1_ack_header = MB1H_ARM_APE_OPP ∧
      (read_mailbox_1 w).1.mb1_ack_ape_opp = readb PRCM_ACK_MB1_CURRENT_APE_OPP w ∧
      (read_mailbox_1 w).1.mb1_ack_ape_voltage_st = readb PRCM_ACK_MB1_APE_VOLT_STATUS w) ∧
    (∀ h st, (h, st) ∈ [(MB2H_EPOD_REQUEST, PRCM_ACK_MB2_EPOD_STATUS),
        (MB2H_CLK_REQUEST, PRCM_ACK_MB2_CLK_STATUS),
        (MB2H_PLL_REQUEST, PRCM_ACK_MB2_PLL_STATUS)] →
      readb PRCM_ACK_MB2_HEADER w = h →
      completions (new_events w (read_mailbox_2 w).1) = [Compl.mb2_work] ∧
      (read_mailbox_2 w).1.mb2_done = w.mb2_done + 1 ∧
      (read_mailbox_2 w).1.mb2_ack_header = h ∧
      (read_mailbox_2 w).1.mb2_ack_status = readb st w) ∧
    (readb PRCM_ACK_MB3_HEADER w = MB3H_REFCLK_REQUEST →
      completions (new_events w (read_mailbox_3 w).1) = [Compl.sysclk_work] ∧
      (read_mailbox_3 w).1.mb3_done = w.mb3_done + 1 ∧
      (read_mailbox_3 w).1.mb3_ack_header = MB3H_REFCLK_REQUEST ∧
      (read_mailbox_3 w).1.mb3_ack_status = readb PRCM_ACK_MB3_REFCLK_REQ w) ∧
    (readb PRCM_ACK_MB5_HEADER w = MB5H_I2C_WRITE →
      completions (new_events w (read_mailbox_5 w).1) = [Compl.mb5_work] ∧
      (read_mailbox_5 w).1.mb5_done = w.mb5_done + 1 ∧
      (read_mailbox_5 w).1.mb5_ack_header = MB5H_I2C_WRITE ∧
      (read_mailbox_5 w).1.mb5_ack_status = readb PRCM_ACK_MB5_RETURN_CODE w) ∧
    (readb PRCM_ACK_MB5_HEADER w = MB5H_I2C_READ →
      completions (new_events w (read_mailbox_5 w).1) = [Compl.mb5_work] ∧
      (read_mailbox_5 w).1.mb5_done = w.mb5_done + 1 ∧
      (read_mailbox_5 w).1.mb5_ack_header = MB5H_I2C_READ ∧
      (read_mailbox_5 w).1.mb5_ack_status = readb PRCM_ACK_MB5_RETURN_CODE w ∧
      (read_mailbox_5 w).1.mb5_ack_value = memcpy_fromio PRCM_ACK_MB5_I2C_DATA 4 w) := by
  refine ⟨?_, ?_, ?_, ?_, ?_, ?_, ?_⟩
  · intro h
    have h1 : readb PRCM_ACK_MB1_HEADER w ≠ MB1H_ARM_OPP := by rw [h]; decide
    have h2 : readb PRCM_ACK_MB1_HEADER w ≠ MB1H_ARM_APE_OPP := by rw [h]; decide
    obtain ⟨hd, hh, _, _, ha, hv⟩ := read_mailbox_1_unknown w h1 h2
    have he : new_events w (read_mailbox_1 w).1 =
        [ Event.pr_warning 1 MB1H_APE_OPP,
          Event.reg_writel Reg.PRCM_ARM_IT1_CLR (MBOX_BIT 1) ] := by
      rw [read_mailbox_1_events, if_neg (by rintro (hc | hc) <;> contradiction), h]
    refine ⟨he, ?_, hd Compl.mb1_work, hh.trans h, ha, hv⟩
    rw [he]
    rfl
  · intro h
    obtain ⟨hd, hh, h1, _⟩ := read_mailbox_1_known w (Or.inl h)
    refine ⟨?_, hd, hh.trans h, (h1 h).1, (h1 h).2.1⟩
    rw [read_mailbox_1_events, if_pos (Or.inl h)]
    rfl
  · intro h
    obtain ⟨hd, hh, _, h2⟩ := read_mailbox_1_known w (Or.inr h)
    refine ⟨?_, hd, hh.trans h, (h2 h).1, (h2 h).2.1⟩
    rw [read_mailbox_1_events, if_pos (Or.inr h)]
    rfl
  · intro h st hm hh
    have e1 : ¬ MB2H_CLK_REQUEST = MB2H_EPOD_REQUEST := by decide
    have e2 : ¬ MB2H_PLL_REQUEST = MB2H_EPOD_REQUEST := by decide
    have e3 : ¬ MB2H_PLL_REQUEST = MB2H_CLK_REQUEST := by decide
    simp only [List.mem_cons, Prod.mk.injEq, List.mem_singleton, List.not_mem_nil, or_false]
      at hm
    have hk : readb PRCM_ACK_MB2_HEADER w = MB2H_EPOD_REQUEST ∨
        readb PRCM_ACK_MB2_HEADER w = MB2H_CLK_REQUEST ∨
        readb PRCM_ACK_MB2_HEADER w = MB2H_PLL_REQUEST := by
      rcases hm with ⟨rfl, _⟩ | ⟨rfl, _⟩ | ⟨rfl, _⟩
      · exact Or.inl hh
      · exact Or.inr (Or.inl hh)
      · exact Or.inr (Or.inr hh)
    obtain ⟨hd, hhd, hs⟩ := read_mailbox_2_known w hk
    refine ⟨?_, hd, hhd.trans hh, ?_⟩
    · rw [read_mailbox_2_events, if_pos hk]
      rfl
    · rw [hs, hh]
      rcases hm with ⟨rfl, rfl⟩ | ⟨rfl, rfl⟩ | ⟨rfl, rfl⟩
      · rw [if_pos rfl]
      · rw [if_neg e1, if_pos rfl]
      · rw [if_neg e2, if_neg e3]
  · intro h
    obtain ⟨hd, hh, hs⟩ := read_mailbox_3_known w h
    refine ⟨?_, hd, hh, hs⟩
    rw [read_mailbox_3_events, if_pos h]
    rfl
  · intro h
    obtain ⟨hd, hh, hs, _⟩ := read_mailbox_5_known w (Or.inl h)
    refine ⟨?_, hd, hh.trans h, hs⟩
    rw [read_mailbox_5_events, if_pos (Or.inr h)]
    rfl
  · intro h
    obtain ⟨hd, hh, hs, hv⟩ := read_mailbox_5_known w (Or.inr h)
    refine ⟨?_, hd, hh.trans h, hs, ?_⟩
    · rw [read_mailbox_5_events, if_pos (Or.inl h)]
      rfl
    · rw [hv, if_pos h]

theorem known_header_release_witness :
    new_events World.sample_ape_opp (read_mailbox_1 World.sample_ape_opp).1 =
      [ Event.pr_warning 1 MB1H_APE_OPP,
        Event.reg_writel Reg.PRCM_ARM_IT1_CLR (MBOX_BIT 1) ] ∧
    completions (new_events World.sample_ape_opp (read_mailbox_1 World.sample_ape_opp).1) = [] ∧
    (read_mailbox_1 World.sample_ape_opp).1.mb1_done = World.sample_ape_opp.mb1_done ∧
    (read_mailbox_1 World.sample_ape_opp).1.mb1_ack_header = MB1H_APE_OPP ∧
    (read_mailbox_1 World.sample_ape_opp).1.mb1_ack_ape_opp =
      World.sample_ape_opp.mb1_ack_ape_opp ∧
    (read_mailbox_1 World.sample_ape_opp).1.mb1_ack_ape_voltage_st =
      World.sample_ape_opp.mb1_ack_ape_voltage_st :=
  (known_header_release World.sample_ape_opp).1 (by decide)

/-! ## C20 -/

/-- C20: for every `n` in `0..7` and every state of the shared memory (so for
every header byte, recognised or not), `read_mailbox_n` returns and writes
`MBOX_BIT(n)` to `PRCM_ARM_IT1_CLR` exactly once, and writes nothing else to that
register. -/
theorem reader_clears_own_bit (n : Nat) (w : World) (hn : n < 8) :
    ∃ w1 b, read_mailbox n w = some (w1, b) ∧
      it1_clears (new_events w w1) = [MBOX_BIT n] := by
  obtain ⟨p, hp⟩ := read_mailbox_lt n hn w
  obtain ⟨w1, b⟩ := p
  exact ⟨w1, b, hp, read_mailbox_clears n w w1 b hp⟩

theorem reader_clears_own_bit_witness :
    (∃ w1 b, read_mailbox 1 World.sample_ape_opp = some (w1, b) ∧
      it1_clears (new_events World.sample_ape_opp w1) = [MBOX_BIT 1]) ∧
    (∃ w1 b, read_mailbox 0 World.sample_wake = some (w1, b) ∧
      it1_clears (new_events World.sample_wake w1) = [MBOX_BIT 0]) :=
  ⟨reader_clears_own_bit 1 World.sample_ape_opp (by decide),
    reader_clears_own_bit 0 World.sample_wake (by decide)⟩


/-! ## The wake-up acknowledge -/

theorem dispatches_append (a b : List Event) :
    dispatches (a ++ b) = dispatches a ++ dispatches b := by
  induction a with
  | nil => rfl
  | cons e a ih =>
    cases e <;> simp [dispatches, ih]

/-- The readers other than `read_mailbox_0` return false and dispatch nothing. -/
theorem read_mailbox_nonzero (n : Nat) (w w1 : World) (b : Bool) (hn : n ≠ 0)
    (h : read_mailbox n w = some (w1, b)) :
    b = false ∧ dispatches (new_events w w1) = [] := by
  unfold read_mailbox at h
  split at h <;> simp only [Option.some.injEq, reduceCtorEq] at h
  · exact absurd rfl hn
  · obtain rfl := congrArg Prod.fst h
    obtain rfl := congrArg Prod.snd h
    refine ⟨rfl, ?_⟩
    rw [read_mailbox_1_events]
    split <;> rfl
  · obtain rfl := congrArg Prod.fst h
    obtain rfl := congrArg Prod.snd h
    refine ⟨?_, ?_⟩
    · simp only [read_mailbox_2]
      split <;> [rfl; split] <;> [rfl; split] <;> rfl
    · rw [read_mailbox_2_events]
      split <;> rfl
  · obtain rfl := congrArg Prod.fst h
    obtain rfl := congrArg Prod.snd h
    refine ⟨?_, ?_⟩
    · simp only [read_mailbox_3]
      split <;> rfl
    · rw [read_mailbox_3_events]
      split <;> rfl
  · obtain rfl := congrArg Prod.fst h
    obtain rfl := congrArg Prod.snd h
    exact ⟨rfl, by rw [read_mailbox_4_events]; rfl⟩
  · obtain rfl := congrArg Prod.fst h
    obtain rfl := congrArg Prod.snd h
    refine ⟨rfl, ?_⟩
    rw [read_mailbox_5_events]
    split <;> rfl
  · obtain rfl := congrArg Prod.fst h
    obtain rfl := congrArg Prod.snd h
    exact ⟨rfl, by rw [read_mailbox_6_events]; rfl⟩
  · obtain rfl := congrArg Prod.fst h
    obtain rfl := congrArg Prod.snd h
    exact ⟨rfl, by rw [read_mailbox_7_events]; rfl⟩

theorem run_readers_nonzero : ∀ (ns : List Nat) (r : irqreturn_t) (w w1 : World)
    (r1 : irqreturn_t), (∀ n ∈ ns, n ≠ 0) → run_readers ns r w = some (w1, r1) →
    r1 = r ∧ dispatches (new_events w w1) = [] := by
  intro ns
  induction ns with
  | nil =>
    intro r w w1 r1 _ h
    simp only [run_readers, Option.some.injEq, Prod.mk.injEq] at h
    rw [← h.1, new_events_append w w [] (by simp)]
    exact ⟨h.2.symm, rfl⟩
  | cons n ns ih =>
    intro r w w1 r1 hns h
    simp only [run_readers] at h
    cases hp : read_mailbox n w with
    | none => rw [hp] at h; simp at h
    | some p =>
      obtain ⟨w0, wake⟩ := p
      rw [hp] at h
      obtain ⟨hw, hd⟩ := read_mailbox_nonzero n w w0 wake (hns n (List.mem_cons_self _ _)) hp
      subst hw
      obtain ⟨a, ha, _⟩ := read_mailbox_trace n w w0 false hp
      obtain ⟨b, hb⟩ := run_readers_trace _ _ _ _ _ h
      obtain ⟨hr, hd2⟩ := ih _ _ _ _ (fun k hk => hns k (List.mem_cons_of_mem _ hk)) h
      refine ⟨by simpa using hr, ?_⟩
      rw [new_events_trans w w0 w1 a b ha hb, dispatches_append, hd, hd2]
      rfl

theorem pending_mailboxes_split (v : Nat) :
    pending_mailboxes v = (if v &&& MBOX_BIT 0 ≠ 0 then [0] else []) ++
      (List.range' 1 7).filter (fun n => v &&& MBOX_BIT n ≠ 0) := by
  have h8 : List.range NUM_MB = 0 :: List.range' 1 7 := by decide
  simp only [pending_mailboxes, h8, List.filter_cons]
  by_cases h : v &&& MBOX_BIT 0 = 0
  · simp [h]
  · simp [h]

/-- The result of the handler and the virtual interrupts it dispatches. -/
theorem prcmu_irq_handler_result (v : Nat) (w : World) :
    ∃ w1, prcmu_irq_handler v w = some (w1,
        if v &&& 0xFF = 0 then irqreturn_t.IRQ_NONE
        else if v &&& MBOX_BIT 0 ≠ 0 ∧ readb PRCM_ACK_MB0_HEADER w = MB0H_WAKE_UP
          then irqreturn_t.IRQ_WAKE_THREAD
        else irqreturn_t.IRQ_HANDLED) ∧
      dispatches (new_events w w1) =
        if v &&& MBOX_BIT 0 ≠ 0 ∧ readb PRCM_ACK_MB0_HEADER w = MB0H_WAKE_UP then
          dispatched ((if readb PRCM_ACK_MB0_READ_POINTER w &&& 1 ≠ 0
              then readl PRCM_ACK_MB0_WAKEUP_1_DBB w else readl PRCM_ACK_MB0_WAKEUP_0_DBB w)
            &&& w.dbb_irqs) 0 prcmu_irq_bit
        else [] := by
  have hall : ALL_MBOX_BITS = 0xFF := by decide
  have heq := prcmu_irq_handler_eq v w
  rw [hall] at heq
  have hrest : ∀ n ∈ (List.range' 1 7).filter (fun n => v &&& MBOX_BIT n ≠ 0), n ≠ 0 := by
    intro n hn
    have := (List.mem_filter.mp hn).1
    rw [List.mem_range'_1] at this
    omega
  have hrest8 : ∀ n ∈ (List.range' 1 7).filter (fun n => v &&& MBOX_BIT n ≠ 0), n < 8 := by
    intro n hn
    have := (List.mem_filter.mp hn).1
    rw [List.mem_range'_1] at this
    omega
  by_cases h0 : v &&& 0xFF = 0
  · have hb0 : v &&& MBOX_BIT 0 = 0 := by
      have := and_all_mbox_bits_bit v 0 (by omega)
      rw [hall, h0] at this
      simpa using this.symm
    refine ⟨w, ?_, ?_⟩
    · rw [heq, if_pos h0, if_pos h0]
    · rw [new_events_append w w [] (by simp), if_neg (fun hc => hc.1 hb0)]
      rfl
  · rw [heq, if_neg h0, if_neg h0, pending_mailboxes_split]
    by_cases hb0 : v &&& MBOX_BIT 0 = 0
    · have hn : ¬ (v &&& MBOX_BIT 0 ≠ 0) := fun hc => hc hb0
      rw [if_neg hn, List.nil_append, if_neg (fun hc => hn hc.1), if_neg (fun hc => hn hc.1)]
      obtain ⟨p, hp⟩ := run_readers_isSome _ irqreturn_t.IRQ_HANDLED w hrest8
      obtain ⟨w1, r1⟩ := p
      obtain ⟨hr, hd⟩ := run_readers_nonzero _ _ _ _ _ hrest hp
      refine ⟨w1, ?_, hd⟩
      rw [hp, hr]
    · have hp0 : v &&& MBOX_BIT 0 ≠ 0 := hb0
      rw [if_pos hp0, List.singleton_append]
      simp only [run_readers, read_mailbox]
      obtain ⟨p, hp⟩ := run_readers_isSome
        ((List.range' 1 7).filter (fun n => v &&& MBOX_BIT n ≠ 0))
        (if (read_mailbox_0 w).2 = true then irqreturn_t.IRQ_WAKE_THREAD
          else irqreturn_t.IRQ_HANDLED) (read_mailbox_0 w).1 hrest8
      obtain ⟨w1, r1⟩ := p
      obtain ⟨hr, hd⟩ := run_readers_nonzero _ _ _ _ _ hrest hp
      obtain ⟨a, ha, _⟩ := read_mailbox_trace 0 w (read_mailbox_0 w).1 (read_mailbox_0 w).2 rfl
      obtain ⟨b, hb⟩ := run_readers_trace _ _ _ _ _ hp
      have hres := (read_mailbox_0_result w).2
      refine ⟨w1, ?_, ?_⟩
      · rw [hp, hr]
        by_cases hh : readb PRCM_ACK_MB0_HEADER w = MB0H_WAKE_UP
        · rw [if_pos (hres.mpr hh), if_pos ⟨hp0, hh⟩]
        · rw [if_neg (fun hc => hh (hres.mp hc)), if_neg (fun hc => hh hc.2)]
      · rw [new_events_trans w _ w1 a b ha hb, dispatches_append, hd, List.append_nil,
          read_mailbox_0_events]
        by_cases hh : readb PRCM_ACK_MB0_HEADER w = MB0H_WAKE_UP
        · rw [if_pos hh, if_pos (show v &&& MBOX_BIT 0 ≠ 0 ∧
            readb PRCM_ACK_MB0_HEADER w = MB0H_WAKE_UP from ⟨hp0, hh⟩)]
          exact dispatches_handle _ [Event.reg_writel Reg.PRCM_ARM_IT1_CLR (MBOX_BIT 0)] rfl
        · rw [if_neg hh, if_neg (show ¬ (v &&& MBOX_BIT 0 ≠ 0 ∧
            readb PRCM_ACK_MB0_HEADER w = MB0H_WAKE_UP) from fun hc => hh hc.2)]
          rfl

theorem ack_dbb_wakeup_returns (w : World) (hclear : ∃ x ∈ w.cpu_val, x &&& MBOX_BIT 0 = 0) :
    ∃ w1, ack_dbb_wakeup w = some w1 := by
  have hs := wait_mbox_clear_isSome 0 (emit (Event.lock Lock.mb0) w) hclear
  unfold ack_dbb_wakeup
  dsimp only
  cases hw0 : wait_mbox_clear 0 (emit (Event.lock Lock.mb0) w) with
  | none => simp [hw0] at hs
  | some w0 => exact ⟨_, rfl⟩

/-! ## C21 -/

/-- C21: `prcmu_irq_handler` returns `IRQ_WAKE_THREAD` exactly when acknowledge bit 0
was pending and the mailbox-0 acknowledge header was `MB0H_WAKE_UP`, and
`IRQ_HANDLED` exactly when some mailbox bit was pending and that is not the
case; the virtual interrupts of the wake-up are dispatched within the handler,
before it returns.  `prcmu_irq_thread_fn` then returns `IRQ_HANDLED` once
request-pending bit 0 has been read clear; its mailbox writes are
`MB0H_RD_WAKE_UP_ACK` to the mailbox-0 request header and then `MBOX_BIT(0)` to
`PRCM_MBOX_CPU_SET`, nothing else, made after the clear read and under the
mailbox-0 lock, which is released on return. -/
theorem deferred_wakeup_ack (v : Nat) (w : World) :
    (∃ w1 r, prcmu_irq_handler v w = some (w1, r) ∧
      (r = irqreturn_t.IRQ_WAKE_THREAD ↔
        v &&& MBOX_BIT 0 ≠ 0 ∧ readb PRCM_ACK_MB0_HEADER w = MB0H_WAKE_UP) ∧
      (r = irqreturn_t.IRQ_HANDLED ↔
        v &&& 0xFF ≠ 0 ∧
          ¬ (v &&& MBOX_BIT 0 ≠ 0 ∧ readb PRCM_ACK_MB0_HEADER w = MB0H_WAKE_UP)) ∧
      dispatches (new_events w w1) =
        if v &&& MBOX_BIT 0 ≠ 0 ∧ readb PRCM_ACK_MB0_HEADER w = MB0H_WAKE_UP then
          dispatched ((if readb PRCM_ACK_MB0_READ_POINTER w &&& 1 ≠ 0
              then readl PRCM_ACK_MB0_WAKEUP_1_DBB w else readl PRCM_ACK_MB0_WAKEUP_0_DBB w)
            &&& w.dbb_irqs) 0 prcmu_irq_bit
        else []) ∧
    ((∃ x ∈ w.cpu_val, x &&& MBOX_BIT 0 = 0) →
      ∃ w1, prcmu_irq_thread_fn w = some (w1, irqreturn_t.IRQ_HANDLED) ∧
        mailbox_writes (new_events w w1) =
          [ Event.writeb PRCM_REQ_MB0_HEADER MB0H_RD_WAKE_UP_ACK,
            Event.reg_writel Reg.PRCM_MBOX_CPU_SET (MBOX_BIT 0) ] ∧
        pending_discipline 0 (new_events w w1) = true ∧
        lock_held Lock.mb0 (new_events w w1) = false) := by
  constructor
  · obtain ⟨w1, hr, hd⟩ := prcmu_irq_handler_result v w
    have hall : ALL_MBOX_BITS = 0xFF := by decide
    have hbit : v &&& MBOX_BIT 0 ≠ 0 → v &&& 0xFF ≠ 0 := by
      intro hb hc
      have := and_all_mbox_bits_bit v 0 (by omega)
      rw [hall, hc] at this
      exact hb (by simpa using this.symm)
    refine ⟨w1, _, hr, ?_, ?_, hd⟩
    · by_cases h0 : v &&& 0xFF = 0
      · rw [if_pos h0]
        exact ⟨fun hc => by simp at hc, fun hc => absurd h0 (hbit hc.1)⟩
      · rw [if_neg h0]
        by_cases hk : v &&& MBOX_BIT 0 ≠ 0 ∧ readb PRCM_ACK_MB0_HEADER w = MB0H_WAKE_UP
        · rw [if_pos hk]
          exact ⟨fun _ => hk, fun _ => rfl⟩
        · rw [if_neg hk]
          exact ⟨fun hc => by simp at hc, fun hc => absurd hc hk⟩
    · by_cases h0 : v &&& 0xFF = 0
      · rw [if_pos h0]
        exact ⟨fun hc => by simp at hc, fun hc => absurd h0 hc.1⟩
      · rw [if_neg h0]
        by_cases hk : v &&& MBOX_BIT 0 ≠ 0 ∧ readb PRCM_ACK_MB0_HEADER w = MB0H_WAKE_UP
        · rw [if_pos hk]
          exact ⟨fun hc => by simp at hc, fun hc => absurd hk hc.2⟩
        · rw [if_neg hk]
          exact ⟨fun _ => ⟨h0, hk⟩, fun _ => rfl⟩
  · intro hclear
    obtain ⟨w1, h1⟩ := ack_dbb_wakeup_returns w hclear
    obtain ⟨pre, x, rest, _, _, hx, hnew⟩ := ack_dbb_wakeup_some w w1 h1
    refine ⟨w1, ?_, ?_, ?_, ?_⟩
    · unfold prcmu_irq_thread_fn
      rw [h1]
    · rw [hnew]
      have := mailbox_writes_request Lock.mb0 (pre ++ [x])
        [ Event.writeb PRCM_REQ_MB0_HEADER MB0H_RD_WAKE_UP_ACK,
          Event.reg_writel Reg.PRCM_MBOX_CPU_SET (MBOX_BIT 0) ] []
        [Event.unlock Lock.mb0] rfl (by simp) rfl
      simpa using this
    · rw [hnew]
      have := discipline_request 0 0 [Event.lock Lock.mb0] pre x
        [Event.writeb PRCM_REQ_MB0_HEADER MB0H_RD_WAKE_UP_ACK] [Event.unlock Lock.mb0]
        (by intro e he; rw [List.mem_singleton.mp he]; rfl) hx
        (by intro e he; rw [List.mem_singleton.mp he]; rfl)
        (by intro e he; rw [List.mem_singleton.mp he]; rfl)
      simpa using this
    · rw [hnew]
      have e : Event.lock Lock.mb0 :: List.map Event.readl_cpu_val (pre ++ [x]) ++
          [ Event.writeb PRCM_REQ_MB0_HEADER MB0H_RD_WAKE_UP_ACK,
            Event.reg_writel Reg.PRCM_MBOX_CPU_SET (MBOX_BIT 0), Event.unlock Lock.mb0 ] =
          (Event.lock Lock.mb0 :: List.map Event.readl_cpu_val (pre ++ [x]) ++
          [ Event.writeb PRCM_REQ_MB0_HEADER MB0H_RD_WAKE_UP_ACK,
            Event.reg_writel Reg.PRCM_MBOX_CPU_SET (MBOX_BIT 0) ]) ++
            [Event.unlock Lock.mb0] := by
        simp
      rw [e]
      exact lock_held_unlock _ _

theorem deferred_wakeup_ack_witness :
    (∃ w1 r, prcmu_irq_handler 1 World.sample_wake = some (w1, r) ∧
      r = irqreturn_t.IRQ_WAKE_THREAD ∧
      dispatches (new_events World.sample_wake w1) = [IRQ_INDEX_RTC]) ∧
    (∃ w1, prcmu_irq_thread_fn World.sample_wake = some (w1, irqreturn_t.IRQ_HANDLED) ∧
      mailbox_writes (new_events World.sample_wake w1) =
        [ Event.writeb PRCM_REQ_MB0_HEADER MB0H_RD_WAKE_UP_ACK,
          Event.reg_writel Reg.PRCM_MBOX_CPU_SET (MBOX_BIT 0) ] ∧
      pending_discipline 0 (new_events World.sample_wake w1) = true ∧
      lock_held Lock.mb0 (new_events World.sample_wake w1) = false) := by
  obtain ⟨⟨w1, r, hr, hw, _, hd⟩, ht⟩ := deferred_wakeup_ack 1 World.sample_wake
  refine ⟨⟨w1, r, hr, hw.mpr (by decide), ?_⟩, ht ⟨0, by decide, by decide⟩⟩
  rw [hd, if_pos (by decide)]
  decide

/-! ## The virtual interrupt lines -/

theorem and_not_and_self_u32 (x b : Nat) (hb : b < 2 ^ 32) :
    (x &&& (U32_MAX ^^^ b)) &&& b = 0 := by
  apply Nat.eq_of_testBit_eq
  intro i
  have hM : U32_MAX = 2 ^ 32 - 1 := by decide
  rw [Nat.testBit_and, Nat.testBit_and, Nat.testBit_xor, hM, Nat.testBit_two_pow_sub_one,
    Nat.zero_testBit]
  by_cases hi : i < 32
  · simp only [hi, decide_True]
    cases x.testBit i <;> cases b.testBit i <;> rfl
  · have hb0 := testBit_u32 b i hb (by omega)
    simp [hb0]

theorem or_and_self (x b : Nat) : (x ||| b) &&& b = b := by
  apply Nat.eq_of_testBit_eq
  intro i
  rw [Nat.testBit_and, Nat.testBit_or]
  cases x.testBit i <;> cases b.testBit i <;> rfl

/-- What `prcmu_irq_mask` and `prcmu_irq_unmask` log and leave alone. -/
theorem irq_mask_unmask_frame (n b : Nat) (w : World) (hn : prcmu_irq_bit[n]? = some b) :
    (∀ w1, prcmu_irq_mask n w = some w1 ∨ prcmu_irq_unmask n w = some w1 →
      w1.tcdm = w.tcdm ∧ w1.cpu_val = w.cpu_val ∧
      new_events w w1 = [Event.lock Lock.dbb_irqs, Event.unlock Lock.dbb_irqs] ++
        (if w.mask_work_pending then [] else [Event.schedule_work])) := by
  intro w1 h
  rcases h with h | h
  · simp only [prcmu_irq_mask, hn, Option.some.injEq] at h
    subst h
    simp only [schedule_work, emit]
    split
    · rename_i hp
      refine ⟨rfl, rfl, ?_⟩
      rw [new_events_append w _ [Event.lock Lock.dbb_irqs, Event.unlock Lock.dbb_irqs]
        (by simp)]
      simp only [hp, if_true, List.append_nil]
    · rename_i hp
      refine ⟨rfl, rfl, ?_⟩
      rw [new_events_append w _ [Event.lock Lock.dbb_irqs, Event.unlock Lock.dbb_irqs,
        Event.schedule_work] (by simp)]
      rfl
  · simp only [prcmu_irq_unmask, hn, Option.some.injEq] at h
    subst h
    simp only [schedule_work, emit]
    split
    · rename_i hp
      refine ⟨rfl, rfl, ?_⟩
      rw [new_events_append w _ [Event.lock Lock.dbb_irqs, Event.unlock Lock.dbb_irqs]
        (by simp)]
      simp only [hp, if_true, List.append_nil]
    · rename_i hp
      refine ⟨rfl, rfl, ?_⟩
      rw [new_events_append w _ [Event.lock Lock.dbb_irqs, Event.unlock Lock.dbb_irqs,
        Event.schedule_work] (by simp)]
      rfl

/-! ## C22 -/

/-- C22: the driver starts with every virtual line masked (`dbb_irqs == 0`, also
after `db5500_prcmu_early_init`); `prcmu_irq_chip` installs `prcmu_irq_mask` as
`irq_mask` and as `irq_disable` and `prcmu_irq_unmask` as `irq_unmask`.  For every
line `n` of the table, `prcmu_irq_unmask(n)` gives
`dbb_irqs | prcmu_irq_bit[n]` and `prcmu_irq_mask(n)` gives
`dbb_irqs & ~prcmu_irq_bit[n]`; doing either twice gives the same `dbb_irqs` as
doing it once; mask after unmask leaves the line's bit clear and unmask after
mask leaves it set; neither changes `dbb_wakeups`, `abb_events` or the shared
memory nor writes to the mailbox: they take and release `dbb_irqs_lock` and
queue the deferred work. -/
theorem irq_line_state_machine (n b : Nat) (w : World) (hn : prcmu_irq_bit[n]? = some b) :
    (∀ tcdm cpu_val sem, (World.boot tcdm cpu_val sem).dbb_irqs = 0 ∧
      (db5500_prcmu_early_init (World.boot tcdm cpu_val sem)).dbb_irqs = 0) ∧
    (prcmu_irq_chip.irq_disable = prcmu_irq_mask ∧ prcmu_irq_chip.irq_mask = prcmu_irq_mask ∧
      prcmu_irq_chip.irq_unmask = prcmu_irq_unmask) ∧
    (∃ wu wm, prcmu_irq_unmask n w = some wu ∧ prcmu_irq_mask n w = some wm ∧
      wu.dbb_irqs = w.dbb_irqs ||| b ∧ wm.dbb_irqs = w.dbb_irqs &&& (U32_MAX ^^^ b) ∧
      (∀ w1, w1 = wu ∨ w1 = wm →
        w1.dbb_wakeups = w.dbb_wakeups ∧ w1.abb_events = w.abb_events ∧ w1.tcdm = w.tcdm ∧
        w1.mask_work_pending = true ∧ mailbox_writes (new_events w w1) = [] ∧
        new_events w w1 = [Event.lock Lock.dbb_irqs, Event.unlock Lock.dbb_irqs] ++
          (if w.mask_work_pending then [] else [Event.schedule_work])) ∧
      (∃ wuu, prcmu_irq_unmask n wu = some wuu ∧ wuu.dbb_irqs = wu.dbb_irqs) ∧
      (∃ wmm, prcmu_irq_mask n wm = some wmm ∧ wmm.dbb_irqs = wm.dbb_irqs) ∧
      (∃ wum, prcmu_irq_mask n wu = some wum ∧ wum.dbb_irqs &&& b = 0) ∧
      (∃ wmu, prcmu_irq_unmask n wm = some wmu ∧ wmu.dbb_irqs &&& b = b)) := by
  have hb := prcmu_irq_bit_u32 n b hn
  refine ⟨fun _ _ _ => ⟨rfl, rfl⟩, ⟨rfl, rfl, rfl⟩, ?_⟩
  obtain ⟨wu, hu, hud, huw, hua, _, _, hup, _⟩ := prcmu_irq_unmask_spec n b w hn
  obtain ⟨wm, hm, hmd, hmw, hma, _, _, hmp, _⟩ := prcmu_irq_mask_spec n b w hn
  obtain ⟨wuu, huu, huud, _⟩ := prcmu_irq_unmask_spec n b wu hn
  obtain ⟨wmm, hmm, hmmd, _⟩ := prcmu_irq_mask_spec n b wm hn
  obtain ⟨wum, hum, humd, _⟩ := prcmu_irq_mask_spec n b wu hn
  obtain ⟨wmu, hmu, hmud, _⟩ := prcmu_irq_unmask_spec n b wm hn
  refine ⟨wu, wm, hu, hm, hud, hmd, ?_, ⟨wuu, huu, ?_⟩, ⟨wmm, hmm, ?_⟩, ⟨wum, hum, ?_⟩,
    ⟨wmu, hmu, ?_⟩⟩
  · intro w1 h1
    rcases h1 with rfl | rfl
    · obtain ⟨ht, _, he⟩ := irq_mask_unmask_frame n b w hn w1 (Or.inr hu)
      refine ⟨huw, hua, ht, hup, ?_, he⟩
      rw [he]
      split <;> rfl
    · obtain ⟨ht, _, he⟩ := irq_mask_unmask_frame n b w hn w1 (Or.inl hm)
      refine ⟨hmw, hma, ht, hmp, ?_, he⟩
      rw [he]
      split <;> rfl
  · rw [huud, hud, Nat.lor_assoc, Nat.or_self]
  · rw [hmmd, hmd, Nat.land_assoc, Nat.and_self]
  · rw [humd]
    exact and_not_and_self_u32 _ b hb
  · rw [hmud]
    exact or_and_self _ b

theorem irq_line_state_machine_witness :
    ∃ wu wm, prcmu_irq_unmask IRQ_INDEX_USB World.sample = some wu ∧
      prcmu_irq_mask IRQ_INDEX_USB World.sample_pushed = some wm ∧
      wu.dbb_irqs = World.sample.dbb_irqs ||| WAKEUP_BIT_USB ∧
      wm.dbb_irqs = World.sample_pushed.dbb_irqs &&& (U32_MAX ^^^ WAKEUP_BIT_USB) := by
  obtain ⟨_, _, wu, _, hu, _, hud, _⟩ :=
    irq_line_state_machine IRQ_INDEX_USB WAKEUP_BIT_USB World.sample (by decide)
  obtain ⟨_, _, _, wm, _, hm, _, hmd, _⟩ :=
    irq_line_state_machine IRQ_INDEX_USB WAKEUP_BIT_USB World.sample_pushed (by decide)
  exact ⟨wu, wm, hu, hm, hud, hmd⟩

/-! ## Regulated clocks -/

theorem poll_sem_frame (H : Headers) : ∀ (l : List Nat) (w w1 : World),
    poll_sem H w l = some w1 →
    w1.clk_mgt_reg = w.clk_mgt_reg ∧ w1.clk_mgt_pllsw = w.clk_mgt_pllsw ∧
    ∃ pre v, l = pre ++ v :: w1.sem := by
  intro l
  induction l with
  | nil => intro w w1 h; simp [poll_sem] at h
  | cons v rest ih =>
    intro w w1 h
    simp only [poll_sem] at h
    by_cases hv : v &&& H.PRCM_SEM_PRCM_SEM = 0
    · simp [hv] at h
      subst h
      exact ⟨rfl, rfl, [], v, rfl⟩
    · simp [hv] at h
      obtain ⟨h1, h2, pre, x, hl⟩ := ih _ _ h
      exact ⟨h1, h2, v :: pre, x, by rw [hl]; rfl⟩

/-- What `request_reg_clock` does to the register of the clock and to the saved
`pllsw`. -/
theorem request_reg_clock_fields (H : Headers) (clock : Nat) (enable : Bool) (w w1 : World)
    (r : Int) (h : request_reg_clock H clock enable w = some (w1, r)) :
    r = 0 ∧
    w1.clk_mgt_reg = Function.update w.clk_mgt_reg clock
      (if enable then w.clk_mgt_reg clock ||| (H.PRCM_CLK_MGT_CLKEN ||| w.clk_mgt_pllsw clock)
       else w.clk_mgt_reg clock &&&
        (U32_MAX ^^^ (H.PRCM_CLK_MGT_CLKEN ||| H.PRCM_CLK_MGT_CLKPLLSW_MASK))) ∧
    w1.clk_mgt_pllsw =
      (if enable then w.clk_mgt_pllsw
       else Function.update w.clk_mgt_pllsw clock
        (w.clk_mgt_reg clock &&& H.PRCM_CLK_MGT_CLKPLLSW_MASK)) ∧
    ∃ pre v, w.sem = pre ++ v :: w1.sem := by
  unfold request_reg_clock at h
  dsimp only at h
  generalize hW : (if H.clk_mgt_offset clock = 0 then emit Event.warn w else w) = W at h
  have hWf : W.clk_mgt_reg = w.clk_mgt_reg ∧ W.clk_mgt_pllsw = w.clk_mgt_pllsw ∧
      W.sem = w.sem := by
    rw [← hW]
    split <;> exact ⟨rfl, rfl, rfl⟩
  obtain ⟨hW1, hW2, hW3⟩ := hWf
  cases hp : poll_sem H (emit (Event.lock Lock.clk_mgt) W) (emit (Event.lock Lock.clk_mgt) W).sem with
  | none => rw [hp] at h; simp at h
  | some w0 =>
    rw [hp] at h
    dsimp only at h
    obtain ⟨h1, h2, pre, v, hl⟩ := poll_sem_frame H _ _ _ hp
    have h1' : w0.clk_mgt_reg = w.clk_mgt_reg := h1.trans hW1
    have h2' : w0.clk_mgt_pllsw = w.clk_mgt_pllsw := h2.trans hW2
    have hl' : w.sem = pre ++ v :: w0.sem := by
      rw [← hW3]
      exact hl
    simp only [Option.some.injEq, Prod.mk.injEq] at h
    obtain ⟨hw, hr⟩ := h
    refine ⟨hr.symm, ?_, ?_, pre, v, ?_⟩
    · rw [← hw]
      cases enable <;> simp [emit, reg_writel, h1', h2']
    · rw [← hw]
      cases enable <;> simp [emit, reg_writel, h1', h2']
    · rw [← hw]
      cases enable <;> simpa [emit, reg_writel] using hl'

theorem restore_pllsw_u32 (v c m : Nat) (hv : v < 2 ^ 32) :
    (v &&& (U32_MAX ^^^ (c ||| m))) ||| (c ||| (v &&& m)) = v ||| c := by
  apply Nat.eq_of_testBit_eq
  intro i
  have hM : U32_MAX = 2 ^ 32 - 1 := by decide
  simp only [Nat.testBit_or, Nat.testBit_and, Nat.testBit_xor, hM, Nat.testBit_two_pow_sub_one]
  by_cases hi : i < 32
  · simp only [hi, decide_True]
    cases v.testBit i <;> cases c.testBit i <;> cases m.testBit i <;> rfl
  · have hv0 := testBit_u32 v i hv (by omega)
    simp [hv0]

/-! ## C23 -/

/-- C23: for every clock `c` and every 32-bit value `v` of its `CLK_MGT`
register, `request_reg_clock(c, false)` leaves the register equal to `v` with
`PRCM_CLK_MGT_CLKEN` and the `PLLSW` field cleared, and a following
`request_reg_clock(c, true)` leaves it equal to `v | PRCM_CLK_MGT_CLKEN`; the
registers of the other clocks are not changed, and both calls return 0.  Each
call returns once the hardware semaphore is read free. -/
theorem reg_clock_pllsw_round_trip (H : Headers) (c : Nat) (w : World)
    (hv : w.clk_mgt_reg c < 2 ^ 32) :
    (∀ w1 r1 w2 r2, request_reg_clock H c false w = some (w1, r1) →
      request_reg_clock H c true w1 = some (w2, r2) →
      r1 = 0 ∧ r2 = 0 ∧
      w1.clk_mgt_reg c = w.clk_mgt_reg c &&&
        (U32_MAX ^^^ (H.PRCM_CLK_MGT_CLKEN ||| H.PRCM_CLK_MGT_CLKPLLSW_MASK)) ∧
      w1.clk_mgt_pllsw c = w.clk_mgt_reg c &&& H.PRCM_CLK_MGT_CLKPLLSW_MASK ∧
      w2.clk_mgt_reg c = w.clk_mgt_reg c ||| H.PRCM_CLK_MGT_CLKEN ∧
      (∀ c1, c1 ≠ c → w2.clk_mgt_reg c1 = w.clk_mgt_reg c1)) ∧
    ((∃ x ∈ w.sem, x &&& H.PRCM_SEM_PRCM_SEM = 0) →
      ∃ w1, request_reg_clock H c false w = some (w1, 0) ∧
        ((∃ x ∈ w1.sem, x &&& H.PRCM_SEM_PRCM_SEM = 0) →
          ∃ w2, request_reg_clock H c true w1 = some (w2, 0) ∧
            w2.clk_mgt_reg c = w.clk_mgt_reg c ||| H.PRCM_CLK_MGT_CLKEN)) := by
  have hmain : ∀ w1 r1 w2 r2, request_reg_clock H c false w = some (w1, r1) →
      request_reg_clock H c true w1 = some (w2, r2) →
      r1 = 0 ∧ r2 = 0 ∧
      w1.clk_mgt_reg c = w.clk_mgt_reg c &&&
        (U32_MAX ^^^ (H.PRCM_CLK_MGT_CLKEN ||| H.PRCM_CLK_MGT_CLKPLLSW_MASK)) ∧
      w1.clk_mgt_pllsw c = w.clk_mgt_reg c &&& H.PRCM_CLK_MGT_CLKPLLSW_MASK ∧
      w2.clk_mgt_reg c = w.clk_mgt_reg c ||| H.PRCM_CLK_MGT_CLKEN ∧
      (∀ c1, c1 ≠ c → w2.clk_mgt_reg c1 = w.clk_mgt_reg c1) := by
    intro w1 r1 w2 r2 h1 h2
    obtain ⟨hr1, hreg1, hsw1, _⟩ := request_reg_clock_fields H c false w w1 r1 h1
    obtain ⟨hr2, hreg2, _, _⟩ := request_reg_clock_fields H c true w1 w2 r2 h2
    simp only [Bool.false_eq_true, if_false] at hreg1 hsw1
    simp only [if_true] at hreg2
    have e1 : w1.clk_mgt_reg c = w.clk_mgt_reg c &&&
        (U32_MAX ^^^ (H.PRCM_CLK_MGT_CLKEN ||| H.PRCM_CLK_MGT_CLKPLLSW_MASK)) := by
      rw [hreg1, Function.update_same]
    have e2 : w1.clk_mgt_pllsw c = w.clk_mgt_reg c &&& H.PRCM_CLK_MGT_CLKPLLSW_MASK := by
      rw [hsw1, Function.update_same]
    refine ⟨hr1, hr2, e1, e2, ?_, ?_⟩
    · rw [hreg2, Function.update_same, e1, e2]
      exact restore_pllsw_u32 _ _ _ hv
    · intro c1 hc
      rw [hreg2, Function.update_noteq hc, hreg1, Function.update_noteq hc]
  refine ⟨hmain, ?_⟩
  intro hs1
  obtain ⟨w1, h1⟩ := request_reg_clock_returns H c false w hs1
  refine ⟨w1, h1, ?_⟩
  intro hs2
  obtain ⟨w2, h2⟩ := request_reg_clock_returns H c true w1 hs2
  exact ⟨w2, h2, (hmain w1 0 w2 0 h1 h2).2.2.2.2.1⟩

theorem reg_clock_pllsw_round_trip_witness :
    request_reg_clock Headers.sample 3 false World.sample_clk =
      some (World.sample_clk_off, 0) ∧
    ∃ w2, request_reg_clock Headers.sample 3 true World.sample_clk_off = some (w2, 0) ∧
      w2.clk_mgt_reg 3 =
        World.sample_clk.clk_mgt_reg 3 ||| Headers.sample.PRCM_CLK_MGT_CLKEN := by
  obtain ⟨w1, h1, hnext⟩ :=
    (reg_clock_pllsw_round_trip Headers.sample 3 World.sample_clk (by decide)).2
      ⟨0, by decide, by decide⟩
  have h0 : request_reg_clock Headers.sample 3 false World.sample_clk =
      some (World.sample_clk_off, 0) := rfl
  have e : w1 = World.sample_clk_off := by
    rw [h0] at h1
    simp only [Option.some.injEq, Prod.mk.injEq, and_true] at h1
    exact h1.symm
  subst e
  exact ⟨h0, hnext ⟨0, by decide, by decide⟩⟩

/-! ## C24 -/

set_option maxRecDepth 100000 in
/-- C24: for every mailbox `N` in `0..7` the request header byte is at `0xFE8 + N`
and the acknowledge header byte at `0xFE8 + 8 + N`, and they differ, as do the
bases of the request and the acknowledge region; the 16 header bytes are
pairwise distinct; and the byte ranges of all named request and acknowledge
fields, together with the 16 header bytes, are pairwise disjoint, with four
bytes for the wakeup words and the I2C data fields and also with
`PRCM_ACK_MB0_EVENT_ABB_NUMBERS` bytes for the two ABB event buffers. -/
theorem mailbox_layout_disjoint :
    (∀ N : Fin 8,
      req_header_offsets[N.val]? = some (0xFE8 + N.val) ∧
      ack_header_offsets[N.val]? = some (0xFE8 + 8 + N.val) ∧
      req_header_offsets[N.val]? ≠ ack_header_offsets[N.val]? ∧
      req_bases[N.val]? ≠ ack_bases[N.val]? ∧
      req_bases[N.val]? ≠ none ∧ ack_bases[N.val]? ≠ none) ∧
    (req_header_offsets ++ ack_header_offsets).Nodup ∧
    (req_bases ++ ack_bases).Nodup ∧
    pairwise_disjoint (named_fields 4 ++
      (req_header_offsets ++ ack_header_offsets).map (fun off => (off, 1))) = true ∧
    pairwise_disjoint (named_fields PRCM_ACK_MB0_EVENT_ABB_NUMBERS ++
      (req_header_offsets ++ ack_header_offsets).map (fun off => (off, 1))) = true := by
  refine ⟨by decide, by decide, by decide, by decide, by decide⟩

/-! ## Power-state request encoding -/

theorem set_power_state_returns (H : Headers) (state : Nat) (keep_ulp_clk keep_ap_pll : Bool)
    (w : World) (hb : ¬ (state < H.PRCMU_AP_SLEEP ∨ state ≥ H.PRCMU_AP_DEEP_IDLE))
    (hc : ∃ v ∈ w.cpu_val, v &&& MBOX_BIT 0 = 0) :
    ∃ w1 r, db5500_prcmu_set_power_state H state keep_ulp_clk keep_ap_pll w = some (w1, r) := by
  unfold db5500_prcmu_set_power_state
  rw [if_neg hb]
  dsimp only
  have hs := wait_mbox_clear_isSome 0 (emit (Event.lock Lock.mb0) w) hc
  cases hw0 : wait_mbox_clear 0 (emit (Event.lock Lock.mb0) w) with
  | none => simp [hw0] at hs
  | some w0 =>
    dsimp only
    split <;> exact ⟨_, _, rfl⟩

theorem mailbox_writes_lock_reads (l : Lock) (vs : List Nat) :
    mailbox_writes (Event.lock l :: vs.map Event.readl_cpu_val) = [] := by
  have h := mailbox_writes_reads vs
  simp only [mailbox_writes, List.filter_cons] at h ⊢
  simp [is_mailbox_write, h]

theorem wait_end_not_mem_reads (c : Compl) (b : Bool) (vs : List Nat) :
    Event.wait_end c b ∉ vs.map Event.readl_cpu_val := by
  simp

theorem lock_held_cons_unlock (l : Lock) (e : Event) (tr : List Event) :
    lock_held l (e :: tr ++ [Event.unlock l]) = false := by
  have h := lock_held_unlock l (e :: tr)
  simpa using h

theorem mailbox_writes_power_state_stores (H : Headers) (state : Nat)
    (keep_ulp_clk keep_ap_pll : Bool) :
    mailbox_writes (power_state_stores H state keep_ulp_clk keep_ap_pll) =
      power_state_stores H state keep_ulp_clk keep_ap_pll := by
  unfold power_state_stores
  split
  · rfl
  · split <;> rfl

theorem wait_end_not_mem_power_state_stores (H : Headers) (state : Nat)
    (keep_ulp_clk keep_ap_pll : Bool) (c : Compl) (b : Bool) :
    Event.wait_end c b ∉ power_state_stores H state keep_ulp_clk keep_ap_pll := by
  unfold power_state_stores
  split
  · simp
  · split <;> simp

/-- C26: `db5500_prcmu_set_power_state` on a state that passes its `BUG_ON` and with the
request-pending bit 0 eventually read clear returns; it takes no completion wait and
leaves the mailbox 0 lock released; for `PRCMU_AP_IDLE` its mailbox writes are exactly
`DB5500_AP_IDLE` (4) to the AP power-state field, `DDR_PWR_STATE_UNCHANGED` to the DDR
field, `keep_ap_pll` and `keep_ulp_clk` as 1 or 0 to the AP-PLL and ULP-clock fields, the
header `MB0H_PWR_STATE_TRANS` and pending bit 0, in this order, and the result is 0; for
`PRCMU_AP_SLEEP` and `PRCMU_AP_DEEP_SLEEP` the same without the DDR store and with the
codes `DB5500_AP_SLEEP` (2) and `DB5500_AP_DEEP_SLEEP` (3); for any other state the
result is `-EINVAL` and there is no mailbox write at all. -/
theorem power_state_encoding (H : Headers) (state : Nat) (keep_ulp_clk keep_ap_pll : Bool)
    (w : World)
    (hd : H.PRCMU_AP_IDLE ≠ H.PRCMU_AP_SLEEP ∧ H.PRCMU_AP_IDLE ≠ H.PRCMU_AP_DEEP_SLEEP ∧
      H.PRCMU_AP_SLEEP ≠ H.PRCMU_AP_DEEP_SLEEP)
    (hb : ¬ (state < H.PRCMU_AP_SLEEP ∨ state ≥ H.PRCMU_AP_DEEP_IDLE))
    (hc : ∃ v ∈ w.cpu_val, v &&& MBOX_BIT 0 = 0) :
    DB5500_AP_IDLE = 4 ∧ DB5500_AP_SLEEP = 2 ∧ DB5500_AP_DEEP_SLEEP = 3 ∧
    ∃ w1 r, db5500_prcmu_set_power_state H state keep_ulp_clk keep_ap_pll w = some (w1, r) ∧
      (∀ c b, Event.wait_end c b ∉ new_events w w1) ∧
      lock_held Lock.mb0 (new_events w w1) = false ∧
      (state = H.PRCMU_AP_IDLE → r = 0 ∧ mailbox_writes (new_events w w1) =
        [ Event.writeb PRCM_REQ_MB0_AP_POWER_STATE DB5500_AP_IDLE,
          Event.writeb PRCM_REQ_MB0_DDR_STATE (H.DDR_PWR_STATE_UNCHANGED % 256),
          Event.writeb PRCM_REQ_MB0_AP_PLL_STATE (if keep_ap_pll then 1 else 0),
          Event.writeb PRCM_REQ_MB0_ULP_CLOCK_STATE (if keep_ulp_clk then 1 else 0),
          Event.writeb PRCM_REQ_MB0_HEADER MB0H_PWR_STATE_TRANS,
          Event.reg_writel Reg.PRCM_MBOX_CPU_SET (MBOX_BIT 0) ]) ∧
      (state = H.PRCMU_AP_SLEEP → r = 0 ∧ mailbox_writes (new_events w w1) =
        [ Event.writeb PRCM_REQ_MB0_AP_POWER_STATE DB5500_AP_SLEEP,
          Event.writeb PRCM_REQ_MB0_AP_PLL_STATE (if keep_ap_pll then 1 else 0),
          Event.writeb PRCM_REQ_MB0_ULP_CLOCK_STATE (if keep_ulp_clk then 1 else 0),
          Event.writeb PRCM_REQ_MB0_HEADER MB0H_PWR_STATE_TRANS,
          Event.reg_writel Reg.PRCM_MBOX_CPU_SET (MBOX_BIT 0) ]) ∧
      (state = H.PRCMU_AP_DEEP_SLEEP → r = 0 ∧ mailbox_writes (new_events w w1) =
        [ Event.writeb PRCM_REQ_MB0_AP_POWER_STATE DB5500_AP_DEEP_SLEEP,
          Event.writeb PRCM_REQ_MB0_AP_PLL_STATE (if keep_ap_pll then 1 else 0),
          Event.writeb PRCM_REQ_MB0_ULP_CLOCK_STATE (if keep_ulp_clk then 1 else 0),
          Event.writeb PRCM_REQ_MB0_HEADER MB0H_PWR_STATE_TRANS,
          Event.reg_writel Reg.PRCM_MBOX_CPU_SET (MBOX_BIT 0) ]) ∧
      (¬ power_state_supported H state →
        r = - EINVAL ∧ mailbox_writes (new_events w w1) = []) := by
  refine ⟨rfl, rfl, rfl, ?_⟩
  obtain ⟨w1, r, h⟩ := set_power_state_returns H state keep_ulp_clk keep_ap_pll w hb hc
  refine ⟨w1, r, h, ?_⟩
  obtain ⟨pre, v, rest, _, _, _, hcase⟩ :=
    set_power_state_some H state keep_ulp_clk keep_ap_pll w w1 r h
  obtain ⟨hd1, hd2, hd3⟩ := hd
  rcases hcase with ⟨hs, hr, he⟩ | ⟨hs, hr, he⟩
  · have hw : mailbox_writes (new_events w w1) =
        power_state_stores H state keep_ulp_clk keep_ap_pll ++
          [Event.reg_writel Reg.PRCM_MBOX_CPU_SET (MBOX_BIT 0)] := by
      rw [he, mailbox_writes_append, mailbox_writes_append, mailbox_writes_lock_reads,
        mailbox_writes_power_state_stores]
      rfl
    refine ⟨?_, ?_, ?_, ?_, ?_, ?_⟩
    · intro c b hm
      rw [he] at hm
      have hn := wait_end_not_mem_power_state_stores H state keep_ulp_clk keep_ap_pll c b
      simp [hn] at hm
    · rw [he]
      have e : Event.lock Lock.mb0 :: List.map Event.readl_cpu_val (pre ++ [v]) ++
            power_state_stores H state keep_ulp_clk keep_ap_pll ++
            [Event.reg_writel Reg.PRCM_MBOX_CPU_SET (MBOX_BIT 0), Event.unlock Lock.mb0] =
          Event.lock Lock.mb0 :: (List.map Event.readl_cpu_val (pre ++ [v]) ++
            power_state_stores H state keep_ulp_clk keep_ap_pll ++
            [Event.reg_writel Reg.PRCM_MBOX_CPU_SET (MBOX_BIT 0)]) ++ [Event.unlock Lock.mb0] := by
        simp
      rw [e]
      exact lock_held_cons_unlock _ _ _
    · intro h1
      refine ⟨hr, ?_⟩
      rw [hw, power_state_stores, if_pos h1]
      rfl
    · intro h2
      have h1 : ¬ state = H.PRCMU_AP_IDLE := fun h1 => hd1 (h1.symm.trans h2)
      refine ⟨hr, ?_⟩
      rw [hw, power_state_stores, if_neg h1, if_pos h2]
      rfl
    · intro h3
      have h1 : ¬ state = H.PRCMU_AP_IDLE := fun h1 => hd2 (h1.symm.trans h3)
      have h2 : ¬ state = H.PRCMU_AP_SLEEP := fun h2 => hd3 (h2.symm.trans h3)
      refine ⟨hr, ?_⟩
      rw [hw, power_state_stores, if_neg h1, if_neg h2]
      rfl
    · intro hn
      exact absurd hs hn
  · have hw : mailbox_writes (new_events w w1) = [] := by
      rw [he, mailbox_writes_append, mailbox_writes_lock_reads]
      simp [mailbox_writes, is_mailbox_write]
    refine ⟨?_, ?_, ?_, ?_, ?_, ?_⟩
    · intro c b hm
      rw [he] at hm
      simp at hm
    · rw [he]
      exact lock_held_cons_unlock _ _ _
    · intro h1
      exact absurd (Or.inl h1) hs
    · intro h2
      exact absurd (Or.inr (Or.inl h2)) hs
    · intro h3
      exact absurd (Or.inr (Or.inr h3)) hs
    · intro _
      exact ⟨hr, hw⟩

theorem power_state_encoding_witness :
    (Headers.sample.PRCMU_AP_IDLE ≠ Headers.sample.PRCMU_AP_SLEEP ∧
      Headers.sample.PRCMU_AP_IDLE ≠ Headers.sample.PRCMU_AP_DEEP_SLEEP ∧
      Headers.sample.PRCMU_AP_SLEEP ≠ Headers.sample.PRCMU_AP_DEEP_SLEEP) ∧
    ¬ (5 < Headers.sample.PRCMU_AP_SLEEP ∨ 5 ≥ Headers.sample.PRCMU_AP_DEEP_IDLE) ∧
    (∃ v ∈ World.sample.cpu_val, v &&& MBOX_BIT 0 = 0) ∧
    ∃ w1, db5500_prcmu_set_power_state Headers.sample 5 false true World.sample
        = some (w1, 0) ∧
      mailbox_writes (new_events World.sample w1) =
        [ Event.writeb PRCM_REQ_MB0_AP_POWER_STATE 4,
          Event.writeb PRCM_REQ_MB0_DDR_STATE 0,
          Event.writeb PRCM_REQ_MB0_AP_PLL_STATE 1,
          Event.writeb PRCM_REQ_MB0_ULP_CLOCK_STATE 0,
          Event.writeb PRCM_REQ_MB0_HEADER MB0H_PWR_STATE_TRANS,
          Event.reg_writel Reg.PRCM_MBOX_CPU_SET 1 ] := by
  refine ⟨by decide, by decide, ⟨0, by decide, by decide⟩, ?_⟩
  obtain ⟨_, _, _, w1, r, h, _, _, hi, _⟩ :=
    power_state_encoding Headers.sample 5 false true World.sample (by decide) (by decide)
      ⟨0, by decide, by decide⟩
  obtain ⟨rfl, hw⟩ := hi rfl
  exact ⟨w1, h, hw⟩

/-! ## Wakeup bitmask construction -/

theorem wakeup_bits_fold (wakeups : Nat) : ∀ (l : List Nat) (i bits : Nat) (w : World),
    (wakeup_bits wakeups i l bits w).1 =
      (((l.enumFrom i).filter (fun p => wakeups &&& BIT p.1 ≠ 0)).map Prod.snd).foldl
        (fun acc b => acc ||| b) bits := by
  intro l
  induction l with
  | nil => intro i bits w; rfl
  | cons b bs ih =>
    intro i bits w
    simp only [wakeup_bits, List.enumFrom_cons, List.filter_cons]
    by_cases hw : wakeups &&& BIT i = 0
    · simp only [hw, ne_eq, not_true_eq_false, if_false, decide_False]
      exact ih _ _ _
    · simp only [hw, ne_eq, not_false_eq_true, if_true, decide_True, List.map_cons,
        List.foldl_cons]
      by_cases hb : b = 0
      · simp only [hb, if_true, Nat.or_zero]
        exact ih _ _ _
      · simp only [hb, if_false]
        exact ih _ _ _

theorem wakeup_bits_mask (H : Headers) (wakeups : Nat) (w : World) :
    (wakeup_bits wakeups 0 H.prcmu_wakeup_bit 0 w).1 = wakeup_mask H.prcmu_wakeup_bit wakeups :=
  wakeup_bits_fold wakeups H.prcmu_wakeup_bit 0 0 w

theorem enable_wakeups_some (H : Headers) (wakeups : Nat) (w w1 : World)
    (h : db5500_prcmu_enable_wakeups H wakeups w = some w1) :
    w1.dbb_wakeups = wakeup_mask H.prcmu_wakeup_bit wakeups ∧
    w1.dbb_irqs = w.dbb_irqs ∧ w1.abb_events = w.abb_events ∧
    w1.last_dbb_events = w.dbb_irqs ||| wakeup_mask H.prcmu_wakeup_bit wakeups ∧
    w1.last_abb_events = w.abb_events ∧
    mailbox_writes (new_events w w1) =
      (if w.dbb_irqs ||| wakeup_mask H.prcmu_wakeup_bit wakeups = w.last_dbb_events ∧
          w.abb_events = w.last_abb_events then []
       else wakeup_cfg_push (w.dbb_irqs ||| wakeup_mask H.prcmu_wakeup_bit wakeups)
         w.abb_events) := by
  unfold db5500_prcmu_enable_wakeups at h
  by_cases hv : wakeups = wakeups &&& VALID_WAKEUPS H
  · simp only [ne_eq, hv.symm, not_true_eq_false, if_false] at h
    obtain ⟨k, hk⟩ := wakeup_bits_world wakeups H.prcmu_wakeup_bit 0 0 w
    have hm := wakeup_bits_mask H wakeups (World.boot (fun _ => 0) [] [])
    rw [hk] at h
    simp only at h
    rw [hm] at h
    generalize wakeup_mask H.prcmu_wakeup_bit wakeups = bits at h ⊢
    cases hc : config_wakeups
        { emit (Event.lock Lock.mb0) { w with trace := w.trace ++ List.replicate k Event.warn }
          with dbb_wakeups := bits } with
    | none => simp [hc] at h
    | some w0 =>
      simp only [hc, Option.some.injEq] at h
      obtain ⟨hi, hwk, hab, hd, ha, polls, ht⟩ := config_wakeups_some _ _ hc
      subst h
      refine ⟨hwk, hi, hab, hd, ha, ?_⟩
      have e : new_events w (emit (Event.unlock Lock.mb0) w0) =
          List.replicate k Event.warn ++ [Event.lock Lock.mb0] ++
            polls.map Event.readl_cpu_val ++
            (if w.dbb_irqs ||| bits = w.last_dbb_events ∧ w.abb_events = w.last_abb_events
             then [] else wakeup_cfg_push (w.dbb_irqs ||| bits) w.abb_events) ++
            [Event.unlock Lock.mb0] := by
        apply new_events_append
        simp only [emit] at ht ⊢
        rw [ht]
        simp only [List.append_assoc]
      rw [e]
      simp only [mailbox_writes_append, mailbox_writes_warns, mailbox_writes_reads]
      by_cases hs : w.dbb_irqs ||| bits = w.last_dbb_events ∧ w.abb_events = w.last_abb_events
      · simp [hs, mailbox_writes, is_mailbox_write]
      · simp [hs, mailbox_writes, is_mailbox_write, wakeup_cfg_push]
  · simp [hv] at h

theorem enable_wakeups_isSome (H : Headers) (wakeups : Nat) (w : World)
    (hv : wakeups = wakeups &&& VALID_WAKEUPS H)
    (hc : (w.dbb_irqs ||| wakeup_mask H.prcmu_wakeup_bit wakeups = w.last_dbb_events ∧
        w.abb_events = w.last_abb_events) ∨ ∃ v ∈ w.cpu_val, v &&& MBOX_BIT 0 = 0) :
    (db5500_prcmu_enable_wakeups H wakeups w).isSome = true := by
  unfold db5500_prcmu_enable_wakeups
  simp only [ne_eq, hv.symm, not_true_eq_false, if_false]
  obtain ⟨k, hk⟩ := wakeup_bits_world wakeups H.prcmu_wakeup_bit 0 0 w
  have hm := wakeup_bits_mask H wakeups (World.boot (fun _ => 0) [] [])
  rw [hk]
  simp only
  rw [hm]
  have hs := config_wakeups_isSome
    { emit (Event.lock Lock.mb0) { w with trace := w.trace ++ List.replicate k Event.warn }
      with dbb_wakeups := wakeup_mask H.prcmu_wakeup_bit wakeups } hc
  cases hc2 : config_wakeups
      { emit (Event.lock Lock.mb0) { w with trace := w.trace ++ List.replicate k Event.warn }
        with dbb_wakeups := wakeup_mask H.prcmu_wakeup_bit wakeups } with
  | none => simp [hc2] at hs
  | some w0 => simp

theorem config_abb_event_readout_some (abb_events : Nat) (w w1 : World)
    (h : db5500_prcmu_config_abb_event_readout abb_events w = some w1) :
    w1.abb_events = abb_events ∧ w1.dbb_irqs = w.dbb_irqs ∧ w1.dbb_wakeups = w.dbb_wakeups ∧
    w1.last_dbb_events = w.dbb_irqs ||| w.dbb_wakeups ∧ w1.last_abb_events = abb_events ∧
    mailbox_writes (new_events w w1) =
      (if w.dbb_irqs ||| w.dbb_wakeups = w.last_dbb_events ∧ abb_events = w.last_abb_events
       then [] else wakeup_cfg_push (w.dbb_irqs ||| w.dbb_wakeups) abb_events) := by
  unfold db5500_prcmu_config_abb_event_readout at h
  simp only at h
  cases hc : config_wakeups { emit (Event.lock Lock.mb0) w with abb_events := abb_events } with
  | none => simp [hc] at h
  | some w0 =>
    simp only [hc, Option.some.injEq] at h
    obtain ⟨hi, hwk, hab, hd, ha, polls, ht⟩ := config_wakeups_some _ _ hc
    subst h
    refine ⟨hab, hi, hwk, hd, ha, ?_⟩
    have e : new_events w (emit (Event.unlock Lock.mb0) w0) =
        [Event.lock Lock.mb0] ++ polls.map Event.readl_cpu_val ++
          (if w.dbb_irqs ||| w.dbb_wakeups = w.last_dbb_events ∧ abb_events = w.last_abb_events
           then [] else wakeup_cfg_push (w.dbb_irqs ||| w.dbb_wakeups) abb_events) ++
          [Event.unlock Lock.mb0] := by
      apply new_events_append
      simp only [emit] at ht ⊢
      rw [ht]
      simp only [List.append_assoc]
    rw [e]
    simp only [mailbox_writes_append, mailbox_writes_reads]
    by_cases hs : w.dbb_irqs ||| w.dbb_wakeups = w.last_dbb_events ∧
        abb_events = w.last_abb_events
    · simp [hs, mailbox_writes, is_mailbox_write]
    · simp [hs, mailbox_writes, is_mailbox_write, wakeup_cfg_push]

theorem config_abb_event_readout_isSome (abb_events : Nat) (w : World)
    (hc : (w.dbb_irqs ||| w.dbb_wakeups = w.last_dbb_events ∧ abb_events = w.last_abb_events) ∨
      ∃ v ∈ w.cpu_val, v &&& MBOX_BIT 0 = 0) :
    (db5500_prcmu_config_abb_event_readout abb_events w).isSome = true := by
  unfold db5500_prcmu_config_abb_event_readout
  simp only
  have hs := config_wakeups_isSome
    { emit (Event.lock Lock.mb0) w with abb_events := abb_events } hc
  cases hc2 : config_wakeups { emit (Event.lock Lock.mb0) w with abb_events := abb_events } with
  | none => simp [hc2] at hs
  | some w0 => simp

/-- C27: for `wakeups` within `VALID_WAKEUPS`, `db5500_prcmu_enable_wakeups` returns
whenever the pair to push is the remembered pair or pending bit 0 is eventually read
clear, and when it returns `dbb_wakeups` is the bitwise OR of `prcmu_wakeup_bit[i]` over
exactly the indices `i` set in `wakeups` (whatever `dbb_wakeups` was before; an entry 0
adds nothing to an OR), `dbb_irqs` and `abb_events` are unchanged, and its mailbox writes
are none if the pair `(dbb_irqs | dbb_wakeups, abb_events)` is the remembered one and
otherwise the `WAKE_UP_CFG` transaction with DBB word `dbb_irqs | dbb_wakeups`;
`db5500_prcmu_config_abb_event_readout(e)` likewise returns, sets `abb_events = e`,
leaves `dbb_irqs` and `dbb_wakeups` unchanged and offers `dbb_irqs | dbb_wakeups` with
ABB word `e`. -/
theorem wakeup_bitmask_construction (H : Headers) (wakeups abb_events : Nat) (w : World)
    (hv : wakeups = wakeups &&& VALID_WAKEUPS H) :
    (((w.dbb_irqs ||| wakeup_mask H.prcmu_wakeup_bit wakeups = w.last_dbb_events ∧
        w.abb_events = w.last_abb_events) ∨ ∃ v ∈ w.cpu_val, v &&& MBOX_BIT 0 = 0) →
      ∃ w1, db5500_prcmu_enable_wakeups H wakeups w = some w1) ∧
    (∀ w1, db5500_prcmu_enable_wakeups H wakeups w = some w1 →
      w1.dbb_wakeups = wakeup_mask H.prcmu_wakeup_bit wakeups ∧
      w1.dbb_irqs = w.dbb_irqs ∧ w1.abb_events = w.abb_events ∧
      mailbox_writes (new_events w w1) =
        (if w.dbb_irqs ||| wakeup_mask H.prcmu_wakeup_bit wakeups = w.last_dbb_events ∧
            w.abb_events = w.last_abb_events then []
         else wakeup_cfg_push (w.dbb_irqs ||| wakeup_mask H.prcmu_wakeup_bit wakeups)
           w.abb_events)) ∧
    (((w.dbb_irqs ||| w.dbb_wakeups = w.last_dbb_events ∧ abb_events = w.last_abb_events) ∨
        ∃ v ∈ w.cpu_val, v &&& MBOX_BIT 0 = 0) →
      ∃ w1, db5500_prcmu_config_abb_event_readout abb_events w = some w1) ∧
    (∀ w1, db5500_prcmu_config_abb_event_readout abb_events w = some w1 →
      w1.abb_events = abb_events ∧ w1.dbb_irqs = w.dbb_irqs ∧
      w1.dbb_wakeups = w.dbb_wakeups ∧
      mailbox_writes (new_events w w1) =
        (if w.dbb_irqs ||| w.dbb_wakeups = w.last_dbb_events ∧ abb_events = w.last_abb_events
         then [] else wakeup_cfg_push (w.dbb_irqs ||| w.dbb_wakeups) abb_events)) := by
  refine ⟨?_, ?_, ?_, ?_⟩
  · intro hc
    exact Option.isSome_iff_exists.mp (enable_wakeups_isSome H wakeups w hv hc)
  · intro w1 h
    obtain ⟨h1, h2, h3, _, _, h6⟩ := enable_wakeups_some H wakeups w w1 h
    exact ⟨h1, h2, h3, h6⟩
  · intro hc
    exact Option.isSome_iff_exists.mp (config_abb_event_readout_isSome abb_events w hc)
  · intro w1 h
    obtain ⟨h1, h2, h3, _, _, h6⟩ := config_abb_event_readout_some abb_events w w1 h
    exact ⟨h1, h2, h3, h6⟩

theorem wakeup_bitmask_construction_witness :
    BIT 0 ||| BIT 3 ||| BIT 5 = (BIT 0 ||| BIT 3 ||| BIT 5) &&& VALID_WAKEUPS Headers.sample ∧
    wakeup_mask Headers.sample.prcmu_wakeup_bit (BIT 0 ||| BIT 3 ||| BIT 5)
      = WAKEUP_BIT_RTC ||| WAKEUP_BIT_USB ∧
    ∃ w1, db5500_prcmu_enable_wakeups Headers.sample (BIT 0 ||| BIT 3 ||| BIT 5)
        { World.sample with dbb_irqs := WAKEUP_BIT_ABB, dbb_wakeups := WAKEUP_BIT_ARM }
        = some w1 ∧
      w1.dbb_wakeups = wakeup_mask Headers.sample.prcmu_wakeup_bit (BIT 0 ||| BIT 3 ||| BIT 5) ∧
      w1.dbb_irqs = WAKEUP_BIT_ABB ∧ w1.abb_events = World.sample.abb_events ∧
      mailbox_writes
          (new_events
            { World.sample with dbb_irqs := WAKEUP_BIT_ABB, dbb_wakeups := WAKEUP_BIT_ARM } w1) =
        wakeup_cfg_push
          (WAKEUP_BIT_ABB ||| wakeup_mask Headers.sample.prcmu_wakeup_bit
            (BIT 0 ||| BIT 3 ||| BIT 5))
          World.sample.abb_events := by
  refine ⟨by decide, by decide, ?_⟩
  have t := wakeup_bitmask_construction Headers.sample (BIT 0 ||| BIT 3 ||| BIT 5) 0
    { World.sample with dbb_irqs := WAKEUP_BIT_ABB, dbb_wakeups := WAKEUP_BIT_ARM }
    (by decide)
  obtain ⟨w1, h⟩ := t.1 (Or.inr ⟨0, by decide, by decide⟩)
  obtain ⟨h1, h2, h3, h4⟩ := t.2.1 w1 h
  refine ⟨w1, h, h1, h2, h3, ?_⟩
  rw [h4]
  exact if_neg (by decide)

/-! ## The demultiplex loop is total and in bounds -/

set_option maxRecDepth 100000 in
theorem mbox_bit_le : ∀ b : Fin 256, ∀ n : Fin 8,
    b.val &&& MBOX_BIT n.val ≠ 0 → MBOX_BIT n.val ≤ b.val := by decide

theorem irq_loop_steps_bounds : ∀ (fuel n bits : Nat) (w : World),
    n ≤ 8 → bits < 256 → bits % 2 ^ n = 0 →
    (irq_loop_steps fuel n bits w).length ≤ 8 - n ∧
    ∀ p ∈ irq_loop_steps fuel n bits w, p.1 < NUM_MB ∧
      (p.2 &&& MBOX_BIT p.1 ≠ 0 → MBOX_BIT p.1 ≤ p.2) := by
  intro fuel
  induction fuel with
  | zero =>
    intro n bits w _ _ _
    simp [irq_loop_steps]
  | succ fuel ih =>
    intro n bits w hn hlt hlow
    simp only [irq_loop_steps]
    by_cases hb : bits = 0
    · simp [hb]
    · simp only [hb, if_false]
      have hn8 : n < 8 := by
        by_contra hc
        have h8 : n = 8 := by omega
        subst h8
        simp at hlow; omega
      have hfacts := mbox_bits_low ⟨bits, hlt⟩ ⟨n, hn8⟩ hlow
      have hle := mbox_bit_le ⟨bits, hlt⟩ ⟨n, hn8⟩
      by_cases hbit : bits &&& MBOX_BIT n = 0
      · simp only [hbit, ne_eq, not_true_eq_false, if_false]
        obtain ⟨h1, h2⟩ := ih (n + 1) bits w (by omega) hlt (hfacts.2 hbit)
        refine ⟨by simp only [List.length_cons]; omega, ?_⟩
        intro p hp
        rcases List.mem_cons.mp hp with rfl | hp
        · exact ⟨hn8, fun h => absurd hbit h⟩
        · exact h2 p hp
      · simp only [hbit, ne_eq, not_false_eq_true, if_true]
        obtain ⟨q, hq⟩ := read_mailbox_lt n hn8 w
        obtain ⟨w1, wake⟩ := q
        simp only [hq]
        obtain ⟨h1, h2⟩ := ih (n + 1) (bits - MBOX_BIT n) w1 (by omega)
          (lt_of_le_of_lt (Nat.sub_le _ _) hlt) (hfacts.1 hbit)
        refine ⟨by simp only [List.length_cons]; omega, ?_⟩
        intro p hp
        rcases List.mem_cons.mp hp with rfl | hp
        · exact ⟨hn8, fun _ => hle hbit⟩
        · exact h2 p hp

/-- C28: for every value `v` read from `PRCM_ARM_IT1_VAL`, the handler returns; its loop
over `v & ALL_MBOX_BITS` ends within 8 iterations (run with room for 8 iterations it
gives a result, the same as with the 256 the `u8` index allows); the loop makes at most
8 iterations; in every iteration the index `n` is below `NUM_MB`, so `read_mailbox[n]`
exists, and whenever `bits & MBOX_BIT(n)` is non-zero, `MBOX_BIT(n) <= bits`, so the
subtraction does not wrap. -/
theorem irq_loop_total_in_bounds (v : Nat) (w : World) :
    (∃ p, prcmu_irq_handler v w = some p) ∧
    (∃ p, irq_loop 8 0 (v &&& ALL_MBOX_BITS) irqreturn_t.IRQ_HANDLED w = some p ∧
      irq_loop 256 0 (v &&& ALL_MBOX_BITS) irqreturn_t.IRQ_HANDLED w = some p) ∧
    (irq_loop_steps 256 0 (v &&& ALL_MBOX_BITS) w).length ≤ 8 ∧
    (∀ p ∈ irq_loop_steps 256 0 (v &&& ALL_MBOX_BITS) w,
      p.1 < NUM_MB ∧ (∀ w0, (read_mailbox p.1 w0).isSome = true) ∧
      (p.2 &&& MBOX_BIT p.1 ≠ 0 → MBOX_BIT p.1 ≤ p.2)) := by
  have hlt := and_all_mbox_bits_lt v
  have hb := irq_loop_steps_bounds 256 0 (v &&& ALL_MBOX_BITS) w (by omega) hlt (Nat.mod_one _)
  refine ⟨?_, ?_, hb.1, ?_⟩
  · simp only [prcmu_irq_handler]
    split
    · exact ⟨_, rfl⟩
    · exact irq_loop_isSome 256 0 _ _ _ (by omega) hlt (Nat.mod_one _) (by omega)
  · obtain ⟨p, hp⟩ := irq_loop_isSome 8 0 (v &&& ALL_MBOX_BITS) irqreturn_t.IRQ_HANDLED w
      (by omega) hlt (Nat.mod_one _) (by omega)
    refine ⟨p, hp, ?_⟩
    rw [← hp, irq_loop_eq 8 0 _ _ w (by omega) hlt (Nat.mod_one _) (by omega),
      irq_loop_eq 256 0 _ _ w (by omega) hlt (Nat.mod_one _) (by omega)]
  · intro p hp
    obtain ⟨h1, h2⟩ := hb.2 p hp
    refine ⟨h1, ?_, h2⟩
    intro w0
    obtain ⟨q, hq⟩ := read_mailbox_lt p.1 h1 w0
    simp [hq]

/-! ## Per-mailbox mutual exclusion -/

theorem thread_trace_append (t : Nat) (s : List (Nat × Event)) (x : Nat × Event) :
    thread_trace t (s ++ [x]) =
      if x.1 = t then thread_trace t s ++ [x.2] else thread_trace t s := by
  simp only [thread_trace, List.filter_append, List.map_append]
  by_cases h : x.1 = t <;> simp [h]

theorem guard_run_none (m : Nat) (tr : List Event) : guard_run m tr none = none := by
  induction tr with
  | nil => rfl
  | cons e tr ih => simpa [guard_run, guard_step] using ih

theorem guard_run_append (m : Nat) (a b : List Event) (st : Option (Bool × Bool)) :
    guard_run m (a ++ b) st = guard_run m b (guard_run m a st) := by
  simp [guard_run, List.foldl_append]

theorem lock_fold_none (l : Lock) (s : List (Nat × Event)) :
    s.foldl (lock_step l) none = none := by
  induction s with
  | nil => rfl
  | cons x s ih => simpa [lock_step] using ih

theorem exclusion_fold_none (m : Nat) (s : List (Nat × Event)) :
    s.foldl (exclusion_step m) none = none := by
  induction s with
  | nil => rfl
  | cons x s ih => simpa [exclusion_step] using ih

theorem writes_mailbox_lock (m : Nat) (l : Lock) : writes_mailbox m (Event.lock l) = false := rfl

theorem writes_mailbox_unlock (m : Nat) (l : Lock) :
    writes_mailbox m (Event.unlock l) = false := rfl

theorem ends_request_lock (m : Nat) (l : Lock) : ends_request m (Event.lock l) = false := rfl

theorem raises_writes (m : Nat) (e : Event) (h : raises_pending m e = true) :
    writes_mailbox m e = true := by
  simp [writes_mailbox, h]

/-- One event of thread `t0` keeps the link between the holder of the lock of
mailbox `m`, the thread with a request in flight and the state of `t0`. -/
theorem exclusion_step_inv (m : Nat) (l : Lock) (hml : mailbox_lock m = some l)
    (holder owner : Option Nat) (t0 : Nat) (e : Event) (held0 fl0 : Bool)
    (hL : lock_step l (some holder) (t0, e) ≠ none)
    (hG : guard_step m (some (held0, fl0)) e ≠ none)
    (h1 : held0 = true → holder = some t0) (h2 : fl0 = true → held0 = true)
    (h3 : owner = some t0 → fl0 = true)
    (h4 : ∀ t, t ≠ t0 → owner = some t → holder = some t) :
    ∃ holder1 owner1 held1 fl1,
      lock_step l (some holder) (t0, e) = some holder1 ∧
      exclusion_step m (some owner) (t0, e) = some owner1 ∧
      guard_step m (some (held0, fl0)) e = some (held1, fl1) ∧
      (held1 = true → holder1 = some t0) ∧ (fl1 = true → held1 = true) ∧
      (owner1 = some t0 → fl1 = true) ∧
      (∀ t, t ≠ t0 → holder = some t → holder1 = some t) ∧
      (∀ t, t ≠ t0 → owner1 = some t → owner = some t) := by
  by_cases e1 : e = Event.lock l
  · subst e1
    simp only [lock_step, if_true] at hL ⊢
    by_cases hh : holder = none
    · subst hh
      have ho : owner = none ∨ owner = some t0 := by
        cases owner with
        | none => exact Or.inl rfl
        | some t =>
          by_cases ht : t = t0
          · exact Or.inr (by rw [ht])
          · exact absurd (h4 t ht rfl) (by simp)
      refine ⟨some t0, owner, true, fl0, by simp, ?_, ?_, fun _ => rfl, fun _ => rfl, h3,
        fun t _ h => Option.noConfusion h, fun t _ h => h⟩
      · simp [exclusion_step, writes_mailbox_lock, ends_request_lock]
      · simp [guard_step, hml]
    · simp [hh] at hL
  · by_cases e2 : e = Event.unlock l
    · subst e2
      have e3 : ¬ Event.unlock l = Event.lock l := by simp
      simp only [lock_step, e3, if_false, if_true] at hL ⊢
      by_cases hh : holder = some t0
      · subst hh
        have ho : owner = none ∨ owner = some t0 := by
          cases owner with
          | none => exact Or.inl rfl
          | some t =>
            by_cases ht : t = t0
            · exact Or.inr (by rw [ht])
            · have := h4 t ht rfl
              simp only [Option.some.injEq] at this
              exact absurd this.symm ht
        simp only [guard_step, hml, Option.map_some', Option.some.injEq, e3, if_false,
          if_true] at hG ⊢
        by_cases hf : fl0 = true ∧ ends_request m (Event.unlock l) = false
        · simp [hf] at hG
        · simp only [hf, if_false]
          refine ⟨none, none, false, false, by simp, ?_, rfl, by simp, by simp, by simp,
            fun t ht h => absurd h.symm ht, fun t _ h => Option.noConfusion h⟩
          simp only [exclusion_step, writes_mailbox_unlock, Bool.false_eq_true, if_false]
          rcases ho with ho | ho
          · subst ho; simp
          · subst ho
            have hfl := h3 rfl
            have he : ends_request m (Event.unlock l) = true := by
              by_contra hc
              exact hf ⟨hfl, by simpa using hc⟩
            simp [he]
      · simp [hh] at hL
    · simp only [lock_step, e1, e2, if_false] at hL ⊢
      have g1 : ¬ (Option.map Event.lock (mailbox_lock m) = some e) := by
        rw [hml]; simpa using fun h => e1 h.symm
      have g2 : ¬ (Option.map Event.unlock (mailbox_lock m) = some e) := by
        rw [hml]; simpa using fun h => e2 h.symm
      simp only [guard_step, g1, g2, if_false] at hG ⊢
      by_cases hw : writes_mailbox m e = true
      · simp only [hw, if_true] at hG ⊢
        by_cases hh : held0 = true
        · subst hh
          have hhold := h1 rfl
          have ho : owner = none ∨ owner = some t0 := by
            cases owner with
            | none => exact Or.inl rfl
            | some t =>
              by_cases ht : t = t0
              · exact Or.inr (by rw [ht])
              · have := h4 t ht rfl
                rw [hhold] at this
                simp only [Option.some.injEq] at this
                exact absurd this.symm ht
          simp only [if_true]
          rcases ho with ho | ho
          · subst ho
            by_cases hr : raises_pending m e = true
            · refine ⟨holder, some t0, true, fl0 || raises_pending m e, rfl, ?_, rfl,
                fun _ => hhold, fun _ => rfl, fun _ => by simp [hr], fun t _ h => h,
                fun t ht h => absurd (Option.some.inj h).symm ht⟩
              simp [exclusion_step, hw, hr]
            · refine ⟨holder, none, true, fl0 || raises_pending m e, rfl, ?_, rfl,
                fun _ => hhold, fun _ => rfl, fun h => Option.noConfusion h, fun t _ h => h,
                fun t ht h => Option.noConfusion h⟩
              simp [exclusion_step, hw, hr]
          · subst ho
            refine ⟨holder, some t0, true, fl0 || raises_pending m e, rfl, ?_, rfl,
              fun _ => hhold, fun _ => rfl, fun _ => by simp [h3 rfl], fun t _ h => h,
              fun t ht h => absurd (Option.some.inj h).symm ht⟩
            simp [exclusion_step, hw]
        · simp [hh] at hG
      · simp only [hw, Bool.false_eq_true, if_false] at hG ⊢
        by_cases hen : ends_request m e = true
        · simp only [hen, if_true]
          by_cases ho : owner = some t0
          · refine ⟨holder, none, held0, false, rfl, ?_, rfl, h1, by simp, by simp,
              fun t _ h => h, fun t ht h => Option.noConfusion h⟩
            simp [exclusion_step, hw, hen, ho]
          · refine ⟨holder, owner, held0, false, rfl, ?_, rfl, h1, by simp,
              fun h => absurd h ho, fun t _ h => h, fun t _ h => h⟩
            simp [exclusion_step, hw, hen, ho]
        · simp only [hen, Bool.false_eq_true, if_false]
          refine ⟨holder, owner, held0, fl0, rfl, ?_, rfl, h1, h2, h3, fun t _ h => h,
            fun t _ h => h⟩
          simp [exclusion_step, hw, hen]

theorem guard_run_snoc (m : Nat) (tr : List Event) (e : Event) (st : Option (Bool × Bool)) :
    guard_run m (tr ++ [e]) st = guard_step m (guard_run m tr st) e := by
  simp [guard_run, List.foldl_append]

theorem guard_thread_prefix (m : Nat) (s : List (Nat × Event)) (x : Nat × Event) (t : Nat)
    (h : guard_run m (thread_trace t (s ++ [x])) (some (false, false)) ≠ none) :
    guard_run m (thread_trace t s) (some (false, false)) ≠ none := by
  intro hc
  apply h
  rw [thread_trace_append]
  split
  · rw [guard_run_snoc, hc]; rfl
  · exact hc

/-- Along a schedule that respects the lock of mailbox `m` and whose threads keep
the guard, the thread with a request in flight holds the lock. -/
theorem exclusion_invariant (m : Nat) (l : Lock) (hml : mailbox_lock m = some l) :
    ∀ s : List (Nat × Event), s.foldl (lock_step l) (some none) ≠ none →
      (∀ t, guard_run m (thread_trace t s) (some (false, false)) ≠ none) →
      ∃ holder owner, s.foldl (lock_step l) (some none) = some holder ∧
        s.foldl (exclusion_step m) (some none) = some owner ∧
        ∀ t, ∃ held fl, guard_run m (thread_trace t s) (some (false, false)) = some (held, fl) ∧
          (held = true → holder = some t) ∧ (fl = true → held = true) ∧
          (owner = some t → fl = true) := by
  intro s
  induction s using List.reverseRecOn with
  | nil =>
    intro _ _
    refine ⟨none, none, rfl, rfl, fun t => ⟨false, false, rfl, ?_, ?_, ?_⟩⟩
    · intro h; cases h
    · intro h; cases h
    · intro h; cases h
  | append_singleton s x ih =>
    intro hL hG
    have hLs : s.foldl (lock_step l) (some none) ≠ none := by
      intro hc
      apply hL
      rw [List.foldl_append, hc]
      rfl
    obtain ⟨holder, owner, hh, ho, hT⟩ := ih hLs (fun t => guard_thread_prefix m s x t (hG t))
    obtain ⟨t0, e⟩ := x
    obtain ⟨held0, fl0, hg0, h1, h2, h3⟩ := hT t0
    have hL1 : lock_step l (some holder) (t0, e) ≠ none := by
      rw [List.foldl_append, hh] at hL
      exact hL
    have hG1 : guard_step m (some (held0, fl0)) e ≠ none := by
      have := hG t0
      rw [thread_trace_append, if_pos rfl, guard_run_snoc, hg0] at this
      exact this
    have h4 : ∀ t, t ≠ t0 → owner = some t → holder = some t := by
      intro t _ hot
      obtain ⟨held, fl, _, a1, a2, a3⟩ := hT t
      exact a1 (a2 (a3 hot))
    obtain ⟨holder1, owner1, held1, fl1, q1, q2, q3, q4, q5, q6, q7, q8⟩ :=
      exclusion_step_inv m l hml holder owner t0 e held0 fl0 hL1 hG1 h1 h2 h3 h4
    refine ⟨holder1, owner1, ?_, ?_, ?_⟩
    · rw [List.foldl_append, hh]; exact q1
    · rw [List.foldl_append, ho]; exact q2
    · intro t
      by_cases ht : t = t0
      · subst ht
        refine ⟨held1, fl1, ?_, q4, q5, q6⟩
        rw [thread_trace_append, if_pos rfl, guard_run_snoc, hg0]
        exact q3
      · obtain ⟨held, fl, hg, a1, a2, a3⟩ := hT t
        refine ⟨held, fl, ?_, fun h => q7 t ht (a1 h), a2, fun h => a3 (q8 t ht h)⟩
        rw [thread_trace_append, if_neg (fun h : (t0, e).1 = t => ht h.symm)]
        exact hg

/-- A thread that keeps the guard for a mailbox without requester never writes to
it. -/
theorem guard_step_no_lock (m : Nat) (hml : mailbox_lock m = none) (fl : Bool) (e : Event)
    (h : guard_step m (some (false, fl)) e ≠ none) :
    writes_mailbox m e = false ∧ ∃ fl1, guard_step m (some (false, fl)) e = some (false, fl1) := by
  simp only [guard_step, hml, Option.map_none', reduceCtorEq, if_false] at h ⊢
  by_cases hw : writes_mailbox m e = true
  · simp [hw] at h
  · simp only [hw, Bool.false_eq_true, if_false]
    refine ⟨trivial, ?_⟩
    split
    · exact ⟨false, rfl⟩
    · exact ⟨fl, rfl⟩

theorem exclusion_no_lock (m : Nat) (hml : mailbox_lock m = none) :
    ∀ s : List (Nat × Event),
      (∀ t, guard_run m (thread_trace t s) (some (false, false)) ≠ none) →
      s.foldl (exclusion_step m) (some none) = some none ∧
      ∀ t, ∃ fl, guard_run m (thread_trace t s) (some (false, false)) = some (false, fl) := by
  intro s
  induction s using List.reverseRecOn with
  | nil =>
    intro _
    exact ⟨rfl, fun t => ⟨false, rfl⟩⟩
  | append_singleton s x ih =>
    intro hG
    obtain ⟨ho, hT⟩ := ih (fun t => guard_thread_prefix m s x t (hG t))
    obtain ⟨t0, e⟩ := x
    obtain ⟨fl0, hg0⟩ := hT t0
    have hG1 : guard_step m (some (false, fl0)) e ≠ none := by
      have := hG t0
      rw [thread_trace_append, if_pos rfl, guard_run_snoc, hg0] at this
      exact this
    obtain ⟨hw, fl1, hs⟩ := guard_step_no_lock m hml fl0 e hG1
    refine ⟨?_, ?_⟩
    · rw [List.foldl_append, ho]
      simp [exclusion_step, hw]
    · intro t
      by_cases ht : t = t0
      · subst ht
        refine ⟨fl1, ?_⟩
        rw [thread_trace_append, if_pos rfl, guard_run_snoc, hg0]
        exact hs
      · obtain ⟨fl, hg⟩ := hT t
        refine ⟨fl, ?_⟩
        rw [thread_trace_append, if_neg (fun h : (t0, e).1 = t => ht h.symm)]
        exact hg

/-- Mutual exclusion from the lock and the guard of every thread. -/
theorem exclusive_of_guarded (m : Nat) (s : List (Nat × Event))
    (hl : ∀ l, lock_ok l s = true)
    (hg : ∀ t, guard_run m (thread_trace t s) (some (false, false)) ≠ none) :
    exclusive m s = true := by
  cases hml : mailbox_lock m with
  | none =>
    obtain ⟨h, _⟩ := exclusion_no_lock m hml s hg
    simp [exclusive, h]
  | some l =>
    have hL : s.foldl (lock_step l) (some none) ≠ none := by
      have := hl l
      simp only [lock_ok, Option.isSome_iff_exists] at this
      obtain ⟨a, ha⟩ := this
      simp [ha]
    obtain ⟨_, owner, _, h, _⟩ := exclusion_invariant m l hml s hL hg
    simp [exclusive, h]

/-! ### What a single call does to the mailboxes -/

theorem mailbox_lock_cases (m : Nat) (l : Lock) (h : mailbox_lock m = some l) :
    (m = 0 ∧ l = Lock.mb0) ∨ (m = 2 ∧ l = Lock.mb2) ∨ (m = 3 ∧ l = Lock.sysclk) ∨
      (m = 5 ∧ l = Lock.mb5) := by
  unfold mailbox_lock at h
  split at h <;> simp_all

theorem mailbox_lock_inj (m k : Nat) (l : Lock) (hm : mailbox_lock m = some l)
    (hk : mailbox_lock k = some l) : m = k := by
  rcases mailbox_lock_cases m l hm with ⟨rfl, rfl⟩ | ⟨rfl, rfl⟩ | ⟨rfl, rfl⟩ | ⟨rfl, rfl⟩ <;>
    rcases mailbox_lock_cases k _ hk with ⟨rfl, h⟩ | ⟨rfl, h⟩ | ⟨rfl, h⟩ | ⟨rfl, h⟩ <;>
    first | rfl | cases h

theorem mailbox_completion_cases (m : Nat) (c : Compl) (h : mailbox_completion m = some c) :
    (m = 2 ∧ c = Compl.mb2_work) ∨ (m = 3 ∧ c = Compl.sysclk_work) ∨
      (m = 5 ∧ c = Compl.mb5_work) := by
  unfold mailbox_completion at h
  split at h <;> simp_all

theorem mailbox_completion_inj (m k : Nat) (c : Compl) (hm : mailbox_completion m = some c)
    (hk : mailbox_completion k = some c) : m = k := by
  rcases mailbox_completion_cases m c hm with ⟨rfl, rfl⟩ | ⟨rfl, rfl⟩ | ⟨rfl, rfl⟩ <;>
    rcases mailbox_completion_cases k _ hk with ⟨rfl, h⟩ | ⟨rfl, h⟩ | ⟨rfl, h⟩ <;>
    first | rfl | cases h

theorem mbox_bit_and_ne (k m : Nat) (h : k ≠ m) : MBOX_BIT k &&& MBOX_BIT m = 0 := by
  apply Nat.eq_of_testBit_eq
  intro i
  simp only [MBOX_BIT, BIT, Nat.one_shiftLeft, Nat.testBit_and, Nat.testBit_two_pow,
    Nat.zero_testBit]
  by_cases hk : k = i
  · subst hk; simp [Ne.symm h]
  · simp [hk]

theorem mbox_bit_and_self (k : Nat) : MBOX_BIT k &&& MBOX_BIT k ≠ 0 := by
  rw [Nat.and_self]
  simp [MBOX_BIT, BIT, Nat.one_shiftLeft]

theorem quiet_lock_not_mailbox (m : Nat) (l : Lock) (h : quiet (Event.lock l) = true) :
    mailbox_lock m ≠ some l := by
  intro hm
  simp only [quiet, decide_eq_true_eq] at h
  rcases mailbox_lock_cases m l hm with ⟨_, rfl⟩ | ⟨_, rfl⟩ | ⟨_, rfl⟩ | ⟨_, rfl⟩ <;> simp at h

theorem guard_step_of_no_touch (m : Nat) (st : Bool × Bool) (e : Event)
    (h1 : ∀ l, mailbox_lock m = some l → e ≠ Event.lock l ∧ e ≠ Event.unlock l)
    (h2 : writes_mailbox m e = false) (h3 : ends_request m e = false) :
    guard_step m (some st) e = some st := by
  obtain ⟨held, fl⟩ := st
  have g1 : ¬ (Option.map Event.lock (mailbox_lock m) = some e) := by
    cases hml : mailbox_lock m with
    | none => simp
    | some l => simpa using fun h => (h1 l hml).1 h.symm
  have g2 : ¬ (Option.map Event.unlock (mailbox_lock m) = some e) := by
    cases hml : mailbox_lock m with
    | none => simp
    | some l => simpa using fun h => (h1 l hml).2 h.symm
  simp [guard_step, g1, g2, h2, h3]

theorem guard_step_quiet (m : Nat) (st : Bool × Bool) (e : Event) (h : quiet e = true) :
    guard_step m (some st) e = some st := by
  apply guard_step_of_no_touch
  · intro l hml
    constructor
    · rintro rfl
      exact quiet_lock_not_mailbox m l h hml
    · rintro rfl
      exact quiet_lock_not_mailbox m l h hml
  · cases e with
    | reg_writel r v => cases r <;> first | rfl | simp [quiet] at h
    | _ => first | rfl | simp [quiet] at h
  · cases e with
    | unlock l =>
      have := quiet_lock_not_mailbox 0 l h
      simp only [ends_request, decide_eq_false_iff_not, not_and]
      rintro - rfl
      exact this rfl
    | _ => first | rfl | simp [quiet] at h

theorem guard_run_quiet (m : Nat) (st : Bool × Bool) :
    ∀ L : List Event, (∀ e ∈ L, quiet e = true) → guard_run m L (some st) = some st := by
  intro L
  induction L with
  | nil => intro _; rfl
  | cons e L ih =>
    intro h
    have he := guard_step_quiet m st e (h e (List.mem_cons_self _ _))
    simp only [guard_run, List.foldl_cons] at ih ⊢
    rw [he]
    exact ih (fun x hx => h x (List.mem_cons_of_mem _ hx))

theorem guard_step_touches (m k : Nat) (hmk : m ≠ k) (st : Bool × Bool) (e : Event)
    (h : touches k e = true) : guard_step m (some st) e = some st := by
  apply guard_step_of_no_touch
  · intro l hml
    constructor
    · rintro rfl
      simp only [touches, decide_eq_true_eq] at h
      rcases h with h | h
      · exact hmk (mailbox_lock_inj m k l hml h)
      · exact quiet_lock_not_mailbox m l h hml
    · rintro rfl
      simp only [touches, decide_eq_true_eq] at h
      rcases h with h | h
      · exact hmk (mailbox_lock_inj m k l hml h)
      · exact quiet_lock_not_mailbox m l h hml
  · cases e with
    | writeb off v =>
      simp only [touches, decide_eq_true_eq] at h
      simp [writes_mailbox, is_req_store, raises_pending, h, Ne.symm hmk]
    | writel off v =>
      simp only [touches, decide_eq_true_eq] at h
      simp [writes_mailbox, is_req_store, raises_pending, h, Ne.symm hmk]
    | memcpy_toio off v =>
      simp only [touches, decide_eq_true_eq] at h
      simp [writes_mailbox, is_req_store, raises_pending, h, Ne.symm hmk]
    | reg_writel r v =>
      cases r <;> try rfl
      simp only [touches, decide_eq_true_eq] at h
      subst h
      simp [writes_mailbox, is_req_store, raises_pending, mbox_bit_and_ne k m (Ne.symm hmk)]
    | _ => rfl
  · cases e with
    | unlock l =>
      simp only [touches, decide_eq_true_eq] at h
      simp only [ends_request, decide_eq_false_iff_not, not_and]
      rintro rfl rfl
      rcases h with h | h
      · exact hmk (mailbox_lock_inj 0 k Lock.mb0 rfl h)
      · simp [quiet] at h
    | wait_end c b =>
      simp only [touches, decide_eq_true_eq] at h
      simp only [ends_request, decide_eq_false_iff_not]
      intro hm
      exact hmk (mailbox_completion_inj m k c hm h)
    | _ => rfl

theorem guard_run_touches (m k : Nat) (hmk : m ≠ k) (st : Bool × Bool) :
    ∀ L : List Event, (∀ e ∈ L, touches k e = true) → guard_run m L (some st) = some st := by
  intro L
  induction L with
  | nil => intro _; rfl
  | cons e L ih =>
    intro h
    have he := guard_step_touches m k hmk st e (h e (List.mem_cons_self _ _))
    simp only [guard_run, List.foldl_cons] at ih ⊢
    rw [he]
    exact ih (fun x hx => h x (List.mem_cons_of_mem _ hx))

theorem touches_of_quiet (k : Nat) (e : Event) (h : quiet e = true) : touches k e = true := by
  cases e with
  | lock l => simp only [touches, decide_eq_true_eq]; exact Or.inr h
  | unlock l => simp only [touches, decide_eq_true_eq]; exact Or.inr h
  | reg_writel r v => cases r <;> first | rfl | simp [quiet] at h
  | _ => first | rfl | simp [quiet] at h

theorem touches_of_in_hold (k : Nat) (e : Event) (h : in_hold k e = true) :
    touches k e = true := by
  cases e with
  | reg_writel r v => cases r <;> first | rfl | exact h
  | _ => first | rfl | exact h | simp [in_hold] at h

theorem in_hold_of_quiet (k : Nat) (e : Event) (h : quiet e = true)
    (hl : ∀ l, e ≠ Event.lock l ∧ e ≠ Event.unlock l) : in_hold k e = true := by
  cases e with
  | lock l => exact absurd rfl (hl l).1
  | unlock l => exact absurd rfl (hl l).2
  | reg_writel r v => cases r <;> first | rfl | simp [quiet] at h
  | _ => first | rfl | simp [quiet] at h

theorem guard_step_in_hold (k : Nat) (fl : Bool) (e : Event) (h : in_hold k e = true) :
    ∃ fl1, guard_step k (some (true, fl)) e = some (true, fl1) := by
  have g1 : ¬ (Option.map Event.lock (mailbox_lock k) = some e) := by
    cases mailbox_lock k with
    | none => simp
    | some l =>
      simp only [Option.map_some', Option.some.injEq]
      rintro rfl
      simp [in_hold] at h
  have g2 : ¬ (Option.map Event.unlock (mailbox_lock k) = some e) := by
    cases mailbox_lock k with
    | none => simp
    | some l =>
      simp only [Option.map_some', Option.some.injEq]
      rintro rfl
      simp [in_hold] at h
  simp only [guard_step, g1, g2, if_false, if_true]
  by_cases hw : writes_mailbox k e = true
  · simp only [hw, if_true]
    exact ⟨_, rfl⟩
  · simp only [hw, Bool.false_eq_true, if_false]
    split
    · exact ⟨_, rfl⟩
    · exact ⟨_, rfl⟩

theorem guard_run_in_hold (k : Nat) : ∀ (B : List Event) (fl : Bool),
    (∀ e ∈ B, in_hold k e = true) →
    ∃ fl1, guard_run k B (some (true, fl)) = some (true, fl1) := by
  intro B
  induction B with
  | nil => intro fl _; exact ⟨fl, rfl⟩
  | cons e B ih =>
    intro fl h
    obtain ⟨fl1, h1⟩ := guard_step_in_hold k fl e (h e (List.mem_cons_self _ _))
    obtain ⟨fl2, h2⟩ := ih fl1 (fun x hx => h x (List.mem_cons_of_mem _ hx))
    refine ⟨fl2, ?_⟩
    simp only [guard_run, List.foldl_cons] at h2 ⊢
    rw [h1]
    exact h2

theorem in_hold_irq (k : Nat) (e : Event) (h : is_irq_event e = true) : in_hold k e = true := by
  cases e with
  | reg_writel r v => cases r <;> first | rfl | simp [is_irq_event] at h
  | _ => first | rfl | simp [is_irq_event] at h

theorem quiet_irq (e : Event) (h : is_irq_event e = true) : quiet e = true := by
  cases e with
  | reg_writel r v => cases r <;> first | rfl | simp [is_irq_event] at h
  | _ => first | rfl | simp [is_irq_event] at h

theorem in_hold_of_req_store (k : Nat) (e : Event) (h : is_req_store k e = true) :
    in_hold k e = true := by
  cases e <;> first | exact h | simp [is_req_store] at h

theorem in_hold_raise (k : Nat) :
    in_hold k (Event.reg_writel Reg.PRCM_MBOX_CPU_SET (MBOX_BIT k)) = true := by
  simp [in_hold]

theorem in_hold_reads (k : Nat) (vs : List Nat) :
    ∀ e ∈ vs.map Event.readl_cpu_val, in_hold k e = true := by
  intro e he
  obtain ⟨x, _, rfl⟩ := List.mem_map.mp he
  rfl

theorem footprint_quiet (k : Nat) (tr : List Event) (h : ∀ e ∈ tr, quiet e = true) :
    footprint k tr :=
  ⟨fun e he => touches_of_quiet k e (h e he), guard_run_quiet k _ tr h⟩

theorem footprint_nil (k : Nat) : footprint k [] :=
  footprint_quiet k [] (fun _ h => absurd h (List.not_mem_nil _))

theorem footprint_bracket0 (A B : List Event) (hA : ∀ e ∈ A, quiet e = true)
    (hB : ∀ e ∈ B, in_hold 0 e = true) :
    footprint 0 (A ++ Event.lock Lock.mb0 :: (B ++ [Event.unlock Lock.mb0])) := by
  constructor
  · intro e he
    simp only [List.mem_append, List.mem_cons, List.mem_singleton, List.not_mem_nil,
      or_false] at he
    rcases he with he | rfl | he | rfl
    · exact touches_of_quiet 0 e (hA e he)
    · simp [touches, mailbox_lock]
    · exact touches_of_in_hold 0 e (hB e he)
    · simp [touches, mailbox_lock]
  · rw [guard_run_append, guard_run_quiet 0 _ A hA]
    obtain ⟨fl1, h1⟩ := guard_run_in_hold 0 B false hB
    have h0 : guard_step 0 (some (false, false)) (Event.lock Lock.mb0) = some (true, false) := by
      simp [guard_step, mailbox_lock]
    have h2 : guard_step 0 (some (true, fl1)) (Event.unlock Lock.mb0) = some (false, false) := by
      simp [guard_step, mailbox_lock, ends_request]
    show guard_run 0 (B ++ [Event.unlock Lock.mb0])
      (guard_step 0 (some (false, false)) (Event.lock Lock.mb0)) = _
    rw [h0, guard_run_snoc, h1, h2]

theorem footprint_bracket (k : Nat) (l : Lock) (c : Compl) (hl : mailbox_lock k = some l)
    (hc : mailbox_completion k = some c) (B T : List Event) (b : Bool)
    (hB : ∀ e ∈ B, in_hold k e = true) (hT : ∀ e ∈ T, quiet e = true) :
    footprint k (Event.lock l :: (B ++ Event.wait_end c b :: (T ++ [Event.unlock l]))) := by
  constructor
  · intro e he
    simp only [List.mem_append, List.mem_cons, List.mem_singleton, List.not_mem_nil,
      or_false] at he
    rcases he with rfl | he | rfl | he | rfl
    · simp [touches, hl]
    · exact touches_of_in_hold k e (hB e he)
    · simp [touches, hc]
    · exact touches_of_quiet k e (hT e he)
    · simp [touches, hl]
  · obtain ⟨fl1, h1⟩ := guard_run_in_hold k B false hB
    have h0 : guard_step k (some (false, false)) (Event.lock l) = some (true, false) := by
      simp [guard_step, hl]
    have h2 : guard_step k (some (true, fl1)) (Event.wait_end c b) = some (true, false) := by
      simp [guard_step, hl, writes_mailbox, is_req_store, raises_pending, ends_request, hc]
    have h3 : guard_step k (some (true, false)) (Event.unlock l) = some (false, false) := by
      simp [guard_step, hl]
    show guard_run k (B ++ Event.wait_end c b :: (T ++ [Event.unlock l]))
      (guard_step k (some (false, false)) (Event.lock l)) = _
    rw [h0, guard_run_append, h1]
    show guard_run k (T ++ [Event.unlock l])
      (guard_step k (some (true, fl1)) (Event.wait_end c b)) = _
    rw [h2, guard_run_snoc, guard_run_quiet k _ T hT, h3]

theorem new_events_self (w : World) : new_events w w = [] := by
  simp [new_events]

theorem wait_tail_T_quiet (b : Bool) :
    ∀ e ∈ (if b = true then [] else [Event.pr_err, Event.warn]), quiet e = true := by
  intro e he
  cases b
  · simp only [Bool.false_eq_true, if_false, List.mem_cons, List.mem_singleton,
      List.not_mem_nil, or_false] at he
    rcases he with rfl | rfl <;> rfl
  · simp at he

theorem request_pll_footprint (pll : Nat) (enable : Bool) (irqs : List Irq) (w w1 : World)
    (r : Int) (h : request_pll pll enable irqs w = some (w1, r)) :
    footprint 2 (new_events w w1) := by
  obtain ⟨_, pre, v, rest, evs, b, _, _, _, hirq, hnew, _⟩ :=
    request_pll_some pll enable irqs w w1 r h
  have e : new_events w w1 = Event.lock Lock.mb2 ::
      (((pre ++ [v]).map Event.readl_cpu_val ++ pll_writes pll enable ++ evs) ++
        Event.wait_end Compl.mb2_work b ::
          ((if b = true then [] else [Event.pr_err, Event.warn]) ++
            [Event.unlock Lock.mb2])) := by
    rw [hnew]
    simp [wait_tail]
  rw [e]
  apply footprint_bracket 2 Lock.mb2 Compl.mb2_work rfl rfl
  · intro x hx
    simp only [List.mem_append] at hx
    rcases hx with (hx | hx) | hx
    · exact in_hold_reads 2 _ x hx
    · simp only [pll_writes, List.mem_cons, List.mem_singleton, List.not_mem_nil,
        or_false] at hx
      rcases hx with rfl | rfl | rfl | rfl <;> rfl
    · exact in_hold_irq 2 x (hirq x hx)
  · exact wait_tail_T_quiet b

theorem request_sysclk_footprint (enable : Bool) (irqs : List Irq) (w w1 : World)
    (r : Int) (h : request_sysclk enable irqs w = some (w1, r)) :
    footprint 3 (new_events w w1) := by
  obtain ⟨pre, v, rest, evs, b, _, _, _, hirq, hnew, _⟩ :=
    request_sysclk_some enable irqs w w1 r h
  have e : new_events w w1 = Event.lock Lock.sysclk ::
      (((pre ++ [v]).map Event.readl_cpu_val ++ sysclk_writes enable ++ evs) ++
        Event.wait_end Compl.sysclk_work b ::
          ((if b = true then [] else [Event.pr_err, Event.warn]) ++
            [Event.unlock Lock.sysclk])) := by
    rw [hnew]
    simp [wait_tail]
  rw [e]
  apply footprint_bracket 3 Lock.sysclk Compl.sysclk_work rfl rfl
  · intro x hx
    simp only [List.mem_append] at hx
    rcases hx with (hx | hx) | hx
    · exact in_hold_reads 3 _ x hx
    · simp only [sysclk_writes, List.mem_cons, List.mem_singleton, List.not_mem_nil,
        or_false] at hx
      rcases hx with rfl | rfl | rfl <;> rfl
    · exact in_hold_irq 3 x (hirq x hx)
  · exact wait_tail_T_quiet b

theorem request_reg_clock_quiet (H : Headers) (clock : Nat) (enable : Bool) (w w1 : World)
    (r : Int) (h : request_reg_clock H clock enable w = some (w1, r)) :
    ∀ e ∈ new_events w w1, quiet e = true := by
  unfold request_reg_clock at h
  dsimp only at h
  generalize hW : (if H.clk_mgt_offset clock = 0 then emit Event.warn w else w) = W at h
  have hWt : ∃ a, W.trace = w.trace ++ a ∧ ∀ e ∈ a, quiet e = true := by
    rw [← hW]
    split
    · refine ⟨[Event.warn], rfl, ?_⟩
      intro e he
      rw [List.mem_singleton.mp he]
      rfl
    · exact ⟨[], by simp, by simp⟩
  obtain ⟨a, ha, hqa⟩ := hWt
  cases hp : poll_sem H (emit (Event.lock Lock.clk_mgt) W) (emit (Event.lock Lock.clk_mgt) W).sem with
  | none => rw [hp] at h; simp at h
  | some w0 =>
    rw [hp] at h
    dsimp only at h
    obtain ⟨reads, hr⟩ := poll_sem_some H _ _ _ hp
    simp only [Option.some.injEq, Prod.mk.injEq] at h
    obtain ⟨h1, h2⟩ := h
    have ht : w1.trace = w.trace ++ (a ++ Event.lock Lock.clk_mgt :: reads.map Event.readl_sem ++
        [Event.reg_writel (Reg.CLK_MGT clock)
          (if enable then w0.clk_mgt_reg clock |||
              (H.PRCM_CLK_MGT_CLKEN ||| w0.clk_mgt_pllsw clock)
            else w0.clk_mgt_reg clock &&&
              (U32_MAX ^^^ (H.PRCM_CLK_MGT_CLKEN ||| H.PRCM_CLK_MGT_CLKPLLSW_MASK))),
         Event.reg_writel Reg.PRCM_SEM 0, Event.unlock Lock.clk_mgt]) := by
      have e := congrArg World.trace h1
      rw [← e]
      cases enable <;> simp [emit, reg_writel, hr, ha]
    rw [new_events_append w w1 _ ht]
    intro e he
    simp only [List.mem_append, List.mem_cons, List.mem_map, List.mem_singleton,
      List.not_mem_nil, or_false] at he
    rcases he with (he | rfl | ⟨x, _, rfl⟩) | rfl | rfl | rfl
    · exact hqa e he
    · rfl
    · rfl
    · rfl
    · rfl
    · rfl

theorem request_clock_footprint (H : Headers) (clock : Nat) (enable : Bool) (irqs : List Irq)
    (w w1 : World) (r : Int)
    (h : db5500_prcmu_request_clock H clock enable irqs w = some (w1, r)) :
    ∃ k, footprint k (new_events w w1) := by
  unfold db5500_prcmu_request_clock at h
  split at h
  · exact ⟨0, footprint_quiet 0 _ (request_reg_clock_quiet H clock enable w w1 r h)⟩
  · split at h
    · simp only [Option.some.injEq] at h
      refine ⟨0, footprint_quiet 0 _ ?_⟩
      have ht : w1.trace = w.trace ++ [Event.reg_writel Reg.PRCM_TCR
          (if (!enable) = true then
            H.PRCM_TCR_DOZE_MODE ||| H.PRCM_TCR_TENSEL_MASK ||| H.PRCM_TCR_STOP_TIMERS
           else H.PRCM_TCR_DOZE_MODE ||| H.PRCM_TCR_TENSEL_MASK)] := by
        have e1 := congrArg (fun p => p.1.trace) h
        simp only at e1
        rw [← e1]
        simp [request_timclk, reg_writel, emit]
      rw [new_events_append w w1 _ ht]
      intro e he
      rw [List.mem_singleton.mp he]
      rfl
    · split at h
      · exact ⟨2, request_pll_footprint _ _ _ _ _ _ h⟩
      · split at h
        · exact ⟨2, request_pll_footprint _ _ _ _ _ _ h⟩
        · split at h
          · exact ⟨2, request_pll_footprint _ _ _ _ _ _ h⟩
          · split at h
            · exact ⟨3, request_sysclk_footprint _ _ _ _ _ h⟩
            · simp only [Option.some.injEq, Prod.mk.injEq] at h
              rw [← h.1, new_events_self]
              exact ⟨0, footprint_nil 0⟩

theorem esram0_footprint (H : Headers) (state : Nat) (w : World) :
    footprint 0 (new_events w (db5500_prcmu_config_esram0_deep_sleep H state w).1) := by
  unfold db5500_prcmu_config_esram0_deep_sleep
  split
  · rw [new_events_self]
    exact footprint_nil 0
  · have ht : ∃ x, new_events w
        (emit (Event.unlock Lock.mb0)
          (if state = H.ESRAM0_DEEP_SLEEP_STATE_RET then
            writeb RET_ST PRCM_REQ_MB0_ESRAM0_STATE (emit (Event.lock Lock.mb0) w)
          else writeb OFF_ST PRCM_REQ_MB0_ESRAM0_STATE (emit (Event.lock Lock.mb0) w)), (0 : Int)).1 =
        [] ++ Event.lock Lock.mb0 ::
          ([Event.writeb PRCM_REQ_MB0_ESRAM0_STATE x] ++ [Event.unlock Lock.mb0]) := by
      split
      · exact ⟨RET_ST % 256, new_events_append _ _ _ (by simp [emit, writeb])⟩
      · exact ⟨OFF_ST % 256, new_events_append _ _ _ (by simp [emit, writeb])⟩
    obtain ⟨x, hx⟩ := ht
    dsimp only at hx ⊢
    rw [hx]
    apply footprint_bracket0
    · simp
    · intro e he
      rw [List.mem_singleton.mp he]
      rfl

theorem power_state_stores_in_hold (H : Headers) (state : Nat)
    (keep_ulp_clk keep_ap_pll : Bool) :
    ∀ e ∈ power_state_stores H state keep_ulp_clk keep_ap_pll, in_hold 0 e = true := by
  intro e he
  simp only [power_state_stores, List.mem_append, List.mem_cons, List.mem_singleton,
    List.not_mem_nil, or_false] at he
  rcases he with he | rfl | rfl | rfl
  · split at he
    · simp only [List.mem_cons, List.mem_singleton, List.not_mem_nil, or_false] at he
      rcases he with rfl | rfl <;> rfl
    · split at he <;> simp only [List.mem_singleton] at he <;> subst he <;> rfl
  · rfl
  · rfl
  · rfl

theorem set_power_state_footprint (H : Headers) (state : Nat) (keep_ulp_clk keep_ap_pll : Bool)
    (w w1 : World) (r : Int)
    (h : db5500_prcmu_set_power_state H state keep_ulp_clk keep_ap_pll w = some (w1, r)) :
    footprint 0 (new_events w w1) := by
  obtain ⟨pre, v, rest, _, _, _, hcase⟩ :=
    set_power_state_some H state keep_ulp_clk keep_ap_pll w w1 r h
  rcases hcase with ⟨_, _, hnew⟩ | ⟨_, _, hnew⟩
  · have e : new_events w w1 = [] ++ Event.lock Lock.mb0 ::
        (((pre ++ [v]).map Event.readl_cpu_val ++
          power_state_stores H state keep_ulp_clk keep_ap_pll ++
          [Event.reg_writel Reg.PRCM_MBOX_CPU_SET (MBOX_BIT 0)]) ++
          [Event.unlock Lock.mb0]) := by
      rw [hnew]
      simp
    rw [e]
    apply footprint_bracket0
    · simp
    · intro x hx
      simp only [List.mem_append, List.mem_singleton] at hx
      rcases hx with (hx | hx) | rfl
      · exact in_hold_reads 0 _ x hx
      · exact power_state_stores_in_hold H state keep_ulp_clk keep_ap_pll x hx
      · exact in_hold_raise 0
  · have e : new_events w w1 = [] ++ Event.lock Lock.mb0 ::
        ((pre ++ [v]).map Event.readl_cpu_val ++ [Event.unlock Lock.mb0]) := by
      rw [hnew]
      simp
    rw [e]
    exact footprint_bracket0 [] _ (by simp) (in_hold_reads 0 _)

/-- The events of `config_wakeups` are of the kind a call makes while it holds the
lock of mailbox 0. -/
theorem config_wakeups_in_hold (w w1 : World) (h : config_wakeups w = some w1) :
    ∃ B, w1.trace = w.trace ++ B ∧ ∀ e ∈ B, in_hold 0 e = true := by
  obtain ⟨_, _, _, _, _, polls, ht⟩ := config_wakeups_some w w1 h
  refine ⟨polls.map Event.readl_cpu_val ++
    (if w.dbb_irqs ||| w.dbb_wakeups = w.last_dbb_events ∧ w.abb_events = w.last_abb_events
     then [] else wakeup_cfg_push (w.dbb_irqs ||| w.dbb_wakeups) w.abb_events), ?_, ?_⟩
  · rw [ht, List.append_assoc]
  · intro e he
    rcases List.mem_append.mp he with he | he
    · exact in_hold_reads 0 _ e he
    · split at he
      · simp at he
      · simp only [wakeup_cfg_push, List.mem_cons, List.mem_singleton, List.not_mem_nil,
          or_false] at he
        rcases he with rfl | rfl | rfl | rfl <;> rfl

theorem enable_wakeups_footprint (H : Headers) (wakeups : Nat) (w w1 : World)
    (h : db5500_prcmu_enable_wakeups H wakeups w = some w1) :
    footprint 0 (new_events w w1) := by
  unfold db5500_prcmu_enable_wakeups at h
  by_cases hv : wakeups = wakeups &&& VALID_WAKEUPS H
  · simp only [ne_eq, hv.symm, not_true_eq_false, if_false] at h
    obtain ⟨k, hk⟩ := wakeup_bits_world wakeups H.prcmu_wakeup_bit 0 0 w
    rw [hk] at h
    simp only at h
    generalize (wakeup_bits wakeups 0 H.prcmu_wakeup_bit 0 (World.boot (fun _ => 0) [] [])).1
      = bits at h
    cases hc : config_wakeups
        { emit (Event.lock Lock.mb0) { w with trace := w.trace ++ List.replicate k Event.warn }
          with dbb_wakeups := bits } with
    | none => simp [hc] at h
    | some w0 =>
      simp only [hc, Option.some.injEq] at h
      obtain ⟨B, ht, hB⟩ := config_wakeups_in_hold _ _ hc
      subst h
      have e : new_events w (emit (Event.unlock Lock.mb0) w0) =
          List.replicate k Event.warn ++ Event.lock Lock.mb0 ::
            (B ++ [Event.unlock Lock.mb0]) := by
        apply new_events_append
        simp only [emit] at ht ⊢
        rw [ht]
        simp only [List.append_assoc, List.singleton_append, List.cons_append, List.nil_append]
      rw [e]
      apply footprint_bracket0 _ _ _ hB
      intro x hx
      rw [List.eq_of_mem_replicate hx]
      rfl
  · simp [hv] at h

theorem config_abb_event_readout_footprint (abb_events : Nat) (w w1 : World)
    (h : db5500_prcmu_config_abb_event_readout abb_events w = some w1) :
    footprint 0 (new_events w w1) := by
  unfold db5500_prcmu_config_abb_event_readout at h
  simp only at h
  cases hc : config_wakeups { emit (Event.lock Lock.mb0) w with abb_events := abb_events } with
  | none => simp [hc] at h
  | some w0 =>
    simp only [hc, Option.some.injEq] at h
    obtain ⟨B, ht, hB⟩ := config_wakeups_in_hold _ _ hc
    subst h
    have e : new_events w (emit (Event.unlock Lock.mb0) w0) =
        [] ++ Event.lock Lock.mb0 :: (B ++ [Event.unlock Lock.mb0]) := by
      apply new_events_append
      simp only [emit] at ht ⊢
      rw [ht]
      simp only [List.append_assoc, List.singleton_append, List.cons_append, List.nil_append]
    rw [e]
    exact footprint_bracket0 [] _ (by simp) hB

theorem mask_work_footprint (w w1 : World) (h : prcmu_mask_work w = some w1) :
    footprint 0 (new_events w w1) := by
  unfold prcmu_mask_work at h
  simp only at h
  cases hc : config_wakeups (emit (Event.lock Lock.mb0) w) with
  | none => simp [hc] at h
  | some w0 =>
    simp only [hc, Option.some.injEq] at h
    obtain ⟨B, ht, hB⟩ := config_wakeups_in_hold _ _ hc
    subst h
    have e : new_events w (emit (Event.unlock Lock.mb0) w0) =
        [] ++ Event.lock Lock.mb0 :: (B ++ [Event.unlock Lock.mb0]) := by
      apply new_events_append
      simp only [emit] at ht ⊢
      rw [ht]
      simp only [List.append_assoc, List.singleton_append, List.cons_append, List.nil_append]
    rw [e]
    exact footprint_bracket0 [] _ (by simp) hB

theorem ack_dbb_wakeup_footprint (w w1 : World) (h : ack_dbb_wakeup w = some w1) :
    footprint 0 (new_events w w1) := by
  obtain ⟨pre, v, rest, _, _, _, hnew⟩ := ack_dbb_wakeup_some w w1 h
  have e : new_events w w1 = [] ++ Event.lock Lock.mb0 ::
      (((pre ++ [v]).map Event.readl_cpu_val ++
        [ Event.writeb PRCM_REQ_MB0_HEADER MB0H_RD_WAKE_UP_ACK,
          Event.reg_writel Reg.PRCM_MBOX_CPU_SET (MBOX_BIT 0) ]) ++
        [Event.unlock Lock.mb0]) := by
    rw [hnew]
    simp
  rw [e]
  apply footprint_bracket0
  · simp
  · intro x hx
    simp only [List.mem_append, List.mem_cons, List.mem_singleton, List.not_mem_nil,
      or_false] at hx
    rcases hx with hx | rfl | rfl
    · exact in_hold_reads 0 _ x hx
    · rfl
    · rfl

theorem abb_read_footprint (slave reg : Nat) (value : List Nat) (size : Nat) (irqs : List Irq)
    (w w1 : World) (r : Int) (buf : List Nat)
    (h : db5500_prcmu_abb_read slave reg value size irqs w = some (w1, r, buf)) :
    footprint 5 (new_events w w1) := by
  rcases abb_read_some slave reg value size irqs w w1 r buf h with
    ⟨_, rfl, _, _⟩ | ⟨_, _, pre, v, rest, evs, _, _, _, hirq, hnew, _⟩
  · rw [new_events_self]
    exact footprint_nil 5
  · have e : new_events w w1 = Event.lock Lock.mb5 ::
        (((pre ++ [v]).map Event.readl_cpu_val ++ abb_read_stores slave reg size ++
          Event.reg_writel Reg.PRCM_MBOX_CPU_SET (MBOX_BIT 5) :: evs) ++
          Event.wait_end Compl.mb5_work true :: ([] ++ [Event.unlock Lock.mb5])) := by
      rw [hnew]
      simp
    rw [e]
    apply footprint_bracket 5 Lock.mb5 Compl.mb5_work rfl rfl
    · intro x hx
      simp only [List.mem_append, List.mem_cons] at hx
      rcases hx with (hx | hx) | rfl | hx
      · exact in_hold_reads 5 _ x hx
      · simp only [abb_read_stores, List.mem_cons, List.mem_singleton, List.not_mem_nil,
          or_false] at hx
        rcases hx with rfl | rfl | rfl | rfl <;> rfl
      · exact in_hold_raise 5
      · exact in_hold_irq 5 x (hirq x hx)
    · simp

theorem abb_write_footprint (slave reg : Nat) (value : List Nat) (size : Nat) (irqs : List Irq)
    (w w1 : World) (r : Int)
    (h : db5500_prcmu_abb_write slave reg value size irqs w = some (w1, r)) :
    footprint 5 (new_events w w1) := by
  rcases abb_write_some slave reg value size irqs w w1 r h with
    ⟨_, rfl, _⟩ | ⟨_, _, pre, v, rest, evs, _, _, _, hirq, hnew, _⟩
  · rw [new_events_self]
    exact footprint_nil 5
  · have e : new_events w w1 = Event.lock Lock.mb5 ::
        (((pre ++ [v]).map Event.readl_cpu_val ++ abb_write_stores slave reg value size ++
          Event.reg_writel Reg.PRCM_MBOX_CPU_SET (MBOX_BIT 5) :: evs) ++
          Event.wait_end Compl.mb5_work true :: ([] ++ [Event.unlock Lock.mb5])) := by
      rw [hnew]
      simp
    rw [e]
    apply footprint_bracket 5 Lock.mb5 Compl.mb5_work rfl rfl
    · intro x hx
      simp only [List.mem_append, List.mem_cons] at hx
      rcases hx with (hx | hx) | rfl | hx
      · exact in_hold_reads 5 _ x hx
      · simp only [abb_write_stores, List.mem_cons, List.mem_singleton, List.not_mem_nil,
          or_false] at hx
        rcases hx with rfl | rfl | rfl | rfl | rfl <;> rfl
      · exact in_hold_raise 5
      · exact in_hold_irq 5 x (hirq x hx)
    · simp

theorem interrupt_footprint (i : Irq) (w w1 : World) (r : irqreturn_t)
    (h : interrupt i w = some (w1, r)) : footprint 0 (new_events w w1) := by
  obtain ⟨evs, ht, hirq⟩ := interrupt_trace i w w1 r h
  rw [new_events_append w w1 evs ht]
  exact footprint_quiet 0 evs (fun e he => quiet_irq e (hirq e he))

theorem schedule_work_quiet (w : World) :
    ∃ evs, (schedule_work w).trace = w.trace ++ evs ∧ ∀ e ∈ evs, quiet e = true := by
  unfold schedule_work
  split
  · exact ⟨[], by simp, by simp⟩
  · refine ⟨[Event.schedule_work], rfl, ?_⟩
    intro e he
    rw [List.mem_singleton.mp he]
    rfl

theorem irq_mask_footprint (n : Nat) (w w1 : World) (h : prcmu_irq_mask n w = some w1) :
    footprint 0 (new_events w w1) := by
  unfold prcmu_irq_mask at h
  cases hb : prcmu_irq_bit[n]? with
  | none => simp [hb] at h
  | some b =>
    simp only [hb, Option.some.injEq] at h
    obtain ⟨evs, ht, hq⟩ := schedule_work_quiet
      (emit (Event.unlock Lock.dbb_irqs)
        { emit (Event.lock Lock.dbb_irqs) w with
          dbb_irqs := (emit (Event.lock Lock.dbb_irqs) w).dbb_irqs &&& (U32_MAX ^^^ b) })
    rw [h] at ht
    have e : w1.trace = w.trace ++
        ([Event.lock Lock.dbb_irqs, Event.unlock Lock.dbb_irqs] ++ evs) := by
      rw [ht]
      simp [emit]
    rw [new_events_append w w1 _ e]
    apply footprint_quiet
    intro x hx
    simp only [List.mem_append, List.mem_cons, List.mem_singleton, List.not_mem_nil,
      or_false] at hx
    rcases hx with (rfl | rfl) | hx
    · rfl
    · rfl
    · exact hq x hx

theorem irq_unmask_footprint (n : Nat) (w w1 : World) (h : prcmu_irq_unmask n w = some w1) :
    footprint 0 (new_events w w1) := by
  unfold prcmu_irq_unmask at h
  cases hb : prcmu_irq_bit[n]? with
  | none => simp [hb] at h
  | some b =>
    simp only [hb, Option.some.injEq] at h
    obtain ⟨evs, ht, hq⟩ := schedule_work_quiet
      (emit (Event.unlock Lock.dbb_irqs)
        { emit (Event.lock Lock.dbb_irqs) w with
          dbb_irqs := (emit (Event.lock Lock.dbb_irqs) w).dbb_irqs ||| b })
    rw [h] at ht
    have e : w1.trace = w.trace ++
        ([Event.lock Lock.dbb_irqs, Event.unlock Lock.dbb_irqs] ++ evs) := by
      rw [ht]
      simp [emit]
    rw [new_events_append w w1 _ e]
    apply footprint_quiet
    intro x hx
    simp only [List.mem_append, List.mem_cons, List.mem_singleton, List.not_mem_nil,
      or_false] at hx
    rcases hx with (rfl | rfl) | hx
    · rfl
    · rfl
    · exact hq x hx

/-- Every returning call leaves the footprint of a call on one mailbox. -/
theorem call_footprint (H : Headers) (op : Caller) (w w1 : World)
    (h : Caller.run H op w = some w1) : ∃ k, footprint k (new_events w w1) := by
  cases op with
  | request_clock clock enable irqs =>
    simp only [Caller.run, Option.map_eq_some', Prod.exists, exists_and_right,
      exists_eq_right] at h
    obtain ⟨r, hr⟩ := h
    exact request_clock_footprint H clock enable irqs w w1 r hr
  | config_esram0_deep_sleep state =>
    simp only [Caller.run, Option.some.injEq] at h
    rw [← h]
    exact ⟨0, esram0_footprint H state w⟩
  | set_power_state state keep_ulp_clk keep_ap_pll =>
    simp only [Caller.run, Option.map_eq_some', Prod.exists, exists_and_right,
      exists_eq_right] at h
    obtain ⟨r, hr⟩ := h
    exact ⟨0, set_power_state_footprint H state keep_ulp_clk keep_ap_pll w w1 r hr⟩
  | enable_wakeups wakeups => exact ⟨0, enable_wakeups_footprint H wakeups w w1 h⟩
  | config_abb_event_readout abb_events =>
    exact ⟨0, config_abb_event_readout_footprint abb_events w w1 h⟩
  | abb_read slave reg value size irqs =>
    simp only [Caller.run, Option.map_eq_some', Prod.exists, exists_and_right,
      exists_eq_right] at h
    obtain ⟨r, buf, hr⟩ := h
    exact ⟨5, abb_read_footprint slave reg value size irqs w w1 r buf hr⟩
  | abb_write slave reg value size irqs =>
    simp only [Caller.run, Option.map_eq_some', Prod.exists, exists_and_right,
      exists_eq_right] at h
    obtain ⟨r, hr⟩ := h
    exact ⟨5, abb_write_footprint slave reg value size irqs w w1 r hr⟩
  | irq_handler i =>
    simp only [Caller.run, Option.map_eq_some', Prod.exists, exists_and_right,
      exists_eq_right] at h
    obtain ⟨r, hr⟩ := h
    exact ⟨0, interrupt_footprint i w w1 r hr⟩
  | irq_thread_fn =>
    simp only [Caller.run, Option.map_eq_some', Prod.exists, exists_and_right,
      exists_eq_right] at h
    obtain ⟨r, hr⟩ := h
    unfold prcmu_irq_thread_fn at hr
    cases ha : ack_dbb_wakeup w with
    | none => simp [ha] at hr
    | some w2 =>
      simp only [ha, Option.some.injEq, Prod.mk.injEq] at hr
      rw [← hr.1]
      exact ⟨0, ack_dbb_wakeup_footprint w w2 ha⟩
  | mask_work => exact ⟨0, mask_work_footprint w w1 h⟩
  | irq_mask n => exact ⟨0, irq_mask_footprint n w w1 h⟩
  | irq_unmask n => exact ⟨0, irq_unmask_footprint n w w1 h⟩

/-- A returning call keeps the guard of every mailbox and ends with no lock held and
no request in flight. -/
theorem guard_call (H : Headers) (tr : List Event) (h : call_trace H tr) (m : Nat) :
    guard_run m tr (some (false, false)) = some (false, false) := by
  obtain ⟨op, w, w1, hrun, rfl⟩ := h
  obtain ⟨k, ht, hg⟩ := call_footprint H op w w1 hrun
  by_cases hmk : m = k
  · subst hmk
    exact hg
  · exact guard_run_touches m k hmk _ _ ht

theorem guard_flatten (H : Headers) (m : Nat) : ∀ calls : List (List Event),
    (∀ c ∈ calls, call_trace H c) →
    guard_run m calls.flatten (some (false, false)) = some (false, false) := by
  intro calls
  induction calls with
  | nil => intro _; rfl
  | cons c cs ih =>
    intro h
    rw [List.flatten_cons, guard_run_append, guard_call H c (h c (List.mem_cons_self _ _)) m]
    exact ih (fun x hx => h x (List.mem_cons_of_mem _ hx))

theorem thread_guarded (H : Headers) (m : Nat) (tr : List Event) (h : thread_ok H tr) :
    guard_run m tr (some (false, false)) ≠ none := by
  obtain ⟨calls, hc, b, hb⟩ := h
  have hf := guard_flatten H m calls hc
  rw [← hb, guard_run_append] at hf
  intro hn
  rw [hn, guard_run_none] at hf
  cases hf

theorem thread_trace_nil (t : Nat) (s : List (Nat × Event)) (h : t ∉ s.map Prod.fst) :
    thread_trace t s = [] := by
  simp only [thread_trace, List.map_eq_nil_iff, List.filter_eq_nil_iff, decide_eq_true_eq]
  intro x hx hxt
  exact h (List.mem_map.mpr ⟨x, hx, hxt⟩)

theorem writes_touches (m k : Nat) (e : Event) (ht : touches k e = true)
    (hw : writes_mailbox m e = true) : m = k := by
  by_contra hmk
  have h := guard_step_touches m k hmk (false, false) e ht
  have g1 : ¬ (Option.map Event.lock (mailbox_lock m) = some e) := by
    cases mailbox_lock m with
    | none => simp
    | some l =>
      simp only [Option.map_some', Option.some.injEq]
      rintro rfl
      simp [writes_mailbox, is_req_store, raises_pending] at hw
  have g2 : ¬ (Option.map Event.unlock (mailbox_lock m) = some e) := by
    cases mailbox_lock m with
    | none => simp
    | some l =>
      simp only [Option.map_some', Option.some.injEq]
      rintro rfl
      simp [writes_mailbox, is_req_store, raises_pending] at hw
  simp [guard_step, g1, g2, hw] at h

/-- C25: in every schedule of concurrent threads that respects the locks (a lock is
taken only when free and released only by its holder) and in which every thread runs
calls of the driver's entry points one after the other, the last one possibly still
under way, for every mailbox `m` no thread writes into the request region or header of
`m` or raises pending bit `m` between another thread's raising bit `m` and the end of
that thread's request (the return of its wait on the completion of `m`; for mailbox 0
the release of `mb0_transfer.lock`).  Different mailboxes are independent: they have
different locks, and a call that writes to mailbox `m` takes the lock of no other
mailbox. -/
theorem mailbox_mutual_exclusion (H : Headers) (s : List (Nat × Event))
    (hl : ∀ l, lock_ok l s = true)
    (ht : ∀ t ∈ s.map Prod.fst, thread_ok H (thread_trace t s)) :
    (∀ m, exclusive m s = true) ∧
    (∀ m k l, mailbox_lock m = some l → mailbox_lock k = some l → m = k) ∧
    (∀ op w w1 m, Caller.run H op w = some w1 →
      (∃ e ∈ new_events w w1, writes_mailbox m e = true) →
      ∀ l k, Event.lock l ∈ new_events w w1 → mailbox_lock k = some l → k = m) := by
  refine ⟨?_, fun m k l hm hk => mailbox_lock_inj m k l hm hk, ?_⟩
  · intro m
    apply exclusive_of_guarded m s hl
    intro t
    by_cases hts : t ∈ s.map Prod.fst
    · exact thread_guarded H m _ (ht t hts)
    · rw [thread_trace_nil t s hts]
      simp [guard_run]
  · intro op w w1 m hrun ⟨e, he, hw⟩ l k hlk hk
    obtain ⟨k0, htch, _⟩ := call_footprint H op w w1 hrun
    have hm : m = k0 := writes_touches m k0 e (htch e he) hw
    have hl0 := htch _ hlk
    simp only [touches, decide_eq_true_eq] at hl0
    rcases hl0 with hl0 | hl0
    · rw [hm]
      exact mailbox_lock_inj k k0 l hk hl0
    · exact absurd hk (quiet_lock_not_mailbox k l hl0)

set_option maxRecDepth 100000 in
theorem mailbox_mutual_exclusion_witness :
    (∀ l, lock_ok l sample_schedule = true) ∧
    (∀ t ∈ sample_schedule.map Prod.fst,
      thread_ok Headers.sample (thread_trace t sample_schedule)) ∧
    (sample_schedule.take 14).foldl (exclusion_step 0) (some none) = some (some 1) ∧
    (sample_schedule.take 14).foldl (exclusion_step 2) (some none) = some (some 2) ∧
    exclusive 0 [(1, Event.reg_writel Reg.PRCM_MBOX_CPU_SET (MBOX_BIT 0)),
      (2, Event.writeb PRCM_REQ_MB0_HEADER MB0H_RD_WAKE_UP_ACK)] = false ∧
    (∀ m, exclusive m sample_schedule = true) := by
  have hl : ∀ l, lock_ok l sample_schedule = true := by
    intro l
    cases l <;> decide
  have ht : ∀ t ∈ sample_schedule.map Prod.fst,
      thread_ok Headers.sample (thread_trace t sample_schedule) := by
    intro t hts
    have h3 : t = 1 ∨ t = 2 ∨ t = 3 := by
      simp only [sample_schedule, List.map_cons, List.map_nil, List.mem_cons,
        List.not_mem_nil, or_false] at hts
      omega
    rcases h3 with rfl | rfl | rfl
    · refine ⟨[thread_trace 1 sample_schedule], ?_, by simp⟩
      intro c hc
      rw [List.mem_singleton.mp hc]
      exact ⟨Caller.set_power_state 5 false true, World.sample,
        (Caller.run Headers.sample (Caller.set_power_state 5 false true) World.sample).getD
          World.sample, rfl, rfl⟩
    · refine ⟨[thread_trace 2 sample_schedule], ?_, by simp⟩
      intro c hc
      rw [List.mem_singleton.mp hc]
      exact ⟨Caller.request_clock 27 true [Irq.pll_ack], World.sample,
        (Caller.run Headers.sample (Caller.request_clock 27 true [Irq.pll_ack])
          World.sample).getD World.sample, rfl, rfl⟩
    · refine ⟨[thread_trace 3 sample_schedule], ?_, by simp⟩
      intro c hc
      rw [List.mem_singleton.mp hc]
      exact ⟨Caller.irq_thread_fn, World.sample,
        (Caller.run Headers.sample Caller.irq_thread_fn World.sample).getD World.sample,
        rfl, rfl⟩
  exact ⟨hl, ht, by decide, by decide, by decide,
    (mailbox_mutual_exclusion Headers.sample sample_schedule hl ht).1⟩

/-! ## Requests whose acknowledge does not arrive -/

theorem request_sysclk_returns (enable : Bool) (irqs : List Irq) (w : World)
    (hclear : ∃ v ∈ w.cpu_val, v &&& MBOX_BIT 3 = 0) :
    ∃ w1 r, request_sysclk enable irqs w = some (w1, r) := by
  have hs := wait_mbox_clear_isSome 3 (emit (Event.lock Lock.sysclk) w) hclear
  cases hw0 : wait_mbox_clear 3 (emit (Event.lock Lock.sysclk) w) with
  | none => simp [hw0] at hs
  | some w0 =>
    obtain ⟨p, hp⟩ := wait_timeout_isSome Compl.sysclk_work irqs (sysclk_issue enable w0)
    rw [request_sysclk_eq, hw0, Option.some_bind, hp, Option.map_some']
    exact ⟨_, _, rfl⟩

/-- A `request_pll` that finds a completion signal outstanding does not wait: its
result is decided by the header and status staged before it began. -/
theorem request_pll_pending (pll : Nat) (enable : Bool) (irqs : List Irq) (w : World)
    (hpll : pll < DB5500_NUM_PLL_ID) (hclear : ∃ v ∈ w.cpu_val, v &&& MBOX_BIT 2 = 0)
    (hd : 0 < w.mb2_done) :
    ∃ w1, request_pll pll enable irqs w =
        some (w1, if w.mb2_ack_status = RC_SUCCESS ∧ w.mb2_ack_header = MB2H_PLL_REQUEST
                  then 0 else - EIO) ∧
      Event.wait_end Compl.mb2_work true ∈ new_events w w1 ∧
      (∀ e ∈ new_events w w1, is_irq_event e = false) := by
  obtain ⟨w0, pre, v, rest, hw0, _, _, _, he⟩ := request_pll_wait_state w hclear
  have hv0 : mb2_view w0 = mb2_view w := by rw [he]; rfl
  have ht0 : w0.trace = w.trace ++ Event.lock Lock.mb2 :: (pre ++ [v]).map Event.readl_cpu_val := by
    rw [he]
  obtain ⟨hvi, hti⟩ := pll_issue_fields pll enable w0
  simp only [mb2_view, Prod.mk.injEq] at hv0 hvi
  have hdone : 0 < Compl.done Compl.mb2_work (pll_issue pll enable w0) := by
    show 0 < (pll_issue pll enable w0).mb2_done
    rw [hvi.1, hv0.1]; exact hd
  rw [request_pll_eq pll enable irqs w hpll, hw0, Option.some_bind,
    wait_timeout_pending _ irqs _ hdone, Option.map_some', pll_finish_true]
  have hnew : new_events w (emit (Event.unlock Lock.mb2) (emit (Event.wait_end Compl.mb2_work true)
      (Compl.set_done Compl.mb2_work (Compl.done Compl.mb2_work (pll_issue pll enable w0) - 1)
        (pll_issue pll enable w0)))) =
      Event.lock Lock.mb2 :: (pre ++ [v]).map Event.readl_cpu_val ++
        [ Event.writeb PRCM_REQ_MB2_PLL_CLIENT (pll % 256),
          Event.writeb PRCM_REQ_MB2_PLL_STATE ((if enable then 1 else 0) % 256),
          Event.writeb PRCM_REQ_MB2_HEADER (MB2H_PLL_REQUEST % 256),
          Event.reg_writel Reg.PRCM_MBOX_CPU_SET (MBOX_BIT 2),
          Event.wait_end Compl.mb2_work true, Event.unlock Lock.mb2 ] := by
    apply new_events_append
    show (pll_issue pll enable w0).trace ++ [Event.wait_end Compl.mb2_work true]
      ++ [Event.unlock Lock.mb2] = _
    rw [hti, ht0]; simp
  refine ⟨emit (Event.unlock Lock.mb2) (emit (Event.wait_end Compl.mb2_work true)
    (Compl.set_done Compl.mb2_work (Compl.done Compl.mb2_work (pll_issue pll enable w0) - 1)
      (pll_issue pll enable w0))), ?_, ?_, ?_⟩
  · have h1 : (emit (Event.wait_end Compl.mb2_work true)
        (Compl.set_done Compl.mb2_work (Compl.done Compl.mb2_work (pll_issue pll enable w0) - 1)
          (pll_issue pll enable w0))).mb2_ack_status = w.mb2_ack_status := by
      show (pll_issue pll enable w0).mb2_ack_status = _
      rw [hvi.2.2, hv0.2.2]
    have h2 : (emit (Event.wait_end Compl.mb2_work true)
        (Compl.set_done Compl.mb2_work (Compl.done Compl.mb2_work (pll_issue pll enable w0) - 1)
          (pll_issue pll enable w0))).mb2_ack_header = w.mb2_ack_header := by
      show (pll_issue pll enable w0).mb2_ack_header = _
      rw [hvi.2.1, hv0.2.1]
    rw [h1, h2]
  · rw [hnew]
    simp
  · rw [hnew]
    intro e he
    simp only [List.mem_append, List.mem_cons, List.mem_map, List.mem_singleton,
      List.not_mem_nil, or_false] at he
    rcases he with (rfl | ⟨x, _, rfl⟩) | rfl | rfl | rfl | rfl | rfl | rfl <;> rfl

/-- A `request_sysclk` that finds a completion signal outstanding does not wait:
its result is decided by the header and status staged before it began. -/
theorem request_sysclk_pending (enable : Bool) (irqs : List Irq) (w : World)
    (hclear : ∃ v ∈ w.cpu_val, v &&& MBOX_BIT 3 = 0) (hd : 0 < w.mb3_done) :
    ∃ w1, request_sysclk enable irqs w =
        some (w1, if w.mb3_ack_header = MB3H_REFCLK_REQUEST ∧
                    w.mb3_ack_status = (if enable then SYSCLK_ON else SYSCLK_OFF)
                  then 0 else - EIO) ∧
      Event.wait_end Compl.sysclk_work true ∈ new_events w w1 ∧
      (∀ e ∈ new_events w w1, is_irq_event e = false) := by
  have hs := wait_mbox_clear_isSome 3 (emit (Event.lock Lock.sysclk) w) hclear
  cases hw0 : wait_mbox_clear 3 (emit (Event.lock Lock.sysclk) w) with
  | none => simp [hw0] at hs
  | some w0 =>
    obtain ⟨pre, v, rest, _, _, _, he⟩ := wait_mbox_clear_some 3 _ w0 hw0
    have hdone : 0 < Compl.done Compl.sysclk_work (sysclk_issue enable w0) := by
      show 0 < w0.mb3_done
      rw [he]
      exact hd
    have hh : (sysclk_issue enable w0).mb3_ack_header = w.mb3_ack_header := by
      show w0.mb3_ack_header = _
      rw [he]
      rfl
    have hst : (sysclk_issue enable w0).mb3_ack_status = w.mb3_ack_status := by
      show w0.mb3_ack_status = _
      rw [he]
      rfl
    have hr0 : (sysclk_issue enable w0).mb3_req_st = (if enable then SYSCLK_ON else SYSCLK_OFF) :=
      rfl
    have hti : (sysclk_issue enable w0).trace = w.trace ++
        (Event.lock Lock.sysclk :: (pre ++ [v]).map Event.readl_cpu_val ++
          sysclk_writes enable) := by
      rw [he]
      cases enable <;>
        simp [sysclk_issue, writeb, reg_writel, emit, sysclk_writes, SYSCLK_ON, SYSCLK_OFF,
          MB3H_REFCLK_REQUEST]
    rw [request_sysclk_eq, hw0, Option.some_bind, wait_timeout_pending _ irqs _ hdone,
      Option.map_some', sysclk_finish_true]
    have hnew : new_events w (emit (Event.unlock Lock.sysclk)
        (emit (Event.wait_end Compl.sysclk_work true)
          (Compl.set_done Compl.sysclk_work
            (Compl.done Compl.sysclk_work (sysclk_issue enable w0) - 1)
            (sysclk_issue enable w0)))) =
        Event.lock Lock.sysclk :: (pre ++ [v]).map Event.readl_cpu_val ++
          sysclk_writes enable ++
          [Event.wait_end Compl.sysclk_work true, Event.unlock Lock.sysclk] := by
      apply new_events_append
      show (sysclk_issue enable w0).trace ++ [Event.wait_end Compl.sysclk_work true]
        ++ [Event.unlock Lock.sysclk] = _
      rw [hti]; simp
    refine ⟨emit (Event.unlock Lock.sysclk)
        (emit (Event.wait_end Compl.sysclk_work true)
          (Compl.set_done Compl.sysclk_work
            (Compl.done Compl.sysclk_work (sysclk_issue enable w0) - 1)
            (sysclk_issue enable w0))), ?_, ?_, ?_⟩
    · have h1 : (emit (Event.wait_end Compl.sysclk_work true)
          (Compl.set_done Compl.sysclk_work
            (Compl.done Compl.sysclk_work (sysclk_issue enable w0) - 1)
            (sysclk_issue enable w0))).mb3_ack_header = w.mb3_ack_header := hh
      have h2 : (emit (Event.wait_end Compl.sysclk_work true)
          (Compl.set_done Compl.sysclk_work
            (Compl.done Compl.sysclk_work (sysclk_issue enable w0) - 1)
            (sysclk_issue enable w0))).mb3_ack_status = w.mb3_ack_status := hst
      have h3 : (emit (Event.wait_end Compl.sysclk_work true)
          (Compl.set_done Compl.sysclk_work
            (Compl.done Compl.sysclk_work (sysclk_issue enable w0) - 1)
            (sysclk_issue enable w0))).mb3_req_st =
          (if enable then SYSCLK_ON else SYSCLK_OFF) := hr0
      rw [h1, h2, h3]
    · rw [hnew]
      simp
    · rw [hnew]
      intro e he
      simp only [List.mem_append, List.mem_cons, List.mem_map, List.mem_singleton,
        List.not_mem_nil, or_false, sysclk_writes] at he
      rcases he with ((rfl | ⟨x, _, rfl⟩) | rfl | rfl | rfl) | rfl | rfl <;> rfl

/-! ## C9 -/

/-- C9 fails as stated: transaction A (`request_sysclk(true)`, resp.
`request_pll(SOC0, true)`) times out, its late acknowledge is then consumed by
the interrupt path, and a second call B, during which no acknowledge and no
interrupt at all is delivered, does not time out: its wait ends on the signal
left over, and it returns 0 on the staged acknowledge.  With another staged
status the same call returns `-EIO`, so the staged acknowledge is inspected. -/
theorem request_sysclk_stale_signal :
    (request_sysclk true [] World.sample).map Prod.snd = some (- EIO) ∧
    (interrupt (Irq.mb3_ack MB3H_REFCLK_REQUEST SYSCLK_ON) World.sample_S).map Prod.snd =
      some irqreturn_t.IRQ_HANDLED ∧
    World.sample_S_late.mb3_done = 1 ∧
    (request_sysclk true [] World.sample_S_late).map Prod.snd = some 0 ∧
    (request_sysclk true [] World.sample_S_late).map
      (fun p => (new_events World.sample_S_late p.1).any is_irq_event) = some false ∧
    (request_sysclk true [] World.sample_S_late).map
      (fun p => decide (Event.wait_end Compl.sysclk_work true ∈
        new_events World.sample_S_late p.1)) = some true ∧
    (request_sysclk true [] { World.sample_S_late with mb3_ack_status := SYSCLK_OFF }).map
      Prod.snd = some (- EIO) ∧
    (request_pll DB5500_PLL_SOC0 true [] World.sample_A_late).map Prod.snd = some 0 ∧
    (request_pll DB5500_PLL_SOC0 true [] World.sample_A_late).map
      (fun p => (new_events World.sample_A_late p.1).any is_irq_event) = some false := by
  decide

/-- C9 (amended): whenever the wait of a `request_pll` or `request_sysclk` call
times out, the call returns `-EIO` whatever header and status are staged; it has
written the request and raised the mailbox's pending bit once and not again; and
it has released the mailbox lock.  The wait does time out, and the call returns
with all of this, when no completion signal is outstanding on entry and no
interrupt for the mailbox arrives during the wait; the staged acknowledge is
then left as it was.  When a completion signal is outstanding on entry, the call
returns for every interrupt sequence without timing out: its wait ends on that
signal with no interrupt taken, its result is 0 exactly when the header and
status staged before the call match the request and `-EIO` otherwise, and it has
still raised the pending bit once and released the lock. -/
theorem request_timeout_no_retry (pll : Nat) (enable : Bool) (irqs : List Irq) (w : World)
    (hpll : pll < DB5500_NUM_PLL_ID) :
    (∀ w1 r, request_pll pll enable irqs w = some (w1, r) →
      Event.wait_end Compl.mb2_work false ∈ new_events w w1 →
      r = - EIO ∧
      mailbox_writes (new_events w w1) =
        [ Event.writeb PRCM_REQ_MB2_PLL_CLIENT pll,
          Event.writeb PRCM_REQ_MB2_PLL_STATE (if enable then 1 else 0),
          Event.writeb PRCM_REQ_MB2_HEADER MB2H_PLL_REQUEST,
          Event.reg_writel Reg.PRCM_MBOX_CPU_SET (MBOX_BIT 2) ] ∧
      lock_held Lock.mb2 (new_events w w1) = false) ∧
    (∀ w1 r, request_sysclk enable irqs w = some (w1, r) →
      Event.wait_end Compl.sysclk_work false ∈ new_events w w1 →
      r = - EIO ∧
      mailbox_writes (new_events w w1) =
        [ Event.writeb PRCM_REQ_MB3_REFCLK_MGT (if enable then SYSCLK_ON else SYSCLK_OFF),
          Event.writeb PRCM_REQ_MB3_HEADER MB3H_REFCLK_REQUEST,
          Event.reg_writel Reg.PRCM_MBOX_CPU_SET (MBOX_BIT 3) ] ∧
      lock_held Lock.sysclk (new_events w w1) = false) ∧
    ((∃ v ∈ w.cpu_val, v &&& MBOX_BIT 2 = 0) → w.mb2_done = 0 →
      (∀ i ∈ irqs, i.it1_val &&& MBOX_BIT 2 = 0) →
      ∃ w1, request_pll pll enable irqs w = some (w1, - EIO) ∧
        Event.wait_end Compl.mb2_work false ∈ new_events w w1 ∧ mb2_view w1 = mb2_view w ∧
        mailbox_writes (new_events w w1) =
          [ Event.writeb PRCM_REQ_MB2_PLL_CLIENT pll,
            Event.writeb PRCM_REQ_MB2_PLL_STATE (if enable then 1 else 0),
            Event.writeb PRCM_REQ_MB2_HEADER MB2H_PLL_REQUEST,
            Event.reg_writel Reg.PRCM_MBOX_CPU_SET (MBOX_BIT 2) ] ∧
        lock_held Lock.mb2 (new_events w w1) = false) ∧
    ((∃ v ∈ w.cpu_val, v &&& MBOX_BIT 3 = 0) → w.mb3_done = 0 →
      (∀ i ∈ irqs, i.it1_val &&& MBOX_BIT 3 = 0) →
      ∃ w1, request_sysclk enable irqs w = some (w1, - EIO) ∧
        Event.wait_end Compl.sysclk_work false ∈ new_events w w1 ∧
        mb3_view w1 = mb3_view w ∧
        mailbox_writes (new_events w w1) =
          [ Event.writeb PRCM_REQ_MB3_REFCLK_MGT (if enable then SYSCLK_ON else SYSCLK_OFF),
            Event.writeb PRCM_REQ_MB3_HEADER MB3H_REFCLK_REQUEST,
            Event.reg_writel Reg.PRCM_MBOX_CPU_SET (MBOX_BIT 3) ] ∧
        lock_held Lock.sysclk (new_events w w1) = false) ∧
    ((∃ v ∈ w.cpu_val, v &&& MBOX_BIT 2 = 0) → 0 < w.mb2_done →
      ∃ w1, request_pll pll enable irqs w =
          some (w1, if w.mb2_ack_status = RC_SUCCESS ∧ w.mb2_ack_header = MB2H_PLL_REQUEST
                    then 0 else - EIO) ∧
        Event.wait_end Compl.mb2_work true ∈ new_events w w1 ∧
        Event.wait_end Compl.mb2_work false ∉ new_events w w1 ∧
        (∀ e ∈ new_events w w1, is_irq_event e = false) ∧
        mailbox_writes (new_events w w1) =
          [ Event.writeb PRCM_REQ_MB2_PLL_CLIENT pll,
            Event.writeb PRCM_REQ_MB2_PLL_STATE (if enable then 1 else 0),
            Event.writeb PRCM_REQ_MB2_HEADER MB2H_PLL_REQUEST,
            Event.reg_writel Reg.PRCM_MBOX_CPU_SET (MBOX_BIT 2) ] ∧
        lock_held Lock.mb2 (new_events w w1) = false) ∧
    ((∃ v ∈ w.cpu_val, v &&& MBOX_BIT 3 = 0) → 0 < w.mb3_done →
      ∃ w1, request_sysclk enable irqs w =
          some (w1, if w.mb3_ack_header = MB3H_REFCLK_REQUEST ∧
                      w.mb3_ack_status = (if enable then SYSCLK_ON else SYSCLK_OFF)
                    then 0 else - EIO) ∧
        Event.wait_end Compl.sysclk_work true ∈ new_events w w1 ∧
        Event.wait_end Compl.sysclk_work false ∉ new_events w w1 ∧
        (∀ e ∈ new_events w w1, is_irq_event e = false) ∧
        mailbox_writes (new_events w w1) =
          [ Event.writeb PRCM_REQ_MB3_REFCLK_MGT (if enable then SYSCLK_ON else SYSCLK_OFF),
            Event.writeb PRCM_REQ_MB3_HEADER MB3H_REFCLK_REQUEST,
            Event.reg_writel Reg.PRCM_MBOX_CPU_SET (MBOX_BIT 3) ] ∧
        lock_held Lock.sysclk (new_events w w1) = false) := by
  have hmod : pll % 256 = pll := Nat.mod_eq_of_lt (by
    have : DB5500_NUM_PLL_ID = 3 := rfl
    omega)
  have hpre2 : ∀ (reads : List Nat), ∀ e ∈ Event.lock Lock.mb2 ::
      reads.map Event.readl_cpu_val ++ pll_writes pll enable,
      ∀ x, e ≠ Event.wait_end Compl.mb2_work x := by
    intro reads e he x
    simp only [List.cons_append, List.mem_cons, List.mem_append, List.mem_map,
      pll_writes, List.mem_singleton, List.not_mem_nil, or_false] at he
    rcases he with rfl | ⟨y, _, rfl⟩ | rfl | rfl | rfl | rfl <;> simp
  have hpre3 : ∀ (reads : List Nat), ∀ e ∈ Event.lock Lock.sysclk ::
      reads.map Event.readl_cpu_val ++ sysclk_writes enable,
      ∀ x, e ≠ Event.wait_end Compl.sysclk_work x := by
    intro reads e he x
    simp only [List.cons_append, List.mem_cons, List.mem_append, List.mem_map,
      sysclk_writes, List.mem_singleton, List.not_mem_nil, or_false] at he
    rcases he with rfl | ⟨y, _, rfl⟩ | rfl | rfl | rfl <;> simp
  have hlock2 : ∀ w1 r, request_pll pll enable irqs w = some (w1, r) →
      lock_held Lock.mb2 (new_events w w1) = false := by
    intro w1 r hr
    obtain ⟨_, pre, v, rest, evs, b, _, _, _, _, hnew, _, _⟩ :=
      request_pll_some pll enable irqs w w1 r hr
    rw [hnew]
    exact lock_held_wait_tail _ _ _ _
  have hlock3 : ∀ w1 r, request_sysclk enable irqs w = some (w1, r) →
      lock_held Lock.sysclk (new_events w w1) = false := by
    intro w1 r hr
    obtain ⟨pre, v, rest, evs, b, _, _, _, _, hnew, _⟩ :=
      request_sysclk_some enable irqs w w1 r hr
    rw [hnew]
    exact lock_held_wait_tail _ _ _ _
  have hone2 : ∀ w1 r, request_pll pll enable irqs w = some (w1, r) →
      Event.wait_end Compl.mb2_work true ∈ new_events w w1 →
      Event.wait_end Compl.mb2_work false ∉ new_events w w1 := by
    intro w1 r hr ht hf
    obtain ⟨_, pre, v, rest, evs, b, _, _, _, hirq, hnew, _, _⟩ :=
      request_pll_some pll enable irqs w w1 r hr
    rw [hnew] at ht hf
    have h1 := (wait_timed_out_mem_tail _ _ b _ evs (hpre2 (pre ++ [v])) hirq).mp hf
    rw [h1] at ht
    simp only [List.mem_append, List.mem_cons, List.mem_map, wait_tail] at ht
    rcases ht with ((hx | hx) | hx) | hx
    · simp at hx
    · exact hpre2 (pre ++ [v]) _ (by simp [hx]) true rfl
    · have := hirq _ hx
      simp [is_irq_event] at this
    · simp at hx
  have hone3 : ∀ w1 r, request_sysclk enable irqs w = some (w1, r) →
      Event.wait_end Compl.sysclk_work true ∈ new_events w w1 →
      Event.wait_end Compl.sysclk_work false ∉ new_events w w1 := by
    intro w1 r hr ht hf
    obtain ⟨pre, v, rest, evs, b, _, _, _, hirq, hnew, _⟩ :=
      request_sysclk_some enable irqs w w1 r hr
    rw [hnew] at ht hf
    have h1 := (wait_timed_out_mem_tail _ _ b _ evs (hpre3 (pre ++ [v])) hirq).mp hf
    rw [h1] at ht
    simp only [List.mem_append, List.mem_cons, List.mem_map, wait_tail] at ht
    rcases ht with ((hx | hx) | hx) | hx
    · simp at hx
    · exact hpre3 (pre ++ [v]) _ (by simp [hx]) true rfl
    · have := hirq _ hx
      simp [is_irq_event] at this
    · simp at hx
  refine ⟨?_, ?_, ?_, ?_, ?_, ?_⟩
  · intro w1 r hr hto
    obtain ⟨_, pre, v, rest, evs, b, _, _, _, hirq, hnew, hres, _⟩ :=
      request_pll_some pll enable irqs w w1 r hr
    rw [hnew] at hto
    have hb : b = false :=
      (wait_timed_out_mem_tail _ _ b _ evs (hpre2 (pre ++ [v])) hirq).mp hto
    subst hb
    exact ⟨by rw [hres]; simp, request_pll_writes pll enable irqs w w1 r hr, hlock2 w1 r hr⟩
  · intro w1 r hr hto
    obtain ⟨pre, v, rest, evs, b, _, _, _, hirq, hnew, hres⟩ :=
      request_sysclk_some enable irqs w w1 r hr
    rw [hnew] at hto
    have hb : b = false :=
      (wait_timed_out_mem_tail _ _ b _ evs (hpre3 (pre ++ [v])) hirq).mp hto
    subst hb
    exact ⟨by rw [hres]; simp, request_sysclk_writes enable irqs w w1 r hr, hlock3 w1 r hr⟩
  · intro hclear hd hq
    obtain ⟨w1, pre, v, evs, hr, hirq, hnew, hv⟩ :=
      request_pll_quiet pll enable irqs w hpll hclear hd hq
    refine ⟨w1, hr, ?_, hv, request_pll_writes pll enable irqs w w1 _ hr, hlock2 w1 _ hr⟩
    rw [hnew]
    exact (wait_timed_out_mem_tail _ _ false _ evs (hpre2 (pre ++ [v])) hirq).mpr rfl
  · intro hclear hd hq
    obtain ⟨w1, pre, v, evs, hr, hirq, hnew, hv⟩ :=
      request_sysclk_quiet enable irqs w hclear hd hq
    refine ⟨w1, hr, ?_, hv, request_sysclk_writes enable irqs w w1 _ hr, hlock3 w1 _ hr⟩
    rw [hnew]
    exact (wait_timed_out_mem_tail _ _ false _ evs (hpre3 (pre ++ [v])) hirq).mpr rfl
  · intro hclear hd
    obtain ⟨w1, hr, hend, hq⟩ := request_pll_pending pll enable irqs w hpll hclear hd
    exact ⟨w1, hr, hend, hone2 w1 _ hr hend, hq, request_pll_writes pll enable irqs w w1 _ hr,
      hlock2 w1 _ hr⟩
  · intro hclear hd
    obtain ⟨w1, hr, hend, hq⟩ := request_sysclk_pending enable irqs w hclear hd
    exact ⟨w1, hr, hend, hone3 w1 _ hr hend, hq,
      request_sysclk_writes enable irqs w w1 _ hr, hlock3 w1 _ hr⟩

theorem request_timeout_no_retry_witness :
    (∃ w1, request_pll DB5500_PLL_SOC0 true [] World.sample = some (w1, - EIO) ∧
      Event.wait_end Compl.mb2_work false ∈ new_events World.sample w1 ∧
      mb2_view w1 = mb2_view World.sample ∧
      mailbox_writes (new_events World.sample w1) =
        [ Event.writeb PRCM_REQ_MB2_PLL_CLIENT DB5500_PLL_SOC0,
          Event.writeb PRCM_REQ_MB2_PLL_STATE (if true then 1 else 0),
          Event.writeb PRCM_REQ_MB2_HEADER MB2H_PLL_REQUEST,
          Event.reg_writel Reg.PRCM_MBOX_CPU_SET (MBOX_BIT 2) ] ∧
      lock_held Lock.mb2 (new_events World.sample w1) = false) ∧
    (∃ w1, request_sysclk true [] World.sample = some (w1, - EIO) ∧
      Event.wait_end Compl.sysclk_work false ∈ new_events World.sample w1 ∧
      mb3_view w1 = mb3_view World.sample ∧
      mailbox_writes (new_events World.sample w1) =
        [ Event.writeb PRCM_REQ_MB3_REFCLK_MGT (if true then SYSCLK_ON else SYSCLK_OFF),
          Event.writeb PRCM_REQ_MB3_HEADER MB3H_REFCLK_REQUEST,
          Event.reg_writel Reg.PRCM_MBOX_CPU_SET (MBOX_BIT 3) ] ∧
      lock_held Lock.sysclk (new_events World.sample w1) = false) ∧
    (- EIO = - EIO ∧
      mailbox_writes (new_events World.sample World.sample_A) =
        [ Event.writeb PRCM_REQ_MB2_PLL_CLIENT DB5500_PLL_SOC0,
          Event.writeb PRCM_REQ_MB2_PLL_STATE (if true then 1 else 0),
          Event.writeb PRCM_REQ_MB2_HEADER MB2H_PLL_REQUEST,
          Event.reg_writel Reg.PRCM_MBOX_CPU_SET (MBOX_BIT 2) ] ∧
      lock_held Lock.mb2 (new_events World.sample World.sample_A) = false) ∧
    (- EIO = - EIO ∧
      mailbox_writes (new_events World.sample World.sample_S) =
        [ Event.writeb PRCM_REQ_MB3_REFCLK_MGT (if true then SYSCLK_ON else SYSCLK_OFF),
          Event.writeb PRCM_REQ_MB3_HEADER MB3H_REFCLK_REQUEST,
          Event.reg_writel Reg.PRCM_MBOX_CPU_SET (MBOX_BIT 3) ] ∧
      lock_held Lock.sysclk (new_events World.sample World.sample_S) = false) ∧
    (∃ w1, request_pll DB5500_PLL_SOC0 true [] World.sample_A_late =
        some (w1, if World.sample_A_late.mb2_ack_status = RC_SUCCESS ∧
                    World.sample_A_late.mb2_ack_header = MB2H_PLL_REQUEST then 0 else - EIO) ∧
      Event.wait_end Compl.mb2_work true ∈ new_events World.sample_A_late w1 ∧
      Event.wait_end Compl.mb2_work false ∉ new_events World.sample_A_late w1 ∧
      (∀ e ∈ new_events World.sample_A_late w1, is_irq_event e = false) ∧
      mailbox_writes (new_events World.sample_A_late w1) =
        [ Event.writeb PRCM_REQ_MB2_PLL_CLIENT DB5500_PLL_SOC0,
          Event.writeb PRCM_REQ_MB2_PLL_STATE (if true then 1 else 0),
          Event.writeb PRCM_REQ_MB2_HEADER MB2H_PLL_REQUEST,
          Event.reg_writel Reg.PRCM_MBOX_CPU_SET (MBOX_BIT 2) ] ∧
      lock_held Lock.mb2 (new_events World.sample_A_late w1) = false) ∧
    (∃ w1, request_sysclk true [] World.sample_S_late =
        some (w1, if World.sample_S_late.mb3_ack_header = MB3H_REFCLK_REQUEST ∧
                    World.sample_S_late.mb3_ack_status = (if true then SYSCLK_ON else SYSCLK_OFF)
                  then 0 else - EIO) ∧
      Event.wait_end Compl.sysclk_work true ∈ new_events World.sample_S_late w1 ∧
      Event.wait_end Compl.sysclk_work false ∉ new_events World.sample_S_late w1 ∧
      (∀ e ∈ new_events World.sample_S_late w1, is_irq_event e = false) ∧
      mailbox_writes (new_events World.sample_S_late w1) =
        [ Event.writeb PRCM_REQ_MB3_REFCLK_MGT (if true then SYSCLK_ON else SYSCLK_OFF),
          Event.writeb PRCM_REQ_MB3_HEADER MB3H_REFCLK_REQUEST,
          Event.reg_writel Reg.PRCM_MBOX_CPU_SET (MBOX_BIT 3) ] ∧
      lock_held Lock.sysclk (new_events World.sample_S_late w1) = false) :=
  ⟨(request_timeout_no_retry DB5500_PLL_SOC0 true [] World.sample (by decide)).2.2.1
      ⟨0, by decide, by decide⟩ (by decide) (by simp),
    (request_timeout_no_retry DB5500_PLL_SOC0 true [] World.sample (by decide)).2.2.2.1
      ⟨0, by decide, by decide⟩ (by decide) (by simp),
    (request_timeout_no_retry DB5500_PLL_SOC0 true [] World.sample (by decide)).1
      World.sample_A (- EIO) rfl (by decide),
    (request_timeout_no_retry DB5500_PLL_SOC0 true [] World.sample (by decide)).2.1
      World.sample_S (- EIO) rfl (by decide),
    (request_timeout_no_retry DB5500_PLL_SOC0 true [] World.sample_A_late (by decide)).2.2.2.2.1
      ⟨0, by decide, by decide⟩ (by decide),
    (request_timeout_no_retry DB5500_PLL_SOC0 true [] World.sample_S_late (by decide)).2.2.2.2.2
      ⟨0, by decide, by decide⟩ (by decide)⟩

/-! ## C16 -/

/-- C16: in `request_sysclk`, `request_pll`, `config_wakeups` when it pushes,
`db5500_prcmu_set_power_state` on a supported state, `db5500_prcmu_abb_read` and
`db5500_prcmu_abb_write`, the mailbox writes of a call are stores into payload
fields of the mailbox's request region, then the store of the mailbox's request
header byte, then one write of that mailbox's `MBOX_BIT(n)` to
`PRCM_MBOX_CPU_SET`; nothing is stored after the header.  This holds of every
call that returns (first six parts), and the calls do return with this write
sequence (last six parts): the four operations with a bounded or no wait as soon
as the poll of the pending bit finds it clear, for every interrupt sequence;
the two ABB operations, whose wait is unbounded, when in addition no completion
signal is outstanding and the first interrupt of the wait delivers the
mailbox-5 acknowledge. -/
theorem request_header_written_last (H : Headers) (w : World) :
    (∀ enable irqs w1 r, request_sysclk enable irqs w = some (w1, r) →
      header_last 3 (mailbox_writes (new_events w w1)) = true) ∧
    (∀ pll enable irqs w1 r, request_pll pll enable irqs w = some (w1, r) →
      header_last 2 (mailbox_writes (new_events w w1)) = true) ∧
    (∀ w1, config_wakeups w = some w1 →
      ¬ (w.dbb_irqs ||| w.dbb_wakeups = w.last_dbb_events ∧
        w.abb_events = w.last_abb_events) →
      header_last 0 (mailbox_writes (new_events w w1)) = true) ∧
    (∀ state keep_ulp_clk keep_ap_pll w1 r,
      db5500_prcmu_set_power_state H state keep_ulp_clk keep_ap_pll w = some (w1, r) →
      power_state_supported H state →
      header_last 0 (mailbox_writes (new_events w w1)) = true) ∧
    (∀ slave reg value size irqs w1 r buf,
      db5500_prcmu_abb_read slave reg value size irqs w = some (w1, r, buf) →
      1 ≤ size ∧ size ≤ 4 →
      header_last 5 (mailbox_writes (new_events w w1)) = true) ∧
    (∀ slave reg value size irqs w1 r,
      db5500_prcmu_abb_write slave reg value size irqs w = some (w1, r) →
      1 ≤ size ∧ size ≤ 4 →
      header_last 5 (mailbox_writes (new_events w w1)) = true) ∧
    ((∃ v ∈ w.cpu_val, v &&& MBOX_BIT 3 = 0) → ∀ enable irqs,
      ∃ w1 r, request_sysclk enable irqs w = some (w1, r) ∧
        header_last 3 (mailbox_writes (new_events w w1)) = true) ∧
    ((∃ v ∈ w.cpu_val, v &&& MBOX_BIT 2 = 0) → ∀ pll enable irqs, pll < DB5500_NUM_PLL_ID →
      ∃ w1 r, request_pll pll enable irqs w = some (w1, r) ∧
        header_last 2 (mailbox_writes (new_events w w1)) = true) ∧
    ((∃ v ∈ w.cpu_val, v &&& MBOX_BIT 0 = 0) →
      ¬ (w.dbb_irqs ||| w.dbb_wakeups = w.last_dbb_events ∧
        w.abb_events = w.last_abb_events) →
      ∃ w1, config_wakeups w = some w1 ∧
        header_last 0 (mailbox_writes (new_events w w1)) = true) ∧
    ((∃ v ∈ w.cpu_val, v &&& MBOX_BIT 0 = 0) → ∀ state keep_ulp_clk keep_ap_pll,
      ¬ (state < H.PRCMU_AP_SLEEP ∨ state ≥ H.PRCMU_AP_DEEP_IDLE) →
      power_state_supported H state →
      ∃ w1, db5500_prcmu_set_power_state H state keep_ulp_clk keep_ap_pll w = some (w1, 0) ∧
        header_last 0 (mailbox_writes (new_events w w1)) = true) ∧
    ((∃ v ∈ w.cpu_val, v &&& MBOX_BIT 5 = 0) → w.mb5_done = 0 →
      ∀ slave reg value size rc d0 d1 d2 d3 rest, 1 ≤ size ∧ size ≤ 4 →
      ∃ w1 r buf, db5500_prcmu_abb_read slave reg value size
          (Irq.mb5_ack MB5H_I2C_READ rc d0 d1 d2 d3 :: rest) w = some (w1, r, buf) ∧
        header_last 5 (mailbox_writes (new_events w w1)) = true) ∧
    ((∃ v ∈ w.cpu_val, v &&& MBOX_BIT 5 = 0) → w.mb5_done = 0 →
      ∀ slave reg value size rc d0 d1 d2 d3 rest, 1 ≤ size ∧ size ≤ 4 →
      ∃ w1 r, db5500_prcmu_abb_write slave reg value size
          (Irq.mb5_ack MB5H_I2C_WRITE rc d0 d1 d2 d3 :: rest) w = some (w1, r) ∧
        header_last 5 (mailbox_writes (new_events w w1)) = true) := by
  have hS : ∀ enable irqs w1 r, request_sysclk enable irqs w = some (w1, r) →
    header_last 3 (mailbox_writes (new_events w w1)) = true := by
    intro enable irqs w1 r h
    rw [request_sysclk_writes enable irqs w w1 r h]
    exact header_last_intro 3 [_] MB3H_REFCLK_REQUEST (by
      intro e he
      rw [List.mem_singleton] at he
      subst he
      rfl)
  have hP : ∀ pll enable irqs w1 r, request_pll pll enable irqs w = some (w1, r) →
    header_last 2 (mailbox_writes (new_events w w1)) = true := by
    intro pll enable irqs w1 r h
    rw [request_pll_writes pll enable irqs w w1 r h]
    exact header_last_intro 2 [_, _] MB2H_PLL_REQUEST (by
      intro e he
      simp only [List.mem_cons, List.mem_singleton, List.not_mem_nil, or_false] at he
      rcases he with rfl | rfl <;> rfl)
  have hC : ∀ w1, config_wakeups w = some w1 →
    ¬ (w.dbb_irqs ||| w.dbb_wakeups = w.last_dbb_events ∧
      w.abb_events = w.last_abb_events) →
    header_last 0 (mailbox_writes (new_events w w1)) = true := by
    intro w1 h hd
    obtain ⟨pre, v, rest, _, _, _, hnew⟩ := config_wakeups_push w w1 h hd
    rw [hnew, mailbox_writes_append, mailbox_writes_reads, List.nil_append]
    exact header_last_intro 0 [_, _] MB0H_WAKE_UP_CFG (by
      intro e he
      simp only [List.mem_cons, List.mem_singleton, List.not_mem_nil, or_false] at he
      rcases he with rfl | rfl <;> rfl)
  have hW : ∀ state keep_ulp_clk keep_ap_pll w1 r,
    db5500_prcmu_set_power_state H state keep_ulp_clk keep_ap_pll w = some (w1, r) →
    power_state_supported H state →
    header_last 0 (mailbox_writes (new_events w w1)) = true := by
    intro state keep_ulp_clk keep_ap_pll w1 r h hsup
    obtain ⟨pre, v, rest, _, _, _, hcase⟩ :=
      set_power_state_some H state keep_ulp_clk keep_ap_pll w w1 r h
    rcases hcase with ⟨_, _, hnew⟩ | ⟨hno, _⟩
    · have hw : mailbox_writes (new_events w w1) =
          power_state_stores H state keep_ulp_clk keep_ap_pll ++
            [Event.reg_writel Reg.PRCM_MBOX_CPU_SET (MBOX_BIT 0)] := by
        rw [hnew]
        have := mailbox_writes_request Lock.mb0 (pre ++ [v])
          (power_state_stores H state keep_ulp_clk keep_ap_pll ++
            [Event.reg_writel Reg.PRCM_MBOX_CPU_SET (MBOX_BIT 0)]) []
          [Event.unlock Lock.mb0] (by
            simp only [power_state_stores]
            split <;> [rfl; split] <;> rfl) (by simp) rfl
        simpa using this
      rw [hw]
      simp only [power_state_stores]
      by_cases h1 : state = H.PRCMU_AP_IDLE
      · rw [if_pos h1]
        exact header_last_intro 0 [_, _, _, _] MB0H_PWR_STATE_TRANS (by
          intro e he
          simp only [List.mem_cons, List.mem_singleton, List.not_mem_nil, or_false] at he
          rcases he with rfl | rfl | rfl | rfl <;> rfl)
      · rw [if_neg h1]
        by_cases h2 : state = H.PRCMU_AP_SLEEP
        · rw [if_pos h2]
          exact header_last_intro 0 [_, _, _] MB0H_PWR_STATE_TRANS (by
            intro e he
            simp only [List.mem_cons, List.mem_singleton, List.not_mem_nil, or_false] at he
            rcases he with rfl | rfl | rfl <;> rfl)
        · rw [if_neg h2]
          exact header_last_intro 0 [_, _, _] MB0H_PWR_STATE_TRANS (by
            intro e he
            simp only [List.mem_cons, List.mem_singleton, List.not_mem_nil, or_false] at he
            rcases he with rfl | rfl | rfl <;> rfl)
    · exact absurd hsup hno
  have hR : ∀ slave reg value size irqs w1 r buf,
    db5500_prcmu_abb_read slave reg value size irqs w = some (w1, r, buf) →
    1 ≤ size ∧ size ≤ 4 →
    header_last 5 (mailbox_writes (new_events w w1)) = true := by
    intro slave reg value size irqs w1 r buf h hsize
    rcases abb_read_some slave reg value size irqs w w1 r buf h with
      ⟨hbad, _⟩ | ⟨_, _, pre, v, rest0, evs, _, _, _, hirq, hnew, _⟩
    · omega
    · have := mailbox_writes_request Lock.mb5 (pre ++ [v])
        (abb_read_stores slave reg size ++
          [Event.reg_writel Reg.PRCM_MBOX_CPU_SET (MBOX_BIT 5)]) evs
        [Event.wait_end Compl.mb5_work true, Event.unlock Lock.mb5] rfl hirq rfl
      rw [hnew]
      simp only [List.append_assoc, List.cons_append, List.nil_append, List.singleton_append]
        at this ⊢
      rw [this]
      exact header_last_intro 5 [_, _, _] MB5H_I2C_READ (by
        intro e he
        simp only [List.mem_cons, List.mem_singleton, List.not_mem_nil, or_false] at he
        rcases he with rfl | rfl | rfl <;> rfl)
  have hT : ∀ slave reg value size irqs w1 r,
    db5500_prcmu_abb_write slave reg value size irqs w = some (w1, r) →
    1 ≤ size ∧ size ≤ 4 →
    header_last 5 (mailbox_writes (new_events w w1)) = true := by
    intro slave reg value size irqs w1 r h hsize
    rcases abb_write_some slave reg value size irqs w w1 r h with
      ⟨hbad, _⟩ | ⟨_, _, pre, v, rest0, evs, _, _, _, hirq, hnew, _⟩
    · omega
    · have := mailbox_writes_request Lock.mb5 (pre ++ [v])
        (abb_write_stores slave reg value size ++
          [Event.reg_writel Reg.PRCM_MBOX_CPU_SET (MBOX_BIT 5)]) evs
        [Event.wait_end Compl.mb5_work true, Event.unlock Lock.mb5] rfl hirq rfl
      rw [hnew]
      simp only [List.append_assoc, List.cons_append, List.nil_append, List.singleton_append]
        at this ⊢
      rw [this]
      exact header_last_intro 5 [_, _, _, _] MB5H_I2C_WRITE (by
        intro e he
        simp only [List.mem_cons, List.mem_singleton, List.not_mem_nil, or_false] at he
        rcases he with rfl | rfl | rfl | rfl
        · rfl
        · rfl
        · rfl
        · apply in_payload_mb5_data
          simp only [List.length_map, List.length_take]
          omega)
  refine ⟨hS, hP, hC, hW, hR, hT, ?_, ?_, ?_, ?_, ?_, ?_⟩
  · intro hclear enable irqs
    obtain ⟨w1, r, h⟩ := request_sysclk_returns enable irqs w hclear
    exact ⟨w1, r, h, hS enable irqs w1 r h⟩
  · intro hclear pll enable irqs hpll
    obtain ⟨w1, r, h⟩ := request_pll_returns pll enable irqs w hpll hclear
    exact ⟨w1, r, h, hP pll enable irqs w1 r h⟩
  · intro hclear hd
    have hs := config_wakeups_isSome w (Or.inr hclear)
    cases h : config_wakeups w with
    | none => simp [h] at hs
    | some w1 => exact ⟨w1, rfl, hC w1 h hd⟩
  · intro hclear state keep_ulp_clk keep_ap_pll hb hsup
    obtain ⟨w1, r, h⟩ := set_power_state_returns H state keep_ulp_clk keep_ap_pll w hb hclear
    obtain ⟨pre, v, rest, _, _, _, hcase⟩ :=
      set_power_state_some H state keep_ulp_clk keep_ap_pll w w1 r h
    rcases hcase with ⟨_, hr, _⟩ | ⟨hno, _⟩
    · subst hr
      exact ⟨w1, h, hW state keep_ulp_clk keep_ap_pll w1 0 h hsup⟩
    · exact absurd hsup hno
  · intro hclear hd slave reg value size rc d0 d1 d2 d3 rest hsize
    obtain ⟨w1, h⟩ := abb_read_acked slave reg size rc d0 d1 d2 d3 value rest w hsize hclear hd
    exact ⟨w1, _, _, h, hR slave reg value size _ w1 _ _ h hsize⟩
  · intro hclear hd slave reg value size rc d0 d1 d2 d3 rest hsize
    obtain ⟨w1, h⟩ :=
      (abb_write_acked slave reg size rc d0 d1 d2 d3 value rest w hsize hclear hd).1
    exact ⟨w1, _, h, hT slave reg value size _ w1 _ h hsize⟩

theorem request_header_written_last_witness :
    header_last 3 (mailbox_writes (new_events World.sample World.sample_S)) = true ∧
    header_last 2 (mailbox_writes (new_events World.sample World.sample_A)) = true ∧
    header_last 0 (mailbox_writes (new_events World.sample_unpushed World.sample_pushed)) = true ∧
    header_last 0 (mailbox_writes (new_events World.sample World.sample_sleep)) = true ∧
    header_last 5 (mailbox_writes (new_events World.sample World.sample_abb_read)) = true ∧
    header_last 5 (mailbox_writes (new_events World.sample World.sample_abb_write)) = true ∧
    (∃ w1 r, request_sysclk true [] World.sample = some (w1, r) ∧
      header_last 3 (mailbox_writes (new_events World.sample w1)) = true) ∧
    (∃ w1 r, request_pll DB5500_PLL_SOC0 true [] World.sample = some (w1, r) ∧
      header_last 2 (mailbox_writes (new_events World.sample w1)) = true) ∧
    (∃ w1, config_wakeups World.sample_unpushed = some w1 ∧
      header_last 0 (mailbox_writes (new_events World.sample_unpushed w1)) = true) ∧
    (∃ w1, db5500_prcmu_set_power_state Headers.sample 1 false true World.sample =
        some (w1, 0) ∧
      header_last 0 (mailbox_writes (new_events World.sample w1)) = true) ∧
    (∃ w1 r buf, db5500_prcmu_abb_read 0x12 0x04 [0, 0] 2
        (Irq.mb5_ack MB5H_I2C_READ RC_SUCCESS 0xAB 0xCD 0 0 :: []) World.sample =
          some (w1, r, buf) ∧
      header_last 5 (mailbox_writes (new_events World.sample w1)) = true) ∧
    (∃ w1 r, db5500_prcmu_abb_write 0x12 0x04 [0xAA, 0xBB] 2
        (Irq.mb5_ack MB5H_I2C_WRITE RC_SUCCESS 0 0 0 0 :: []) World.sample = some (w1, r) ∧
      header_last 5 (mailbox_writes (new_events World.sample w1)) = true) :=
  ⟨(request_header_written_last Headers.sample World.sample).1 true []
      World.sample_S (- EIO) rfl,
    (request_header_written_last Headers.sample World.sample).2.1 DB5500_PLL_SOC0 true []
      World.sample_A (- EIO) rfl,
    (request_header_written_last Headers.sample World.sample_unpushed).2.2.1
      World.sample_pushed rfl (by decide),
    (request_header_written_last Headers.sample World.sample).2.2.2.1 1 false true
      World.sample_sleep 0 rfl (Or.inr (Or.inl rfl)),
    (request_header_written_last Headers.sample World.sample).2.2.2.2.1 0x12 0x04 [0, 0] 2
      [Irq.mb5_ack MB5H_I2C_READ RC_SUCCESS 0xAB 0xCD 0 0] World.sample_abb_read 0 [0xAB, 0xCD]
      rfl ⟨by decide, by decide⟩,
    (request_header_written_last Headers.sample World.sample).2.2.2.2.2.1 0x12 0x04
      [0xAA, 0xBB] 2 [Irq.mb5_ack MB5H_I2C_WRITE RC_SUCCESS 0 0 0 0] World.sample_abb_write 0
      rfl ⟨by decide, by decide⟩,
    (request_header_written_last Headers.sample World.sample).2.2.2.2.2.2.1
      ⟨0, by decide, by decide⟩ true [],
    (request_header_written_last Headers.sample World.sample).2.2.2.2.2.2.2.1
      ⟨0, by decide, by decide⟩ DB5500_PLL_SOC0 true [] (by decide),
    (request_header_written_last Headers.sample World.sample_unpushed).2.2.2.2.2.2.2.2.1
      ⟨0, by decide, by decide⟩ (by decide),
    (request_header_written_last Headers.sample World.sample).2.2.2.2.2.2.2.2.2.1
      ⟨0, by decide, by decide⟩ 1 false true (by decide) (Or.inr (Or.inl rfl)),
    (request_header_written_last Headers.sample World.sample).2.2.2.2.2.2.2.2.2.2.1
      ⟨0, by decide, by decide⟩ (by decide) 0x12 0x04 [0, 0] 2 RC_SUCCESS 0xAB 0xCD 0 0 []
      ⟨by decide, by decide⟩,
    (request_header_written_last Headers.sample World.sample).2.2.2.2.2.2.2.2.2.2.2
      ⟨0, by decide, by decide⟩ (by decide) 0x12 0x04 [0xAA, 0xBB] 2 RC_SUCCESS 0 0 0 0 []
      ⟨by decide, by decide⟩⟩

end Db5500Prcmu

namespace Dbx500Regulator

/-! ## The power-state reference count -/

end Dbx500Regulator

namespace Cw1200

/-! ## The TX retry budget -/

theorem rate_at_set_count (rates : List ieee80211_tx_rate) (i c j : Nat) :
    rate_at (set_count rates i c) j =
      if j = i ∧ i < rates.length then { rate_at rates i with count := c }
      else rate_at rates j := by
  simp only [rate_at, set_count, List.getD_eq_getElem?_getD]
  by_cases hji : j = i
  · subst hji
    by_cases hl : j < rates.length
    · simp [hl]
    · have hn : rates[j]? = none := List.getElem?_eq_none (by omega)
      have hs : ∀ a, (rates.set j a)[j]? = none := fun a =>
        List.getElem?_eq_none (by rw [List.length_set]; omega)
      simp [hl, hn, hs]
  · simp [hji, List.getElem?_set_ne (Ne.symm hji)]

theorem rate_at_count_pos (rates : List ieee80211_tx_rate) (i : Nat)
    (h : 0 < (rate_at rates i).count) : i < rates.length := by
  by_contra hl
  unfold rate_at at h
  rw [List.getD_eq_getElem?_getD, List.getElem?_eq_none (by simpa using hl)] at h
  simp at h

theorem rate_eta (r : ieee80211_tx_rate) : ({ r with count := r.count } : ieee80211_tx_rate) = r := by
  cases r
  rfl

/-- What the last loop leaves: every entry it passes has its count cut to 15, and
`retry_count` has grown by the sum of the counts so cut. -/
theorem encode_spec (hw_value : Int → Nat) : ∀ (fuel i : Nat) (rates : List ieee80211_tx_rate)
    (policy : tx_policy), policy.retry_count < 256 →
    (∀ j, rate_at (encode hw_value fuel i rates policy).1 j =
      if i ≤ j ∧ j < i + fuel then { rate_at rates j with count := min (rate_at rates j).count 15 }
      else rate_at rates j) ∧
    (encode hw_value fuel i rates policy).2.retry_count =
      (policy.retry_count +
        ((List.range' i fuel).map (fun j => min (rate_at rates j).count 15)).sum) % 256 ∧
    (encode hw_value fuel i rates policy).2.defined = policy.defined := by
  intro fuel
  induction fuel with
  | zero =>
    intro i rates policy hp
    refine ⟨?_, ?_, rfl⟩
    · intro j
      have : ¬ (i ≤ j ∧ j < i + 0) := by omega
      simp only [encode, this, if_false]
    · simp only [encode, List.range'_zero, List.map_nil, List.sum_nil, Nat.add_zero]
      exact (Nat.mod_eq_of_lt hp).symm
  | succ fuel ih =>
    intro i rates policy hp
    have hret : (if (rate_at rates i).count > 0x0F then 0x0F else (rate_at rates i).count) =
        min (rate_at rates i).count 15 := by
      split <;> omega
    have hr1 : ∀ j, rate_at (if (rate_at rates i).count > 0x0F then set_count rates i 0x0F
          else rates) j =
        if j = i then { rate_at rates i with count := min (rate_at rates i).count 15 }
        else rate_at rates j := by
      intro j
      by_cases hc : (rate_at rates i).count > 0x0F
      · rw [if_pos hc, rate_at_set_count]
        have hl := rate_at_count_pos rates i (by omega)
        have hm : min (rate_at rates i).count 15 = 15 := by omega
        by_cases hji : j = i
        · simp [hji, hl, hm]
        · simp [hji]
      · rw [if_neg hc]
        have hm : min (rate_at rates i).count 15 = (rate_at rates i).count := by omega
        by_cases hji : j = i
        · subst hji
          rw [if_pos rfl, hm, rate_eta]
        · rw [if_neg hji]
    simp only [encode]
    rw [hret]
    obtain ⟨h1, h2, h3⟩ := ih (i + 1)
      (if (rate_at rates i).count > 0x0F then set_count rates i 0x0F else rates)
      { policy with
        tbl := policy.tbl.set (hw_value (rate_at rates i).idx >>> 3)
          (policy.tbl.getD (hw_value (rate_at rates i).idx >>> 3) 0 |||
            (min (rate_at rates i).count 15 <<<
              ((hw_value (rate_at rates i).idx &&& 0x07) <<< 2)) % 2 ^ 32),
        retry_count := (policy.retry_count + min (rate_at rates i).count 15) % 256 }
      (Nat.mod_lt _ (by norm_num))
    refine ⟨?_, ?_, h3⟩
    · intro j
      rw [h1 j, hr1 j]
      by_cases hji : j = i
      · subst hji
        have a1 : ¬ (j + 1 ≤ j ∧ j < j + 1 + fuel) := by omega
        have a2 : j ≤ j ∧ j < j + (fuel + 1) := by omega
        rw [if_neg a1, if_pos rfl, if_pos a2]
      · rw [if_neg hji]
        by_cases hin : i + 1 ≤ j ∧ j < i + 1 + fuel
        · have a2 : i ≤ j ∧ j < i + (fuel + 1) := by omega
          rw [if_pos hin, if_pos a2]
        · have a2 : ¬ (i ≤ j ∧ j < i + (fuel + 1)) := by omega
          rw [if_neg hin, if_neg a2]
    · rw [h2]
      have hs : (List.map (fun j => min (rate_at
            (if (rate_at rates i).count > 0x0F then set_count rates i 0x0F else rates) j).count 15)
            (List.range' (i + 1) fuel)) =
          List.map (fun j => min (rate_at rates j).count 15) (List.range' (i + 1) fuel) := by
        apply List.map_congr_left
        intro j hj
        rw [List.mem_range'_1] at hj
        rw [hr1 j, if_neg (by omega)]
      rw [hs, List.range'_succ, List.map_cons, List.sum_cons]
      simp only
      omega

theorem distill_index : ∀ (fuel i total : Nat) (rates : List ieee80211_tx_rate),
    (distill fuel i total rates).2.1 ≤ i + fuel := by
  intro fuel
  induction fuel with
  | zero => intro i total rates; simp [distill]
  | succ fuel ih =>
    intro i total rates
    simp only [distill]
    split
    · simp
    · split
      · simp
      · have := ih (i + 1) ((total + (rate_at rates i).count) % 2 ^ 32)
          (if i ≠ 0 ∧ (rate_at rates i).idx > (rate_at rates (i - 1)).idx then
            (rates.set (i - 1) (rate_at rates i)).set i (rate_at rates (i - 1))
          else rates)
        omega

theorem retry_limit_ge (short_frame_max_tx_count count : Nat) :
    count ≤ retry_limit short_frame_max_tx_count count ∧
    short_frame_max_tx_count ≤ retry_limit short_frame_max_tx_count count ∧
    retry_limit short_frame_max_tx_count count = max short_frame_max_tx_count count := by
  unfold retry_limit
  split <;> omega

/-- One step of the clamping loop at index `i` with `i < limit`: the count left in
`rates[i]` is at most `limit - i`, and neither subtraction wraps. -/
theorem clamp_step (i limit : Nat) (rates : List ieee80211_tx_rate) (hi : i < limit)
    (hl : limit < 2 ^ 32) :
    (limit + 2 ^ 32 - i % 2 ^ 32) % 2 ^ 32 = limit - i ∧
    (∀ j, rate_at (if (rate_at rates i).count > limit - i
          then set_count rates i ((limit - i) % 256) else rates) j =
        if j = i then { rate_at rates i with count :=
          if (rate_at rates i).count > limit - i then (limit - i) % 256
          else (rate_at rates i).count }
        else rate_at rates j) ∧
    (if (rate_at rates i).count > limit - i then (limit - i) % 256
      else (rate_at rates i).count) ≤ limit - i := by
  have e32 : (2 : Nat) ^ 32 = 4294967296 := by norm_num
  rw [e32] at hl ⊢
  refine ⟨by omega, ?_, by split <;> omega⟩
  intro j
  by_cases hc : (rate_at rates i).count > limit - i
  · rw [if_pos hc, rate_at_set_count]
    have hlen := rate_at_count_pos rates i (by omega)
    by_cases hji : j = i
    · simp [hji, hlen, hc]
    · simp [hji]
  · rw [if_neg hc]
    by_cases hji : j = i
    · subst hji
      rw [if_pos rfl, if_neg hc, rate_eta]
    · rw [if_neg hji]

theorem clamp_steps_bound : ∀ (k limit : Nat) (rates : List ieee80211_tx_rate),
    k ≤ limit → limit < 2 ^ 32 → ∀ p ∈ clamp_steps k limit rates, p.1 < p.2 := by
  intro k
  induction k with
  | zero => intro limit rates _ _ p hp; simp [clamp_steps] at hp
  | succ i ih =>
    intro limit rates hk hl p hp
    obtain ⟨h1, h2, h3⟩ := clamp_step i limit rates (by omega) hl
    simp only [clamp_steps, h1, List.mem_cons] at hp
    rcases hp with rfl | hp
    · show i < limit
      omega
    · have hc := h2 i
      rw [if_pos rfl] at hc
      rw [hc] at hp
      have e32 : (2 : Nat) ^ 32 = 4294967296 := by norm_num
      refine ih _ _ ?_ ?_ p hp
      · simp only
        rw [e32] at hl ⊢
        omega
      · exact Nat.mod_lt _ (by norm_num)

/-- The clamping loop spends `limit` on the first `k` entries: their counts and what
is left of `limit` add up to the `limit` it starts with. -/
theorem clamp_spec : ∀ (k limit : Nat) (rates : List ieee80211_tx_rate),
    k ≤ limit → limit < 2 ^ 32 →
    ((List.range k).map (fun j => (rate_at (clamp k limit rates).1 j).count)).sum +
      (clamp k limit rates).2 = limit ∧
    ∀ j, k ≤ j → rate_at (clamp k limit rates).1 j = rate_at rates j := by
  intro k
  induction k with
  | zero => intro limit rates _ _; simp [clamp]
  | succ i ih =>
    intro limit rates hk hl
    obtain ⟨h1, h2, h3⟩ := clamp_step i limit rates (by omega) hl
    have hc := h2 i
    rw [if_pos rfl] at hc
    have e32 : (2 : Nat) ^ 32 = 4294967296 := by norm_num
    simp only [clamp, h1]
    rw [hc]
    simp only
    have hl1 : (limit + 2 ^ 32 - (if (rate_at rates i).count > limit - i then (limit - i) % 256
        else (rate_at rates i).count)) % 2 ^ 32 =
        limit - (if (rate_at rates i).count > limit - i then (limit - i) % 256
          else (rate_at rates i).count) := by
      rw [e32] at hl ⊢
      omega
    rw [hl1]
    obtain ⟨a1, a2⟩ := ih
      (limit - (if (rate_at rates i).count > limit - i then (limit - i) % 256
          else (rate_at rates i).count))
      (if (rate_at rates i).count > limit - i then set_count rates i ((limit - i) % 256)
        else rates)
      (by omega) (by omega)
    refine ⟨?_, ?_⟩
    · rw [List.range_succ, List.map_append, List.sum_append, List.map_singleton,
        List.sum_singleton, a2 i (le_refl _), hc]
      simp only
      omega
    · intro j hj
      rw [a2 j (by omega), h2 j, if_neg (by omega)]

theorem sum_mod_le (l : List Nat) (b : Nat) (h : l.sum ≤ b) : l.sum % 256 ≤ b :=
  le_trans (Nat.mod_le _ _) h

/-- C30: the retry budget does not hold for `tx_policy_build` as written.  For two
entries of the same rate with three tries each and `short_frame_max_tx_count = 4`, the
first loop adds the second count to the first entry without adding it to `total`, so
`total = 3 <= limit = 4`, the clamping loop is skipped, and the policy has
`retry_count = 6` with one rate used, above `limit = max(4, 1) = 4`.  What does hold,
for every rate array with `rates[0].idx >= 0`: the function returns; it uses at most
`count` rates; every count it encodes is at most 15; `retry_count` is the sum (as a
`u8`) of the counts of the rates used; whenever `total > limit`, so that the clamping
loop runs, `retry_count <= limit`; and in every iteration of the clamping loop
`i < limit`, so `limit - i` does not wrap. -/
theorem tx_retry_budget (hw_value : Int → Nat) (short_frame_max_tx_count count : Nat)
    (rates : List ieee80211_tx_rate)
    (hs : short_frame_max_tx_count < 2 ^ 32) (hc : count < 2 ^ 32)
    (h0 : 0 ≤ (rate_at rates 0).idx) :
    ((tx_policy_build sample_hw_value 4 sample_rates 2).map
        (fun p => (p.2.1.retry_count, p.2.2)) = some (6, 1) ∧
      (distill 2 0 0 sample_rates).2.2 = 3 ∧ retry_limit 4 1 = 4 ∧ ¬ (6 ≤ retry_limit 4 1)) ∧
    (∃ rates1 policy n,
      tx_policy_build hw_value short_frame_max_tx_count rates count = some (rates1, policy, n) ∧
      n ≤ count ∧
      (∀ i, i < n → (rate_at rates1 i).count ≤ 15) ∧
      policy.retry_count =
        ((List.range n).map (fun i => (rate_at rates1 i).count)).sum % 256 ∧
      ((distill count 0 0 rates).2.2 > retry_limit short_frame_max_tx_count n →
        policy.retry_count ≤ retry_limit short_frame_max_tx_count n)) ∧
    (∀ p ∈ tx_policy_clamp_steps short_frame_max_tx_count rates count, p.1 < p.2) := by
  have hb : ¬ (rate_at rates 0).idx < 0 := by omega
  have e32 : (2 : Nat) ^ 32 = 4294967296 := by norm_num
  have hidx := distill_index count 0 0 rates
  rcases hd : distill count 0 0 rates with ⟨d1, n, total⟩
  rw [hd] at hidx
  simp only [Nat.zero_add] at hidx
  obtain ⟨g1, g2, g3⟩ := retry_limit_ge short_frame_max_tx_count n
  have hlim : retry_limit short_frame_max_tx_count n < 2 ^ 32 := by
    rw [g3, e32]
    rw [e32] at hs hc
    omega
  refine ⟨⟨by decide, by decide, by decide, by decide⟩, ?_, ?_⟩
  · simp only [tx_policy_build, if_neg hb, hd]
    obtain ⟨e1, e2, _⟩ := encode_spec hw_value n 0
      (if total > retry_limit short_frame_max_tx_count n then
        (clamp n (retry_limit short_frame_max_tx_count n) d1).1 else d1)
      { tbl := [0, 0, 0],
        defined := (hw_value (rate_at
          (if total > retry_limit short_frame_max_tx_count n then
            (clamp n (retry_limit short_frame_max_tx_count n) d1).1 else d1) 0).idx + 1) % 256,
        retry_count := 0 } (by norm_num)
    have hcount : ∀ i, i < n →
        (rate_at (encode hw_value n 0
          (if total > retry_limit short_frame_max_tx_count n then
            (clamp n (retry_limit short_frame_max_tx_count n) d1).1 else d1)
          { tbl := [0, 0, 0],
            defined := (hw_value (rate_at
              (if total > retry_limit short_frame_max_tx_count n then
                (clamp n (retry_limit short_frame_max_tx_count n) d1).1 else d1) 0).idx + 1) % 256,
            retry_count := 0 }).1 i).count =
        min (rate_at (if total > retry_limit short_frame_max_tx_count n then
            (clamp n (retry_limit short_frame_max_tx_count n) d1).1 else d1) i).count 15 := by
      intro i hi
      rw [e1 i, if_pos (by omega)]
    have hsum : ((List.range n).map (fun i => (rate_at (encode hw_value n 0
          (if total > retry_limit short_frame_max_tx_count n then
            (clamp n (retry_limit short_frame_max_tx_count n) d1).1 else d1)
          { tbl := [0, 0, 0],
            defined := (hw_value (rate_at
              (if total > retry_limit short_frame_max_tx_count n then
                (clamp n (retry_limit short_frame_max_tx_count n) d1).1 else d1) 0).idx + 1) % 256,
            retry_count := 0 }).1 i).count)) =
        (List.range' 0 n).map (fun j => min (rate_at
          (if total > retry_limit short_frame_max_tx_count n then
            (clamp n (retry_limit short_frame_max_tx_count n) d1).1 else d1) j).count 15) := by
      rw [List.range_eq_range']
      apply List.map_congr_left
      intro i hi
      rw [List.mem_range'_1] at hi
      exact hcount i (by omega)
    refine ⟨_, _, _, rfl, hidx, ?_, ?_, ?_⟩
    · intro i hi
      rw [hcount i hi]
      omega
    · rw [e2, hsum, Nat.zero_add]
    · intro htot
      rw [e2, Nat.zero_add]
      apply sum_mod_le
      rw [if_pos htot]
      obtain ⟨c1, _⟩ := clamp_spec n (retry_limit short_frame_max_tx_count n) d1 g1 hlim
      refine le_trans ?_ (le_trans (Nat.le_add_right _ _) (le_of_eq c1))
      rw [← List.range_eq_range']
      apply List.sum_le_sum
      intro i _
      exact Nat.min_le_left _ _
  · intro p hp
    simp only [tx_policy_clamp_steps, hd] at hp
    split at hp
    · exact clamp_steps_bound n _ d1 g1 hlim p hp
    · simp at hp

theorem tx_retry_budget_witness :
    (7 : Nat) < 2 ^ 32 ∧ (3 : Nat) < 2 ^ 32 ∧ 0 ≤ (rate_at sample_rates_clamped 0).idx ∧
    tx_policy_clamp_steps 7 sample_rates_clamped 3 = [(2, 7), (1, 3), (0, 1)] ∧
    (∀ p ∈ tx_policy_clamp_steps 7 sample_rates_clamped 3, p.1 < p.2) ∧
    (tx_policy_build sample_hw_value 7 sample_rates_clamped 3).map
      (fun p => (p.2.1.retry_count, p.2.2)) = some (7, 3) :=
  ⟨by norm_num, by norm_num, by decide, by decide,
    (tx_retry_budget sample_hw_value 7 3 sample_rates_clamped (by norm_num) (by norm_num)
      (by decide)).2.2, by decide⟩

end Cw1200
